import Mathlib

/-!
# mergo: a shallow embedding of `deepMerge` (src/merge.go)

The Go code works on `reflect.Value` handles.  The embedding keeps the part of
the reflection machinery that `deepMerge` observes:

* a value is a tree (`Value`); maps are references into a table of map objects
  and pointers are references to addressable variables, both kept in a `Store`;
* a `reflect.Value` handle (`RValue`) is either an immediate, non-addressable
  value or a reference to a location inside an addressable variable;
* every `reflect` call that can panic returns `Option`, and `deepMerge` returns
  an `Outcome` that distinguishes a normal return, a panic and fuel exhaustion
  (the recursion is not structural: the data may be cyclic).

Numeric kinds are represented by `int`; floating point kinds and arrays are
left out.  No handle reached by `deepMerge` carries the read-only flag (only
exported fields are traversed), so `CanSet` coincides with `CanAddr` and
`CanInterface` is always true.
-/

namespace Mergo

/-! ## Types and values -/

/-- The `reflect.Kind` values that the merge distinguishes. -/
inductive Kind
  | Invalid | Bool | Int | String | Chan | Func | Interface | Map | Ptr | Slice | Struct
  deriving DecidableEq, Repr

/-- Go types (`reflect.Type`); struct types are nominal. -/
inductive Ty
  | bool | int | string
  | chan (elem : Ty)
  | func
  | iface
  | map (key elem : Ty)
  | ptr (elem : Ty)
  | slice (elem : Ty)
  | struct (name : String)
  deriving DecidableEq, Repr

/-- The part of `reflect.StructField` read by the merge. -/
structure StructField where
  Name : String
  PkgPath : String
  Anonymous : Bool
  deriving DecidableEq, Repr

/-- A location: an addressable variable and a path of field indices into it. -/
structure Loc where
  cell : Nat
  path : List Nat
  deriving DecidableEq, Repr

/-- Map keys (comparable scalar values). -/
inductive Key
  | str (s : String)
  | int (i : Int)
  | bool (b : Bool)
  deriving DecidableEq, Repr

/-- Go values.  `invalid` is the zero `reflect.Value`; `iface invalid` is a nil
interface; a map is a reference to a map object and a pointer a reference to a
location; a struct carries its field descriptors and its field values. -/
inductive Value
  | invalid
  | bool (b : Bool)
  | int (i : Int)
  | str (s : String)
  | chan (elem : Ty) (ref : Option Nat)
  | func (ref : Option Nat)
  | iface (dyn : Value)
  | map (key elem : Ty) (ref : Option Nat)
  | ptr (elem : Ty) (target : Option Loc)
  | slice (elem : Ty) (isNil : Bool) (elems : List Value)
  | struct (name : String) (fields : List StructField) (vals : List Value)
  deriving Repr

/-- A `reflect.Value` handle: an immediate value, or an addressable location. -/
inductive RValue
  | imm (v : Value)
  | ref (l : Loc)
  deriving Repr

/-- The heap: addressable variables and map objects. -/
structure Store where
  vars : List Value
  maps : List (List (Key × Value))
  deriving Repr

/-- The errors of the package that `deepMerge` and `merge` can return. -/
inductive Error
  | ErrDifferentArgumentsTypes
  | SliceTypeMismatch (src dst : Ty)
  | CannotSet
  | Other (code : Nat)
  deriving DecidableEq, Repr

/-- One entry of the visited chain (`visit{ptr, typ, next}`); `next` is the
rest of the list. -/
structure visit where
  ptr : Loc
  typ : Ty
  deriving DecidableEq, Repr

/-- A transformer function: it may update the store and returns an error or
nil. -/
abbrev TransformerFn := RValue → RValue → Store → Store × Option Error

/-- The `Transformers` interface: a lookup by type that may return nil. -/
abbrev Transformers := Ty → Option TransformerFn

/-- The configuration record of merge.go. -/
structure Config where
  Overwrite : Bool
  AppendSlice : Bool
  Transformers : Option Transformers
  overwriteWithEmptyValue : Bool

/-- What `deepMerge` threads through the recursion: the heap, the visited map
and the configuration (passed by pointer in the source). -/
structure State where
  store : Store
  visited : List visit
  config : Config

/-- Result of running `deepMerge`: a normal return of `(dst, err)`, a Go
panic, or exhaustion of the recursion budget. -/
inductive Outcome
  | ret (dst : RValue) (err : Option Error) (st : State)
  | panic
  | outOfFuel

/-! ## Reflection primitives -/

/-- Kind of a value (`reflect.Value.Kind`). -/
def Value.kind : Value → Kind
  | .invalid => .Invalid
  | .bool _ => .Bool
  | .int _ => .Int
  | .str _ => .String
  | .chan _ _ => .Chan
  | .func _ => .Func
  | .iface _ => .Interface
  | .map _ _ _ => .Map
  | .ptr _ _ => .Ptr
  | .slice _ _ _ => .Slice
  | .struct _ _ _ => .Struct

/-- Type of a value (`reflect.Value.Type`); the zero Value has none. -/
def Value.type : Value → Option Ty
  | .invalid => none
  | .bool _ => some .bool
  | .int _ => some .int
  | .str _ => some .string
  | .chan e _ => some (.chan e)
  | .func _ => some .func
  | .iface _ => some .iface
  | .map k e _ => some (.map k e)
  | .ptr e _ => some (.ptr e)
  | .slice e _ _ => some (.slice e)
  | .struct n _ _ => some (.struct n)

/-- Type of a map key. -/
def Key.type : Key → Ty
  | .str _ => .string
  | .int _ => .int
  | .bool _ => .bool

mutual
/-- The zero value of the type of a value (`reflect.Zero(v.Type())`). -/
def zeroLike : Value → Value
  | .invalid => .invalid
  | .bool _ => .bool false
  | .int _ => .int 0
  | .str _ => .str ""
  | .chan e _ => .chan e none
  | .func _ => .func none
  | .iface _ => .iface .invalid
  | .map k e _ => .map k e none
  | .ptr e _ => .ptr e none
  | .slice e _ _ => .slice e true []
  | .struct n fs vs => .struct n fs (zeroLikeList vs)
/-- Field-wise zero values. -/
def zeroLikeList : List Value → List Value
  | [] => []
  | v :: vs => zeroLike v :: zeroLikeList vs
end

/-- Descend from a value along a path of field indices. -/
def Value.proj : Value → List Nat → Option Value
  | v, [] => some v
  | .struct _ _ vs, i :: p =>
    match vs[i]? with
    | some f => f.proj p
    | none => none
  | _, _ :: _ => none

/-- Replace the sub-value at a path of field indices. -/
def Value.update : Value → List Nat → Value → Option Value
  | _, [], x => some x
  | .struct n fs vs, i :: p, x =>
    match vs[i]? with
    | some f =>
      match f.update p x with
      | some f' => some (.struct n fs (vs.set i f'))
      | none => none
    | none => none
  | _, _ :: _, _ => none

/-- Read a location. -/
def Store.load (s : Store) (l : Loc) : Option Value :=
  match s.vars[l.cell]? with
  | some v => v.proj l.path
  | none => none

/-- Write a location. -/
def Store.write (s : Store) (l : Loc) (x : Value) : Option Store :=
  match s.vars[l.cell]? with
  | some v =>
    match v.update l.path x with
    | some v' => some { s with vars := s.vars.set l.cell v' }
    | none => none
  | none => none

/-- Current value designated by a handle. -/
def RValue.get (s : Store) : RValue → Value
  | .imm v => v
  | .ref l => (s.load l).getD .invalid

/-- `v.IsValid()`. -/
def RValue.IsValid (s : Store) (v : RValue) : Bool :=
  (v.get s).kind != .Invalid

/-- `v.CanAddr()`. -/
def RValue.CanAddr : RValue → Bool
  | .imm _ => false
  | .ref _ => true

/-- `v.CanSet()`: addressable (no handle here is read-only). -/
def RValue.CanSet (v : RValue) : Bool := v.CanAddr

/-- `v.Kind()`. -/
def RValue.Kind (s : Store) (v : RValue) : Kind := (v.get s).kind

/-- `v.Type()`; panics (none) on the zero Value. -/
def RValue.Type (s : Store) (v : RValue) : Option Ty := (v.get s).type

/-- `v.Field(i)`; panics unless `v` is a struct with more than `i` fields. -/
def RValue.Field (s : Store) (v : RValue) (i : Nat) : Option RValue :=
  match v with
  | .imm (.struct _ _ vs) =>
    match vs[i]? with
    | some f => some (.imm f)
    | none => none
  | .imm _ => none
  | .ref l =>
    match s.load l with
    | some (.struct _ _ vs) => if i < vs.length then some (.ref ⟨l.cell, l.path ++ [i]⟩) else none
    | _ => none

/-- `v.Elem()`: the target of a pointer (addressable) or the dynamic value of
an interface (not addressable); the zero Value for nil; panics otherwise. -/
def RValue.Elem (s : Store) (v : RValue) : Option RValue :=
  match v.get s with
  | .ptr _ (some l) => some (.ref l)
  | .ptr _ none => some (.imm .invalid)
  | .iface d => some (.imm d)
  | _ => none

/-- `v.IsNil()`; panics on kinds that cannot be nil. -/
def Value.IsNil : Value → Option Bool
  | .chan _ r => some r.isNone
  | .func r => some r.isNone
  | .iface d => some (d.kind == .Invalid)
  | .map _ _ r => some r.isNone
  | .ptr _ t => some t.isNone
  | .slice _ n _ => some n
  | _ => none

/-- `v.Addr()`: a pointer to an addressable value; panics otherwise. -/
def RValue.Addr (s : Store) : RValue → Option RValue
  | .imm _ => none
  | .ref l =>
    match s.load l with
    | some v =>
      match v.type with
      | some t => some (.imm (.ptr t (some l)))
      | none => none
    | none => none

/-- Conversion on assignment to a slot of type `t`: identical types are
stored as they are, any value is boxed into an interface slot; panics
otherwise (and on the zero Value). -/
def assignTo (t : Ty) (x : Value) : Option Value :=
  match x.type with
  | none => none
  | some tx => if tx = t then some x else if t = .iface then some (.iface x) else none

/-- `dst.Set(x)`: panics unless `dst` is settable and `x` assignable. -/
def RValue.Set (s : Store) (dst x : RValue) : Option Store :=
  match dst with
  | .imm _ => none
  | .ref l =>
    match s.load l with
    | some old =>
      match old.type with
      | some t =>
        match assignTo t (x.get s) with
        | some v => s.write l v
        | none => none
      | none => none
    | none => none

/-- `reflect.New(v.Type()).Elem()`: a fresh addressable zero value. -/
def Store.New (s : Store) (v : Value) : Store × RValue :=
  ({ s with vars := s.vars ++ [zeroLike v] }, .ref ⟨s.vars.length, []⟩)

/-- `reflect.MakeMap(t)` for a map type `map[k]e`. -/
def Store.MakeMap (s : Store) (k e : Ty) : Store × Value :=
  ({ s with maps := s.maps ++ [[]] }, .map k e (some s.maps.length))

/-- `reflect.ValueOf(v.Interface())`: the concrete value, interfaces unboxed. -/
def Value.unbox : Value → Value
  | .iface d => d
  | v => v

/-- `m.MapKeys()`: the keys of a map (none for a nil map); panics on other
kinds.  The iteration order is the order of the map object. -/
def MapKeys (s : Store) : Value → Option (List Key)
  | .map _ _ none => some []
  | .map _ _ (some r) => some ((s.maps[r]?.getD []).map Prod.fst)
  | _ => none

/-- `m.MapIndex(key)`: the element stored under `key`, the zero Value when
absent or when the map is nil; panics on a key of the wrong type. -/
def MapIndex (s : Store) (m : Value) (key : Key) : Option Value :=
  match m with
  | .map k _ r =>
    if key.type ≠ k then none
    else
      match r with
      | none => some .invalid
      | some r => some (((s.maps[r]?.getD []).lookup key).getD .invalid)
  | _ => none

/-- Insert or replace an entry of a map object. -/
def mapInsert (k : Key) (v : Value) : List (Key × Value) → List (Key × Value)
  | [] => [(k, v)]
  | (k', v') :: rest => if k' = k then (k, v) :: rest else (k', v') :: mapInsert k v rest

/-- Delete an entry of a map object. -/
def mapErase (k : Key) : List (Key × Value) → List (Key × Value)
  | [] => []
  | (k', v') :: rest => if k' = k then mapErase k rest else (k', v') :: mapErase k rest

/-- `m.SetMapIndex(key, x)`: deletes the key when `x` is the zero Value,
stores `x` (boxed when the element type is an interface) otherwise; panics on
a nil map, on a wrongly typed key and on an element that is not assignable. -/
def SetMapIndex (s : Store) (m : Value) (key : Key) (x : Value) : Option Store :=
  match m with
  | .map k e r =>
    if key.type ≠ k then none
    else if x.kind == .Invalid then
      match r with
      | none => some s
      | some r => some { s with maps := s.maps.set r (mapErase key (s.maps[r]?.getD [])) }
    else
      match assignTo e x with
      | none => none
      | some v =>
        match r with
        | none => none
        | some r => some { s with maps := s.maps.set r (mapInsert key v (s.maps[r]?.getD [])) }
  | _ => none

/-- `reflect.AppendSlice(a, b)`: panics unless both are slices of one type. -/
def AppendSlice : Value → Value → Option Value
  | .slice e n xs, .slice e' _ ys => if e = e' then some (.slice e (n && ys.isEmpty) (xs ++ ys)) else none
  | _, _ => none

/-- `reflect.MakeSlice(t, 0, n)`: an empty, non-nil slice. -/
def MakeSlice : Ty → Option Value
  | .slice e => some (.slice e false [])
  | _ => none

/-! ## merge.go -/

/-- `isExportedComponent` (field names are never empty in Go). -/
def isExportedComponent (name pkgPath : String) : Bool :=
  if pkgPath.length > 0 then false
  else
    match name.data with
    | [] => true
    | c :: _ => if ('a' ≤ c && c ≤ 'z') || c == '_' then false else true

/-- `isFieldExported`. -/
def isFieldExported (field : StructField) : Bool :=
  isExportedComponent field.Name field.PkgPath

mutual
/-- `hasExportedField`: some field, own or of an embedded struct, is
exported. -/
def hasExportedField : Value → Bool
  | .struct _ fs vs => hasExportedFieldLoop fs vs
  | _ => false
/-- The loop of `hasExportedField` over the fields. -/
def hasExportedFieldLoop : List StructField → List Value → Bool
  | f :: fs, v :: vs =>
    (if f.Anonymous && v.kind == .Struct then hasExportedField v else isFieldExported f)
      || hasExportedFieldLoop fs vs
  | _, _ => false
end

/-- `isReflectNil`. -/
def isReflectNil (v : Value) : Bool :=
  match v.kind with
  | .Interface | .Slice | .Chan | .Func | .Map | .Ptr => (v.IsNil).getD false
  | _ => false

/-- The scan of the visited chain of the bucket of `addr` for `(addr, typ)`.
The bucket key `17 * addr` is injective in `addr`, so the chain of a bucket
holds exactly the records of that address. -/
def seenBefore (visited : List visit) (addr : Loc) (typ : Ty) : Bool :=
  visited.any (fun p => p.ptr = addr && p.typ = typ)

/-- The cycle guard at the head of `deepMerge`: `none` is a panic, `some
(true, _)` a hit, `some (false, st)` the state with the new record. -/
def enterVisited (st : State) (dst : RValue) : Option (Bool × State) :=
  match dst with
  | .imm _ => some (false, st)
  | .ref addr =>
    match dst.Type st.store with
    | none => none
    | some typ =>
      if seenBefore st.visited addr typ then some (true, st)
      else some (false, { st with visited := ⟨addr, typ⟩ :: st.visited })

/-- The assignment `if dst.CanSet() { dst.Set(x) } else { dst = x }`. -/
def setOrReplace (st : State) (dst x : RValue) : Outcome :=
  if dst.CanSet then
    match dst.Set st.store x with
    | some s => .ret dst none { st with store := s }
    | none => .panic
  else .ret x none st

/-- The struct field loop of `deepMerge` (lines 92-113), from field index `i`
on; `rec` is the recursive call.  `.error o` leaves `deepMerge` with `o`. -/
def mergeFields (rec : RValue → RValue → Nat → State → Outcome) (dst src dstCp : RValue)
    (depth : Nat) : Nat → List StructField → State → Except Outcome State
  | _, [], st => .ok st
  | i, f :: rest, st =>
    match dst.Field st.store i with
    | none => .error .panic
    | some dstField =>
      if !isFieldExported f then
        match dstCp.Field st.store i with
        | none => .error .panic
        | some rf =>
          if !dstField.CanAddr then mergeFields rec dst src dstCp depth (i + 1) rest st
          else
            match rf.Set st.store dstField with
            | none => .error .panic
            | some s => mergeFields rec dst src dstCp depth (i + 1) rest { st with store := s }
      else
        match src.Field st.store i with
        | none => .error .panic
        | some srcField =>
          match rec dstField srcField (depth + 1) st with
          | .panic => .error .panic
          | .outOfFuel => .error .outOfFuel
          | .ret _ (some e) st1 => .error (.ret dst (some e) st1)
          | .ret dstField1 none st1 =>
            match dstCp.Field st1.store i with
            | none => .error .panic
            | some cf =>
              match cf.Set st1.store dstField1 with
              | none => .error .panic
              | some s => mergeFields rec dst src dstCp depth (i + 1) rest { st1 with store := s }

/-- The struct case of `deepMerge` (lines 89-124). -/
def mergeStruct (isEmptyValue : Store → Value → Bool)
    (rec : RValue → RValue → Nat → State → Outcome)
    (overwrite overwriteWithEmptySrc : Bool) (dst src : RValue) (depth : Nat)
    (st : State) : Outcome :=
  if hasExportedField (dst.get st.store) then
    match dst.get st.store with
    | .struct _ fs _ =>
      match st.store.New (dst.get st.store) with
      | (s1, dstCp) =>
        match mergeFields rec dst src dstCp depth 0 fs { st with store := s1 } with
        | .error o => o
        | .ok st2 => setOrReplace st2 dst dstCp
    | _ => .panic
  else if (isReflectNil (dst.get st.store) || overwrite)
      && (!isEmptyValue st.store (src.get st.store) || overwriteWithEmptySrc) then
    .ret src none st
  else .ret dst none st

/-- The append branch of the slice handling (lines 187-191 and 214-218): the
type check and `reflect.AppendSlice(dstSlice, srcSlice)`; `none` is a panic. -/
def appendChecked (dstSlice srcSlice : Value) : Option (Except Error Value) :=
  match srcSlice.type, dstSlice.type with
  | some ts, some td =>
    if ts ≠ td then some (.error (.SliceTypeMismatch ts td))
    else
      match AppendSlice dstSlice srcSlice with
      | some r => some (.ok r)
      | none => none
  | _, _ => none

/-- One iteration of the map key loop of `deepMerge` (lines 135-205).
`.ok st` goes on with the next key, `.error o` leaves `deepMerge` with `o`. -/
def mergeMapKey (isEmptyValue : Store → Value → Bool)
    (rec : RValue → RValue → Nat → State → Outcome)
    (overwrite overwriteWithEmptySrc : Bool) (dst src : RValue) (depth : Nat)
    (key : Key) (st : State) : Except Outcome State :=
  match MapIndex st.store (src.get st.store) key with
  | none => .error .panic
  | some srcElement =>
    if srcElement.kind == .Invalid then .ok st
    else
      match MapIndex st.store (dst.get st.store) key with
      | none => .error .panic
      | some dstElement0 =>
        let dstElement := if dstElement0.kind != .Invalid then dstElement0.unbox else dstElement0
        if (srcElement.kind == .Chan || srcElement.kind == .Func || srcElement.kind == .Map
              || srcElement.kind == .Interface || srcElement.kind == .Slice)
            && (srcElement.IsNil).getD false then .ok st
        else
          let k := srcElement.unbox.kind
          -- the inner switch on the concrete kind of the source element
          let handled : Except Outcome State :=
            if k == .Struct || k == .Ptr || k == .Map then
              match rec (.imm dstElement) (.imm srcElement.unbox) (depth + 1) st with
              | .panic => .error .panic
              | .outOfFuel => .error .outOfFuel
              | .ret _ (some e) st1 => .error (.ret dst (some e) st1)
              | .ret dstMapElm none st1 =>
                match SetMapIndex st1.store (dst.get st1.store) key (dstMapElm.get st1.store) with
                | none => .error .panic
                | some s => .ok { st1 with store := s }
            else if k == .Slice then
              let srcSlice := srcElement.unbox
              match (if dstElement.kind == .Invalid || isReflectNil dstElement then
                      (match srcSlice.type with
                       | some t => MakeSlice t
                       | none => none)
                    else some dstElement.unbox) with
              | none => .error .panic
              | some dstSlice =>
                match (if (!isEmptyValue st.store (src.get st.store) || overwriteWithEmptySrc)
                          && (overwrite || isEmptyValue st.store (dst.get st.store))
                          && !st.config.AppendSlice then some (.ok srcSlice)
                      else if st.config.AppendSlice then appendChecked dstSlice srcSlice
                      else some (.ok dstSlice)) with
                | none => .error .panic
                | some (.error e) => .error (.ret dst (some e) st)
                | some (.ok newSlice) =>
                  match SetMapIndex st.store (dst.get st.store) key newSlice with
                  | none => .error .panic
                  | some s => .ok { st with store := s }
            else .ok st
          match handled with
          | .error o => .error o
          | .ok st1 =>
            if (dstElement.kind != .Invalid && !isEmptyValue st1.store dstElement
                  && (k == .Map || k == .Slice)) || k == .Struct then .ok st1
            else if srcElement.kind != .Invalid
                && (overwrite || (dstElement.kind == .Invalid || isEmptyValue st1.store dstElement)) then
              match (dst.get st1.store).IsNil with
              | none => .error .panic
              | some isNil =>
                match (if isNil then
                        (match dst.get st1.store with
                         | .map kt et _ =>
                           match st1.store.MakeMap kt et with
                           | (s, m) => dst.Set s (.imm m)
                         | _ => none)
                      else some st1.store) with
                | none => .error .panic
                | some s2 =>
                  match SetMapIndex s2 (dst.get s2) key srcElement with
                  | none => .error .panic
                  | some s3 => .ok { st1 with store := s3 }
            else .ok st1

/-- The map key loop of `deepMerge` (line 134). -/
def mergeMapKeys (isEmptyValue : Store → Value → Bool)
    (rec : RValue → RValue → Nat → State → Outcome)
    (overwrite overwriteWithEmptySrc : Bool) (dst src : RValue) (depth : Nat) :
    List Key → State → Except Outcome State
  | [], st => .ok st
  | key :: rest, st =>
    match mergeMapKey isEmptyValue rec overwrite overwriteWithEmptySrc dst src depth key st with
    | .error o => .error o
    | .ok st1 => mergeMapKeys isEmptyValue rec overwrite overwriteWithEmptySrc dst src depth rest st1

/-- The map case of `deepMerge` (lines 125-206). -/
def mergeMap (isEmptyValue : Store → Value → Bool)
    (rec : RValue → RValue → Nat → State → Outcome)
    (overwrite overwriteWithEmptySrc : Bool) (dst src : RValue) (depth : Nat)
    (st : State) : Outcome :=
  let loop (st1 : State) : Outcome :=
    match MapKeys st1.store (src.get st1.store) with
    | none => .panic
    | some keys =>
      match mergeMapKeys isEmptyValue rec overwrite overwriteWithEmptySrc dst src depth keys st1 with
      | .error o => o
      | .ok st2 => .ret dst none st2
  match (dst.get st.store).IsNil with
  | none => .panic
  | some false => loop st
  | some true =>
    match (src.get st.store).IsNil with
    | none => .panic
    | some true => loop st
    | some false =>
      if dst.CanSet then
        match dst.get st.store with
        | .map kt et _ =>
          match st.store.MakeMap kt et with
          | (s, m) =>
            match dst.Set s (.imm m) with
            | none => .panic
            | some s1 => loop { st with store := s1 }
        | _ => .panic
      else .ret src none st

/-- The slice case of `deepMerge` (lines 207-219). -/
def mergeSlice (isEmptyValue : Store → Value → Bool)
    (overwrite overwriteWithEmptySrc : Bool) (dst src : RValue) (st : State) : Outcome :=
  if !dst.CanSet then .ret dst none st
  else if (!isEmptyValue st.store (src.get st.store) || overwriteWithEmptySrc)
      && (overwrite || isEmptyValue st.store (dst.get st.store))
      && !st.config.AppendSlice then
    match dst.Set st.store src with
    | none => .panic
    | some s => .ret dst none { st with store := s }
  else if st.config.AppendSlice then
    match appendChecked (dst.get st.store) (src.get st.store) with
    | none => .panic
    | some (.error e) => .ret dst (some e) st
    | some (.ok r) =>
      match dst.Set st.store (.imm r) with
      | none => .panic
      | some s => .ret dst none { st with store := s }
  else .ret dst none st

/-- The pointer and interface case of `deepMerge` (lines 220-258). -/
def mergePtr (isEmptyValue : Store → Value → Bool)
    (rec : RValue → RValue → Nat → State → Outcome)
    (overwrite overwriteWithEmptySrc : Bool) (dst src : RValue) (depth : Nat)
    (st : State) : Outcome :=
  if isReflectNil (src.get st.store) then .ret dst none st
  else
    match (dst.get st.store).IsNil with
    | none => .panic
    | some dstNil =>
      if src.Kind st.store != .Interface then
        if dstNil || overwrite then
          if overwrite || isEmptyValue st.store (dst.get st.store) then setOrReplace st dst src
          else .ret dst none st
        else if src.Kind st.store == .Ptr then
          match dst.Elem st.store, src.Elem st.store with
          | some de, some se =>
            match rec de se (depth + 1) st with
            | .panic => .panic
            | .outOfFuel => .outOfFuel
            | .ret dst1 (some e) st1 => .ret dst1 (some e) st1
            | .ret dst1 none st1 =>
              match dst1.Addr st1.store with
              | none => .panic
              | some p => .ret p none st1
          | _, _ => .panic
        else
          match dst.Elem st.store with
          | none => .panic
          | some de =>
            match de.Type st.store, src.Type st.store with
            | some td, some ts =>
              if td = ts then rec de src (depth + 1) st
              else .ret dst (some .ErrDifferentArgumentsTypes) st
            | _, _ => .panic
      else if dstNil || overwrite then
        if (overwrite || isEmptyValue st.store (dst.get st.store))
            && (overwriteWithEmptySrc || !isEmptyValue st.store (src.get st.store)) then
          setOrReplace st dst src
        else .ret dst none st
      else
        match dst.Elem st.store, src.Elem st.store with
        | some de, some se =>
          match rec de se (depth + 1) st with
          | .panic => .panic
          | .outOfFuel => .outOfFuel
          | .ret _ err st1 => .ret dst err st1
        | _, _ => .panic

/-- The default case of `deepMerge` (lines 259-268). -/
def mergeDefault (isEmptyValue : Store → Value → Bool)
    (overwrite overwriteWithEmptySrc : Bool) (dst src : RValue) (st : State) : Outcome :=
  let overwriteFull := (!isEmptyValue st.store (src.get st.store) || overwriteWithEmptySrc)
    && (overwrite || isEmptyValue st.store (dst.get st.store))
  if overwriteFull then setOrReplace st dst src else .ret dst none st

/-- The transformer hook of `deepMerge` (lines 81-86): `some o` when a
transformer takes over. -/
def transformerHook (isEmptyValue : Store → Value → Bool) (dst src : RValue) (st : State) :
    Option Outcome :=
  match st.config.Transformers with
  | none => none
  | some t =>
    if !isEmptyValue st.store (dst.get st.store) then
      match dst.Type st.store with
      | none => some .panic
      | some typ =>
        match t typ with
        | none => none
        | some fn =>
          match fn dst src st.store with
          | (s, err) => some (.ret dst err { st with store := s })
    else none

/-- `deepMerge` (lines 58-270).  `isEmptyValue` is the emptiness predicate of
the package, which is not part of merge.go; the first argument after it is the
recursion budget. -/
def deepMerge (isEmptyValue : Store → Value → Bool) :
    Nat → RValue → RValue → Nat → State → Outcome
  | 0, _, _, _, _ => .outOfFuel
  | fuel + 1, dst, src, depth, st0 =>
    let overwrite := st0.config.Overwrite
    let overwriteWithEmptySrc := st0.config.overwriteWithEmptyValue
    let st1 : State := { st0 with config := { st0.config with overwriteWithEmptyValue := false } }
    if !src.IsValid st1.store then .ret dst none st1
    else
      match enterVisited st1 dst with
      | none => .panic
      | some (true, _) => .ret dst none st1
      | some (false, st) =>
        match transformerHook isEmptyValue dst src st with
        | some o => o
        | none =>
          match dst.Kind st.store with
          | .Struct =>
            mergeStruct isEmptyValue (deepMerge isEmptyValue fuel) overwrite overwriteWithEmptySrc
              dst src depth st
          | .Map =>
            mergeMap isEmptyValue (deepMerge isEmptyValue fuel) overwrite overwriteWithEmptySrc
              dst src depth st
          | .Slice => mergeSlice isEmptyValue overwrite overwriteWithEmptySrc dst src st
          | .Ptr | .Interface =>
            mergePtr isEmptyValue (deepMerge isEmptyValue fuel) overwrite overwriteWithEmptySrc
              dst src depth st
          | _ => mergeDefault isEmptyValue overwrite overwriteWithEmptySrc dst src st

/-- `WithOverride`. -/
def WithOverride (config : Config) : Config := { config with Overwrite := true }

/-- `WithAppendSlice`. -/
def WithAppendSlice (config : Config) : Config := { config with AppendSlice := true }

/-- `WithTransformers`. -/
def WithTransformers (transformers : Transformers) (config : Config) : Config :=
  { config with Transformers := some transformers }

/-- The option loop of `merge` (lines 310-314) on `&Config{}`. -/
def buildConfig (opts : List (Config → Config)) : Config :=
  opts.foldl (fun config opt => opt config) ⟨false, false, none, false⟩

/-- Result of `merge`: the returned error and the heap, a panic, or
exhaustion of the recursion budget. -/
inductive MergeOutcome
  | ret (err : Option Error) (s : Store)
  | panic
  | outOfFuel
  deriving Repr

/-- `merge` (lines 304-327).  `resolveValues` is not part of merge.go and is a
parameter: it maps the two arguments to their handles or reports an error. -/
def merge (isEmptyValue : Store → Value → Bool)
    (resolveValues : Store → Value → Value → RValue × RValue × Option Error)
    (fuel : Nat) (s : Store) (dst src : Value) (opts : List (Config → Config)) : MergeOutcome :=
  let config := buildConfig opts
  match resolveValues s dst src with
  | (_, _, some err) => .ret (some err) s
  | (vDst, vSrc, none) =>
    if !vDst.CanSet then .ret (some .CannotSet) s
    else
      match vDst.Type s, vSrc.Type s with
      | some td, some ts =>
        if td ≠ ts then .ret (some .ErrDifferentArgumentsTypes) s
        else
          match deepMerge isEmptyValue fuel vDst vSrc 0 ⟨s, [], config⟩ with
          | .ret _ err st => .ret err st.store
          | .panic => .panic
          | .outOfFuel => .outOfFuel
      | _, _ => .panic

/-- `Merge`. -/
def Merge (isEmptyValue : Store → Value → Bool)
    (resolveValues : Store → Value → Value → RValue × RValue × Option Error)
    (fuel : Nat) (s : Store) (dst src : Value) (opts : List (Config → Config)) : MergeOutcome :=
  merge isEmptyValue resolveValues fuel s dst src opts

/-- `MergeWithOverwrite`: `append(opts, WithOverride)`. -/
def MergeWithOverwrite (isEmptyValue : Store → Value → Bool)
    (resolveValues : Store → Value → Value → RValue × RValue × Option Error)
    (fuel : Nat) (s : Store) (dst src : Value) (opts : List (Config → Config)) : MergeOutcome :=
  merge isEmptyValue resolveValues fuel s dst src (opts ++ [WithOverride])

/-! ## Collaborators outside merge.go -/

mutual
/-- Modelled from the spec: the emptiness predicate `isEmptyValue` of the
package, which merge.go calls and does not define.  A value is empty when it
equals the zero value of its type: nil references, zero numerics, empty
strings, false booleans, zero-length composites; a struct when each of its
fields is. -/
def isEmptyValue (s : Store) : Value → Bool
  | .invalid => true
  | .bool b => !b
  | .int i => i == 0
  | .str x => x.length == 0
  | .chan _ r => r.isNone
  | .func r => r.isNone
  | .iface d => d.kind == .Invalid
  | .map _ _ none => true
  | .map _ _ (some r) => (s.maps[r]?.getD []).isEmpty
  | .ptr _ t => t.isNone
  | .slice _ _ xs => xs.isEmpty
  | .struct _ _ vs => isEmptyValueList s vs
/-- Every value of the list is empty. -/
def isEmptyValueList (s : Store) : List Value → Bool
  | [] => true
  | v :: vs => isEmptyValue s v && isEmptyValueList s vs
end

/-- Modelled from the spec: the argument resolution `resolveValues` of the
package, which unwraps the two merge inputs into handles: the destination
pointer into the addressable value it points to, the source into its value,
dereferenced when it is a pointer. -/
def resolveValues (s : Store) (dst src : Value) : RValue × RValue × Option Error :=
  (((RValue.imm dst).Elem s).getD (.imm dst),
   (if src.kind == .Ptr then ((RValue.imm src).Elem s).getD (.imm src) else .imm src),
   none)

/-! ## Definitions used in the statements -/

/-- The element under a key of the map object behind a map reference (the
zero Value when the key is absent or the map nil). -/
def Store.mapGet (s : Store) (r : Option Nat) (k : Key) : Value :=
  match r with
  | none => .invalid
  | some r => ((s.maps[r]?.getD []).lookup k).getD .invalid

/-- Scalar types. -/
def Ty.isScalar : Ty → Bool
  | .bool | .int | .string => true
  | _ => false

/-- Store with an entry of map object `r` set. -/
def Store.putMap (s : Store) (r : Nat) (k : Key) (v : Value) : Store :=
  { s with maps := s.maps.set r (mapInsert k v (s.maps[r]?.getD [])) }

/-- The gate of the scalar assignment of the map key loop (line 200). -/
def mapGate (E : Store → Value → Bool) (s : Store) (ow : Bool) (dv : Value) : Bool :=
  ow || (dv.kind == .Invalid || E s dv)

/-- The entries of the map object behind a map reference. -/
def Store.mapObj (s : Store) (r : Option Nat) : List (Key × Value) :=
  match r with
  | none => []
  | some r => s.maps[r]?.getD []

/-- The entry that the spec describes for a key of a map with scalar values. -/
def mapScalarEntry (E : Store → Value → Bool) (s : Store) (ow : Bool) (dv sv : Value) : Value :=
  if sv.kind != .Invalid && (ow || (dv.kind == .Invalid || E s dv)) then sv else dv

/-- The test `m.MapIndex(k).IsValid()`: `k` is a key of the map `m`. -/
def hasKey (s : Store) (m : Value) (k : Key) : Bool :=
  match MapIndex s m k with
  | some v => v.kind != .Invalid
  | none => false

/-! ## Plain values -/

/-- Leaf kinds of a plain struct: the scalars and slices. -/
def Value.isLeaf : Value → Bool
  | .bool _ | .int _ | .str _ | .slice _ _ _ => true
  | _ => false

mutual
/-- `d` and `x` are two values of one plain type. -/
def plainPair : Value → Value → Bool
  | .bool _, x => x.kind == .Bool
  | .int _, x => x.kind == .Int
  | .str _, x => x.kind == .String
  | .slice e _ _, x => x.type == some (.slice e)
  | .struct n fs vs, x =>
    match x with
    | .struct n' fs' ws => n == n' && fs == fs' && !fs.isEmpty && plainFields fs vs ws
    | _ => false
  | _, _ => false
/-- Field-wise `plainPair`, every field exported. -/
def plainFields : List StructField → List Value → List Value → Bool
  | f :: fs, v :: vs, w :: ws => isFieldExported f && plainPair v w && plainFields fs vs ws
  | [], [], [] => true
  | _, _, _ => false
end

mutual
/-- The merge of two plain values as the spec describes it. -/
def mergePlain (E : Store → Value → Bool) (s : Store) (ow app : Bool) : Value → Value → Value
  | .struct n fs vs, x =>
    match x with
    | .struct _ _ ws => .struct n fs (mergePlainList E s ow app vs ws)
    | _ => .struct n fs vs
  | .slice e n xs, x =>
    match x with
    | .slice _ _ ys =>
      if app then .slice e (n && ys.isEmpty) (xs ++ ys)
      else if !E s x && (ow || E s (.slice e n xs)) then x else .slice e n xs
    | _ => .slice e n xs
  | d, x => if !E s x && (ow || E s d) then x else d
/-- Field-wise `mergePlain`. -/
def mergePlainList (E : Store → Value → Bool) (s : Store) (ow app : Bool) :
    List Value → List Value → List Value
  | v :: vs, w :: ws => mergePlain E s ow app v w :: mergePlainList E s ow app vs ws
  | vs, _ => vs
end

mutual
/-- Nesting depth of structs. -/
def Value.depth : Value → Nat
  | .struct _ _ vs => Value.depthList vs + 1
  | _ => 0
/-- Largest depth in a list. -/
def Value.depthList : List Value → Nat
  | [] => 0
  | v :: vs => max v.depth (Value.depthList vs)
end

/-- The statement of the plain merge for one depth bound. -/
def PlainSpec (E : Store → Value → Bool) (s0 : Store) (N : Nat) : Prop :=
  ∀ (d x : Value) (l : Loc) (st : State),
    plainPair d x = true → d.depth ≤ N → st.store.load l = some d →
    st.config.Transformers = none → st.config.overwriteWithEmptyValue = false →
    (∀ v ∈ st.visited, ¬ (v.ptr.cell = l.cell ∧ l.path <+: v.ptr.path)) →
    ∃ st', (∀ k depth, deepMerge E (N + 1 + k) (.ref l) (.imm x) depth st = .ret (.ref l) none st')
      ∧ st'.config = st.config ∧ st'.store.maps = st.store.maps
      ∧ st.store.vars.length ≤ st'.store.vars.length
      ∧ (∀ c, c < st.store.vars.length → c ≠ l.cell → st'.store.vars[c]? = st.store.vars[c]?)
      ∧ (∃ cell0 cell', st.store.vars[l.cell]? = some cell0 ∧ st'.store.vars[l.cell]? = some cell'
          ∧ cell0.update l.path
              (mergePlain E s0 st.config.Overwrite st.config.AppendSlice d x) = some cell')
      ∧ (∀ v ∈ st'.visited, v ∈ st.visited ∨ (v.ptr.cell = l.cell ∧ l.path <+: v.ptr.path))

/-- The field value that the replace formula of the spec describes. -/
def replaceField (E : Store → Value → Bool) (s : Store) (ow : Bool) (d x : Value) : Value :=
  if !E s x && (ow || E s d) then x else d

/-- Scalar kinds. -/
def Value.isScalar : Value → Bool
  | .bool _ | .int _ | .str _ => true
  | _ => false

mutual
/-- Every leaf of the value is a scalar. -/
def scalarLeaves : Value → Bool
  | .struct _ _ vs => scalarLeavesList vs
  | v => v.isScalar
/-- Every leaf of every value of the list is a scalar. -/
def scalarLeavesList : List Value → Bool
  | [] => true
  | v :: vs => scalarLeaves v && scalarLeavesList vs
end

/-! ## Example data -/

/-- The heap of the witness of C8: a `[]string` variable and two
`map[string]interface{}` objects. -/
def mismatchStore : Store :=
  ⟨[.slice .string false [.str "a"]],
   [[(.str "k", .iface (.slice .string false [.str "a"]))],
    [(.str "k", .iface (.slice .int false [.int 1]))]]⟩

/-- An exported field `A`. -/
def fieldA : StructField := ⟨"A", "", false⟩

/-- An exported field `B`. -/
def fieldB : StructField := ⟨"B", "", false⟩

/-- An unexported field `b` of package `main`. -/
def fieldb : StructField := ⟨"b", "main", false⟩

/-- The value `U{A: a, b: b}` of `type U struct { A int; b int }`. -/
def structU (a b : Int) : Value := .struct "U" [fieldA, fieldb] [.int a, .int b]

/-- A `map[string]U` variable `{"k": U{1, 7}}` and a source map
`{"k": U{2, 9}}`. -/
def unexportedStore : Store :=
  ⟨[.map .string (.struct "U") (some 0)], [[(.str "k", structU 1 7)], [(.str "k", structU 2 9)]]⟩

/-- Two `map[string]interface{}` objects, each holding itself under the key
`self`; variable 0 holds the first. -/
def cyclicStore : Store :=
  ⟨[.map .string .iface (some 0)],
   [[(.str "self", .iface (.map .string .iface (some 0)))],
    [(.str "self", .iface (.map .string .iface (some 1)))]]⟩

/-- A `map[string]int` variable `{"a": 1}` (object 0) and a source map
`{"a": 2, "b": 3}` (object 1). -/
def scenario3 : Store :=
  ⟨[.map .string .int (some 0)],
   [[(.str "a", .int 1)], [(.str "a", .int 2), (.str "b", .int 3)]]⟩

/-- A `map[string][]int` variable `{"a": [1]}` (object 0) and a source map
`{"k": nil}` (object 1). -/
def nilEntryStore : Store :=
  ⟨[.map .string (.slice .int) (some 0)],
   [[(.str "a", .slice .int false [.int 1])], [(.str "k", .slice .int true [])]]⟩

/-- A `map[string]int` variable `{"a": 1}` and a source map `{"a": 0}`. -/
def eraseStore : Store :=
  ⟨[.map .string .int (some 0)], [[(.str "a", .int 1)], [(.str "a", .int 0)]]⟩

/-- The value `T{A: a, B: b}` of `type T struct { A int; B string }`. -/
def structAB (a : Int) (b : String) : Value := .struct "T" [fieldA, fieldB] [.int a, .str b]

/-- An exported field `S`. -/
def fieldS : StructField := ⟨"S", "", false⟩

/-- The value `W{S: xs}` of `type W struct { S []int }`. -/
def structS (xs : List Int) : Value :=
  .struct "W" [fieldS] [.slice .int false (xs.map Value.int)]

/-- A variable `T{A: 0, B: "x"}`. -/
def scenario1 : Store := ⟨[structAB 0 "x"], []⟩

/-- A variable `W{S: [1]}`. -/
def sliceFieldStore : Store := ⟨[structS [1]], []⟩

/-- An exported field `P`. -/
def fieldP : StructField := ⟨"P", "", false⟩

/-- The value `N{P: T{A: a, B: b}}` of `type N struct { P T }`. -/
def structN (a : Int) (b : String) : Value := .struct "N" [fieldP] [structAB a b]

/-- A variable `N{P: T{A: 1, B: ""}}`. -/
def nestedStore : Store := ⟨[structN 1 ""], []⟩

/-- A variable `U{A: 0, b: 0}`, the zero value of `U`. -/
def fillStore : Store := ⟨[structU 0 0], []⟩

/-- A variable `T{A: 0, B: ""}`, the zero value of `T`. -/
def zeroStore : Store := ⟨[structAB 0 ""], []⟩

/-- A variable `T{A: 7, B: "x"}`. -/
def overwriteStore : Store := ⟨[structAB 7 "x"], []⟩

/-! ## Data for the entry points -/

/-- A resolver that always fails. -/
def failingResolve (_ : Store) (dst src : Value) : RValue × RValue × Option Error :=
  (.imm dst, .imm src, some (.Other 1))

/-- An option that switches overwrite off. -/
def overwriteOff (config : Config) : Config := { config with Overwrite := false }

/-! ## Data for the options -/

/-- A registry without any transformer. -/
def noTransformer : Transformers := fun _ => none

/-! ## Data for pointers -/

/-- An `int` variable `1` and a `*int` variable that points to it. -/
def ptrStore : Store := ⟨[.int 1, .ptr .int (some ⟨0, []⟩)], []⟩

/-! ## Data for opaque structs -/

/-- The value `O{b: b}` of `type O struct { b int }`, a struct without
exported field. -/
def structO (b : Int) : Value := .struct "O" [fieldb] [.int b]

/-- A variable `O{b: 7}`. -/
def opaqueStore : Store := ⟨[structO 7], []⟩

/-! ## Data for interfaces -/

/-- An `interface{}` variable that holds the `int` 7. -/
def ifaceStore : Store := ⟨[.iface (.int 7)], []⟩

/-- An `interface{}` variable that holds a pointer to the `[]int` variable
`[1]`, and a `[]string` variable `["a"]`. -/
def ifacePtrStore : Store :=
  ⟨[.iface (.ptr (.slice .int) (some ⟨1, []⟩)), .slice .int false [.int 1],
    .slice .string false [.str "a"]], []⟩

/-! ## The kind switch and data for transformers -/

/-- The kind switch of `deepMerge` (lines 88-269), the built-in handling of
one node, with the recursive call as a parameter. -/
def kindSwitch (isEmptyValue : Store → Value → Bool)
    (rec : RValue → RValue → Nat → State → Outcome)
    (overwrite overwriteWithEmptySrc : Bool) (dst src : RValue) (depth : Nat)
    (st : State) : Outcome :=
  match dst.Kind st.store with
  | .Struct => mergeStruct isEmptyValue rec overwrite overwriteWithEmptySrc dst src depth st
  | .Map => mergeMap isEmptyValue rec overwrite overwriteWithEmptySrc dst src depth st
  | .Slice => mergeSlice isEmptyValue overwrite overwriteWithEmptySrc dst src st
  | .Ptr | .Interface =>
    mergePtr isEmptyValue rec overwrite overwriteWithEmptySrc dst src depth st
  | _ => mergeDefault isEmptyValue overwrite overwriteWithEmptySrc dst src st

/-- A transformer that fails with error 7 and leaves the heap alone. -/
def failingTransformer : TransformerFn := fun _ _ s => (s, some (.Other 7))

/-- A registry that knows the struct type `T` only. -/
def registryT : Transformers := fun typ =>
  if typ = .struct "T" then some failingTransformer else none

/-! ## Data for nested mismatches and slices in maps -/

/-- An exported field `X`. -/
def fieldX : StructField := ⟨"X", "", false⟩

/-- An exported field `Y`. -/
def fieldY : StructField := ⟨"Y", "", false⟩

/-- The value `A{X: x}` of `type A struct { X int }`. -/
def structA (x : Int) : Value := .struct "A" [fieldX] [.int x]

/-- The value `B{Y: y}` of `type B struct { Y int }`. -/
def structB (y : Int) : Value := .struct "B" [fieldY] [.int y]

/-- The value `E{}` of `type E struct {}`. -/
def structE : Value := .struct "E" [] []

/-- A `map[string]interface{}` variable `{"k": &A{X: 0}}` (object 0) and the
source maps `{"k": &B{Y: 5}}` (object 1) and `{"k": &E{}}` (object 2); the
variables 1, 2 and 3 are the three pointees. -/
def ptrMismatchStore : Store :=
  ⟨[.map .string .iface (some 0), structA 0, structB 5, structE],
   [[(.str "k", .iface (.ptr (.struct "A") (some ⟨1, []⟩)))],
    [(.str "k", .iface (.ptr (.struct "B") (some ⟨2, []⟩)))],
    [(.str "k", .iface (.ptr (.struct "E") (some ⟨3, []⟩)))]]⟩

/-- A `map[string][]int` variable `{"k": [1]}` (object 0), a `[]int` variable
`[1]`, and the source map `{"k": []}` (object 1) whose slice is empty and not
nil. -/
def sliceEraseStore : Store :=
  ⟨[.map .string (.slice .int) (some 0), .slice .int false [.int 1]],
   [[(.str "k", .slice .int false [.int 1])], [(.str "k", .slice .int false [])]]⟩

/-! ## One step of deepMerge and the overwrite-empty flag -/

/-- One call of `deepMerge` (lines 58-270) with the recursive call as a
parameter. -/
def deepMergeStep (isEmptyValue : Store → Value → Bool)
    (rec : RValue → RValue → Nat → State → Outcome) (dst src : RValue) (depth : Nat)
    (st0 : State) : Outcome :=
  let overwrite := st0.config.Overwrite
  let overwriteWithEmptySrc := st0.config.overwriteWithEmptyValue
  let st1 : State := { st0 with config := { st0.config with overwriteWithEmptyValue := false } }
  if !src.IsValid st1.store then .ret dst none st1
  else
    match enterVisited st1 dst with
    | none => .panic
    | some (true, _) => .ret dst none st1
    | some (false, st) =>
      match transformerHook isEmptyValue dst src st with
      | some o => o
      | none => kindSwitch isEmptyValue rec overwrite overwriteWithEmptySrc dst src depth st

/-- A recursive call that is `rec` when it reads `overwriteWithEmptyValue` as
false and `other` when it reads it as true. -/
def flagGuard (other rec : RValue → RValue → Nat → State → Outcome) (dst src : RValue)
    (depth : Nat) (st : State) : Outcome :=
  if st.config.overwriteWithEmptyValue then other dst src depth st else rec dst src depth st

/-- The configuration with which an outcome returns is `c`. -/
def Outcome.keeps (c : Config) : Outcome → Prop
  | .ret _ _ st => st.config = c
  | _ => True

/-- The configuration with which a loop goes on or returns is `c`. -/
def exceptKeeps (c : Config) : Except Outcome State → Prop
  | .ok st => st.config = c
  | .error o => o.keeps c

/-! ## Data for idempotence -/

/-- An exported field `M1`. -/
def fieldM1 : StructField := ⟨"M1", "", false⟩

/-- An exported field `M2`. -/
def fieldM2 : StructField := ⟨"M2", "", false⟩

/-- The value `M{M1: m1, M2: m2}` of
`type M struct { M1 map[string]int; M2 map[string]int }`. -/
def structM (m1 m2 : Option Nat) : Value :=
  .struct "M" [fieldM1, fieldM2] [.map .string .int m1, .map .string .int m2]

/-- A variable `M{M1: p, M2: q}` with two empty maps `p` (object 0) and `q`
(object 1), and the map `{"a": 1}` (object 2). -/
def sharedMapStore : Store := ⟨[structM (some 0) (some 1)], [[], [], [(.str "a", .int 1)]]⟩

/-! ## Data for slices behind pointers -/

/-- An exported field `P1`. -/
def fieldP1 : StructField := ⟨"P1", "", false⟩

/-- An exported field `P2`. -/
def fieldP2 : StructField := ⟨"P2", "", false⟩

/-- The value `Q{P1: p1, P2: p2}` of `type Q struct { P1 *[]int; P2 *[]int }`. -/
def structQ (p1 p2 : Option Loc) : Value :=
  .struct "Q" [fieldP1, fieldP2] [.ptr (.slice .int) p1, .ptr (.slice .int) p2]

/-- A variable `Q{P1: &a, P2: &a}` whose two pointers point to the same `[]int`
variable `a = [1]` (variable 1), and the `[]int` variables `[2]` and `[3]`. -/
def twoPointersStore : Store :=
  ⟨[structQ (some ⟨1, []⟩) (some ⟨1, []⟩), .slice .int false [.int 1],
    .slice .int false [.int 2], .slice .int false [.int 3]], []⟩

/-! ## Definitions and data for the key union of maps -/

/-- The test of lines 146-149 of the key loop: the source element is a nil
channel, function, map, interface or slice, and is skipped. -/
def skippedNil (v : Value) : Bool :=
  (v.kind == .Chan || v.kind == .Func || v.kind == .Map || v.kind == .Interface
    || v.kind == .Slice) && (v.IsNil).getD false

/-- The source element is handed to a recursive call (lines 160-173): its
concrete kind is struct, pointer or map. -/
def recursiveKind (v : Value) : Bool :=
  v.unbox.kind == .Struct || v.unbox.kind == .Ptr || v.unbox.kind == .Map

/-- The destination element of the key loop (lines 139-143): the value under
the key, unboxed when the key is present. -/
def dstElementOf (dv : Value) : Value := if dv.kind != .Invalid then dv.unbox else dv

/-- The heap with map object `r` replaced by `m`. -/
def Store.setMap (s : Store) (r : Nat) (m : List (Key × Value)) : Store :=
  { s with maps := s.maps.set r m }

/-- The source element `sv` of a key that the destination lacks ends up in the
destination: it is not a skipped nil element, and when it is a struct the
recursive call on the absent destination element (the default case of
`deepMerge`, lines 259-268) hands it back, which it does when it is not empty
and either overwrite is on or the zero Value counts as empty. -/
def srcEntryTaken (E : Store → Value → Bool) (s : Store) (ow : Bool) (sv : Value) : Bool :=
  sv.kind != .Invalid && !skippedNil sv
    && !(sv.unbox.kind == .Struct && !(!E s sv.unbox && (ow || E s .invalid)))

/-- The state `st2` is `st` but for the entry under `a` of map object `r`. -/
def entryTouched (r : Nat) (a : Key) (st st2 : State) : Prop :=
  st2 = st ∨ ∃ m, st2 = { st with store := st.store.setMap r m }
    ∧ ∀ k, k ≠ a → m.lookup k = (st.store.mapObj (some r)).lookup k

/-- The destination entry under a key is deleted by the key loop: the source
holds an element that is not skipped, the destination element is absent or a
nil interface, and the recursive call on the struct of the source hands the
zero Value back. -/
def entryDropped (E : Store → Value → Bool) (s : Store) (ow : Bool) (dv sv : Value) : Bool :=
  sv.kind != .Invalid && !skippedNil sv && (dstElementOf dv).kind == .Invalid
    && !srcEntryTaken E s ow sv

/-- A `map[string]A` variable `{"a": A{1}}` (object 0) and a source map
`{"b": A{0}}` (object 1) whose only element is an empty struct. -/
def emptyStructEntryStore : Store :=
  ⟨[.map .string (.struct "A") (some 0)], [[(.str "a", structA 1)], [(.str "b", structA 0)]]⟩

/-- A `map[string]interface{}` variable `{"k": nil}` (object 0) and a source
map `{"k": A{0}}` (object 1). -/
def nilInterfaceEntryStore : Store :=
  ⟨[.map .string .iface (some 0)],
   [[(.str "k", .iface .invalid)], [(.str "k", .iface (structA 0))]]⟩

/-- A `map[string]interface{}` variable `{"a": &x}` with `x` an `int` (object
0) and a source map `{"a": A{1}}` (object 1). -/
def mismatchEntryStore : Store :=
  ⟨[.map .string .iface (some 0), .int 1],
   [[(.str "a", .iface (.ptr .int (some ⟨1, []⟩)))], [(.str "a", .iface (structA 1))]]⟩

/-- A `map[string]*int` variable `{"a": &x}` (object 0) and a source map
`{"a": &y, "b": &z}` (object 1), with `x = 1`, `y = 2`, `z = 3`. -/
def pointerMapStore : Store :=
  ⟨[.map .string (.ptr .int) (some 0), .int 1, .int 2, .int 3],
   [[(.str "a", .ptr .int (some ⟨1, []⟩))],
    [(.str "a", .ptr .int (some ⟨2, []⟩)), (.str "b", .ptr .int (some ⟨3, []⟩))]]⟩

/-! ## The shape class: structs, scalars, slices and maps of scalars -/

mutual
/-- `d` and `x` are two values of one type built from structs whose fields are
all exported, scalars, slices and maps with values of a scalar type. -/
def shapePair : Value → Value → Bool
  | .bool _, x => x.kind == .Bool
  | .int _, x => x.kind == .Int
  | .str _, x => x.kind == .String
  | .slice e _ _, x => x.type == some (.slice e)
  | .map kt et _, x => et.isScalar && x.type == some (.map kt et)
  | .struct n fs vs, x =>
    match x with
    | .struct n' fs' ws => n == n' && fs == fs' && !fs.isEmpty && shapeFields fs vs ws
    | _ => false
  | _, _ => false
/-- Field-wise `shapePair`, every field exported. -/
def shapeFields : List StructField → List Value → List Value → Bool
  | f :: fs, v :: vs, w :: ws => isFieldExported f && shapePair v w && shapeFields fs vs ws
  | [], [], [] => true
  | _, _, _ => false
end

mutual
/-- The map objects that a value refers to, through its struct fields. -/
def mapRefs : Value → List Nat
  | .map _ _ (some r) => [r]
  | .struct _ _ vs => mapRefsList vs
  | _ => []
/-- The map objects that the values of a list refer to. -/
def mapRefsList : List Value → List Nat
  | [] => []
  | v :: vs => mapRefs v ++ mapRefsList vs
end

mutual
/-- The entries of the maps of `d` and `x` have the key and element types of
the maps. -/
def mapsTyped (s : Store) : Value → Value → Prop
  | .map kt et rd, x =>
    match x with
    | .map _ _ rs =>
      (∀ k v, (k, v) ∈ s.mapObj rs → k.type = kt ∧ v.type = some et)
        ∧ (∀ k v, (k, v) ∈ s.mapObj rd → v.type = some et)
    | _ => True
  | .struct _ _ vs, x =>
    match x with
    | .struct _ _ ws => mapsTypedList s vs ws
    | _ => True
  | _, _ => True
/-- Field-wise `mapsTyped`. -/
def mapsTypedList (s : Store) : List Value → List Value → Prop
  | v :: vs, w :: ws => mapsTyped s v w ∧ mapsTypedList s vs ws
  | _, _ => True
end

mutual
/-- A merge of `x` into `d` has nothing left to do: every leaf of `d` is what
the replace policy gives, a nil map of `d` faces a nil map of `x`, and every
entry of a map of `d` that the key loop would assign already holds the element
of `x`. -/
def mergeStable (E : Store → Value → Bool) (s : Store) (ow : Bool) : Value → Value → Prop
  | .map _ _ rd, x =>
    match x with
    | .map _ _ rs =>
      (rd = none → rs = none)
        ∧ ∀ k ∈ (s.mapObj rs).map Prod.fst,
            mapGate E s ow (s.mapGet rd k) = true → s.mapGet rd k = s.mapGet rs k
    | _ => True
  | .struct _ _ vs, x =>
    match x with
    | .struct _ _ ws => mergeStableList E s ow vs ws
    | _ => True
  | d, x => mergePlain E s ow false d x = d
/-- Field-wise `mergeStable`. -/
def mergeStableList (E : Store → Value → Bool) (s : Store) (ow : Bool) :
    List Value → List Value → Prop
  | v :: vs, w :: ws => mergeStable E s ow v w ∧ mergeStableList E s ow vs ws
  | _, _ => True
end

/-- What a merge of `x` into `d` on the heap `s` leaves: the heap `s2` and the
destination value `d2`. -/
def shapeOut (E : Store → Value → Bool) (s s2 : Store) (ow : Bool) (d x d2 : Value) : Prop :=
  shapePair d2 x = true ∧ d2.depth = d.depth ∧ d2.type = d.type
    ∧ s.maps.length ≤ s2.maps.length
    ∧ (∀ r, r < s.maps.length → r ∉ mapRefs d → s2.maps[r]? = s.maps[r]?)
    ∧ (∀ r ∈ mapRefs d2, r ∈ mapRefs d ∨ (s.maps.length ≤ r ∧ r < s2.maps.length))
    ∧ (mapRefs d2).Nodup
    ∧ mapsTyped s2 d2 x
    ∧ mergeStable E s2 ow d2 x
    ∧ (mergeStable E s ow d x → d2 = d ∧ s2.maps = s.maps)

/-- Field-wise `shapeOut`. -/
def shapeOutList (E : Store → Value → Bool) (s s2 : Store) (ow : Bool)
    (fs : List StructField) (vs ws ms : List Value) : Prop :=
  shapeFields fs ms ws = true ∧ Value.depthList ms = Value.depthList vs
    ∧ s.maps.length ≤ s2.maps.length
    ∧ (∀ r, r < s.maps.length → r ∉ mapRefsList vs → s2.maps[r]? = s.maps[r]?)
    ∧ (∀ r ∈ mapRefsList ms, r ∈ mapRefsList vs ∨ (s.maps.length ≤ r ∧ r < s2.maps.length))
    ∧ (mapRefsList ms).Nodup
    ∧ mapsTypedList s2 ms ws
    ∧ mergeStableList E s2 ow ms ws
    ∧ (mergeStableList E s ow vs ws → ms = vs ∧ s2.maps = s.maps)

/-- The hypotheses on the heap: typed map entries, map references in range,
and no map object shared between two maps of `d` or between `d` and `x`. -/
def shapeReady (s : Store) (d x : Value) : Prop :=
  mapsTyped s d x ∧ (∀ r ∈ mapRefs d, r < s.maps.length)
    ∧ (∀ r ∈ mapRefs x, r < s.maps.length)
    ∧ (mapRefs d).Nodup ∧ (∀ r ∈ mapRefs d, r ∉ mapRefs x)

/-- Field-wise `shapeReady`. -/
def shapeReadyList (s : Store) (vs ws : List Value) : Prop :=
  mapsTypedList s vs ws ∧ (∀ r ∈ mapRefsList vs, r < s.maps.length)
    ∧ (∀ r ∈ mapRefsList ws, r < s.maps.length)
    ∧ (mapRefsList vs).Nodup ∧ (∀ r ∈ mapRefsList vs, r ∉ mapRefsList ws)

/-- The statement of the merge of two values of the shape class for one depth
bound. -/
def ShapeSpec (E : Store → Value → Bool) (N : Nat) : Prop :=
  ∀ (d x : Value) (l : Loc) (st : State),
    shapePair d x = true → d.depth ≤ N → st.store.load l = some d →
    st.config.Transformers = none → st.config.overwriteWithEmptyValue = false →
    st.config.AppendSlice = false →
    (∀ v ∈ st.visited, ¬ (v.ptr.cell = l.cell ∧ l.path <+: v.ptr.path)) →
    shapeReady st.store d x →
    ∃ st' d2, (∀ k depth, deepMerge E (N + 1 + k) (.ref l) (.imm x) depth st
          = .ret (.ref l) none st')
      ∧ st'.config = st.config
      ∧ st.store.vars.length ≤ st'.store.vars.length
      ∧ (∀ c, c < st.store.vars.length → c ≠ l.cell → st'.store.vars[c]? = st.store.vars[c]?)
      ∧ (∃ cell0 cell', st.store.vars[l.cell]? = some cell0 ∧ st'.store.vars[l.cell]? = some cell'
          ∧ cell0.update l.path d2 = some cell')
      ∧ (∀ v ∈ st'.visited, v ∈ st.visited ∨ (v.ptr.cell = l.cell ∧ l.path <+: v.ptr.path))
      ∧ shapeOut E st.store st'.store st.config.Overwrite d x d2

/-- A variable `M{M1: {"a": 1}, M2: nil}` (map object 0) and the two maps
`{"a": 2, "b": 3}` (object 1) and `{"c": 4}` (object 2) of a source
`M{M1: .., M2: ..}`: no map object is shared. -/
def unsharedMapStore : Store :=
  ⟨[structM (some 0) none],
   [[(.str "a", .int 1)], [(.str "a", .int 2), (.str "b", .int 3)], [(.str "c", .int 4)]]⟩

/-! ## Decidable equality of values -/

mutual
/-- Boolean equality of values. -/
def Value.beq : Value → Value → Bool
  | .invalid, .invalid => true
  | .bool a, .bool b => a == b
  | .int a, .int b => a == b
  | .str a, .str b => a == b
  | .chan e r, .chan e' r' => e == e' && r == r'
  | .func r, .func r' => r == r'
  | .iface d, .iface d' => Value.beq d d'
  | .map k e r, .map k' e' r' => k == k' && e == e' && r == r'
  | .ptr e t, .ptr e' t' => e == e' && t == t'
  | .slice e n xs, .slice e' n' xs' => e == e' && n == n' && Value.beqList xs xs'
  | .struct n fs vs, .struct n' fs' vs' => n == n' && fs == fs' && Value.beqList vs vs'
  | _, _ => false
/-- Boolean equality of lists of values. -/
def Value.beqList : List Value → List Value → Bool
  | [], [] => true
  | a :: as, b :: bs => Value.beq a b && Value.beqList as bs
  | _, _ => false
end

mutual
theorem Value.eq_of_beq : ∀ (a b : Value), Value.beq a b = true → a = b
  | .invalid, b => by cases b <;> simp [Value.beq]
  | .bool a, b => by cases b <;> simp [Value.beq]
  | .int a, b => by cases b <;> simp [Value.beq]
  | .str a, b => by cases b <;> simp [Value.beq]
  | .chan e r, b => by cases b <;> simp [Value.beq]
  | .func r, b => by cases b <;> simp [Value.beq]
  | .iface d, b => by
      cases b <;> simp [Value.beq]
      exact Value.eq_of_beq d _
  | .map k e r, b => by
      cases b <;> simp [Value.beq]
      intro h1 h2 h3
      exact ⟨h1, h2, h3⟩
  | .ptr e t, b => by cases b <;> simp [Value.beq]
  | .slice e n xs, b => by
      cases b <;> simp [Value.beq]
      intro h1 h2 h3
      exact ⟨h1, h2, Value.eq_of_beqList xs _ h3⟩
  | .struct n fs vs, b => by
      cases b <;> simp [Value.beq]
      intro h1 h2 h3
      exact ⟨h1, h2, Value.eq_of_beqList vs _ h3⟩
theorem Value.eq_of_beqList : ∀ (a b : List Value), Value.beqList a b = true → a = b
  | [], b => by cases b <;> simp [Value.beqList]
  | a :: as, b => by
      cases b <;> simp [Value.beqList]
      intro h1 h2
      exact ⟨Value.eq_of_beq a _ h1, Value.eq_of_beqList as _ h2⟩
end

mutual
theorem Value.beq_self : ∀ (a : Value), Value.beq a a = true
  | .invalid => by simp [Value.beq]
  | .bool a => by simp [Value.beq]
  | .int a => by simp [Value.beq]
  | .str a => by simp [Value.beq]
  | .chan e r => by simp [Value.beq]
  | .func r => by simp [Value.beq]
  | .iface d => by simp [Value.beq]; exact Value.beq_self d
  | .map k e r => by simp [Value.beq]
  | .ptr e t => by simp [Value.beq]
  | .slice e n xs => by simp [Value.beq]; exact Value.beqList_self xs
  | .struct n fs vs => by simp [Value.beq]; exact Value.beqList_self vs
theorem Value.beqList_self : ∀ (a : List Value), Value.beqList a a = true
  | [] => by simp [Value.beqList]
  | a :: as => by simp [Value.beqList]; exact ⟨Value.beq_self a, Value.beqList_self as⟩
end

instance : DecidableEq Value := fun a b =>
  if h : Value.beq a b = true then isTrue (Value.eq_of_beq a b h)
  else isFalse (fun e => h (e ▸ Value.beq_self a))

deriving instance DecidableEq for RValue

deriving instance DecidableEq for Store

deriving instance DecidableEq for MergeOutcome

/-! ## Store lemmas -/

theorem RValue.get_imm (s : Store) (v : Value) : (RValue.imm v).get s = v := rfl

theorem RValue.get_ref (s : Store) (l : Loc) :
    (RValue.ref l).get s = (s.load l).getD .invalid := rfl

theorem getElem?_lt_of_some {α : Type} (xs : List α) (i : Nat) (a : α) (h : xs[i]? = some a) :
    i < xs.length := by
  rcases Nat.lt_or_ge i xs.length with h1 | h1
  · exact h1
  · simp [List.getElem?_eq_none h1] at h

theorem Value.update_proj (p : List Nat) : ∀ (v x old : Value), v.proj p = some old →
    ∃ v', v.update p x = some v' ∧ v'.proj p = some x := by
  induction p with
  | nil => intro v x old _; exact ⟨x, by simp [Value.update, Value.proj]⟩
  | cons i p ih =>
    intro v x old h
    cases v <;> simp [Value.proj] at h
    rename_i n fs vs
    cases hf : vs[i]? with
    | none => simp [hf] at h
    | some f =>
      simp [hf] at h
      obtain ⟨f', hu, hp⟩ := ih f x old h
      refine ⟨.struct n fs (vs.set i f'), by simp [Value.update, hf, hu], ?_⟩
      have hi : i < vs.length := getElem?_lt_of_some vs i f hf
      simp [Value.proj, hi, hp]

theorem Store.load_write (s : Store) (l : Loc) (x old : Value) (h : s.load l = some old) :
    ∃ s', s.write l x = some s' ∧ s'.load l = some x ∧ s'.maps = s.maps
      ∧ s'.vars.length = s.vars.length
      ∧ ∀ l' : Loc, l'.cell ≠ l.cell → s'.load l' = s.load l' := by
  unfold Store.load at h
  cases hv : s.vars[l.cell]? with
  | none => simp [hv] at h
  | some v =>
    simp [hv] at h
    obtain ⟨v', hu, hp⟩ := Value.update_proj l.path v x old h
    have hi : l.cell < s.vars.length := getElem?_lt_of_some s.vars l.cell v hv
    refine ⟨{ s with vars := s.vars.set l.cell v' }, by simp [Store.write, hv, hu], ?_, rfl,
      by simp, ?_⟩
    · simp [Store.load, hi, hp]
    · intro l' hne
      simp [Store.load, List.getElem?_set_ne (Ne.symm hne)]

/-! ## Slices: append mode -/

/-- Through `Merge`, with a resolver that hands out a settable slice as the
destination: in append mode the destination ends as its former elements
followed by the source elements. -/
theorem Merge_slice_append
    (E : Store → Value → Bool)
    (resolve : Store → Value → Value → RValue × RValue × Option Error)
    (s : Store) (dst src : Value) (opts : List (Config → Config))
    (l : Loc) (vSrc : RValue) (e : Ty) (n n' : Bool) (xs ys : List Value)
    (hres : resolve s dst src = (.ref l, vSrc, none))
    (hdst : s.load l = some (.slice e n xs))
    (hsrc : vSrc.get s = .slice e n' ys)
    (happ : (buildConfig opts).AppendSlice = true)
    (htr : (buildConfig opts).Transformers = none) :
    ∃ s', (∀ fuel, Merge E resolve (fuel + 1) s dst src opts = .ret none s')
      ∧ s'.load l = some (.slice e (n && ys.isEmpty) (xs ++ ys))
      ∧ (xs ++ ys).length = xs.length + ys.length := by
  obtain ⟨s', hw, hl, -, -, -⟩ :=
    Store.load_write s l (.slice e (n && ys.isEmpty) (xs ++ ys)) _ hdst
  refine ⟨s', ?_, hl, by simp⟩
  intro fuel
  simp [Merge, merge, hres, RValue.CanSet, RValue.CanAddr, RValue.Type, RValue.get_imm,
    RValue.get_ref, hdst, hsrc, Value.type, deepMerge, RValue.IsValid, Value.kind, enterVisited,
    seenBefore, transformerHook, htr, RValue.Kind, mergeSlice, happ, appendChecked, AppendSlice,
    RValue.Set, assignTo, hw]

/-- Counterexample to C8 as stated: in append mode a nil destination slice of
type `[]string` under key `k` of a `map[string]interface{}` and a source slice
`[]int{1}` under the same key are merged without any error; the entry becomes
the source slice. -/
theorem append_type_safety_counterexample :
    Merge isEmptyValue resolveValues 2
      ⟨[.map .string .iface (some 0)],
       [[(.str "k", .iface (.slice .string true []))],
        [(.str "k", .iface (.slice .int false [.int 1]))]]⟩
      (.ptr (.map .string .iface) (some ⟨0, []⟩)) (.map .string .iface (some 1))
      [WithAppendSlice]
    = .ret none
      ⟨[.map .string .iface (some 0)],
       [[(.str "k", .iface (.slice .int false [.int 1]))],
        [(.str "k", .iface (.slice .int false [.int 1]))]]⟩ := by
  decide

theorem mergeMapKey_slice_mismatch
    (E : Store → Value → Bool) (rec : RValue → RValue → Nat → State → Outcome)
    (ow owe : Bool) (dst src : RValue) (depth : Nat) (key : Key) (st : State)
    (e1 e2 : Ty) (n2 : Bool) (xs ys : List Value)
    (hsrc : MapIndex st.store (src.get st.store) key = some (.iface (.slice e2 n2 ys)))
    (hdst : MapIndex st.store (dst.get st.store) key = some (.iface (.slice e1 false xs)))
    (hne : e1 ≠ e2) (happ : st.config.AppendSlice = true) :
    mergeMapKey E rec ow owe dst src depth key st
      = .error (.ret dst (some (.SliceTypeMismatch (.slice e2) (.slice e1))) st) := by
  have hne' : ¬ e2 = e1 := fun h => hne h.symm
  simp [mergeMapKey, hsrc, hdst, Value.kind, Value.IsNil, Value.unbox, isReflectNil, happ,
    appendChecked, Value.type, hne']

theorem deepMerge_slice_mismatch
    (E : Store → Value → Bool) (fuel : Nat) (l : Loc) (src : RValue) (depth : Nat) (st : State)
    (e1 e2 : Ty) (n1 n2 : Bool) (xs ys : List Value)
    (hdst : st.store.load l = some (.slice e1 n1 xs))
    (hsrc : src.get st.store = .slice e2 n2 ys)
    (hne : e1 ≠ e2) (happ : st.config.AppendSlice = true)
    (htr : st.config.Transformers = none)
    (hvis : seenBefore st.visited l (.slice e1) = false) :
    deepMerge E (fuel + 1) (.ref l) src depth st
      = .ret (.ref l) (some (.SliceTypeMismatch (.slice e2) (.slice e1)))
          { st with visited := ⟨l, .slice e1⟩ :: st.visited,
                    config := { st.config with overwriteWithEmptyValue := false } } := by
  have hne' : ¬ e2 = e1 := fun h => hne h.symm
  simp [deepMerge, RValue.IsValid, hsrc, Value.kind, enterVisited, RValue.Type, RValue.get_ref,
    hdst, Value.type, hvis, transformerHook, htr, RValue.Kind, mergeSlice, RValue.CanSet,
    RValue.CanAddr, happ, appendChecked, hne']

/-- Through `Merge`: when the first key visited in the source map holds a slice
whose type differs from the non-nil slice under the same key of the
destination map, append mode returns the slice type mismatch error and leaves
the heap as it was. -/
theorem Merge_map_slice_mismatch
    (E : Store → Value → Bool)
    (resolve : Store → Value → Value → RValue × RValue × Option Error)
    (s : Store) (dst src : Value) (opts : List (Config → Config))
    (l : Loc) (vSrc : RValue) (kt : Ty) (r r' : Nat) (key : Key)
    (rest : List (Key × Value))
    (e1 e2 : Ty) (n2 : Bool) (xs ys : List Value)
    (hres : resolve s dst src = (.ref l, vSrc, none))
    (hdst : s.load l = some (.map kt .iface (some r)))
    (hsrc : vSrc.get s = .map kt .iface (some r'))
    (hkey : key.type = kt)
    (hsm : s.maps[r']? = some ((key, .iface (.slice e2 n2 ys)) :: rest))
    (hdm : (s.maps[r]?.getD []).lookup key = some (.iface (.slice e1 false xs)))
    (hne : e1 ≠ e2)
    (happ : (buildConfig opts).AppendSlice = true)
    (htr : (buildConfig opts).Transformers = none) (fuel : Nat) :
    Merge E resolve (fuel + 1) s dst src opts
      = .ret (some (.SliceTypeMismatch (.slice e2) (.slice e1))) s := by
  have hstep := fun rec ow owe depth (st : State) (h1 : st.store = s)
      (h2 : st.config.AppendSlice = true) =>
    mergeMapKey_slice_mismatch E rec ow owe (.ref l) vSrc depth key st e1 e2 n2 xs ys
      (by simp [h1, hsrc, MapIndex, hkey, hsm])
      (by simp [h1, RValue.get_ref, hdst, MapIndex, hkey, hdm]) hne h2
  simp [Merge, merge, hres, RValue.CanSet, RValue.CanAddr, RValue.Type, RValue.get_ref, hdst,
    hsrc, Value.type, deepMerge, RValue.IsValid, Value.kind, enterVisited, seenBefore,
    transformerHook, htr, RValue.Kind, mergeMap, Value.IsNil, MapKeys, hsm, mergeMapKeys, hstep,
    happ]

/-- C8 as amended (append type safety): in append mode two slices of
different slice types fail with the slice type mismatch error (a) when
`deepMerge` merges them directly and the destination is settable, not yet
visited and no transformer is configured, and (b) in the iteration of the map
key loop for a key under which the source map holds the one slice and the
destination map holds the other as a non-nil slice; the state is not
modified by the failing step. -/
theorem append_type_mismatch
    (E : Store → Value → Bool) (rec : RValue → RValue → Nat → State → Outcome)
    (fuel depth : Nat) (ow owe : Bool) (l : Loc) (src mdst msrc : RValue) (key : Key)
    (st : State) (e1 e2 : Ty) (n1 n2 m2 : Bool) (xs ys xs' ys' : List Value)
    (hne : e1 ≠ e2) (happ : st.config.AppendSlice = true)
    (hdst : st.store.load l = some (.slice e1 n1 xs))
    (hsrc : src.get st.store = .slice e2 n2 ys)
    (htr : st.config.Transformers = none)
    (hvis : seenBefore st.visited l (.slice e1) = false)
    (hmsrc : MapIndex st.store (msrc.get st.store) key = some (.iface (.slice e2 m2 ys')))
    (hmdst : MapIndex st.store (mdst.get st.store) key = some (.iface (.slice e1 false xs'))) :
    deepMerge E (fuel + 1) (.ref l) src depth st
        = .ret (.ref l) (some (.SliceTypeMismatch (.slice e2) (.slice e1)))
            { st with visited := ⟨l, .slice e1⟩ :: st.visited,
                      config := { st.config with overwriteWithEmptyValue := false } }
      ∧ mergeMapKey E rec ow owe mdst msrc depth key st
        = .error (.ret mdst (some (.SliceTypeMismatch (.slice e2) (.slice e1))) st) :=
  ⟨deepMerge_slice_mismatch E fuel l src depth st e1 e2 n1 n2 xs ys hdst hsrc hne happ htr hvis,
   mergeMapKey_slice_mismatch E rec ow owe mdst msrc depth key st e1 e2 m2 xs' ys' hmsrc hmdst
     hne happ⟩

/-- Witness of C8 (amended): `[]string{"a"}` against `[]int{1}`. -/
theorem append_type_mismatch_witness :
    deepMerge isEmptyValue (0 + 1) (.ref ⟨0, []⟩) (.imm (.slice .int false [.int 1])) 0
        ⟨mismatchStore, [], ⟨false, true, none, false⟩⟩
        = .ret (.ref ⟨0, []⟩) (some (.SliceTypeMismatch (.slice .int) (.slice .string)))
            { (⟨mismatchStore, [], ⟨false, true, none, false⟩⟩ : State) with
                visited := ⟨⟨0, []⟩, .slice .string⟩ :: [],
                config := { (⟨false, true, none, false⟩ : Config) with
                  overwriteWithEmptyValue := false } }
      ∧ mergeMapKey isEmptyValue (deepMerge isEmptyValue 0) false false
          (.imm (.map .string .iface (some 0))) (.imm (.map .string .iface (some 1))) 0
          (.str "k") ⟨mismatchStore, [], ⟨false, true, none, false⟩⟩
        = .error (.ret (.imm (.map .string .iface (some 0)))
            (some (.SliceTypeMismatch (.slice .int) (.slice .string)))
            ⟨mismatchStore, [], ⟨false, true, none, false⟩⟩) :=
  append_type_mismatch isEmptyValue (deepMerge isEmptyValue 0) 0 0 false false ⟨0, []⟩
    (.imm (.slice .int false [.int 1])) (.imm (.map .string .iface (some 0)))
    (.imm (.map .string .iface (some 1))) (.str "k")
    ⟨mismatchStore, [], ⟨false, true, none, false⟩⟩ .string .int false false false
    [.str "a"] [.int 1] [.str "a"] [.int 1] (by decide) rfl (by decide) (by decide) rfl
    (by decide) (by decide) (by decide)

/-! ## Unexported fields -/

/-- C9 (unexported-field immutability) at a struct reached as a map value:
merging `{"k": U{A: 2, b: 9}}` into `{"k": U{A: 1, b: 7}}` with default options
returns no error and stores `U{A: 1, b: 0}` under `k`: the unexported field
`b` of the destination is zeroed, not kept (the scratch copy is variable 1). -/
theorem unexported_field_zeroed_in_map :
    Merge isEmptyValue resolveValues 3 unexportedStore
      (.ptr (.map .string (.struct "U")) (some ⟨0, []⟩)) (.map .string (.struct "U") (some 1)) []
    = .ret none
      ⟨[.map .string (.struct "U") (some 0), structU 1 0],
       [[(.str "k", structU 1 0)], [(.str "k", structU 2 9)]]⟩ := by
  decide

/-! ## Cycles -/

theorem cyclic_inner (vis : List visit) : ∀ (fuel depth : Nat),
    deepMerge isEmptyValue fuel (.imm (.map .string .iface (some 0)))
      (.imm (.map .string .iface (some 1))) depth ⟨cyclicStore, vis, ⟨false, false, none, false⟩⟩
      = .outOfFuel := by
  intro fuel
  induction fuel with
  | zero => intro depth; rfl
  | succ n ih =>
    intro depth
    have h := ih (depth + 1)
    simp only [cyclicStore] at h
    simp [deepMerge, RValue.IsValid, RValue.get_imm, Value.kind, enterVisited, transformerHook,
      RValue.Kind, mergeMap, Value.IsNil, MapKeys, cyclicStore, mergeMapKeys, mergeMapKey,
      MapIndex, Key.type, Value.unbox, h]

/-- C10 (cycle termination) at two self-containing `map[string]interface{}`
values: whatever the recursion budget, `Merge` does not return.  The map
reached under `self` is not addressable, so the visited check is skipped and
`deepMerge` calls itself on the same pair again. -/
theorem cyclic_maps_never_return : ∀ fuel : Nat,
    Merge isEmptyValue resolveValues fuel cyclicStore
      (.ptr (.map .string .iface) (some ⟨0, []⟩)) (.map .string .iface (some 1)) []
      = .outOfFuel := by
  intro fuel
  cases fuel with
  | zero => rfl
  | succ n =>
    have h := cyclic_inner [⟨⟨0, []⟩, .map .string .iface⟩] n 1
    simp only [cyclicStore] at h
    simp [Merge, merge, buildConfig, resolveValues, RValue.Elem, RValue.get_imm, Value.kind,
      RValue.CanSet, RValue.CanAddr, RValue.Type, RValue.get_ref, cyclicStore, Store.load,
      Value.proj, Value.type, deepMerge, RValue.IsValid, enterVisited, seenBefore,
      transformerHook, RValue.Kind, mergeMap, Value.IsNil, MapKeys, mergeMapKeys, mergeMapKey,
      MapIndex, Key.type, Value.unbox, h]

/-! ## Maps with scalar elements -/

theorem lookup_mapInsert (k k' : Key) (v : Value) (m : List (Key × Value)) :
    (mapInsert k v m).lookup k' = if k' = k then some v else m.lookup k' := by
  induction m with
  | nil =>
    by_cases h : k' = k
    · simp [mapInsert, List.lookup, h]
    · have : (k' == k) = false := by simp [h]
      simp [mapInsert, List.lookup, h, this]
  | cons p m ih =>
    obtain ⟨a, b⟩ := p
    by_cases h1 : a = k
    · by_cases h : k' = k
      · simp [mapInsert, List.lookup, h1, h]
      · have : (k' == k) = false := by simp [h]
        simp [mapInsert, List.lookup, h1, h, this]
    · by_cases h : k' = k
      · subst h
        have : (k' == a) = false := by simp [Ne.symm h1]
        simpa [mapInsert, List.lookup, h1, this] using ih
      · simp [mapInsert, List.lookup, h1, h, ih]

theorem MapIndex_eq (s : Store) (kt et : Ty) (r : Option Nat) (k : Key) (h : k.type = kt) :
    MapIndex s (.map kt et r) k = some (s.mapGet r k) := by
  cases r <;> simp [MapIndex, h, Store.mapGet]

theorem scalar_type_kind (v : Value) (et : Ty) (het : et.isScalar = true) (h : v.type = some et) :
    v.kind ≠ .Invalid ∧ v.kind ≠ .Chan ∧ v.kind ≠ .Func ∧ v.kind ≠ .Map ∧ v.kind ≠ .Interface
      ∧ v.kind ≠ .Slice ∧ v.kind ≠ .Struct ∧ v.kind ≠ .Ptr ∧ v.unbox = v := by
  cases v <;> simp [Value.type] at h <;> subst h <;> simp [Ty.isScalar] at het <;>
    simp [Value.kind, Value.unbox]

theorem mapGet_set (s : Store) (r r2 : Nat) (k k' : Key) (v : Value) (hr : r < s.maps.length) :
    (s.putMap r k v).mapGet (some r2) k'
      = if r2 = r ∧ k' = k then v else s.mapGet (some r2) k' := by
  unfold Store.putMap
  by_cases h : r2 = r
  · subst h
    by_cases hk : k' = k
    · simp [Store.mapGet, hr, lookup_mapInsert, hk]
    · simp [Store.mapGet, hr, lookup_mapInsert, hk]
  · simp [Store.mapGet, h, List.getElem?_set_ne (Ne.symm h)]

theorem mergeMapKey_scalar (E : Store → Value → Bool)
    (rec : RValue → RValue → Nat → State → Outcome) (ow owe : Bool) (l : Loc) (kt et : Ty)
    (r : Nat) (rs : Option Nat) (depth : Nat) (key : Key) (st : State)
    (het : et.isScalar = true) (hkey : key.type = kt)
    (hl : st.store.load l = some (.map kt et (some r)))
    (hsv : (st.store.mapGet rs key).type = some et)
    (hdv : (st.store.mapGet (some r) key).kind = .Invalid
      ∨ (st.store.mapGet (some r) key).type = some et) :
    mergeMapKey E rec ow owe (.ref l) (.imm (.map kt et rs)) depth key st
      = .ok (if ow || ((st.store.mapGet (some r) key).kind == .Invalid
                || E st.store (st.store.mapGet (some r) key)) then
              { st with store := st.store.putMap r key (st.store.mapGet rs key) }
            else st) := by
  obtain ⟨s1, s2, s3, s4, s5, s6, s7, s8, s9⟩ := scalar_type_kind _ et het hsv
  have hdu : (st.store.mapGet (some r) key).kind ≠ .Invalid →
      (st.store.mapGet (some r) key).unbox = st.store.mapGet (some r) key := by
    intro h
    rcases hdv with h' | h'
    · exact absurd h' h
    · exact (scalar_type_kind _ et het h').2.2.2.2.2.2.2.2
  by_cases hinv : (st.store.mapGet (some r) key).kind = .Invalid
  · simp [mergeMapKey, RValue.get_imm, RValue.get_ref, hl, MapIndex_eq _ _ _ _ _ hkey, s1, s2,
      s3, s4, s5, s6, s7, s8, s9, hinv, Value.IsNil, SetMapIndex, hkey, assignTo, hsv, Store.putMap]
  · simp [mergeMapKey, RValue.get_imm, RValue.get_ref, hl, MapIndex_eq _ _ _ _ _ hkey, s1, s2,
      s3, s4, s5, s6, s7, s8, s9, hinv, hdu hinv, Value.IsNil, SetMapIndex, hkey, assignTo, hsv,
      Store.putMap]
    by_cases hc : ow = true ∨ E st.store (st.store.mapGet (some r) key) = true
    · simp [hc]
    · simp [hc]

theorem mapGate_indep (E : Store → Value → Bool) (et : Ty)
    (hE : ∀ s1 s2 v, v.type = some et → E s1 v = E s2 v) (s1 s2 : Store) (ow : Bool) (dv : Value)
    (h : dv.kind = .Invalid ∨ dv.type = some et) : mapGate E s1 ow dv = mapGate E s2 ow dv := by
  rcases h with h | h
  · simp [mapGate, h]
  · simp [mapGate, hE s1 s2 dv h]

theorem load_of_vars (s1 s2 : Store) (l : Loc) (h : s1.vars = s2.vars) : s1.load l = s2.load l := by
  simp [Store.load, h]

theorem mergeMapKeys_scalar (E : Store → Value → Bool)
    (ow owe : Bool) (l : Loc) (kt et : Ty)
    (r : Nat) (rs : Option Nat)
    (het : et.isScalar = true)
    (hE : ∀ s1 s2 v, v.type = some et → E s1 v = E s2 v) :
    ∀ (ks : List Key) (st : State),
      st.store.load l = some (.map kt et (some r)) → r < st.store.maps.length →
      (∀ k ∈ ks, k.type = kt ∧ (st.store.mapGet rs k).type = some et) →
      (∀ k, (st.store.mapGet (some r) k).kind = .Invalid
        ∨ (st.store.mapGet (some r) k).type = some et) →
      ∃ st', (∀ rec depth,
          mergeMapKeys E rec ow owe (.ref l) (.imm (.map kt et rs)) depth ks st = .ok st')
        ∧ st'.store.vars = st.store.vars ∧ st'.visited = st.visited ∧ st'.config = st.config
        ∧ st'.store.maps.length = st.store.maps.length
        ∧ (∀ k, st'.store.mapGet (some r) k
            = if k ∈ ks ∧ mapGate E st.store ow (st.store.mapGet (some r) k) = true
              then st.store.mapGet rs k else st.store.mapGet (some r) k)
        ∧ (∀ k, st'.store.mapGet rs k = st.store.mapGet rs k) := by
  intro ks
  induction ks with
  | nil =>
    intro st _ _ _ _
    exact ⟨st, by simp [mergeMapKeys]⟩
  | cons a ks ih =>
    intro st hl hr hks hdv
    have ha := hks a (by simp)
    have hstep := fun rec depth =>
      mergeMapKey_scalar E rec ow owe l kt et r rs depth a st het ha.1 hl ha.2 (hdv a)
    by_cases hg : mapGate E st.store ow (st.store.mapGet (some r) a) = true
    · -- the entry is assigned
      have hg' : (ow || ((st.store.mapGet (some r) a).kind == .Invalid
          || E st.store (st.store.mapGet (some r) a))) = true := hg
      simp only [if_pos hg'] at hstep
      let st1 : State := { st with store := st.store.putMap r a (st.store.mapGet rs a) }
      have hget : ∀ r2 k, st1.store.mapGet (some r2) k
          = if r2 = r ∧ k = a then st.store.mapGet rs a else st.store.mapGet (some r2) k :=
        fun r2 k => mapGet_set st.store r r2 a k _ hr
      have hsrc1 : ∀ k, st1.store.mapGet rs k = st.store.mapGet rs k := by
        intro k
        cases rs with
        | none => rfl
        | some r' =>
          rw [hget r' k]
          by_cases h : r' = r ∧ k = a
          · rw [if_pos h, h.1, h.2]
          · rw [if_neg h]
      have hl1 : st1.store.load l = some (.map kt et (some r)) := by
        rw [← hl]; exact load_of_vars _ _ l rfl
      have hr1 : r < st1.store.maps.length := by simp [st1, Store.putMap, hr]
      have hks1 : ∀ k ∈ ks, k.type = kt ∧ (st1.store.mapGet rs k).type = some et := by
        intro k hk
        rw [hsrc1 k]
        exact hks k (by simp [hk])
      have hdv1 : ∀ k, (st1.store.mapGet (some r) k).kind = .Invalid
          ∨ (st1.store.mapGet (some r) k).type = some et := by
        intro k
        rw [hget r k]
        by_cases h : r = r ∧ k = a
        · rw [if_pos h]; exact Or.inr ha.2
        · rw [if_neg h]; exact hdv k
      obtain ⟨st', h1, h2, h3, h4, h5, h6, h7⟩ := ih st1 hl1 hr1 hks1 hdv1
      refine ⟨st', fun rec depth => by rw [mergeMapKeys, hstep rec depth]; exact h1 rec depth,
        h2, h3, h4, ?_, ?_, ?_⟩
      · rw [h5]; simp [st1, Store.putMap]
      · intro k
        rw [h6 k, hget r k, hsrc1 k]
        rw [mapGate_indep E et hE st1.store st.store ow _ (by rw [← hget r k]; exact hdv1 k)]
        by_cases hk : k = a
        · subst hk
          simp [hg]
        · simp [hk]
      · intro k; rw [h7 k, hsrc1 k]
    · -- the entry is kept
      have hg' : ¬ (ow || ((st.store.mapGet (some r) a).kind == .Invalid
          || E st.store (st.store.mapGet (some r) a))) = true := hg
      simp only [if_neg hg'] at hstep
      obtain ⟨st', h1, h2, h3, h4, h5, h6, h7⟩ :=
        ih st hl hr (fun k hk => hks k (by simp [hk])) hdv
      refine ⟨st', fun rec depth => by rw [mergeMapKeys, hstep rec depth]; exact h1 rec depth,
        h2, h3, h4, h5, ?_, h7⟩
      intro k
      rw [h6 k]
      by_cases hk : k = a
      · subst hk
        simp [hg]
      · simp [hk]

theorem mapGet_eq_lookup (s : Store) (r : Option Nat) (k : Key) :
    s.mapGet r k = ((s.mapObj r).lookup k).getD .invalid := by
  cases r <;> simp [Store.mapGet, Store.mapObj, List.lookup]

theorem lookup_mem (m : List (Key × Value)) (k : Key) (v : Value) (h : m.lookup k = some v) :
    (k, v) ∈ m := by
  induction m with
  | nil => simp [List.lookup] at h
  | cons p m ih =>
    obtain ⟨a, b⟩ := p
    by_cases hk : k = a
    · subst hk
      simp [List.lookup] at h
      simp [h]
    · have : (k == a) = false := by simp [hk]
      simp [List.lookup, this] at h
      simp [ih h]

theorem lookup_of_mem_keys (m : List (Key × Value)) (k : Key) (h : k ∈ m.map Prod.fst) :
    ∃ v, m.lookup k = some v := by
  induction m with
  | nil => simp at h
  | cons p m ih =>
    obtain ⟨a, b⟩ := p
    by_cases hk : k = a
    · subst hk
      exact ⟨b, by simp [List.lookup]⟩
    · have : (k == a) = false := by simp [hk]
      simp [hk] at h
      obtain ⟨v, hv⟩ := ih (by simpa using h)
      exact ⟨v, by simp [List.lookup, this, hv]⟩

theorem lookup_none_of_not_mem (m : List (Key × Value)) (k : Key) (h : k ∉ m.map Prod.fst) :
    m.lookup k = none := by
  induction m with
  | nil => simp [List.lookup]
  | cons p m ih =>
    obtain ⟨a, b⟩ := p
    simp at h
    have : (k == a) = false := by simp [h.1]
    simp only [List.lookup, this]
    exact ih (by simpa using h.2)

theorem MapKeys_eq (s : Store) (kt et : Ty) (rs : Option Nat) :
    MapKeys s (.map kt et rs) = some ((s.mapObj rs).map Prod.fst) := by
  cases rs <;> simp [MapKeys, Store.mapObj]

theorem mapLoop_scalar (E : Store → Value → Bool)
    (ow owe : Bool) (l : Loc) (kt et : Ty)
    (r : Nat) (rs : Option Nat) (st : State)
    (het : et.isScalar = true)
    (hE : ∀ s1 s2 v, v.type = some et → E s1 v = E s2 v)
    (hl : st.store.load l = some (.map kt et (some r))) (hr : r < st.store.maps.length)
    (hsrcT : ∀ k v, (k, v) ∈ st.store.mapObj rs → k.type = kt ∧ v.type = some et)
    (hdstT : ∀ k, (st.store.mapGet (some r) k).kind = .Invalid
        ∨ (st.store.mapGet (some r) k).type = some et) :
    ∃ st', (∀ rec depth, mergeMapKeys E rec ow owe (.ref l) (.imm (.map kt et rs)) depth
          ((st.store.mapObj rs).map Prod.fst) st = .ok st')
      ∧ st'.store.vars = st.store.vars ∧ st'.visited = st.visited ∧ st'.config = st.config
      ∧ ∀ k, st'.store.mapGet (some r) k
          = mapScalarEntry E st.store ow (st.store.mapGet (some r) k) (st.store.mapGet rs k) := by
  have hks : ∀ k ∈ (st.store.mapObj rs).map Prod.fst,
      k.type = kt ∧ (st.store.mapGet rs k).type = some et := by
    intro k hk
    obtain ⟨v, hv⟩ := lookup_of_mem_keys _ k hk
    have := hsrcT k v (lookup_mem _ k v hv)
    rw [mapGet_eq_lookup, hv]
    exact this
  obtain ⟨st', h1, h2, h3, h4, -, h6, -⟩ :=
    mergeMapKeys_scalar E ow owe l kt et r rs het hE _ st hl hr hks hdstT
  refine ⟨st', h1, h2, h3, h4, ?_⟩
  intro k
  rw [h6 k]
  unfold mapScalarEntry mapGate
  by_cases hk : k ∈ (st.store.mapObj rs).map Prod.fst
  · have hv := (scalar_type_kind _ et het (hks k hk).2).1
    simp [hk, hv]
  · have : st.store.mapGet rs k = .invalid := by
      rw [mapGet_eq_lookup, lookup_none_of_not_mem _ k hk]; rfl
    simp [hk, this, Value.kind]

/-- `Merge` on a settable map with scalar elements: it succeeds for every
recursion budget and each key of the key type ends up with the entry given by
`mapScalarEntry`. -/
theorem Merge_map_scalar
    (E : Store → Value → Bool)
    (resolve : Store → Value → Value → RValue × RValue × Option Error)
    (s : Store) (dst src : Value) (opts : List (Config → Config))
    (l : Loc) (kt et : Ty) (rd rs : Option Nat)
    (hres : resolve s dst src = (.ref l, .imm (.map kt et rs), none))
    (hdst : s.load l = some (.map kt et rd))
    (het : et.isScalar = true)
    (hE : ∀ s1 s2 v, v.type = some et → E s1 v = E s2 v)
    (htr : (buildConfig opts).Transformers = none)
    (hrd : ∀ r, rd = some r → r < s.maps.length)
    (hrs : ∀ r, rs = some r → r < s.maps.length)
    (hsrcT : ∀ k v, (k, v) ∈ s.mapObj rs → k.type = kt ∧ v.type = some et)
    (hdstT : ∀ k v, (k, v) ∈ s.mapObj rd → v.type = some et) :
    ∃ s' rd', (∀ fuel, Merge E resolve (fuel + 1) s dst src opts = .ret none s')
      ∧ s'.load l = some (.map kt et rd')
      ∧ (rd = none → rs ≠ none → rd' = some s.maps.length)
      ∧ ∀ k, k.type = kt → MapIndex s' (.map kt et rd') k
          = some (mapScalarEntry E s (buildConfig opts).Overwrite (s.mapGet rd k)
              (s.mapGet rs k)) := by
  have hdv : ∀ k, (s.mapGet rd k).kind = .Invalid ∨ (s.mapGet rd k).type = some et := by
    intro k
    rw [mapGet_eq_lookup]
    cases h : (s.mapObj rd).lookup k with
    | none => left; rfl
    | some v => right; exact hdstT k v (lookup_mem _ k v h)
  cases rd with
  | some r =>
    -- the destination map exists
    have hr := hrd r rfl
    obtain ⟨st', h1, h2, -, -, h5⟩ := mapLoop_scalar E (buildConfig opts).Overwrite
      (buildConfig opts).overwriteWithEmptyValue l kt et r rs
      ⟨s, [⟨l, .map kt et⟩],
        ⟨(buildConfig opts).Overwrite, (buildConfig opts).AppendSlice, none, false⟩⟩
      het hE hdst hr hsrcT hdv
    dsimp only at h1 h2 h5
    refine ⟨st'.store, some r, ?_, ?_, by simp, ?_⟩
    · intro fuel
      simp [Merge, merge, hres, RValue.CanSet, RValue.CanAddr, RValue.Type, RValue.get_imm,
        RValue.get_ref, hdst, Value.type, deepMerge, RValue.IsValid, Value.kind, enterVisited,
        seenBefore, transformerHook, htr, RValue.Kind, mergeMap, Value.IsNil, MapKeys_eq, h1]
    · rw [load_of_vars _ _ l h2]; exact hdst
    · intro k hk
      rw [MapIndex_eq _ _ _ _ _ hk, h5 k]
  | none =>
    cases rs with
    | none =>
      -- both maps are nil: nothing to do
      refine ⟨s, none, ?_, hdst, by simp, ?_⟩
      · intro fuel
        simp [Merge, merge, hres, RValue.CanSet, RValue.CanAddr, RValue.Type, RValue.get_imm,
          RValue.get_ref, hdst, Value.type, deepMerge, RValue.IsValid, Value.kind, enterVisited,
          seenBefore, transformerHook, htr, RValue.Kind, mergeMap, Value.IsNil, MapKeys,
          mergeMapKeys]
      · intro k hk
        simp [MapIndex, hk, mapScalarEntry, Store.mapGet, Value.kind]
    | some r' =>
      -- the destination map is created first
      have hr' := hrs r' rfl
      have hl1 : ({ s with maps := s.maps ++ [[]] } : Store).load l
          = some (.map kt et none) := by
        rw [← hdst]; exact load_of_vars _ _ l rfl
      obtain ⟨s2, hw, hl2, hm2, -, -⟩ :=
        Store.load_write _ l (.map kt et (some s.maps.length)) _ hl1
      have hlen : s.maps.length < s2.maps.length := by simp [hm2]
      have hobj : s2.mapObj (some r') = s.mapObj (some r') := by
        simp [Store.mapObj, hm2, List.getElem?_append_left hr']
      have hget : ∀ k, s2.mapGet (some r') k = s.mapGet (some r') k := by
        intro k; rw [mapGet_eq_lookup, mapGet_eq_lookup, hobj]
      have hnew : ∀ k, s2.mapGet (some s.maps.length) k = .invalid := by
        intro k; simp [Store.mapGet, hm2, List.lookup]
      obtain ⟨st', h1, h2, -, -, h5⟩ := mapLoop_scalar E (buildConfig opts).Overwrite
        (buildConfig opts).overwriteWithEmptyValue l kt et s.maps.length (some r')
        ⟨s2, [⟨l, .map kt et⟩],
          ⟨(buildConfig opts).Overwrite, (buildConfig opts).AppendSlice, none, false⟩⟩
        het hE hl2 hlen (by rw [hobj]; exact hsrcT)
        (by intro k; left; dsimp only; rw [hnew k]; rfl)
      dsimp only at h1 h2 h5
      rw [hobj] at h1
      refine ⟨st'.store, some s.maps.length, ?_, ?_, by simp, ?_⟩
      · intro fuel
        simp [Merge, merge, hres, RValue.CanSet, RValue.CanAddr, RValue.Type, RValue.get_imm,
          RValue.get_ref, hdst, Value.type, deepMerge, RValue.IsValid, Value.kind, enterVisited,
          seenBefore, transformerHook, htr, RValue.Kind, mergeMap, Value.IsNil, Store.MakeMap,
          RValue.Set, hl1, assignTo, hw, MapKeys_eq, hobj, h1]
      · rw [load_of_vars _ _ l h2]; exact hl2
      · intro k hk
        rw [MapIndex_eq _ _ _ _ _ hk, h5 k, hnew k, hget k]
        simp [mapScalarEntry, Store.mapGet, Value.kind]

theorem isEmptyValue_scalar_indep (et : Ty) (het : et.isScalar = true) (s1 s2 : Store)
    (v : Value) (h : v.type = some et) : isEmptyValue s1 v = isEmptyValue s2 v := by
  cases v <;> simp [Value.type] at h <;> subst h <;> simp [Ty.isScalar] at het <;>
    simp [isEmptyValue]

/-- C6 (map scalar entries): for a settable destination map and a source map
of the same type `map[kt]et` with `et` a scalar type, `Merge` without
transformers succeeds and every key `k` ends up with `src[k]` when `k` is in
`src` and (overwrite is on, or `k` is absent from `dst`, or `dst[k]` is empty),
and with `dst[k]` otherwise; a nil destination map is created first when the
source is not nil.  In particular `dst = {"a": 1}`, `src = {"a": 2, "b": 3}`
gives `{"a": 1, "b": 3}` by default and `{"a": 2, "b": 3}` with `WithOverride`.
The emptiness predicate `E` is any predicate whose verdict on a scalar does
not depend on the heap. -/
theorem map_scalar_entries
    (E : Store → Value → Bool)
    (resolve : Store → Value → Value → RValue × RValue × Option Error)
    (s : Store) (dst src : Value) (opts : List (Config → Config))
    (l : Loc) (kt et : Ty) (rd rs : Option Nat)
    (hres : resolve s dst src = (.ref l, .imm (.map kt et rs), none))
    (hdst : s.load l = some (.map kt et rd))
    (het : et.isScalar = true)
    (hE : ∀ s1 s2 v, v.type = some et → E s1 v = E s2 v)
    (htr : (buildConfig opts).Transformers = none)
    (hrd : ∀ r, rd = some r → r < s.maps.length)
    (hrs : ∀ r, rs = some r → r < s.maps.length)
    (hsrcT : ∀ k v, (k, v) ∈ s.mapObj rs → k.type = kt ∧ v.type = some et)
    (hdstT : ∀ k v, (k, v) ∈ s.mapObj rd → v.type = some et) :
    (∃ s' rd', (∀ fuel, Merge E resolve (fuel + 1) s dst src opts = .ret none s')
      ∧ s'.load l = some (.map kt et rd')
      ∧ (rd = none → rs ≠ none → rd' = some s.maps.length)
      ∧ ∀ k, k.type = kt → MapIndex s' (.map kt et rd') k
          = some (if (s.mapGet rs k).kind != .Invalid
                    && ((buildConfig opts).Overwrite
                        || ((s.mapGet rd k).kind == .Invalid || E s (s.mapGet rd k)))
                  then s.mapGet rs k else s.mapGet rd k))
    ∧ Merge isEmptyValue resolveValues 1 scenario3 (.ptr (.map .string .int) (some ⟨0, []⟩))
        (.map .string .int (some 1)) []
      = .ret none ⟨[.map .string .int (some 0)],
          [[(.str "a", .int 1), (.str "b", .int 3)], [(.str "a", .int 2), (.str "b", .int 3)]]⟩
    ∧ Merge isEmptyValue resolveValues 1 scenario3 (.ptr (.map .string .int) (some ⟨0, []⟩))
        (.map .string .int (some 1)) [WithOverride]
      = .ret none ⟨[.map .string .int (some 0)],
          [[(.str "a", .int 2), (.str "b", .int 3)], [(.str "a", .int 2), (.str "b", .int 3)]]⟩ :=
  ⟨Merge_map_scalar E resolve s dst src opts l kt et rd rs hres hdst het hE htr hrd hrs hsrcT
      hdstT,
    by decide, by decide⟩

/-- Witness of C6 on scenario 3 of the spec with the default options. -/
theorem map_scalar_entries_witness :
    (∃ s' rd', (∀ fuel, Merge isEmptyValue resolveValues (fuel + 1) scenario3
          (.ptr (.map .string .int) (some ⟨0, []⟩)) (.map .string .int (some 1)) []
            = .ret none s')
      ∧ s'.load ⟨0, []⟩ = some (.map .string .int rd')
      ∧ ((some 0 : Option Nat) = none → (some 1 : Option Nat) ≠ none
          → rd' = some scenario3.maps.length)
      ∧ ∀ k, k.type = .string → MapIndex s' (.map .string .int rd') k
          = some (if (scenario3.mapGet (some 1) k).kind != .Invalid
                    && ((buildConfig []).Overwrite
                        || ((scenario3.mapGet (some 0) k).kind == .Invalid
                            || isEmptyValue scenario3 (scenario3.mapGet (some 0) k)))
                  then scenario3.mapGet (some 1) k else scenario3.mapGet (some 0) k))
    ∧ Merge isEmptyValue resolveValues 1 scenario3 (.ptr (.map .string .int) (some ⟨0, []⟩))
        (.map .string .int (some 1)) []
      = .ret none ⟨[.map .string .int (some 0)],
          [[(.str "a", .int 1), (.str "b", .int 3)], [(.str "a", .int 2), (.str "b", .int 3)]]⟩
    ∧ Merge isEmptyValue resolveValues 1 scenario3 (.ptr (.map .string .int) (some ⟨0, []⟩))
        (.map .string .int (some 1)) [WithOverride]
      = .ret none ⟨[.map .string .int (some 0)],
          [[(.str "a", .int 2), (.str "b", .int 3)], [(.str "a", .int 2), (.str "b", .int 3)]]⟩ :=
  map_scalar_entries isEmptyValue resolveValues scenario3
    (.ptr (.map .string .int) (some ⟨0, []⟩))
    (.map .string .int (some 1)) [] ⟨0, []⟩ .string .int (some 0) (some 1)
    (by decide) (by decide) (by decide) (isEmptyValue_scalar_indep .int (by decide)) (by rfl)
    (by intro r h; cases h; decide) (by intro r h; cases h; decide)
    (by
      intro k v h
      simp [Store.mapObj, scenario3] at h
      rcases h with ⟨rfl, rfl⟩ | ⟨rfl, rfl⟩ <;> decide)
    (by
      intro k v h
      simp [Store.mapObj, scenario3] at h
      rcases h with ⟨rfl, rfl⟩
      decide)

/-! ## Plain structs -/

theorem list_set_self {α : Type} : ∀ (xs : List α) (i : Nat) (a : α), xs[i]? = some a →
    xs.set i a = xs
  | [], _, _, h => by simp at h
  | x :: xs, 0, a, h => by simp at h; simp [h]
  | x :: xs, i + 1, a, h => by
    simp at h
    simp [list_set_self xs i a h]

theorem Value.update_self (p : List Nat) : ∀ (v x : Value), v.proj p = some x →
    v.update p x = some v := by
  induction p with
  | nil => intro v x h; simp [Value.proj] at h; simp [Value.update, h]
  | cons i p ih =>
    intro v x h
    cases v <;> simp [Value.proj] at h
    rename_i n fs vs
    cases hf : vs[i]? with
    | none => simp [hf] at h
    | some f =>
      simp [hf] at h
      have hi : i < vs.length := getElem?_lt_of_some vs i f hf
      have hf' : vs[i] = f := by
        have := List.getElem?_eq_getElem hi
        rw [this] at hf; exact Option.some.inj hf
      have hset : vs.set i f = vs := list_set_self vs i f hf
      simp [Value.update, hf, ih f x h, hset]

theorem Value.update_update_prefix (p q : List Nat) : ∀ (v v1 a b : Value),
    v.update (p ++ q) a = some v1 → v1.update p b = v.update p b := by
  induction p with
  | nil => intro v v1 a b _; simp [Value.update]
  | cons i p ih =>
    intro v v1 a b h
    cases v <;> simp [Value.update] at h
    rename_i n fs vs
    cases hf : vs[i]? with
    | none => simp [hf] at h
    | some f =>
      simp [hf] at h
      cases hu : f.update (p ++ q) a with
      | none => simp [hu] at h
      | some f1 =>
        simp [hu] at h
        subst h
        have hi : i < vs.length := getElem?_lt_of_some vs i f hf
        simp [Value.update, hi, hf, ih f f1 a b hu]

theorem Value.proj_append (p : List Nat) (i : Nat) : ∀ (v : Value),
    v.proj (p ++ [i]) = (v.proj p).bind (fun w => w.proj [i]) := by
  induction p with
  | nil => intro v; simp [Value.proj]
  | cons j p ih =>
    intro v
    cases v <;> simp [Value.proj]
    rename_i n fs vs
    cases hf : vs[j]? with
    | none => simp
    | some f => simp [ih f]

theorem Value.proj_update_child (p : List Nat) (i : Nat) : ∀ (v v1 x : Value) (n : String)
    (fs : List StructField) (vs : List Value),
    v.proj p = some (.struct n fs vs) → v.update (p ++ [i]) x = some v1 →
    v1.proj p = some (.struct n fs (vs.set i x)) := by
  induction p with
  | nil =>
    intro v v1 x n fs vs h hu
    simp [Value.proj] at h
    subst h
    simp [Value.update] at hu
    cases hf : vs[i]? with
    | none => simp [hf] at hu
    | some f =>
      simp [hf] at hu
      subst hu
      simp [Value.proj]
  | cons j p ih =>
    intro v v1 x n fs vs h hu
    cases v <;> simp [Value.proj] at h
    rename_i n' fs' vs'
    cases hf : vs'[j]? with
    | none => simp [hf] at h
    | some f =>
      simp [hf] at h
      simp [Value.update, hf] at hu
      cases hu' : f.update (p ++ [i]) x with
      | none => simp [hu'] at hu
      | some f1 =>
        simp [hu'] at hu
        subst hu
        have hi : j < vs'.length := getElem?_lt_of_some vs' j f hf
        simp [Value.proj, hi, ih f f1 x n fs vs h hu']

theorem Store.write_self (s : Store) (l : Loc) (d : Value) (h : s.load l = some d) :
    s.write l d = some s := by
  unfold Store.load at h
  cases hv : s.vars[l.cell]? with
  | none => simp [hv] at h
  | some v =>
    simp [hv] at h
    simp [Store.write, hv, Value.update_self l.path v d h, list_set_self s.vars l.cell v hv]

theorem Config.clear_flag (c : Config) (h : c.overwriteWithEmptyValue = false) :
    ({ c with overwriteWithEmptyValue := false } : Config) = c := by
  cases c; simp at h; simp [h]

theorem deepMerge_leaf (E : Store → Value → Bool) (s0 : Store)
    (hE : ∀ s1 s2 v, v.isLeaf = true → E s1 v = E s2 v)
    (d x : Value) (l : Loc) (st : State) (t : Ty)
    (hd : d.isLeaf = true) (hp : plainPair d x = true)
    (hl : st.store.load l = some d) (ht : d.type = some t)
    (htr : st.config.Transformers = none)
    (hflag : st.config.overwriteWithEmptyValue = false)
    (hvis : seenBefore st.visited l t = false) :
    ∃ s', st.store.write l (mergePlain E s0 st.config.Overwrite st.config.AppendSlice d x) = some s'
      ∧ ∀ k depth, deepMerge E (k + 1) (.ref l) (.imm x) depth st
          = .ret (.ref l) none ⟨s', ⟨l, t⟩ :: st.visited, st.config⟩ := by
  obtain ⟨store, visited, config⟩ := st
  obtain ⟨ow, app, tr, fl⟩ := config
  simp only at hl htr hflag hvis
  subst htr hflag
  have hEd : E store d = E s0 d := hE store s0 d hd
  have hxl : x.isLeaf = true := by
    cases d <;> simp [Value.isLeaf] at hd <;> cases x <;>
      simp [plainPair, Value.kind, Value.type, Value.isLeaf] at hp ⊢
  have hEx : E store x = E s0 x := hE store s0 x hxl
  by_cases hsl : d.kind = .Slice
  · -- the slice case
    cases d <;> simp [Value.kind] at hsl
    rename_i e n xs
    cases x <;> simp [plainPair, Value.type] at hp
    rename_i e' n' ys
    subst hp
    simp [Value.type] at ht
    subst ht
    cases app with
    | true =>
      obtain ⟨s', hw, -⟩ := Store.load_write store l (.slice e' (n && ys.isEmpty) (xs ++ ys)) _ hl
      refine ⟨s', by simpa [mergePlain] using hw, ?_⟩
      intro k depth
      simp [deepMerge, RValue.IsValid, RValue.get_imm, enterVisited, RValue.Type,
        RValue.get_ref, hl, hvis, transformerHook, RValue.Kind, Value.kind, Value.type,
        mergeSlice, RValue.CanSet, RValue.CanAddr, appendChecked, AppendSlice, RValue.Set,
        assignTo, hw]
    | false =>
      by_cases hc : (!E s0 (.slice e' n' ys) && (ow || E s0 (.slice e' n xs))) = true
      · obtain ⟨s', hw, -⟩ := Store.load_write store l (.slice e' n' ys) _ hl
        refine ⟨s', by simpa [mergePlain, hc] using hw, ?_⟩
        intro k depth
        simp [deepMerge, RValue.IsValid, RValue.get_imm, enterVisited, RValue.Type,
          RValue.get_ref, hl, hvis, transformerHook, RValue.Kind, Value.kind, Value.type,
          mergeSlice, RValue.CanSet, RValue.CanAddr, hEx, hEd, hc, RValue.Set, assignTo, hw]
      · refine ⟨store, by simpa [mergePlain, hc] using Store.write_self store l _ hl, ?_⟩
        intro k depth
        simp [deepMerge, RValue.IsValid, RValue.get_imm, enterVisited, RValue.Type,
          RValue.get_ref, hl, hvis, transformerHook, RValue.Kind, Value.kind, Value.type,
          mergeSlice, RValue.CanSet, RValue.CanAddr, hEx, hEd, hc]
  · -- scalar kinds: the default case
    have hdk : mergePlain E s0 ow app d x = if !E s0 x && (ow || E s0 d) then x else d := by
      cases d <;> simp [Value.isLeaf] at hd <;> simp [Value.kind] at hsl <;> simp [mergePlain]
    by_cases hc : (!E s0 x && (ow || E s0 d)) = true
    · obtain ⟨s', hw, -⟩ := Store.load_write store l x d hl
      refine ⟨s', by simp only [hdk, hc, if_true]; exact hw, ?_⟩
      intro k depth
      cases d <;> simp [Value.isLeaf] at hd <;> simp [Value.kind] at hsl <;> cases x <;>
        simp [plainPair, Value.kind] at hp <;> simp [Value.type] at ht <;> subst ht <;>
        simp [deepMerge, RValue.IsValid, RValue.get_imm, enterVisited, RValue.Type,
          RValue.get_ref, hl, hvis, transformerHook, RValue.Kind, Value.kind, Value.type,
          mergeDefault, hEx, hEd, hc, setOrReplace, RValue.CanSet, RValue.CanAddr, RValue.Set,
          assignTo, hw]
    · refine ⟨store, by simp only [hdk, hc]; exact Store.write_self store l d hl, ?_⟩
      intro k depth
      cases d <;> simp [Value.isLeaf] at hd <;> simp [Value.kind] at hsl <;> cases x <;>
        simp [plainPair, Value.kind] at hp <;> simp [Value.type] at ht <;> subst ht <;>
        simp [deepMerge, RValue.IsValid, RValue.get_imm, enterVisited, RValue.Type,
          RValue.get_ref, hl, hvis, transformerHook, RValue.Kind, Value.kind, Value.type,
          mergeDefault, hEx, hEd, hc]

mutual
theorem mergePlain_type : ∀ (E : Store → Value → Bool) (s : Store) (ow app : Bool) (d x : Value),
    plainPair d x = true → (mergePlain E s ow app d x).type = d.type
  | E, s, ow, app, .bool b, x, h => by
    cases x <;> simp [plainPair, Value.kind] at h
    simp only [mergePlain]; split <;> rfl
  | E, s, ow, app, .int b, x, h => by
    cases x <;> simp [plainPair, Value.kind] at h
    simp only [mergePlain]; split <;> rfl
  | E, s, ow, app, .str b, x, h => by
    cases x <;> simp [plainPair, Value.kind] at h
    simp only [mergePlain]; split <;> rfl
  | E, s, ow, app, .slice e n xs, x, h => by
    cases x <;> simp [plainPair, Value.type] at h
    subst h
    simp only [mergePlain]; split
    · rfl
    · split <;> rfl
  | E, s, ow, app, .struct n fs vs, x, h => by
    cases x <;> simp [plainPair] at h
    simp [mergePlain, Value.type]
  | E, s, ow, app, .invalid, x, h => by simp [plainPair] at h
  | E, s, ow, app, .chan _ _, x, h => by simp [plainPair] at h
  | E, s, ow, app, .func _, x, h => by simp [plainPair] at h
  | E, s, ow, app, .iface _, x, h => by simp [plainPair] at h
  | E, s, ow, app, .map _ _ _, x, h => by simp [plainPair] at h
  | E, s, ow, app, .ptr _ _, x, h => by simp [plainPair] at h
end

theorem zeroLike_type (d : Value) : (zeroLike d).type = d.type := by
  cases d <;> simp [zeroLike, Value.type]

mutual
theorem hasExportedField_of_plain : ∀ (d x : Value), plainPair d x = true → d.kind = .Struct →
    hasExportedField d = true
  | .struct n fs vs, x, h, _ => by
    cases x <;> simp [plainPair] at h
    rename_i n' fs' ws
    obtain ⟨⟨⟨_, hfs⟩, hne⟩, hpf⟩ := h
    subst hfs
    simp only [hasExportedField]
    exact hasExportedFieldLoop_of_plain fs vs ws hpf hne
  | .invalid, _, _, hk => by simp [Value.kind] at hk
  | .bool _, _, _, hk => by simp [Value.kind] at hk
  | .int _, _, _, hk => by simp [Value.kind] at hk
  | .str _, _, _, hk => by simp [Value.kind] at hk
  | .chan _ _, _, _, hk => by simp [Value.kind] at hk
  | .func _, _, _, hk => by simp [Value.kind] at hk
  | .iface _, _, _, hk => by simp [Value.kind] at hk
  | .map _ _ _, _, _, hk => by simp [Value.kind] at hk
  | .ptr _ _, _, _, hk => by simp [Value.kind] at hk
  | .slice _ _ _, _, _, hk => by simp [Value.kind] at hk
theorem hasExportedFieldLoop_of_plain : ∀ (fs : List StructField) (vs ws : List Value),
    plainFields fs vs ws = true → fs ≠ [] → hasExportedFieldLoop fs vs = true
  | f :: fs, v :: vs, w :: ws, h, _ => by
    simp [plainFields] at h
    obtain ⟨⟨hf, hp⟩, _⟩ := h
    simp only [hasExportedFieldLoop]
    by_cases hc : (f.Anonymous && v.kind == .Struct) = true
    · have hk : v.kind = .Struct := by simp at hc; exact hc.2
      simp [hc, hasExportedField_of_plain v w hp hk]
    · simp [hc, hf]
  | [], _, _, _, hne => absurd rfl hne
  | _ :: _, [], _, h, _ => by simp [plainFields] at h
  | _ :: _, _ :: _, [], h, _ => by simp [plainFields] at h
end

theorem prefix_snoc_inj (p q : List Nat) (i j : Nat) (h1 : p ++ [i] <+: q) (h2 : p ++ [j] <+: q) :
    i = j := by
  obtain ⟨t1, rfl⟩ := h1
  obtain ⟨t2, h⟩ := h2
  have : [j] ++ t2 = [i] ++ t1 := by
    have h' : p ++ ([j] ++ t2) = p ++ ([i] ++ t1) := by simpa using h
    exact List.append_cancel_left h'
  simp at this
  exact this.1.symm

theorem prefix_of_snoc_prefix (p q : List Nat) (i : Nat) (h : p ++ [i] <+: q) : p <+: q := by
  obtain ⟨t, rfl⟩ := h
  exact ⟨[i] ++ t, by simp⟩

theorem getElem?_append_length {α : Type} (xs ys : List α) (a : α) :
    (xs ++ a :: ys)[xs.length]? = some a := by
  induction xs with
  | nil => simp
  | cons x xs ih => simpa using ih

theorem set_append_length {α : Type} (xs ys : List α) (a b : α) :
    (xs ++ a :: ys).set xs.length b = xs ++ b :: ys := by
  induction xs with
  | nil => simp
  | cons x xs ih => simp [ih]

theorem Value.proj_of_update (p : List Nat) (v v1 x old : Value) (h : v.proj p = some old)
    (hu : v.update p x = some v1) : v1.proj p = some x := by
  obtain ⟨v', h1, h2⟩ := Value.update_proj p v x old h
  rw [h1] at hu
  cases hu
  exact h2

theorem Store.write_vars (s : Store) (l : Loc) (x cell cell' : Value)
    (h1 : s.vars[l.cell]? = some cell) (h2 : cell.update l.path x = some cell') :
    s.write l x = some { s with vars := s.vars.set l.cell cell' } := by
  simp [Store.write, h1, h2]

theorem Store.load_eq (s : Store) (l : Loc) (cell : Value) (h : s.vars[l.cell]? = some cell) :
    s.load l = cell.proj l.path := by
  simp [Store.load, h]

theorem plainFields_cons_inv (f : StructField) (frest : List StructField) (drest wrest : List Value)
    (h : plainFields (f :: frest) drest wrest = true) :
    ∃ d1 drest' w1 wrest', drest = d1 :: drest' ∧ wrest = w1 :: wrest' ∧ isFieldExported f = true
      ∧ plainPair d1 w1 = true ∧ plainFields frest drest' wrest' = true := by
  cases drest with
  | nil => simp [plainFields] at h
  | cons d1 drest' =>
    cases wrest with
    | nil => simp [plainFields] at h
    | cons w1 wrest' =>
      simp [plainFields] at h
      exact ⟨d1, drest', w1, wrest', rfl, rfl, h.1.1, h.1.2, h.2⟩

theorem plainFields_nil_inv (drest wrest : List Value) (h : plainFields [] drest wrest = true) :
    drest = [] ∧ wrest = [] := by
  cases drest <;> cases wrest <;> simp [plainFields] at h ⊢

theorem mergeFields_plain (E : Store → Value → Bool) (s0 : Store) (M : Nat)
    (ih : PlainSpec E s0 M)
    (n : String) (fs : List StructField) (wsFull : List Value) (l : Loc) (c : Nat)
    (hc : c ≠ l.cell) :
    ∀ (frest : List StructField) (mpre drest wpre wrest : List Value) (st : State),
      wsFull = wpre ++ wrest → wpre.length = mpre.length →
      plainFields frest drest wrest = true → Value.depthList drest ≤ M →
      st.store.load l = some (.struct n fs (mpre ++ drest)) →
      st.store.vars[c]? = some (.struct n fs (mpre ++ zeroLikeList drest)) →
      st.config.Transformers = none → st.config.overwriteWithEmptyValue = false →
      (∀ v ∈ st.visited, ¬ (v.ptr.cell = l.cell
          ∧ ∃ j, mpre.length ≤ j ∧ l.path ++ [j] <+: v.ptr.path)) →
      ∃ st', (∀ k depth, mergeFields (deepMerge E (M + 1 + k)) (.ref l)
                (.imm (.struct n fs wsFull)) (.ref ⟨c, []⟩) depth mpre.length frest st = .ok st')
        ∧ st'.config = st.config ∧ st'.store.maps = st.store.maps
        ∧ st.store.vars.length ≤ st'.store.vars.length
        ∧ (∀ c', c' < st.store.vars.length → c' ≠ l.cell → c' ≠ c →
            st'.store.vars[c']? = st.store.vars[c']?)
        ∧ st'.store.load l = some (.struct n fs (mpre ++
            mergePlainList E s0 st.config.Overwrite st.config.AppendSlice drest wrest))
        ∧ st'.store.vars[c]? = some (.struct n fs (mpre ++
            mergePlainList E s0 st.config.Overwrite st.config.AppendSlice drest wrest))
        ∧ (∃ cell0 cell', st.store.vars[l.cell]? = some cell0
            ∧ st'.store.vars[l.cell]? = some cell'
            ∧ ∀ X, cell'.update l.path X = cell0.update l.path X)
        ∧ (∀ v ∈ st'.visited, v ∈ st.visited ∨ (v.ptr.cell = l.cell ∧ l.path <+: v.ptr.path)) := by
  intro frest
  induction frest with
  | nil =>
    intro mpre drest wpre wrest st _ _ hpf _ hl hcp _ _ _
    obtain ⟨rfl, rfl⟩ := plainFields_nil_inv drest wrest hpf
    have hcell : ∃ cell0, st.store.vars[l.cell]? = some cell0 := by
      unfold Store.load at hl
      cases h : st.store.vars[l.cell]? with
      | none => simp [h] at hl
      | some v => exact ⟨v, rfl⟩
    obtain ⟨cell0, hcell0⟩ := hcell
    refine ⟨st, ?_, rfl, rfl, Nat.le_refl _, fun _ _ _ _ => rfl, ?_, ?_,
      ⟨cell0, cell0, hcell0, hcell0, fun _ => rfl⟩, fun v hv => Or.inl hv⟩
    · intro k depth; simp [mergeFields]
    · simpa [mergePlainList] using hl
    · simpa [mergePlainList, zeroLikeList] using hcp
  | cons f frest ihl =>
    intro mpre drest wpre wrest st hws hwlen hpf hdep hl hcp htr hflag hvis
    obtain ⟨d1, drest', w1, wrest', rfl, rfl, hfexp, hp1, hpf'⟩ :=
      plainFields_cons_inv f frest drest wrest hpf
    -- the cell of `l` and the location of field `i`
    obtain ⟨cell0, hcell0, hproj0⟩ : ∃ cell0, st.store.vars[l.cell]? = some cell0
        ∧ cell0.proj l.path = some (.struct n fs (mpre ++ d1 :: drest')) := by
      unfold Store.load at hl
      cases h : st.store.vars[l.cell]? with
      | none => simp [h] at hl
      | some v => exact ⟨v, rfl, by simpa [h] using hl⟩
    have hli0 : cell0.proj (l.path ++ [mpre.length]) = some d1 := by
      rw [Value.proj_append, hproj0]
      simp only [Option.bind, Value.proj, getElem?_append_length]
    have hli : st.store.load ⟨l.cell, l.path ++ [mpre.length]⟩ = some d1 := by
      rw [Store.load_eq _ ⟨l.cell, l.path ++ [mpre.length]⟩ cell0 hcell0]; exact hli0
    have hdep1 : d1.depth ≤ M ∧ Value.depthList drest' ≤ M := by
      simp [Value.depthList] at hdep; exact hdep
    have hvis1 : ∀ v ∈ st.visited, ¬ (v.ptr.cell = l.cell
        ∧ l.path ++ [mpre.length] <+: v.ptr.path) :=
      fun v hv h => hvis v hv ⟨h.1, mpre.length, Nat.le_refl _, h.2⟩
    obtain ⟨st1, hrec, hcfg1, hmaps1, hlen1, hother1, ⟨c0, cell1, hc0, hc1, hupd⟩, hvis1'⟩ :=
      ih d1 w1 ⟨l.cell, l.path ++ [mpre.length]⟩ st hp1 hdep1.1 hli htr hflag hvis1
    have hc0' : cell0 = c0 := by
      rw [hcell0] at hc0; exact Option.some.inj hc0
    subst hc0'
    simp only at hc0 hc1 hupd hother1 hvis1'
    generalize hm1 : mergePlain E s0 st.config.Overwrite st.config.AppendSlice d1 w1 = m1 at hupd
    have hm1t : m1.type = d1.type := by
      rw [← hm1]; exact mergePlain_type E s0 _ _ d1 w1 hp1
    have hli1 : st1.store.load ⟨l.cell, l.path ++ [mpre.length]⟩ = some m1 := by
      rw [Store.load_eq _ ⟨l.cell, l.path ++ [mpre.length]⟩ cell1 hc1]
      exact Value.proj_of_update _ cell0 cell1 m1 d1 hli0 hupd
    have hl1 : st1.store.load l = some (.struct n fs (mpre ++ m1 :: drest')) := by
      rw [Store.load_eq _ l cell1 hc1,
        Value.proj_update_child l.path mpre.length cell0 cell1 m1 n fs _ hproj0 hupd,
        set_append_length]
    have hclt : c < st.store.vars.length := getElem?_lt_of_some _ _ _ hcp
    have hcp1 : st1.store.vars[c]?
        = some (.struct n fs (mpre ++ zeroLike d1 :: zeroLikeList drest')) := by
      rw [hother1 c hclt hc]; simpa [zeroLikeList] using hcp
    have hupdc : (Value.struct n fs (mpre ++ zeroLike d1 :: zeroLikeList drest')).update
        [mpre.length] m1 = some (.struct n fs (mpre ++ m1 :: zeroLikeList drest')) := by
      simp only [Value.update, getElem?_append_length, set_append_length]
    have hw := Store.write_vars st1.store ⟨c, [mpre.length]⟩ m1 _ _ hcp1 hupdc
    have hclt1 : c < st1.store.vars.length := Nat.lt_of_lt_of_le hclt hlen1
    -- the state after the assignment to field `i` of the copy
    obtain ⟨st', hloop, hcfg', hmaps', hlen', hother', hl', hcp', ⟨c1', cell', hc1', hcell', hover⟩,
        hvis'⟩ :=
      ihl (mpre ++ [m1]) drest' (wpre ++ [w1]) wrest'
        { st1 with store := { st1.store with vars := (st1.store.vars.set c
            (.struct n fs (mpre ++ m1 :: zeroLikeList drest'))) } }
        (by simp [hws]) (by simp [hwlen]) hpf' hdep1.2
        (by
          have : ({ st1.store with vars := (st1.store.vars.set c
              (.struct n fs (mpre ++ m1 :: zeroLikeList drest'))) } : Store).load l
              = st1.store.load l := by
            simp [Store.load, List.getElem?_set_ne hc]
          simpa [this] using hl1)
        (by simp [hclt1])
        (by simpa [hcfg1] using htr) (by simpa [hcfg1] using hflag)
        (by
          intro v hv h
          obtain ⟨hcell, j, hj, hpre⟩ := h
          simp only [List.length_append, List.length_singleton] at hj
          rcases hvis1' v hv with h1 | h1
          · exact hvis v h1 ⟨hcell, j, by omega, hpre⟩
          · have := prefix_snoc_inj l.path v.ptr.path _ _ h1.2 hpre
            omega)
    simp only at hloop hcfg' hmaps' hlen' hother' hl' hcp' hc1' hvis'
    have hcell1' : cell1 = c1' := by
      rw [List.getElem?_set_ne hc, hc1] at hc1'; exact Option.some.inj hc1'
    subst hcell1'
    have hmerged : mergePlainList E s0 st.config.Overwrite st.config.AppendSlice (d1 :: drest')
        (w1 :: wrest') = m1 :: mergePlainList E s0 st.config.Overwrite st.config.AppendSlice
          drest' wrest' := by
      simp [mergePlainList, hm1]
    refine ⟨st', ?_, hcfg'.trans hcfg1, hmaps'.trans hmaps1, ?_, ?_, ?_, ?_,
      ⟨cell0, cell', hc0, hcell', ?_⟩, ?_⟩
    · intro k depth
      have hloop' := hloop k depth
      simp only [List.length_append, List.length_singleton] at hloop'
      have hget : (RValue.ref ⟨l.cell, l.path ++ [mpre.length]⟩).get st1.store = m1 := by
        simp [RValue.get_ref, hli1]
      have hloadc : st1.store.load ⟨c, [mpre.length]⟩ = some (zeroLike d1) := by
        rw [Store.load_eq _ ⟨c, [mpre.length]⟩ _ hcp1]
        simp only [Value.proj, getElem?_append_length]
      have hloadc0 : st1.store.load ⟨c, []⟩
          = some (.struct n fs (mpre ++ zeroLike d1 :: zeroLikeList drest')) := by
        rw [Store.load_eq _ ⟨c, []⟩ _ hcp1]; rfl
      have hmt : ∃ t, m1.type = some t ∧ (zeroLike d1).type = some t := by
        rw [zeroLike_type, hm1t]
        cases d1 <;> simp [plainPair] at hp1 <;> simp [Value.type]
      obtain ⟨t, ht1, ht2⟩ := hmt
      rw [mergeFields]
      simp [RValue.Field, hl, hfexp, hws, hwlen ▸ getElem?_append_length wpre wrest' w1, hrec,
        hloadc0, RValue.Set, hloadc, ht2, assignTo, hget, ht1, hw]
      rw [hws] at hloop'
      exact hloop'
    · exact Nat.le_trans hlen1 (by simpa using hlen')
    · intro c' h1 h2 h3
      rw [hother' c' (by simpa using Nat.lt_of_lt_of_le h1 hlen1) h2 h3,
        List.getElem?_set_ne (Ne.symm h3), hother1 c' h1 h2]
    · rw [hl', hcfg1, hmerged]; simp
    · rw [hcp', hcfg1, hmerged]; simp
    · intro X
      rw [hover X, Value.update_update_prefix l.path [mpre.length] cell0 cell1 m1 X hupd]
    · intro v hv
      rcases hvis' v hv with h1 | h1
      · rcases hvis1' v h1 with h2 | h2
        · exact Or.inl h2
        · exact Or.inr ⟨h2.1, prefix_of_snoc_prefix _ _ _ h2.2⟩
      · exact Or.inr h1

theorem Store.write_inv (s s' : Store) (l : Loc) (x : Value) (h : s.write l x = some s') :
    ∃ cell0 cell', s.vars[l.cell]? = some cell0 ∧ cell0.update l.path x = some cell'
      ∧ s' = { s with vars := s.vars.set l.cell cell' } := by
  unfold Store.write at h
  cases h0 : s.vars[l.cell]? with
  | none => simp [h0] at h
  | some cell0 =>
    simp only [h0] at h
    cases h1 : cell0.update l.path x with
    | none => simp [h1] at h
    | some cell' =>
      simp only [h1] at h
      exact ⟨cell0, cell', rfl, h1, (Option.some.inj h).symm⟩

theorem seenBefore_false_of_fresh (visited : List visit) (l : Loc) (t : Ty)
    (h : ∀ v ∈ visited, ¬ (v.ptr.cell = l.cell ∧ l.path <+: v.ptr.path)) :
    seenBefore visited l t = false := by
  unfold seenBefore
  rw [Bool.eq_false_iff]
  intro hany
  rw [List.any_eq_true] at hany
  obtain ⟨v, hv, hp⟩ := hany
  simp at hp
  exact h v hv ⟨by rw [hp.1], by rw [hp.1]⟩

theorem plain_struct_inv (d x : Value) (hp : plainPair d x = true) (hl : d.isLeaf = false) :
    ∃ n fs vs ws, d = .struct n fs vs ∧ x = .struct n fs ws ∧ fs ≠ []
      ∧ plainFields fs vs ws = true := by
  cases d <;> simp [Value.isLeaf] at hl <;> simp [plainPair] at hp
  rename_i n fs vs
  cases x <;> simp at hp
  rename_i n' fs' ws
  obtain ⟨⟨⟨h1, h2⟩, h3⟩, h4⟩ := hp
  subst h1 h2
  exact ⟨n, fs, vs, ws, rfl, rfl, h3, h4⟩

theorem plain_leaf_type (d x : Value) (hp : plainPair d x = true) (hl : d.isLeaf = true) :
    ∃ t, d.type = some t := by
  cases d <;> simp [Value.isLeaf] at hl <;> simp [Value.type]

theorem getElem?_set_other {α : Type} (xs : List α) (i j : Nat) (a : α) (h : j ≠ i) :
    (xs.set i a)[j]? = xs[j]? := by
  simp [List.getElem?_set, h.symm]

theorem getElem?_set_same {α : Type} (xs : List α) (i : Nat) (a b : α) (h : xs[i]? = some b) :
    (xs.set i a)[i]? = some a := by
  have hlt := getElem?_lt_of_some xs i b h
  simp [List.getElem?_set, hlt]

/-- The leaf case of the plain merge, for every recursion budget. -/
theorem plainSpec_leaf (E : Store → Value → Bool) (s0 : Store)
    (hE : ∀ s1 s2 v, v.isLeaf = true → E s1 v = E s2 v) (N : Nat)
    (d x : Value) (l : Loc) (st : State)
    (hd : d.isLeaf = true) (hp : plainPair d x = true)
    (hl : st.store.load l = some d)
    (htr : st.config.Transformers = none)
    (hflag : st.config.overwriteWithEmptyValue = false)
    (hvis : ∀ v ∈ st.visited, ¬ (v.ptr.cell = l.cell ∧ l.path <+: v.ptr.path)) :
    ∃ st', (∀ k depth, deepMerge E (N + 1 + k) (.ref l) (.imm x) depth st = .ret (.ref l) none st')
      ∧ st'.config = st.config ∧ st'.store.maps = st.store.maps
      ∧ st.store.vars.length ≤ st'.store.vars.length
      ∧ (∀ c, c < st.store.vars.length → c ≠ l.cell → st'.store.vars[c]? = st.store.vars[c]?)
      ∧ (∃ cell0 cell', st.store.vars[l.cell]? = some cell0 ∧ st'.store.vars[l.cell]? = some cell'
          ∧ cell0.update l.path
              (mergePlain E s0 st.config.Overwrite st.config.AppendSlice d x) = some cell')
      ∧ (∀ v ∈ st'.visited, v ∈ st.visited ∨ (v.ptr.cell = l.cell ∧ l.path <+: v.ptr.path)) := by
  obtain ⟨t, ht⟩ := plain_leaf_type d x hp hd
  have hseen := seenBefore_false_of_fresh st.visited l t hvis
  obtain ⟨s', hw, hdm⟩ := deepMerge_leaf E s0 hE d x l st t hd hp hl ht htr hflag hseen
  obtain ⟨cell0, cell', hc0, hup, hs'⟩ := Store.write_inv _ _ _ _ hw
  refine ⟨⟨s', ⟨l, t⟩ :: st.visited, st.config⟩, ?_, rfl, ?_, ?_, ?_, ?_, ?_⟩
  · intro k depth
    have hk : N + 1 + k = (N + k) + 1 := by omega
    rw [hk]
    exact hdm (N + k) depth
  · subst hs'; rfl
  · subst hs'; simp
  · intro c _ hne
    subst hs'
    exact getElem?_set_other _ _ _ _ hne
  · subst hs'
    exact ⟨cell0, cell', hc0, getElem?_set_same _ _ _ _ hc0, hup⟩
  · intro v hv
    simp only [List.mem_cons] at hv
    rcases hv with rfl | hv
    · exact Or.inr ⟨rfl, List.prefix_refl _⟩
    · exact Or.inl hv

theorem load_lt (s : Store) (l : Loc) (d : Value) (h : s.load l = some d) :
    ∃ cell0, s.vars[l.cell]? = some cell0 ∧ cell0.proj l.path = some d
      ∧ l.cell < s.vars.length := by
  unfold Store.load at h
  cases hv : s.vars[l.cell]? with
  | none => simp [hv] at h
  | some v => exact ⟨v, rfl, by simpa [hv] using h, getElem?_lt_of_some _ _ _ hv⟩

theorem not_snoc_prefix (p : List Nat) (j : Nat) : ¬ (p ++ [j] <+: p) := by
  intro h
  have := h.length_le
  simp at this

/-- One step of `deepMerge` at a plain struct: the struct case is entered with
the record of the location added. -/
theorem deepMerge_struct_step (E : Store → Value → Bool) (n : String) (fs : List StructField)
    (vs ws : List Value) (l : Loc) (st : State)
    (hl : st.store.load l = some (.struct n fs vs))
    (htr : st.config.Transformers = none)
    (hflag : st.config.overwriteWithEmptyValue = false)
    (hseen : seenBefore st.visited l (.struct n) = false) (fuel depth : Nat) :
    deepMerge E (fuel + 1) (.ref l) (.imm (.struct n fs ws)) depth st
      = mergeStruct E (deepMerge E fuel) st.config.Overwrite false (.ref l)
          (.imm (.struct n fs ws)) depth ⟨st.store, ⟨l, .struct n⟩ :: st.visited, st.config⟩ := by
  obtain ⟨store, visited, config⟩ := st
  obtain ⟨ow, app, tr, fl⟩ := config
  simp only at hl htr hflag hseen
  subst htr hflag
  simp [deepMerge, RValue.IsValid, RValue.get_imm, enterVisited, RValue.Type,
    RValue.get_ref, hl, hseen, transformerHook, RValue.Kind, Value.kind, Value.type]


/-- The struct case of the plain merge, from the statement one level down. -/
theorem plainSpec_struct (E : Store → Value → Bool) (s0 : Store) (M : Nat)
    (ih : PlainSpec E s0 M)
    (n : String) (fs : List StructField) (vs ws : List Value) (l : Loc) (st : State)
    (hpf : plainFields fs vs ws = true) (hne : fs ≠ [])
    (hdep : Value.depthList vs ≤ M)
    (hl : st.store.load l = some (.struct n fs vs))
    (htr : st.config.Transformers = none)
    (hflag : st.config.overwriteWithEmptyValue = false)
    (hvis : ∀ v ∈ st.visited, ¬ (v.ptr.cell = l.cell ∧ l.path <+: v.ptr.path)) :
    ∃ st', (∀ k depth, deepMerge E (M + 1 + 1 + k) (.ref l) (.imm (.struct n fs ws)) depth st
              = .ret (.ref l) none st')
      ∧ st'.config = st.config ∧ st'.store.maps = st.store.maps
      ∧ st.store.vars.length ≤ st'.store.vars.length
      ∧ (∀ c, c < st.store.vars.length → c ≠ l.cell → st'.store.vars[c]? = st.store.vars[c]?)
      ∧ (∃ cell0 cell', st.store.vars[l.cell]? = some cell0 ∧ st'.store.vars[l.cell]? = some cell'
          ∧ cell0.update l.path (.struct n fs
              (mergePlainList E s0 st.config.Overwrite st.config.AppendSlice vs ws)) = some cell')
      ∧ (∀ v ∈ st'.visited, v ∈ st.visited ∨ (v.ptr.cell = l.cell ∧ l.path <+: v.ptr.path)) := by
  obtain ⟨cell0, hcell0, hproj0, hlt⟩ := load_lt _ _ _ hl
  have hseen := seenBefore_false_of_fresh st.visited l (.struct n) hvis
  have hc : st.store.vars.length ≠ l.cell := by omega
  -- the state at the entry of the field loop
  let stB : State := ⟨{ st.store with vars := st.store.vars ++ [zeroLike (.struct n fs vs)] },
    ⟨l, .struct n⟩ :: st.visited, st.config⟩
  have hBvars : ∀ c, c < st.store.vars.length → stB.store.vars[c]? = st.store.vars[c]? := by
    intro c hc'
    show (st.store.vars ++ [zeroLike (.struct n fs vs)])[c]? = st.store.vars[c]?
    exact List.getElem?_append_left hc'
  have hBl : stB.store.load l = some (.struct n fs ([] ++ vs)) := by
    rw [Store.load_eq stB.store l cell0 (by rw [hBvars _ hlt]; exact hcell0)]
    simpa using hproj0
  have hBc : stB.store.vars[st.store.vars.length]?
      = some (.struct n fs ([] ++ zeroLikeList vs)) := by
    show (st.store.vars ++ [zeroLike (.struct n fs vs)])[st.store.vars.length]? = _
    simp [zeroLike]
  have hBvis : ∀ v ∈ stB.visited, ¬ (v.ptr.cell = l.cell
      ∧ ∃ j, ([] : List Value).length ≤ j ∧ l.path ++ [j] <+: v.ptr.path) := by
    intro v hv
    change v ∈ (⟨l, .struct n⟩ :: st.visited : List visit) at hv
    simp only [List.mem_cons] at hv
    rintro ⟨h1, j, -, h2⟩
    rcases hv with rfl | hv
    · exact not_snoc_prefix _ _ h2
    · exact hvis v hv ⟨h1, prefix_of_snoc_prefix _ _ _ h2⟩
  obtain ⟨st2, hloop, hcfg2, hmaps2, hlen2, hoth2, hl2, hc2, ⟨cB, c2, hcB, hc2l, hover⟩, hvis2⟩ :=
    mergeFields_plain E s0 M ih n fs ws l st.store.vars.length hc fs [] vs [] ws stB
      rfl rfl hpf hdep hBl hBc htr hflag hBvis
  have hcB0 : cB = cell0 := by
    rw [hBvars _ hlt, hcell0] at hcB
    exact (Option.some.inj hcB).symm
  subst hcB0
  -- the final assignment
  obtain ⟨cell', hup, -⟩ := Value.update_proj l.path cB
    (.struct n fs (mergePlainList E s0 st.config.Overwrite st.config.AppendSlice vs ws))
    _ hproj0
  have hup2 : c2.update l.path
      (.struct n fs (mergePlainList E s0 st.config.Overwrite st.config.AppendSlice vs ws))
      = some cell' := by rw [hover]; exact hup
  have hw := Store.write_vars st2.store l _ c2 cell' hc2l hup2
  have hlenB : stB.store.vars.length = st.store.vars.length + 1 := by
    show (st.store.vars ++ [zeroLike (.struct n fs vs)]).length = _
    simp
  refine ⟨{ st2 with store := { st2.store with vars := st2.store.vars.set l.cell cell' } },
    ?_, hcfg2, hmaps2, ?_, ?_, ⟨cB, cell', hcell0, getElem?_set_same _ _ _ _ hc2l, hup⟩, ?_⟩
  · intro k depth
    have hk : M + 1 + 1 + k = (M + 1 + k) + 1 := by omega
    rw [hk, deepMerge_struct_step E n fs vs ws l st hl htr hflag hseen]
    have hexp : hasExportedField (.struct n fs vs) = true :=
      hasExportedField_of_plain (.struct n fs vs) (.struct n fs ws)
        (by simp [plainPair, hpf, hne]) rfl
    have hloop' := hloop k depth
    simp only [List.length_nil] at hloop'
    have hget2 : (st2.store.load ⟨st.store.vars.length, []⟩)
        = some (.struct n fs (mergePlainList E s0 st.config.Overwrite st.config.AppendSlice vs ws)) := by
      rw [Store.load_eq st2.store ⟨st.store.vars.length, []⟩ _ hc2]
      simp [Value.proj]
    simp only [List.nil_append] at hl2
    simp [mergeStruct, RValue.get_ref, hl, hexp, Store.New, stB] at hloop' ⊢
    rw [hloop']
    simp [setOrReplace, RValue.CanSet, RValue.CanAddr, RValue.Set, hl2, Value.type, assignTo,
      RValue.get_ref, hget2, hw]
  · show st.store.vars.length ≤ (st2.store.vars.set l.cell cell').length
    simp only [List.length_set]
    omega
  · intro c hc1 hc2'
    show (st2.store.vars.set l.cell cell')[c]? = _
    rw [getElem?_set_other _ _ _ _ hc2', hoth2 c (by omega) hc2' (by omega), hBvars c hc1]
  · intro v hv
    rcases hvis2 v hv with h | h
    · have h' : v ∈ (⟨l, .struct n⟩ :: st.visited : List visit) := h
      simp only [List.mem_cons] at h'
      rcases h' with rfl | h'
      · exact Or.inr ⟨rfl, List.prefix_refl _⟩
      · exact Or.inl h'
    · exact Or.inr h


theorem depth_leaf (d : Value) (h : d.isLeaf = true) : d.depth = 0 := by
  cases d <;> simp [Value.isLeaf] at h <;> simp [Value.depth]

/-- The plain merge: on two plain values, `deepMerge` at an addressable
destination returns, and leaves `mergePlain` of the two at the location. -/
theorem plainSpec_all (E : Store → Value → Bool) (s0 : Store)
    (hE : ∀ s1 s2 v, v.isLeaf = true → E s1 v = E s2 v) : ∀ N, PlainSpec E s0 N := by
  intro N
  induction N with
  | zero =>
    intro d x l st hp hdep hl htr hflag hvis
    cases hleaf : d.isLeaf with
    | true => exact plainSpec_leaf E s0 hE 0 d x l st hleaf hp hl htr hflag hvis
    | false =>
      obtain ⟨n, fs, vs, ws, rfl, rfl, _, _⟩ := plain_struct_inv d x hp hleaf
      simp [Value.depth] at hdep
  | succ M ih =>
    intro d x l st hp hdep hl htr hflag hvis
    cases hleaf : d.isLeaf with
    | true => exact plainSpec_leaf E s0 hE (M + 1) d x l st hleaf hp hl htr hflag hvis
    | false =>
      obtain ⟨n, fs, vs, ws, rfl, rfl, hne, hpf⟩ := plain_struct_inv d x hp hleaf
      have hdep' : Value.depthList vs ≤ M := by
        simp [Value.depth] at hdep; exact hdep
      have h := plainSpec_struct E s0 M ih n fs vs ws l st hpf hne hdep' hl htr hflag hvis
      simpa [mergePlain] using h

/-- The plain merge through `merge`: with the destination resolved to the
location `l` that holds `d`, `merge` returns no error for every recursion
budget above the nesting depth and leaves `mergePlain d x` at `l`. -/
theorem merge_plain (E : Store → Value → Bool)
    (hE : ∀ s1 s2 v, v.isLeaf = true → E s1 v = E s2 v)
    (resolve : Store → Value → Value → RValue × RValue × Option Error)
    (s : Store) (dst src d x : Value) (l : Loc) (opts : List (Config → Config))
    (hres : resolve s dst src = (.ref l, .imm x, none))
    (hl : s.load l = some d) (hp : plainPair d x = true)
    (htr : (buildConfig opts).Transformers = none)
    (hflag : (buildConfig opts).overwriteWithEmptyValue = false) :
    ∃ s', (∀ k, merge E resolve (d.depth + 1 + k) s dst src opts = .ret none s')
      ∧ s'.load l = some (mergePlain E s (buildConfig opts).Overwrite
          (buildConfig opts).AppendSlice d x)
      ∧ s'.maps = s.maps
      ∧ (∀ c, c < s.vars.length → c ≠ l.cell → s'.vars[c]? = s.vars[c]?) := by
  obtain ⟨st', hdm, _, hmaps, _, hoth, ⟨cell0, cell', hc0, hc', hup⟩, _⟩ :=
    plainSpec_all E s hE d.depth d x l ⟨s, [], buildConfig opts⟩ hp (Nat.le_refl _) hl htr hflag
      (by intro v hv; simp at hv)
  obtain ⟨cell0', hc0', hproj0, _⟩ := load_lt _ _ _ hl
  have hc00 : cell0' = cell0 := by
    simp only at hc0
    rw [hc0] at hc0'; exact (Option.some.inj hc0').symm
  subst hc00
  refine ⟨st'.store, ?_, ?_, hmaps, hoth⟩
  · intro k
    have hty : (mergePlain E s (buildConfig opts).Overwrite (buildConfig opts).AppendSlice d x).type
        = d.type := mergePlain_type E s _ _ d x hp
    have hxt : x.type = d.type := by
      cases d <;> cases x <;> simp [plainPair, Value.kind, Value.type] at hp ⊢
      · exact hp
      · exact hp.1.1.1.symm
    obtain ⟨t, ht⟩ : ∃ t, d.type = some t := by
      cases d <;> simp [plainPair] at hp <;> simp [Value.type]
    simp [merge, hres, RValue.CanSet, RValue.CanAddr, RValue.Type, RValue.get_ref,
      RValue.get_imm, hl, hxt, ht, hdm k 0]
  · rw [Store.load_eq st'.store l cell' hc']
    exact Value.proj_of_update l.path cell0' cell' _ d hproj0 hup

/-! ## Flat structs: the replace formula -/

theorem plainPair_of_leaf (d x : Value) (hd : d.isLeaf = true) (ht : d.type = x.type) :
    plainPair d x = true := by
  cases d <;> simp [Value.isLeaf] at hd <;> cases x <;>
    simp [Value.type] at ht <;> simp [plainPair, Value.kind, Value.type, ht]

theorem plainFields_of_leaves : ∀ (fs : List StructField) (dvs svs : List Value),
    (∀ f ∈ fs, isFieldExported f = true) → dvs.length = fs.length →
    (∀ v ∈ dvs, v.isLeaf = true) → dvs.map Value.type = svs.map Value.type →
    plainFields fs dvs svs = true
  | [], [], [], _, _, _, _ => by simp [plainFields]
  | [], [], _ :: _, _, _, _, h => by simp at h
  | [], _ :: _, _, _, h, _, _ => by simp at h
  | _ :: _, [], _, _, h, _, _ => by simp at h
  | _ :: _, _ :: _, [], _, _, _, h => by simp at h
  | f :: fs, d :: dvs, x :: svs, hexp, hlen, hleaf, hty => by
    simp only [List.map_cons, List.cons.injEq] at hty
    simp only [plainFields, Bool.and_eq_true]
    refine ⟨⟨hexp f (List.mem_cons_self _ _),
      plainPair_of_leaf d x (hleaf d (List.mem_cons_self _ _)) hty.1⟩, ?_⟩
    exact plainFields_of_leaves fs dvs svs
      (fun g hg => hexp g (List.mem_cons_of_mem _ hg)) (by simpa using hlen)
      (fun v hv => hleaf v (List.mem_cons_of_mem _ hv)) hty.2

theorem mergePlain_leaf (E : Store → Value → Bool) (s : Store) (ow : Bool) (d x : Value)
    (hd : d.isLeaf = true) (ht : d.type = x.type) :
    mergePlain E s ow false d x = replaceField E s ow d x := by
  cases d <;> simp [Value.isLeaf] at hd <;> cases x <;>
    simp [Value.type] at ht <;> simp [mergePlain, replaceField]

theorem mergePlainList_leaves (E : Store → Value → Bool) (s : Store) (ow : Bool) :
    ∀ (dvs svs : List Value), (∀ v ∈ dvs, v.isLeaf = true) →
    dvs.map Value.type = svs.map Value.type →
    mergePlainList E s ow false dvs svs = List.zipWith (replaceField E s ow) dvs svs
  | [], [], _, _ => by simp [mergePlainList]
  | [], _ :: _, _, h => by simp at h
  | _ :: _, [], _, h => by simp at h
  | d :: dvs, x :: svs, hleaf, hty => by
    simp only [List.map_cons, List.cons.injEq] at hty
    simp only [mergePlainList, List.zipWith_cons_cons]
    rw [mergePlain_leaf E s ow d x (hleaf d (List.mem_cons_self _ _)) hty.1,
      mergePlainList_leaves E s ow dvs svs (fun v hv => hleaf v (List.mem_cons_of_mem _ hv)) hty.2]

theorem depthList_leaves : ∀ (dvs : List Value), (∀ v ∈ dvs, v.isLeaf = true) →
    Value.depthList dvs = 0
  | [], _ => by simp [Value.depthList]
  | d :: dvs, h => by
    simp [Value.depthList, depth_leaf d (h d (List.mem_cons_self _ _)),
      depthList_leaves dvs (fun v hv => h v (List.mem_cons_of_mem _ hv))]

/-- A struct without fields: `deepMerge` takes the branch of the structs
without exported field and assigns nothing. -/
theorem merge_empty_struct (E : Store → Value → Bool)
    (resolve : Store → Value → Value → RValue × RValue × Option Error)
    (s : Store) (dst src : Value) (l : Loc) (n : String) (opts : List (Config → Config))
    (hres : resolve s dst src = (.ref l, .imm (.struct n [] []), none))
    (hl : s.load l = some (.struct n [] []))
    (htr : (buildConfig opts).Transformers = none) (fuel : Nat) :
    merge E resolve (fuel + 1) s dst src opts = .ret none s := by
  simp only [merge, hres, RValue.CanSet, RValue.CanAddr, RValue.Type, RValue.get_ref,
    RValue.get_imm, hl, Value.type]
  simp [deepMerge, RValue.IsValid, RValue.get_imm, enterVisited, RValue.Type,
    RValue.get_ref, hl, seenBefore, transformerHook, htr, RValue.Kind, Value.kind, Value.type,
    mergeStruct, hasExportedField, hasExportedFieldLoop]
  split_ifs <;> rfl

/-- The replace formula on a flat struct of scalar and slice fields. -/
theorem merge_flat (E : Store → Value → Bool)
    (resolve : Store → Value → Value → RValue × RValue × Option Error)
    (s : Store) (dst src : Value) (opts : List (Config → Config))
    (l : Loc) (n : String) (fs : List StructField) (dvs svs : List Value)
    (hres : resolve s dst src = (.ref l, .imm (.struct n fs svs), none))
    (hdst : s.load l = some (.struct n fs dvs))
    (hexp : ∀ f ∈ fs, isFieldExported f = true)
    (hlen : dvs.length = fs.length)
    (hleaf : ∀ v ∈ dvs, v.isLeaf = true)
    (hty : dvs.map Value.type = svs.map Value.type)
    (hE : ∀ s1 s2 v, v.isLeaf = true → E s1 v = E s2 v)
    (happ : (buildConfig opts).AppendSlice = false)
    (htr : (buildConfig opts).Transformers = none)
    (hflag : (buildConfig opts).overwriteWithEmptyValue = false) :
    ∃ s', (∀ fuel, Merge E resolve (fuel + 2) s dst src opts = .ret none s')
      ∧ s'.load l = some (.struct n fs
          (List.zipWith (replaceField E s (buildConfig opts).Overwrite) dvs svs)) := by
  cases fs with
  | nil =>
    have hd : dvs = [] := List.length_eq_zero.mp hlen
    subst hd
    have hs : svs = [] := by
      cases svs with
      | nil => rfl
      | cons _ _ => simp at hty
    subst hs
    exact ⟨s, fun fuel => merge_empty_struct E resolve s dst src l n opts hres hdst htr (fuel + 1),
      by simpa using hdst⟩
  | cons f fs' =>
    have hpf := plainFields_of_leaves (f :: fs') dvs svs hexp hlen hleaf hty
    have hp : plainPair (.struct n (f :: fs') dvs) (.struct n (f :: fs') svs) = true := by
      simp [plainPair, hpf]
    obtain ⟨s', hm, hload, -, -⟩ := merge_plain E hE resolve s dst src _ _ l opts hres hdst hp
      htr hflag
    refine ⟨s', ?_, ?_⟩
    · intro fuel
      have h := hm fuel
      simp only [Value.depth, depthList_leaves dvs hleaf] at h
      have hk : 0 + 1 + 1 + fuel = fuel + 2 := by omega
      rw [hk] at h
      exact h
    · rw [hload, happ]
      simp only [mergePlain]
      rw [mergePlainList_leaves E s _ dvs svs hleaf hty]

theorem isEmptyValue_leaf_indep (s1 s2 : Store) (v : Value) (h : v.isLeaf = true) :
    isEmptyValue s1 v = isEmptyValue s2 v := by
  cases v <;> simp [Value.isLeaf] at h <;> simp [isEmptyValue]

/-- C4 (per-field replace formula): for a settable struct destination whose
fields are all exported and of scalar or slice kind and a source of the same
type, with append mode off and no transformers, `Merge` succeeds and every
resulting field is `src.f` when `src.f` is non-empty and (overwrite is on or
`dst.f` is empty), and the original `dst.f` otherwise.  In particular
`dst = {A: 0, B: "x"}`, `src = {A: 5, B: "y"}` gives `{A: 5, B: "x"}` by
default and `{A: 5, B: "y"}` with `WithOverride`, and the slice field
`dst = [1]`, `src = [2, 3]` stays `[1]` by default (the second variable of the
resulting heaps is the scratch copy of the struct case).  The emptiness
predicate `E` is any predicate whose verdict on a scalar or a slice does not
depend on the heap; no option of merge.go sets the one-shot flag. -/
theorem per_field_replace_formula
    (E : Store → Value → Bool)
    (resolve : Store → Value → Value → RValue × RValue × Option Error)
    (s : Store) (dst src : Value) (opts : List (Config → Config))
    (l : Loc) (n : String) (fs : List StructField) (dvs svs : List Value)
    (hres : resolve s dst src = (.ref l, .imm (.struct n fs svs), none))
    (hdst : s.load l = some (.struct n fs dvs))
    (hexp : ∀ f ∈ fs, isFieldExported f = true)
    (hlen : dvs.length = fs.length)
    (hleaf : ∀ v ∈ dvs, v.isLeaf = true)
    (hty : dvs.map Value.type = svs.map Value.type)
    (hE : ∀ s1 s2 v, v.isLeaf = true → E s1 v = E s2 v)
    (happ : (buildConfig opts).AppendSlice = false)
    (htr : (buildConfig opts).Transformers = none)
    (hflag : (buildConfig opts).overwriteWithEmptyValue = false) :
    (∃ s', (∀ fuel, Merge E resolve (fuel + 2) s dst src opts = .ret none s')
      ∧ s'.load l = some (.struct n fs
          (List.zipWith (fun d x => if !E s x && ((buildConfig opts).Overwrite || E s d)
            then x else d) dvs svs)))
    ∧ Merge isEmptyValue resolveValues 2 scenario1 (.ptr (.struct "T") (some ⟨0, []⟩))
        (structAB 5 "y") []
      = .ret none ⟨[structAB 5 "x", structAB 5 "x"], []⟩
    ∧ Merge isEmptyValue resolveValues 2 scenario1 (.ptr (.struct "T") (some ⟨0, []⟩))
        (structAB 5 "y") [WithOverride]
      = .ret none ⟨[structAB 5 "y", structAB 5 "y"], []⟩
    ∧ Merge isEmptyValue resolveValues 2 sliceFieldStore (.ptr (.struct "W") (some ⟨0, []⟩))
        (structS [2, 3]) []
      = .ret none ⟨[structS [1], structS [1]], []⟩ :=
  ⟨merge_flat E resolve s dst src opts l n fs dvs svs hres hdst hexp hlen hleaf hty hE happ htr
      hflag,
    by decide, by decide, by decide⟩

/-- Witness of C4 on scenario 1 of the spec with `WithOverride`. -/
theorem per_field_replace_formula_witness :
    (∃ s', (∀ fuel, Merge isEmptyValue resolveValues (fuel + 2) scenario1
          (.ptr (.struct "T") (some ⟨0, []⟩)) (structAB 5 "y") [WithOverride] = .ret none s')
      ∧ s'.load ⟨0, []⟩ = some (.struct "T" [fieldA, fieldB]
          (List.zipWith (fun d x => if !isEmptyValue scenario1 x
              && ((buildConfig [WithOverride]).Overwrite || isEmptyValue scenario1 d)
            then x else d) [Value.int 0, Value.str "x"] [Value.int 5, Value.str "y"])))
    ∧ Merge isEmptyValue resolveValues 2 scenario1 (.ptr (.struct "T") (some ⟨0, []⟩))
        (structAB 5 "y") []
      = .ret none ⟨[structAB 5 "x", structAB 5 "x"], []⟩
    ∧ Merge isEmptyValue resolveValues 2 scenario1 (.ptr (.struct "T") (some ⟨0, []⟩))
        (structAB 5 "y") [WithOverride]
      = .ret none ⟨[structAB 5 "y", structAB 5 "y"], []⟩
    ∧ Merge isEmptyValue resolveValues 2 sliceFieldStore (.ptr (.struct "W") (some ⟨0, []⟩))
        (structS [2, 3]) []
      = .ret none ⟨[structS [1], structS [1]], []⟩ :=
  per_field_replace_formula isEmptyValue resolveValues scenario1
    (.ptr (.struct "T") (some ⟨0, []⟩)) (structAB 5 "y") [WithOverride] ⟨0, []⟩ "T"
    [fieldA, fieldB] [.int 0, .str "x"] [.int 5, .str "y"]
    (by decide) (by decide) (by decide) (by decide) (by decide) (by decide)
    isEmptyValue_leaf_indep (by rfl) (by rfl) (by rfl)

/-! ## Plain structs: positions -/

theorem plainFields_index (E : Store → Value → Bool) (s : Store) (ow app : Bool) :
    ∀ (fs : List StructField) (vs ws : List Value) (i : Nat) (f : Value),
    plainFields fs vs ws = true → vs[i]? = some f →
    ∃ g, ws[i]? = some g ∧ plainPair f g = true
      ∧ (mergePlainList E s ow app vs ws)[i]? = some (mergePlain E s ow app f g)
  | [], [], [], _, _, _, h => by simp at h
  | [], [], _ :: _, _, _, h, _ => by simp [plainFields] at h
  | [], _ :: _, _, _, _, h, _ => by simp [plainFields] at h
  | _ :: _, [], _, _, _, _, h => by simp at h
  | _ :: _, _ :: _, [], _, _, h, _ => by simp [plainFields] at h
  | _ :: fs, v :: vs, w :: ws, 0, f, h, hi => by
    simp [plainFields] at h
    simp at hi
    subst hi
    exact ⟨w, by simp, h.1.2, by simp [mergePlainList]⟩
  | _ :: fs, v :: vs, w :: ws, i + 1, f, h, hi => by
    simp [plainFields] at h
    simp at hi
    obtain ⟨g, h1, h2, h3⟩ := plainFields_index E s ow app fs vs ws i f h.2 hi
    exact ⟨g, by simpa using h1, h2, by simpa [mergePlainList] using h3⟩

/-- The plain merge commutes with the descent to a position. -/
theorem mergePlain_proj (E : Store → Value → Bool) (s : Store) (ow app : Bool) :
    ∀ (p : List Nat) (d x v : Value), plainPair d x = true → d.proj p = some v →
    ∃ w, x.proj p = some w ∧ plainPair v w = true
      ∧ (mergePlain E s ow app d x).proj p = some (mergePlain E s ow app v w) := by
  intro p
  induction p with
  | nil =>
    intro d x v hp hd
    simp [Value.proj] at hd
    subst hd
    exact ⟨x, by simp [Value.proj], hp, by simp [Value.proj]⟩
  | cons i p ih =>
    intro d x v hp hd
    cases d <;> simp [Value.proj] at hd
    rename_i n fs vs
    cases x <;> simp [plainPair] at hp
    rename_i n' fs' ws
    obtain ⟨⟨⟨rfl, rfl⟩, _⟩, hpf⟩ := hp
    cases hf : vs[i]? with
    | none => simp [hf] at hd
    | some f =>
      simp [hf] at hd
      obtain ⟨g, hg, hfg, hm⟩ := plainFields_index E s ow app fs vs ws i f hpf hf
      obtain ⟨w, hw, hvw, hr⟩ := ih f g v hfg hd
      exact ⟨w, by simp [Value.proj, hg, hw], hvw, by simp [mergePlain, Value.proj, hm, hr]⟩

theorem mergePlain_keep_nonempty (E : Store → Value → Bool) (s : Store) (v w : Value)
    (hv : v.isLeaf = true) (hE : E s v = false) :
    mergePlain E s false false v w = v := by
  cases v <;> simp [Value.isLeaf] at hv <;> simp [mergePlain, hE]
  cases w <;> simp [hE]

theorem mergePlain_keep_empty_src (E : Store → Value → Bool) (s : Store) (app : Bool)
    (v w : Value)
    (hEs : ∀ s e n ys, E s (.slice e n ys) = true → ys = [])
    (hv : v.isLeaf = true) (hvw : plainPair v w = true) (hE : E s w = true) :
    mergePlain E s true app v w = v := by
  cases v <;> simp [Value.isLeaf] at hv <;> simp [mergePlain, hE]
  cases w <;> simp [plainPair, Value.type] at hvw
  rename_i e n xs e' n' ys
  have := hEs s e' n' ys hE
  subst this
  simp [hE]

mutual
theorem mergePlain_zero (E : Store → Value → Bool) (s : Store)
    (hEz : ∀ s v, v.isScalar = true → (E s v = true ↔ zeroLike v = v)) :
    ∀ (d x : Value), plainPair d x = true → scalarLeaves d = true → zeroLike d = d →
    mergePlain E s false false d x = x
  | .struct n fs vs, x, hp, hs, hz => by
    cases x <;> simp [plainPair] at hp
    rename_i n' fs' ws
    obtain ⟨⟨⟨rfl, rfl⟩, _⟩, hpf⟩ := hp
    simp only [scalarLeaves] at hs
    simp only [zeroLike, Value.struct.injEq, true_and] at hz
    simp only [mergePlain]
    rw [mergePlainList_zero E s hEz fs vs ws hpf hs hz]
  | .bool b, x, hp, _, hz => by
    cases x <;> simp [plainPair, Value.kind] at hp
    rename_i c
    have hd := (hEz s (.bool b) rfl).2 hz
    simp only [mergePlain, hd, Bool.or_true, Bool.and_true]
    cases hx : E s (.bool c) with
    | false => simp
    | true =>
      have h1 : zeroLike (Value.bool b) = zeroLike (Value.bool c) := rfl
      rw [hz, (hEz s (.bool c) rfl).1 hx] at h1
      simpa using h1
  | .int b, x, hp, _, hz => by
    cases x <;> simp [plainPair, Value.kind] at hp
    rename_i c
    have hd := (hEz s (.int b) rfl).2 hz
    simp only [mergePlain, hd, Bool.or_true, Bool.and_true]
    cases hx : E s (.int c) with
    | false => simp
    | true =>
      have h1 : zeroLike (Value.int b) = zeroLike (Value.int c) := rfl
      rw [hz, (hEz s (.int c) rfl).1 hx] at h1
      simpa using h1
  | .str b, x, hp, _, hz => by
    cases x <;> simp [plainPair, Value.kind] at hp
    rename_i c
    have hd := (hEz s (.str b) rfl).2 hz
    simp only [mergePlain, hd, Bool.or_true, Bool.and_true]
    cases hx : E s (.str c) with
    | false => simp
    | true =>
      have h1 : zeroLike (Value.str b) = zeroLike (Value.str c) := rfl
      rw [hz, (hEz s (.str c) rfl).1 hx] at h1
      simpa using h1
  | .invalid, _, hp, _, _ => by simp [plainPair] at hp
  | .chan _ _, _, hp, _, _ => by simp [plainPair] at hp
  | .func _, _, hp, _, _ => by simp [plainPair] at hp
  | .iface _, _, hp, _, _ => by simp [plainPair] at hp
  | .map _ _ _, _, hp, _, _ => by simp [plainPair] at hp
  | .ptr _ _, _, hp, _, _ => by simp [plainPair] at hp
  | .slice _ _ _, _, _, hs, _ => by simp [scalarLeaves, Value.isScalar] at hs
theorem mergePlainList_zero (E : Store → Value → Bool) (s : Store)
    (hEz : ∀ s v, v.isScalar = true → (E s v = true ↔ zeroLike v = v)) :
    ∀ (fs : List StructField) (vs ws : List Value), plainFields fs vs ws = true →
    scalarLeavesList vs = true → zeroLikeList vs = vs →
    mergePlainList E s false false vs ws = ws
  | [], [], [], _, _, _ => by simp [mergePlainList]
  | [], [], _ :: _, h, _, _ => by simp [plainFields] at h
  | [], _ :: _, _, h, _, _ => by simp [plainFields] at h
  | _ :: _, [], _, h, _, _ => by simp [plainFields] at h
  | _ :: _, _ :: _, [], h, _, _ => by simp [plainFields] at h
  | _ :: fs, v :: vs, w :: ws, h, hs, hz => by
    simp [plainFields] at h
    simp [scalarLeavesList] at hs
    simp [zeroLikeList] at hz
    simp only [mergePlainList]
    rw [mergePlain_zero E s hEz v w h.1.2 hs.1 hz.1,
      mergePlainList_zero E s hEz fs vs ws h.2 hs.2 hz.2]
end


theorem isEmptyValue_scalar_zero (s : Store) (v : Value) (h : v.isScalar = true) :
    isEmptyValue s v = true ↔ zeroLike v = v := by
  cases v with
  | bool b => cases b <;> simp [isEmptyValue, zeroLike]
  | int i =>
    simp only [isEmptyValue, zeroLike, beq_iff_eq, Value.int.injEq]
    exact eq_comm
  | str x =>
    simp only [isEmptyValue, zeroLike, beq_iff_eq, Value.str.injEq]
    constructor
    · intro hx
      have hd : x.data = [] := List.length_eq_zero.mp hx
      exact String.ext (by rw [hd])
    · intro hx; rw [← hx]; rfl
  | _ => simp [Value.isScalar] at h

theorem isEmptyValue_slice (s : Store) (e : Ty) (n : Bool) (ys : List Value)
    (h : isEmptyValue s (.slice e n ys) = true) : ys = [] := by
  simpa [isEmptyValue] using h

/-- Counterexample to C1 as stated: the destination `U{A: 0, b: 0}` is the
zero value of `U`, hence empty; the default merge of `U{A: 1, b: 2}` into it
succeeds and leaves `U{A: 1, b: 0}`, which is not the source: the unexported
field `b` is not filled. -/
theorem fill_empty_counterexample :
    isEmptyValue fillStore (structU 0 0) = true
    ∧ Merge isEmptyValue resolveValues 2 fillStore (.ptr (.struct "U") (some ⟨0, []⟩))
        (structU 1 2) []
      = .ret none ⟨[structU 1 0, structU 1 0], []⟩
    ∧ structU 1 0 ≠ structU 1 2 := by
  decide

/-- C1 as amended (fill-empty default): for a type made of scalars and of
structs with at least one field whose fields are all exported, a settable
destination that holds the zero value of the type, and a source of the same
type passed by value, `Merge` with the default options succeeds and leaves the
destination equal to the source.  The emptiness predicate `E` is any predicate
that holds of a scalar exactly when the scalar is the zero value of its type,
and whose verdict on a slice does not depend on the heap. -/
theorem fill_empty_plain
    (E : Store → Value → Bool)
    (resolve : Store → Value → Value → RValue × RValue × Option Error)
    (s : Store) (dst src d x : Value) (l : Loc)
    (hres : resolve s dst src = (.ref l, .imm x, none))
    (hdst : s.load l = some d)
    (hp : plainPair d x = true)
    (hsc : scalarLeaves d = true)
    (hzero : zeroLike d = d)
    (hE : ∀ s1 s2 v, v.isLeaf = true → E s1 v = E s2 v)
    (hEz : ∀ s v, v.isScalar = true → (E s v = true ↔ zeroLike v = v)) :
    ∃ s', (∀ fuel, Merge E resolve (d.depth + 1 + fuel) s dst src [] = .ret none s')
      ∧ s'.load l = some x := by
  obtain ⟨s', hm, hload, -, -⟩ := merge_plain E hE resolve s dst src d x l [] hres hdst hp
    rfl rfl
  refine ⟨s', hm, ?_⟩
  rw [hload]
  have hb : (buildConfig []).Overwrite = false ∧ (buildConfig []).AppendSlice = false :=
    ⟨rfl, rfl⟩
  rw [hb.1, hb.2, mergePlain_zero E s hEz d x hp hsc hzero]

/-- Witness of C1 (amended): the zero value of `T` filled from
`T{A: 5, B: "y"}`. -/
theorem fill_empty_plain_witness :
    ∃ s', (∀ fuel, Merge isEmptyValue resolveValues ((structAB 0 "").depth + 1 + fuel) zeroStore
          (.ptr (.struct "T") (some ⟨0, []⟩)) (structAB 5 "y") [] = .ret none s')
      ∧ s'.load ⟨0, []⟩ = some (structAB 5 "y") :=
  fill_empty_plain isEmptyValue resolveValues zeroStore (.ptr (.struct "T") (some ⟨0, []⟩))
    (structAB 5 "y") (structAB 0 "") (structAB 5 "y") ⟨0, []⟩
    (by decide) (by decide) (by decide) (by decide) (by decide)
    isEmptyValue_leaf_indep isEmptyValue_scalar_zero

set_option maxHeartbeats 4000000 in
/-- Counterexample to C2 as stated.  With the default options the field `P` of
`N{P: T{A: 1, B: ""}}` is non-empty before the merge of `N{P: T{A: 2, B: "y"}}`
and holds `T{A: 1, B: "y"}` after it; without overwrite and with
`WithAppendSlice` the non-empty field `S = [1]` of `W` holds `[1, 2, 3]` after
the merge of `W{S: [2, 3]}`. -/
theorem preserve_non_empty_counterexample :
    (nestedStore.load ⟨0, [0]⟩ = some (structAB 1 "")
      ∧ isEmptyValue nestedStore (structAB 1 "") = false
      ∧ Merge isEmptyValue resolveValues 3 nestedStore (.ptr (.struct "N") (some ⟨0, []⟩))
          (structN 2 "y") []
        = .ret none ⟨[structN 1 "y", structN 1 "y", structAB 1 "y"], []⟩
      ∧ structAB 1 "y" ≠ structAB 1 "")
    ∧ (isEmptyValue sliceFieldStore (.slice .int false [.int 1]) = false
      ∧ Merge isEmptyValue resolveValues 2 sliceFieldStore (.ptr (.struct "W") (some ⟨0, []⟩))
          (structS [2, 3]) [WithAppendSlice]
        = .ret none ⟨[structS [1, 2, 3], structS [1, 2, 3]], []⟩) :=
  ⟨⟨by decide, by decide, by rfl, by decide⟩, by decide, by rfl⟩

/-- C2 as amended (preserve-non-empty default): for a settable destination of
a type made of scalars, slices and structs with at least one field whose
fields are all exported, and a source of the same type passed by value,
`Merge` without overwrite, append mode and transformers succeeds, and every
scalar or slice field of the destination, at any nesting depth, that was
non-empty before the merge has exactly its pre-merge value after it.  The
emptiness predicate `E` is any predicate whose verdict on a scalar or a slice
does not depend on the heap; no option of merge.go sets the one-shot flag. -/
theorem preserve_non_empty_leaves
    (E : Store → Value → Bool)
    (resolve : Store → Value → Value → RValue × RValue × Option Error)
    (s : Store) (dst src d x : Value) (l : Loc) (opts : List (Config → Config))
    (hres : resolve s dst src = (.ref l, .imm x, none))
    (hdst : s.load l = some d)
    (hp : plainPair d x = true)
    (hE : ∀ s1 s2 v, v.isLeaf = true → E s1 v = E s2 v)
    (how : (buildConfig opts).Overwrite = false)
    (happ : (buildConfig opts).AppendSlice = false)
    (htr : (buildConfig opts).Transformers = none)
    (hflag : (buildConfig opts).overwriteWithEmptyValue = false) :
    ∃ s' r, (∀ fuel, Merge E resolve (d.depth + 1 + fuel) s dst src opts = .ret none s')
      ∧ s'.load l = some r
      ∧ ∀ p v, d.proj p = some v → v.isLeaf = true → E s v = false → r.proj p = some v := by
  obtain ⟨s', hm, hload, -, -⟩ := merge_plain E hE resolve s dst src d x l opts hres hdst hp
    htr hflag
  refine ⟨s', _, hm, hload, ?_⟩
  intro p v hv hleaf hne
  obtain ⟨w, -, -, hr⟩ := mergePlain_proj E s false false p d x v hp hv
  rw [how, happ, hr, mergePlain_keep_nonempty E s v w hleaf hne]

/-- Witness of C2 (amended) on scenario 1 of the spec. -/
theorem preserve_non_empty_leaves_witness :
    ∃ s' r, (∀ fuel, Merge isEmptyValue resolveValues ((structAB 0 "x").depth + 1 + fuel)
          scenario1 (.ptr (.struct "T") (some ⟨0, []⟩)) (structAB 5 "y") [] = .ret none s')
      ∧ s'.load ⟨0, []⟩ = some r
      ∧ ∀ p v, (structAB 0 "x").proj p = some v → v.isLeaf = true
          → isEmptyValue scenario1 v = false → r.proj p = some v :=
  preserve_non_empty_leaves isEmptyValue resolveValues scenario1
    (.ptr (.struct "T") (some ⟨0, []⟩)) (structAB 5 "y") (structAB 0 "x") (structAB 5 "y")
    ⟨0, []⟩ [] (by decide) (by decide) (by decide) isEmptyValue_leaf_indep
    (by rfl) (by rfl) (by rfl) (by rfl)

/-- Counterexample to C3 as stated: with `WithOverride` (the overwrite-empty
flag is never set), the entry `"a"` of the destination map `{"a": 1}` is
non-empty and the entry `"a"` of the source map `{"a": 0}` is empty, yet the
merge succeeds and leaves `{"a": 0}` in the destination. -/
theorem overwrite_no_erasure_counterexample :
    eraseStore.mapGet (some 0) (.str "a") = .int 1
    ∧ eraseStore.mapGet (some 1) (.str "a") = .int 0
    ∧ isEmptyValue eraseStore (.int 0) = true ∧ isEmptyValue eraseStore (.int 1) = false
    ∧ Merge isEmptyValue resolveValues 1 eraseStore
        (.ptr (.map .string .int) (some ⟨0, []⟩)) (.map .string .int (some 1)) [WithOverride]
      = .ret none ⟨[.map .string .int (some 0)],
          [[(.str "a", .int 0)], [(.str "a", .int 0)]]⟩ := by
  decide

/-- C3 as amended (overwrite dominance, no erasure by empties): for a settable
destination of a type made of scalars, slices and structs with at least one
field whose fields are all exported, and a source of the same type passed by
value, `Merge` with overwrite enabled and without transformers succeeds, and
for every scalar or slice field, at any nesting depth, whose source value is
empty, the destination value is unchanged by the merge.  The emptiness
predicate `E` is any predicate whose verdict on a scalar or a slice does not
depend on the heap and that holds of no slice with elements; no option of
merge.go sets the one-shot flag. -/
theorem overwrite_keeps_on_empty_src
    (E : Store → Value → Bool)
    (resolve : Store → Value → Value → RValue × RValue × Option Error)
    (s : Store) (dst src d x : Value) (l : Loc) (opts : List (Config → Config))
    (hres : resolve s dst src = (.ref l, .imm x, none))
    (hdst : s.load l = some d)
    (hp : plainPair d x = true)
    (hE : ∀ s1 s2 v, v.isLeaf = true → E s1 v = E s2 v)
    (hEs : ∀ s e n ys, E s (.slice e n ys) = true → ys = [])
    (how : (buildConfig opts).Overwrite = true)
    (htr : (buildConfig opts).Transformers = none)
    (hflag : (buildConfig opts).overwriteWithEmptyValue = false) :
    ∃ s' r, (∀ fuel, Merge E resolve (d.depth + 1 + fuel) s dst src opts = .ret none s')
      ∧ s'.load l = some r
      ∧ ∀ p v w, d.proj p = some v → x.proj p = some w → v.isLeaf = true → E s w = true
          → r.proj p = some v := by
  obtain ⟨s', hm, hload, -, -⟩ := merge_plain E hE resolve s dst src d x l opts hres hdst hp
    htr hflag
  refine ⟨s', _, hm, hload, ?_⟩
  intro p v w hv hw hleaf hemp
  obtain ⟨w', hw', hvw, hr⟩ := mergePlain_proj E s true (buildConfig opts).AppendSlice p d x v
    hp hv
  rw [hw] at hw'
  cases hw'
  rw [how, hr, mergePlain_keep_empty_src E s _ v w hEs hleaf hvw hemp]

/-- Witness of C3 (amended): `T{A: 7, B: "x"}` merged with `T{A: 0, B: "y"}`
under `WithOverride`. -/
theorem overwrite_keeps_on_empty_src_witness :
    ∃ s' r, (∀ fuel, Merge isEmptyValue resolveValues ((structAB 7 "x").depth + 1 + fuel)
          overwriteStore (.ptr (.struct "T") (some ⟨0, []⟩)) (structAB 0 "y") [WithOverride]
            = .ret none s')
      ∧ s'.load ⟨0, []⟩ = some r
      ∧ ∀ p v w, (structAB 7 "x").proj p = some v → (structAB 0 "y").proj p = some w
          → v.isLeaf = true → isEmptyValue overwriteStore w = true → r.proj p = some v :=
  overwrite_keeps_on_empty_src isEmptyValue resolveValues overwriteStore
    (.ptr (.struct "T") (some ⟨0, []⟩)) (structAB 0 "y") (structAB 7 "x") (structAB 0 "y")
    ⟨0, []⟩ [WithOverride] (by decide) (by decide) (by decide) isEmptyValue_leaf_indep
    isEmptyValue_slice (by rfl) (by rfl) (by rfl)

/-! ## Entry validation -/

/-- Counterexample to C11 as stated: the source is a nil pointer of type `*T`
and the destination a pointer to a variable of type `T`.  The resolution
succeeds and gives the zero Value as the source handle, the destination is
settable, and `merge` panics at the comparison of the two types (`Type` of the
zero Value), for every recursion budget: it returns none of the three errors
and does not reach `deepMerge`. -/
theorem entry_validation_counterexample :
    resolveValues scenario1 (.ptr (.struct "T") (some ⟨0, []⟩)) (.ptr (.struct "T") none)
      = (.ref ⟨0, []⟩, .imm .invalid, none)
    ∧ (RValue.ref ⟨0, []⟩).CanSet = true
    ∧ ∀ fuel, merge isEmptyValue resolveValues fuel scenario1
        (.ptr (.struct "T") (some ⟨0, []⟩)) (.ptr (.struct "T") none) [] = .panic :=
  ⟨by rfl, by rfl, fun _ => by rfl⟩

/-- C11 as amended (entry validation): `merge` returns the error of the
argument resolution when it fails; otherwise the 'cannot set dst' error when
the resolved destination is not settable; otherwise it panics when one of the
two resolved handles is the zero Value, which has no type; otherwise it
returns `ErrDifferentArgumentsTypes` when the two resolved types differ.  In
these four cases the result is the same for every recursion budget, the empty
one included (`deepMerge` is not consulted), and the heap is left as it was.
Otherwise the result is the error and the heap of the one call of `deepMerge`
at depth 0 with an empty visited map and the configuration built from the
options. -/
theorem entry_validation
    (E : Store → Value → Bool)
    (resolve : Store → Value → Value → RValue × RValue × Option Error)
    (s : Store) (dst src : Value) (opts : List (Config → Config)) :
    (∀ vDst vSrc err, resolve s dst src = (vDst, vSrc, some err) →
        ∀ fuel, merge E resolve fuel s dst src opts = .ret (some err) s)
    ∧ (∀ vDst vSrc, resolve s dst src = (vDst, vSrc, none) → vDst.CanSet = false →
        ∀ fuel, merge E resolve fuel s dst src opts = .ret (some .CannotSet) s)
    ∧ (∀ vDst vSrc, resolve s dst src = (vDst, vSrc, none) → vDst.CanSet = true →
        (vDst.IsValid s = false ∨ vSrc.IsValid s = false) →
        ∀ fuel, merge E resolve fuel s dst src opts = .panic)
    ∧ (∀ vDst vSrc td ts, resolve s dst src = (vDst, vSrc, none) → vDst.CanSet = true →
        vDst.Type s = some td → vSrc.Type s = some ts → td ≠ ts →
        ∀ fuel, merge E resolve fuel s dst src opts = .ret (some .ErrDifferentArgumentsTypes) s)
    ∧ (∀ vDst vSrc td, resolve s dst src = (vDst, vSrc, none) → vDst.CanSet = true →
        vDst.Type s = some td → vSrc.Type s = some td →
        ∀ fuel, merge E resolve fuel s dst src opts
          = match deepMerge E fuel vDst vSrc 0 ⟨s, [], buildConfig opts⟩ with
            | .ret _ err st => .ret err st.store
            | .panic => .panic
            | .outOfFuel => .outOfFuel)
    ∧ (∀ v : RValue, v.IsValid s = true ↔ ∃ t, v.Type s = some t) := by
  have hty : ∀ v : RValue, v.IsValid s = true ↔ ∃ t, v.Type s = some t := by
    intro v
    simp only [RValue.IsValid, RValue.Type]
    cases v.get s <;> simp [Value.kind, Value.type]
  refine ⟨?_, ?_, ?_, ?_, ?_, hty⟩
  · intro vDst vSrc err h fuel
    simp [merge, h]
  · intro vDst vSrc h hs fuel
    simp [merge, h, hs]
  · intro vDst vSrc h hs hv fuel
    have hnone : vDst.Type s = none ∨ vSrc.Type s = none := by
      rcases hv with hv | hv
      · left
        cases ht : vDst.Type s with
        | none => rfl
        | some t =>
          have := (hty vDst).2 ⟨t, ht⟩
          rw [hv] at this
          exact absurd this (by simp)
      · right
        cases ht : vSrc.Type s with
        | none => rfl
        | some t =>
          have := (hty vSrc).2 ⟨t, ht⟩
          rw [hv] at this
          exact absurd this (by simp)
    rcases hnone with h1 | h1
    · simp [merge, h, hs, h1]
    · cases h2 : vDst.Type s <;> simp [merge, h, hs, h1, h2]
  · intro vDst vSrc td ts h hs h1 h2 hne fuel
    simp [merge, h, hs, h1, h2, hne]
  · intro vDst vSrc td h hs h1 h2 fuel
    simp only [merge, h, hs, h1, h2]
    cases deepMerge E fuel vDst vSrc 0 ⟨s, [], buildConfig opts⟩ <;> simp

/-- Witness of C11 (amended): a failing resolution, a destination passed by
value, a nil pointer as the source, a `string` source for a destination of
type `T`, and scenario 1 of the spec. -/
theorem entry_validation_witness :
    (∀ fuel, merge isEmptyValue failingResolve fuel scenario1 (.int 1) (.int 2) []
        = .ret (some (.Other 1)) scenario1)
    ∧ (∀ fuel, merge isEmptyValue resolveValues fuel scenario1 (.int 1) (.int 2) []
        = .ret (some .CannotSet) scenario1)
    ∧ (∀ fuel, merge isEmptyValue resolveValues fuel scenario1
          (.ptr (.struct "T") (some ⟨0, []⟩)) (.ptr (.struct "T") none) [] = .panic)
    ∧ (∀ fuel, merge isEmptyValue resolveValues fuel scenario1
          (.ptr (.struct "T") (some ⟨0, []⟩)) (.str "y") []
        = .ret (some .ErrDifferentArgumentsTypes) scenario1)
    ∧ (∀ fuel, merge isEmptyValue resolveValues fuel scenario1
          (.ptr (.struct "T") (some ⟨0, []⟩)) (structAB 5 "y") []
        = match deepMerge isEmptyValue fuel (.ref ⟨0, []⟩) (.imm (structAB 5 "y")) 0
              ⟨scenario1, [], buildConfig []⟩ with
          | .ret _ err st => .ret err st.store
          | .panic => .panic
          | .outOfFuel => .outOfFuel) :=
  ⟨(entry_validation isEmptyValue failingResolve scenario1 (.int 1) (.int 2) []).1
      (.imm (.int 1)) (.imm (.int 2)) (.Other 1) rfl,
   (entry_validation isEmptyValue resolveValues scenario1 (.int 1) (.int 2) []).2.1
      (.imm (.int 1)) (.imm (.int 2)) (by decide) rfl,
   (entry_validation isEmptyValue resolveValues scenario1
      (.ptr (.struct "T") (some ⟨0, []⟩)) (.ptr (.struct "T") none) []).2.2.1
      (.ref ⟨0, []⟩) (.imm .invalid) (by rfl) rfl (Or.inr (by rfl)),
   (entry_validation isEmptyValue resolveValues scenario1
      (.ptr (.struct "T") (some ⟨0, []⟩)) (.str "y") []).2.2.2.1
      (.ref ⟨0, []⟩) (.imm (.str "y")) (.struct "T") .string (by decide) rfl (by decide)
      (by decide) (by decide),
   (entry_validation isEmptyValue resolveValues scenario1
      (.ptr (.struct "T") (some ⟨0, []⟩)) (structAB 5 "y") []).2.2.2.2.1
      (.ref ⟨0, []⟩) (.imm (structAB 5 "y")) (.struct "T") (by decide) rfl (by decide)
      (by decide)⟩

/-! ## MergeWithOverwrite -/

theorem foldl_WithOverride (opts : List (Config → Config))
    (hcomm : ∀ o ∈ opts, ∀ c, o (WithOverride c) = WithOverride (o c)) :
    ∀ c, opts.foldl (fun config opt => opt config) (WithOverride c)
      = WithOverride (opts.foldl (fun config opt => opt config) c) := by
  induction opts with
  | nil => intro c; rfl
  | cons o opts ih =>
    intro c
    simp only [List.foldl_cons]
    rw [hcomm o (List.mem_cons_self _ _) c]
    exact ih (fun o' ho' => hcomm o' (List.mem_cons_of_mem _ ho')) (o c)

theorem merge_congr_config (E : Store → Value → Bool)
    (resolve : Store → Value → Value → RValue × RValue × Option Error)
    (fuel : Nat) (s : Store) (dst src : Value) (opts1 opts2 : List (Config → Config))
    (h : buildConfig opts1 = buildConfig opts2) :
    merge E resolve fuel s dst src opts1 = merge E resolve fuel s dst src opts2 := by
  simp only [merge, h]

/-- Counterexample to C13 as stated: with the caller's option `overwriteOff`,
`MergeWithOverwrite` merges `T{A: 0, B: "x"}` and `T{A: 5, B: "y"}` with
overwrite on (`WithOverride` is applied last) and leaves `T{A: 5, B: "y"}`,
while `Merge` with `WithOverride` applied before the caller's option merges
with overwrite off and leaves `T{A: 5, B: "x"}`. -/
theorem merge_with_overwrite_counterexample :
    MergeWithOverwrite isEmptyValue resolveValues 2 scenario1
        (.ptr (.struct "T") (some ⟨0, []⟩)) (structAB 5 "y") [overwriteOff]
      = .ret none ⟨[structAB 5 "y", structAB 5 "y"], []⟩
    ∧ Merge isEmptyValue resolveValues 2 scenario1
        (.ptr (.struct "T") (some ⟨0, []⟩)) (structAB 5 "y") (WithOverride :: [overwriteOff])
      = .ret none ⟨[structAB 5 "x", structAB 5 "x"], []⟩ := by
  decide

/-- C13 as amended (`MergeWithOverwrite` equivalence): for every dst, src and
option list, `MergeWithOverwrite(dst, src, opts...)` is
`Merge(dst, src, opts..., WithOverride)`, the overwrite option being applied
after the caller's options; it is also `Merge(dst, src, WithOverride, opts...)`
when every option of the caller commutes with `WithOverride`, as the options
`WithOverride`, `WithAppendSlice` and `WithTransformers(t)` of the package
do. -/
theorem merge_with_overwrite_equiv
    (E : Store → Value → Bool)
    (resolve : Store → Value → Value → RValue × RValue × Option Error)
    (fuel : Nat) (s : Store) (dst src : Value) (opts : List (Config → Config))
    (hcomm : ∀ o ∈ opts, ∀ c, o (WithOverride c) = WithOverride (o c)) :
    MergeWithOverwrite E resolve fuel s dst src opts
        = Merge E resolve fuel s dst src (opts ++ [WithOverride])
    ∧ MergeWithOverwrite E resolve fuel s dst src opts
        = Merge E resolve fuel s dst src (WithOverride :: opts)
    ∧ (∀ t c, WithAppendSlice (WithOverride c) = WithOverride (WithAppendSlice c)
        ∧ WithTransformers t (WithOverride c) = WithOverride (WithTransformers t c)) := by
  refine ⟨rfl, ?_, fun t c => ⟨rfl, rfl⟩⟩
  unfold MergeWithOverwrite Merge
  apply merge_congr_config
  simp only [buildConfig, List.foldl_append, List.foldl_cons, List.foldl_nil]
  exact (foldl_WithOverride opts hcomm _).symm

/-- Witness of C13 (amended) with the three options of the package. -/
theorem merge_with_overwrite_equiv_witness :
    MergeWithOverwrite isEmptyValue resolveValues 2 scenario1
          (.ptr (.struct "T") (some ⟨0, []⟩)) (structAB 5 "y")
          [WithAppendSlice, WithTransformers noTransformer, WithOverride]
        = Merge isEmptyValue resolveValues 2 scenario1
          (.ptr (.struct "T") (some ⟨0, []⟩)) (structAB 5 "y")
          ([WithAppendSlice, WithTransformers noTransformer, WithOverride] ++ [WithOverride])
    ∧ MergeWithOverwrite isEmptyValue resolveValues 2 scenario1
          (.ptr (.struct "T") (some ⟨0, []⟩)) (structAB 5 "y")
          [WithAppendSlice, WithTransformers noTransformer, WithOverride]
        = Merge isEmptyValue resolveValues 2 scenario1
          (.ptr (.struct "T") (some ⟨0, []⟩)) (structAB 5 "y")
          (WithOverride :: [WithAppendSlice, WithTransformers noTransformer, WithOverride])
    ∧ (∀ t c, WithAppendSlice (WithOverride c) = WithOverride (WithAppendSlice c)
        ∧ WithTransformers t (WithOverride c) = WithOverride (WithTransformers t c)) :=
  merge_with_overwrite_equiv isEmptyValue resolveValues 2 scenario1
    (.ptr (.struct "T") (some ⟨0, []⟩)) (structAB 5 "y")
    [WithAppendSlice, WithTransformers noTransformer, WithOverride]
    (by
      intro o ho c
      simp only [List.mem_cons, List.mem_singleton, List.not_mem_nil, or_false] at ho
      rcases ho with rfl | rfl | rfl <;> rfl)

/-! ## Nil sources -/

/-- The transformer hook reads the heap and the registry only. -/
theorem transformerHook_none_congr (E : Store → Value → Bool) (dst src : RValue)
    (st st' : State) (hs : st'.store = st.store)
    (ht : st'.config.Transformers = st.config.Transformers)
    (h : transformerHook E dst src st = none) : transformerHook E dst src st' = none := by
  unfold transformerHook at h ⊢
  rw [hs, ht]
  cases htr : st.config.Transformers with
  | none => rfl
  | some t =>
    simp only [htr] at h ⊢
    split at h
    · rename_i hE
      simp only [hE, if_true]
      cases hty : dst.Type st.store with
      | none => simp [hty] at h
      | some typ =>
        simp only [hty] at h ⊢
        cases hfn : t typ with
        | none => rfl
        | some fn => simp [hfn] at h
    · rename_i hE
      simp [hE]

/-- The head of `deepMerge` up to the kind switch: the three ways in which a
call ends before the switch, or the state with which the switch is entered. -/
theorem enterVisited_cases (st : State) (dst : RValue) (typ : Ty)
    (hty : dst.Type st.store = some typ) :
    (∃ l, dst = .ref l ∧ seenBefore st.visited l typ = true
        ∧ enterVisited st dst = some (true, st))
    ∨ (∃ st', enterVisited st dst = some (false, st') ∧ st'.store = st.store
        ∧ st'.config = st.config) := by
  cases dst with
  | imm v => exact Or.inr ⟨st, rfl, rfl, rfl⟩
  | ref l =>
    by_cases hs : seenBefore st.visited l typ = true
    · exact Or.inl ⟨l, rfl, hs, by simp [enterVisited, hty, hs]⟩
    · exact Or.inr ⟨{ st with visited := ⟨l, typ⟩ :: st.visited },
        by simp [enterVisited, hty, hs], rfl, rfl⟩

theorem type_of_kind_ne_invalid (v : Value) (h : v.kind ≠ .Invalid) : ∃ t, v.type = some t := by
  cases v <;> simp [Value.kind] at h <;> simp [Value.type]

/-- C15 (nil source reference is a no-op): for every destination of pointer or
interface kind and every nil source, under every configuration in which no
transformer takes over (overwrite mode included), `deepMerge` returns the
destination handle with no error and leaves the heap as it was. -/
theorem nil_source_noop
    (E : Store → Value → Bool) (fuel : Nat) (dst src : RValue) (depth : Nat) (st0 : State)
    (hk : dst.Kind st0.store = .Ptr ∨ dst.Kind st0.store = .Interface)
    (hnil : isReflectNil (src.get st0.store) = true)
    (hhook : transformerHook E dst src st0 = none) :
    ∃ st', deepMerge E (fuel + 1) dst src depth st0 = .ret dst none st'
      ∧ st'.store = st0.store := by
  have hkk : (dst.get st0.store).kind ≠ .Invalid := by
    rcases hk with h | h <;> simp only [RValue.Kind] at h <;> rw [h] <;> simp
  obtain ⟨typ, hty⟩ := type_of_kind_ne_invalid _ hkk
  simp only [deepMerge]
  split
  · exact ⟨_, rfl, rfl⟩
  · rcases enterVisited_cases
      { st0 with config := { st0.config with overwriteWithEmptyValue := false } } dst typ hty
      with ⟨l, -, -, he⟩ | ⟨st, he, hst, hcfg⟩
    · rw [he]
      exact ⟨_, rfl, rfl⟩
    · rw [he]
      have hh : transformerHook E dst src st = none :=
        transformerHook_none_congr E dst src st0 st hst (by rw [hcfg]) hhook
      simp only [hh]
      have hst' : st.store = st0.store := hst
      rcases hk with h | h
      · simp only [hst', h, mergePtr, hnil, if_true]
        exact ⟨st, rfl, hst'⟩
      · simp only [hst', h, mergePtr, hnil, if_true]
        exact ⟨st, rfl, hst'⟩

/-- Witness of C15: a nil `*int` source merged into a non-nil `*int` variable
with overwrite on. -/
theorem nil_source_noop_witness :
    ∃ st', deepMerge isEmptyValue (0 + 1) (.ref ⟨1, []⟩) (.imm (.ptr .int none)) 0
        ⟨ptrStore, [], ⟨true, false, none, false⟩⟩ = .ret (.ref ⟨1, []⟩) none st'
      ∧ st'.store = ptrStore :=
  nil_source_noop isEmptyValue 0 (.ref ⟨1, []⟩) (.imm (.ptr .int none)) 0
    ⟨ptrStore, [], ⟨true, false, none, false⟩⟩ (Or.inl (by decide)) (by decide) rfl

/-! ## Structs without exported field -/

theorem isReflectNil_struct (v : Value) (h : v.kind = .Struct) : isReflectNil v = false := by
  cases v <;> simp [Value.kind] at h
  simp [isReflectNil, Value.kind]

/-- Counterexample to C17 as stated: the destination is the variable
`O{b: 7}`, a struct without exported field, which is already in the visited
map; overwrite is on and the source `O{b: 9}` is not empty.  `deepMerge`
returns the destination handle, not the source: the cycle guard returns
before the struct case is reached. -/
theorem opaque_struct_counterexample :
    hasExportedField (structO 7) = false
    ∧ isEmptyValue opaqueStore (structO 9) = false
    ∧ ∀ fuel, deepMerge isEmptyValue (fuel + 1) (.ref ⟨0, []⟩) (.imm (structO 9)) 0
        ⟨opaqueStore, [⟨⟨0, []⟩, .struct "O"⟩], ⟨true, false, none, false⟩⟩
      = .ret (.ref ⟨0, []⟩) none
          ⟨opaqueStore, [⟨⟨0, []⟩, .struct "O"⟩], ⟨true, false, none, false⟩⟩ :=
  ⟨by rfl, by rfl, fun _ => by rfl⟩

/-- C17 as amended (opaque struct as scalar): for every destination of struct
kind without exported field (own or of an embedded struct) and every valid
source, when no transformer takes over: with overwrite off `deepMerge` returns
the destination handle, whatever the source is and whether or not the
destination is the zero value; when the destination is not already in the
visited map it returns the source handle if overwrite is on and (the source is
non-empty or the overwrite-empty flag is set), and the destination handle
otherwise; and when the destination is already in the visited map it returns
the destination handle.  The heap is left as it was in every case. -/
theorem opaque_struct_as_scalar
    (E : Store → Value → Bool) (fuel : Nat) (dst src : RValue) (depth : Nat) (st0 : State)
    (hsrc : src.IsValid st0.store = true)
    (hk : dst.Kind st0.store = .Struct)
    (hop : hasExportedField (dst.get st0.store) = false)
    (hhook : transformerHook E dst src st0 = none) :
    (st0.config.Overwrite = false →
      ∃ st', deepMerge E (fuel + 1) dst src depth st0 = .ret dst none st'
        ∧ st'.store = st0.store)
    ∧ ((∀ l typ, dst = .ref l → seenBefore st0.visited l typ = false) →
      ∃ st', deepMerge E (fuel + 1) dst src depth st0
          = .ret (if st0.config.Overwrite
                    && (!E st0.store (src.get st0.store) || st0.config.overwriteWithEmptyValue)
                  then src else dst) none st'
        ∧ st'.store = st0.store)
    ∧ (∀ l typ, dst = .ref l → dst.Type st0.store = some typ →
        seenBefore st0.visited l typ = true →
      ∃ st', deepMerge E (fuel + 1) dst src depth st0 = .ret dst none st'
        ∧ st'.store = st0.store) := by
  have hkk : (dst.get st0.store).kind ≠ .Invalid := by
    simp only [RValue.Kind] at hk; rw [hk]; simp
  obtain ⟨typ, hty⟩ := type_of_kind_ne_invalid _ hkk
  have hnil : isReflectNil (dst.get st0.store) = false := isReflectNil_struct _ hk
  refine ⟨?_, ?_, ?_⟩
  · intro how
    simp only [deepMerge, hsrc]
    rcases enterVisited_cases
      { st0 with config := { st0.config with overwriteWithEmptyValue := false } } dst typ hty
      with ⟨l, -, -, he⟩ | ⟨st, he, hst, hcfg⟩
    · rw [he]
      exact ⟨_, rfl, rfl⟩
    · rw [he]
      have hh : transformerHook E dst src st = none :=
        transformerHook_none_congr E dst src st0 st hst (by rw [hcfg]) hhook
      have hst' : st.store = st0.store := hst
      simp only [hh, hst', hk, mergeStruct, hop, hnil, how]
      exact ⟨st, by simp, hst'⟩
  · intro hnv
    simp only [deepMerge, hsrc]
    rcases enterVisited_cases
      { st0 with config := { st0.config with overwriteWithEmptyValue := false } } dst typ hty
      with ⟨l, hl, hseen, -⟩ | ⟨st, he, hst, hcfg⟩
    · rw [hnv l typ hl] at hseen
      exact absurd hseen (by simp)
    · rw [he]
      have hh : transformerHook E dst src st = none :=
        transformerHook_none_congr E dst src st0 st hst (by rw [hcfg]) hhook
      have hst' : st.store = st0.store := hst
      simp only [hh, hst', hk, mergeStruct, hop, hnil]
      refine ⟨st, ?_, hst'⟩
      by_cases hc : (st0.config.Overwrite
          && (!E st0.store (src.get st0.store) || st0.config.overwriteWithEmptyValue)) = true
      · simp [hc]
      · simp [hc]
  · intro l typ' hl htyp hseen
    subst hl
    simp only [deepMerge, hsrc]
    simp [enterVisited, htyp, hseen]

/-- Witness of C17 (amended): `O{b: 9}` merged into the variable `O{b: 7}`, with
overwrite off and with overwrite on. -/
theorem opaque_struct_as_scalar_witness :
    (∃ st', deepMerge isEmptyValue (0 + 1) (.ref ⟨0, []⟩) (.imm (structO 9)) 0
          ⟨opaqueStore, [], ⟨false, false, none, false⟩⟩ = .ret (.ref ⟨0, []⟩) none st'
        ∧ st'.store = opaqueStore)
    ∧ (∃ st', deepMerge isEmptyValue (0 + 1) (.ref ⟨0, []⟩) (.imm (structO 9)) 0
          ⟨opaqueStore, [], ⟨true, false, none, false⟩⟩ = .ret (.imm (structO 9)) none st'
        ∧ st'.store = opaqueStore) :=
  ⟨(opaque_struct_as_scalar isEmptyValue 0 (.ref ⟨0, []⟩) (.imm (structO 9)) 0
      ⟨opaqueStore, [], ⟨false, false, none, false⟩⟩ (by decide) (by decide) (by decide) rfl).1
      rfl,
   (opaque_struct_as_scalar isEmptyValue 0 (.ref ⟨0, []⟩) (.imm (structO 9)) 0
      ⟨opaqueStore, [], ⟨true, false, none, false⟩⟩ (by decide) (by decide) (by decide) rfl).2.1
      (fun _ _ _ => rfl)⟩

/-! ## Interface values -/

/-- Counterexample to C19 as stated: the destination is an `interface{}`
variable that holds a pointer to the `[]int` variable `[1]`, the source is an
interface that holds a pointer to the `[]string` variable `["a"]`, overwrite
is off and append mode is on.  When the destination is not in the visited map
the recursive call on the two unwrapped values fails with the slice type
mismatch, and `deepMerge` returns that error; when the destination is already
in the visited map `deepMerge` returns no error for every recursion budget,
the budget of one call included: it makes no recursive call. -/
theorem interface_result_counterexample :
    deepMerge isEmptyValue 3 (.ref ⟨0, []⟩)
        (.imm (.iface (.ptr (.slice .string) (some ⟨2, []⟩)))) 0
        ⟨ifacePtrStore, [], ⟨false, true, none, false⟩⟩
      = .ret (.ref ⟨0, []⟩) (some (.SliceTypeMismatch (.slice .string) (.slice .int)))
          ⟨ifacePtrStore, [⟨⟨1, []⟩, .slice .int⟩, ⟨⟨0, []⟩, .iface⟩],
            ⟨false, true, none, false⟩⟩
    ∧ ∀ fuel, deepMerge isEmptyValue (fuel + 1) (.ref ⟨0, []⟩)
        (.imm (.iface (.ptr (.slice .string) (some ⟨2, []⟩)))) 0
        ⟨ifacePtrStore, [⟨⟨0, []⟩, .iface⟩], ⟨false, true, none, false⟩⟩
      = .ret (.ref ⟨0, []⟩) none
          ⟨ifacePtrStore, [⟨⟨0, []⟩, .iface⟩], ⟨false, true, none, false⟩⟩ := by
  refine ⟨?_, fun _ => by rfl⟩
  simp [deepMerge, ifacePtrStore, RValue.Elem, RValue.get_imm, RValue.get_ref, Store.load,
    Value.proj, Value.kind, Value.type, RValue.CanSet, RValue.CanAddr, RValue.Type, RValue.Kind,
    RValue.IsValid, enterVisited, seenBefore, transformerHook, Value.IsNil, isReflectNil,
    mergePtr, mergeSlice, appendChecked, isEmptyValue, RValue.get]

/-- C19 as amended (interface-wrapped merge result is not reassigned): for
every non-nil source of interface kind and every non-nil destination of
pointer or interface kind that is not already in the visited map, with
overwrite off and when no transformer takes over, `deepMerge` makes one
recursive call, on the two unwrapped values at depth + 1, and returns the
error and the state of that call together with the destination handle it was
given, not with the handle the recursive call returned. -/
theorem interface_result_not_reassigned
    (E : Store → Value → Bool) (fuel : Nat) (dst src : RValue) (depth : Nat) (st0 : State)
    (hsk : src.Kind st0.store = .Interface)
    (hsnil : isReflectNil (src.get st0.store) = false)
    (hk : dst.Kind st0.store = .Ptr ∨ dst.Kind st0.store = .Interface)
    (hdnil : (dst.get st0.store).IsNil = some false)
    (how : st0.config.Overwrite = false)
    (hhook : transformerHook E dst src st0 = none)
    (hnv : ∀ l typ, dst = .ref l → seenBefore st0.visited l typ = false) :
    ∃ st de se,
      enterVisited { st0 with config := { st0.config with overwriteWithEmptyValue := false } } dst
        = some (false, st)
      ∧ dst.Elem st0.store = some de ∧ src.Elem st0.store = some se
      ∧ deepMerge E (fuel + 1) dst src depth st0
        = match deepMerge E fuel de se (depth + 1) st with
          | .ret _ err st1 => .ret dst err st1
          | .panic => .panic
          | .outOfFuel => .outOfFuel := by
  have hkk : (dst.get st0.store).kind ≠ .Invalid := by
    rcases hk with h | h <;> simp only [RValue.Kind] at h <;> rw [h] <;> simp
  obtain ⟨typ, hty⟩ := type_of_kind_ne_invalid _ hkk
  have hsv : src.IsValid st0.store = true := by
    simp only [RValue.Kind] at hsk
    simp [RValue.IsValid, hsk]
  obtain ⟨se, hse⟩ : ∃ se, src.Elem st0.store = some se := by
    simp only [RValue.Kind] at hsk
    cases hs : src.get st0.store <;> simp [hs, Value.kind] at hsk
    rename_i d
    exact ⟨.imm d, by simp [RValue.Elem, hs]⟩
  obtain ⟨de, hde⟩ : ∃ de, dst.Elem st0.store = some de := by
    cases hd : dst.get st0.store <;> simp [RValue.Kind, hd, Value.kind] at hk
    · rename_i d
      exact ⟨.imm d, by simp [RValue.Elem, hd]⟩
    · rename_i e t
      cases t with
      | none => simp [hd, Value.IsNil] at hdnil
      | some l => exact ⟨.ref l, by simp [RValue.Elem, hd]⟩
  rcases enterVisited_cases
    { st0 with config := { st0.config with overwriteWithEmptyValue := false } } dst typ hty
    with ⟨l, hl, hseen, -⟩ | ⟨st, he, hst, hcfg⟩
  · rw [hnv l typ hl] at hseen
    exact absurd hseen (by simp)
  · refine ⟨st, de, se, he, hde, hse, ?_⟩
    have hh : transformerHook E dst src st = none :=
      transformerHook_none_congr E dst src st0 st hst (by rw [hcfg]) hhook
    have hst' : st.store = st0.store := hst
    simp only [deepMerge, hsv, he, hh]
    rcases hk with h | h
    · simp only [hst', h, mergePtr, hsnil, hdnil, hsk, how, hde, hse]
      simp
      cases deepMerge E fuel de se (depth + 1) st <;> rfl
    · simp only [hst', h, mergePtr, hsnil, hdnil, hsk, how, hde, hse]
      simp
      cases deepMerge E fuel de se (depth + 1) st <;> rfl

/-- Witness of C19 (amended): the `interface{}` variable that holds 7 merged with an
interface that holds 9. -/
theorem interface_result_not_reassigned_witness :
    ∃ st de se,
      enterVisited { (⟨ifaceStore, [], ⟨false, false, none, false⟩⟩ : State) with
          config := { (⟨false, false, none, false⟩ : Config) with
            overwriteWithEmptyValue := false } } (.ref ⟨0, []⟩)
        = some (false, st)
      ∧ (RValue.ref ⟨0, []⟩).Elem ifaceStore = some de
      ∧ (RValue.imm (.iface (.int 9))).Elem ifaceStore = some se
      ∧ deepMerge isEmptyValue (1 + 1) (.ref ⟨0, []⟩) (.imm (.iface (.int 9))) 0
          ⟨ifaceStore, [], ⟨false, false, none, false⟩⟩
        = match deepMerge isEmptyValue 1 de se (0 + 1) st with
          | .ret _ err st1 => .ret (.ref ⟨0, []⟩) err st1
          | .panic => .panic
          | .outOfFuel => .outOfFuel :=
  interface_result_not_reassigned isEmptyValue 1 (.ref ⟨0, []⟩) (.imm (.iface (.int 9))) 0
    ⟨ifaceStore, [], ⟨false, false, none, false⟩⟩ (by decide) (by decide)
    (Or.inr (by decide)) (by decide) rfl rfl (fun _ _ _ => rfl)

/-! ## Nested type mismatch and slices in maps -/

set_option maxHeartbeats 4000000 in
/-- C12, divergence of the code: two interface values under the key `k` hold
pointers to different struct types.  The default merge of `{"k": &B{Y: 5}}`
into `{"k": &A{X: 0}}` returns no error and fills `A.X` from `B.Y`: the
pointee of the destination becomes `A{X: 5}` (the last variable of the heap is
the scratch copy of the struct case).  With the source `{"k": &E{}}`, whose
struct has no field, the merge panics on `src.Field(0)`.  In neither case is
`ErrDifferentArgumentsTypes` returned. -/
theorem nested_pointer_mismatch_not_detected :
    Merge isEmptyValue resolveValues 4 ptrMismatchStore
        (.ptr (.map .string .iface) (some ⟨0, []⟩)) (.map .string .iface (some 1)) []
      = .ret none ⟨[.map .string .iface (some 0), structA 5, structB 5, structE, structA 5],
          ptrMismatchStore.maps⟩
    ∧ Merge isEmptyValue resolveValues 4 ptrMismatchStore
        (.ptr (.map .string .iface) (some ⟨0, []⟩)) (.map .string .iface (some 2)) []
      = .panic := by
  constructor
  · simp [Merge, merge, resolveValues, buildConfig, ptrMismatchStore, structA, structB, structE,
      fieldX, fieldY, RValue.Elem, RValue.get_imm, RValue.get_ref, Store.load, Value.proj,
      Value.kind, Value.type, RValue.CanSet, RValue.CanAddr, RValue.Type, RValue.Kind,
      RValue.IsValid, deepMerge, enterVisited, seenBefore, transformerHook, mergeMap,
      mergeMapKeys, mergeMapKey, MapKeys, MapIndex, Key.type, Value.IsNil, Value.unbox,
      isReflectNil, mergePtr, mergeStruct, mergeFields, hasExportedField, hasExportedFieldLoop,
      isFieldExported, isExportedComponent, Store.New, zeroLike, zeroLikeList, RValue.Field,
      isEmptyValue, mergeDefault, RValue.Set, RValue.Addr, setOrReplace, SetMapIndex, assignTo,
      Store.write, Value.update, mapInsert, mapErase, RValue.get]
  · simp [Merge, merge, resolveValues, buildConfig, ptrMismatchStore, structA, structB, structE,
      fieldX, fieldY, RValue.Elem, RValue.get_imm, RValue.get_ref, Store.load, Value.proj,
      Value.kind, Value.type, RValue.CanSet, RValue.CanAddr, RValue.Type, RValue.Kind,
      RValue.IsValid, deepMerge, enterVisited, seenBefore, transformerHook, mergeMap,
      mergeMapKeys, mergeMapKey, MapKeys, MapIndex, Key.type, Value.IsNil, Value.unbox,
      isReflectNil, mergePtr, mergeStruct, mergeFields, hasExportedField, hasExportedFieldLoop,
      isFieldExported, isExportedComponent, Store.New, zeroLike, zeroLikeList, RValue.Field,
      isEmptyValue, mergeDefault, RValue.Set, RValue.Addr, setOrReplace, SetMapIndex, assignTo,
      Store.write, Value.update, mapInsert, mapErase, RValue.get]

/-- C16, divergence of the code: with `WithOverride`, the merge of the map
`{"k": []}` into `{"k": [1]}` leaves `{"k": []}`, while the slice handler on
the pair of the two slices (`[1]`, `[]`) under the same options leaves `[1]`,
the source slice being empty: the map branch takes the emptiness tests of the
replace policy on the two maps, not on the two slices. -/
theorem map_slice_policy_tests_maps :
    Merge isEmptyValue resolveValues 2 sliceEraseStore
        (.ptr (.map .string (.slice .int)) (some ⟨0, []⟩)) (.map .string (.slice .int) (some 1))
        [WithOverride]
      = .ret none ⟨sliceEraseStore.vars,
          [[(.str "k", .slice .int false [])], [(.str "k", .slice .int false [])]]⟩
    ∧ Merge isEmptyValue resolveValues 2 sliceEraseStore
        (.ptr (.slice .int) (some ⟨1, []⟩)) (.slice .int false []) [WithOverride]
      = .ret none sliceEraseStore
    ∧ isEmptyValue sliceEraseStore (.slice .int false []) = true
    ∧ isEmptyValue sliceEraseStore (.map .string (.slice .int) (some 1)) = false :=
  ⟨by rfl, by rfl, by rfl, by rfl⟩

/-! ## The overwrite-empty flag -/

theorem Config.clear_eq (c : Config) (h : c.overwriteWithEmptyValue = false) :
    { c with overwriteWithEmptyValue := false } = c := by
  cases c
  simp only at h
  subst h
  rfl

theorem setOrReplace_keeps (st : State) (dst x : RValue) :
    (setOrReplace st dst x).keeps st.config := by
  unfold setOrReplace
  split
  · split <;> simp [Outcome.keeps]
  · simp [Outcome.keeps]

theorem keeps_ret (rec : RValue → RValue → Nat → State → Outcome)
    (hrec : ∀ d s n st, (rec d s n st).keeps { st.config with overwriteWithEmptyValue := false })
    (d s : RValue) (n : Nat) (st : State) (r : RValue) (e : Option Error) (st1 : State)
    (h : rec d s n st = .ret r e st1) (hst : st.config.overwriteWithEmptyValue = false) :
    st1.config = st.config := by
  have := hrec d s n st
  rw [h, Config.clear_eq _ hst] at this
  exact this

theorem mergeFields_keeps (rec : RValue → RValue → Nat → State → Outcome)
    (hrec : ∀ d s n st, (rec d s n st).keeps { st.config with overwriteWithEmptyValue := false })
    (dst src dstCp : RValue) (depth : Nat) (fs : List StructField) :
    ∀ (i : Nat) (st : State), st.config.overwriteWithEmptyValue = false →
      exceptKeeps st.config (mergeFields rec dst src dstCp depth i fs st) := by
  induction fs with
  | nil => intro i st _; simp [mergeFields, exceptKeeps]
  | cons f rest ih =>
    intro i st hst
    simp only [mergeFields]
    split
    · simp [exceptKeeps, Outcome.keeps]
    · split
      · split
        · simp [exceptKeeps, Outcome.keeps]
        · split
          · exact ih _ _ hst
          · split
            · simp [exceptKeeps, Outcome.keeps]
            · exact ih _ { st with store := _ } hst
      · split
        · simp [exceptKeeps, Outcome.keeps]
        · split
          · simp [exceptKeeps, Outcome.keeps]
          · simp [exceptKeeps, Outcome.keeps]
          · rename_i heq
            simpa [exceptKeeps, Outcome.keeps] using keeps_ret rec hrec _ _ _ _ _ _ _ heq hst
          · rename_i heq
            have hr := keeps_ret rec hrec _ _ _ _ _ _ _ heq hst
            split
            · simp [exceptKeeps, Outcome.keeps]
            · split
              · simp [exceptKeeps, Outcome.keeps]
              · rw [← hr]
                exact ih (i + 1) _ (by simp only [hr, hst])

theorem flagGuard_eq (other rec : RValue → RValue → Nat → State → Outcome) (d s : RValue)
    (n : Nat) (st : State) (hst : st.config.overwriteWithEmptyValue = false) :
    flagGuard other rec d s n st = rec d s n st := by
  simp [flagGuard, hst]

theorem mergeFields_guard (other rec : RValue → RValue → Nat → State → Outcome)
    (hrec : ∀ d s n st, (rec d s n st).keeps { st.config with overwriteWithEmptyValue := false })
    (dst src dstCp : RValue) (depth : Nat) (fs : List StructField) :
    ∀ (i : Nat) (st : State), st.config.overwriteWithEmptyValue = false →
      mergeFields (flagGuard other rec) dst src dstCp depth i fs st
        = mergeFields rec dst src dstCp depth i fs st := by
  induction fs with
  | nil => intro i st _; simp [mergeFields]
  | cons f rest ih =>
    intro i st hst
    simp only [mergeFields]
    split
    · rfl
    · split
      · split
        · rfl
        · split
          · exact ih _ _ hst
          · split
            · rfl
            · exact ih _ _ hst
      · split
        · rfl
        · rw [flagGuard_eq other rec _ _ _ st hst]
          split
          · rfl
          · rfl
          · rfl
          · rename_i heq
            have hr := keeps_ret rec hrec _ _ _ _ _ _ _ heq hst
            split
            · rfl
            · split
              · rfl
              · exact ih (i + 1) _ (by simp only [hr, hst])

theorem mergeStruct_keeps (E : Store → Value → Bool)
    (rec : RValue → RValue → Nat → State → Outcome)
    (hrec : ∀ d s n st, (rec d s n st).keeps { st.config with overwriteWithEmptyValue := false })
    (ow owe : Bool) (dst src : RValue) (depth : Nat) (st : State)
    (hst : st.config.overwriteWithEmptyValue = false) :
    (mergeStruct E rec ow owe dst src depth st).keeps st.config := by
  unfold mergeStruct
  split
  · split
    · have h := mergeFields_keeps rec hrec dst src (st.store.New (dst.get st.store)).2 depth
        (by assumption) 0 { st with store := (st.store.New (dst.get st.store)).1 } hst
      simp only
      split
      · rename_i heq
        rw [heq] at h
        exact h
      · rename_i st2 heq
        rw [heq] at h
        simp only [exceptKeeps] at h
        have := setOrReplace_keeps st2 dst (st.store.New (dst.get st.store)).2
        rw [h] at this
        exact this
    · simp [Outcome.keeps]
  · split <;> simp [Outcome.keeps]

theorem mergeStruct_guard (E : Store → Value → Bool)
    (other rec : RValue → RValue → Nat → State → Outcome)
    (hrec : ∀ d s n st, (rec d s n st).keeps { st.config with overwriteWithEmptyValue := false })
    (ow owe : Bool) (dst src : RValue) (depth : Nat) (st : State)
    (hst : st.config.overwriteWithEmptyValue = false) :
    mergeStruct E (flagGuard other rec) ow owe dst src depth st
      = mergeStruct E rec ow owe dst src depth st := by
  unfold mergeStruct
  split
  · split
    · simp only
      rw [mergeFields_guard other rec hrec _ _ _ _ _ _
        { st with store := (st.store.New (dst.get st.store)).1 } hst]
    · rfl
  · rfl

theorem mergeMapKey_keeps (E : Store → Value → Bool)
    (rec : RValue → RValue → Nat → State → Outcome)
    (hrec : ∀ d s n st, (rec d s n st).keeps { st.config with overwriteWithEmptyValue := false })
    (ow owe : Bool) (dst src : RValue) (depth : Nat) (key : Key) (st : State)
    (hst : st.config.overwriteWithEmptyValue = false) :
    exceptKeeps st.config (mergeMapKey E rec ow owe dst src depth key st) := by
  unfold mergeMapKey
  simp only []
  split
  · simp [exceptKeeps, Outcome.keeps]
  · split
    · simp [exceptKeeps, Outcome.keeps]
    · split
      · simp [exceptKeeps, Outcome.keeps]
      · split
        · simp [exceptKeeps, Outcome.keeps]
        · split
          · rename_i o heq
            rw [← heq]
            split
            · split
              · simp [exceptKeeps, Outcome.keeps]
              · simp [exceptKeeps, Outcome.keeps]
              · rename_i h
                simpa [exceptKeeps, Outcome.keeps] using keeps_ret rec hrec _ _ _ _ _ _ _ h hst
              · rename_i h
                have hr := keeps_ret rec hrec _ _ _ _ _ _ _ h hst
                split
                · simp [exceptKeeps, Outcome.keeps]
                · simp [exceptKeeps, Outcome.keeps, hr]
            · repeat' split
              all_goals simp [exceptKeeps, Outcome.keeps]
          · rename_i st2 heq
            have hH : exceptKeeps st.config (Except.ok st2) := by
              rw [← heq]
              split
              · split
                · simp [exceptKeeps, Outcome.keeps]
                · simp [exceptKeeps, Outcome.keeps]
                · rename_i h
                  simpa [exceptKeeps, Outcome.keeps] using keeps_ret rec hrec _ _ _ _ _ _ _ h hst
                · rename_i h
                  have hr := keeps_ret rec hrec _ _ _ _ _ _ _ h hst
                  split
                  · simp [exceptKeeps, Outcome.keeps]
                  · simp [exceptKeeps, Outcome.keeps, hr]
              · repeat' split
                all_goals simp [exceptKeeps, Outcome.keeps]
            simp only [exceptKeeps] at hH
            repeat' split
            all_goals simp [exceptKeeps, Outcome.keeps, hH]

theorem mergeMapKey_guard (E : Store → Value → Bool)
    (other rec : RValue → RValue → Nat → State → Outcome)
    (ow owe : Bool) (dst src : RValue) (depth : Nat) (key : Key) (st : State)
    (hst : st.config.overwriteWithEmptyValue = false) :
    mergeMapKey E (flagGuard other rec) ow owe dst src depth key st
      = mergeMapKey E rec ow owe dst src depth key st := by
  unfold mergeMapKey
  simp only [flagGuard_eq other rec _ _ _ st hst]

theorem mergeMapKeys_keeps (E : Store → Value → Bool)
    (rec : RValue → RValue → Nat → State → Outcome)
    (hrec : ∀ d s n st, (rec d s n st).keeps { st.config with overwriteWithEmptyValue := false })
    (ow owe : Bool) (dst src : RValue) (depth : Nat) (keys : List Key) :
    ∀ st : State, st.config.overwriteWithEmptyValue = false →
      exceptKeeps st.config (mergeMapKeys E rec ow owe dst src depth keys st) := by
  induction keys with
  | nil => intro st _; simp [mergeMapKeys, exceptKeeps]
  | cons key rest ih =>
    intro st hst
    simp only [mergeMapKeys]
    have h := mergeMapKey_keeps E rec hrec ow owe dst src depth key st hst
    split
    · rename_i heq
      rw [heq] at h
      exact h
    · rename_i st1 heq
      rw [heq] at h
      simp only [exceptKeeps] at h
      rw [← h]
      exact ih st1 (by rw [h]; exact hst)

theorem mergeMapKeys_guard (E : Store → Value → Bool)
    (other rec : RValue → RValue → Nat → State → Outcome)
    (hrec : ∀ d s n st, (rec d s n st).keeps { st.config with overwriteWithEmptyValue := false })
    (ow owe : Bool) (dst src : RValue) (depth : Nat) (keys : List Key) :
    ∀ st : State, st.config.overwriteWithEmptyValue = false →
      mergeMapKeys E (flagGuard other rec) ow owe dst src depth keys st
        = mergeMapKeys E rec ow owe dst src depth keys st := by
  induction keys with
  | nil => intro st _; simp [mergeMapKeys]
  | cons key rest ih =>
    intro st hst
    simp only [mergeMapKeys, mergeMapKey_guard E other rec ow owe dst src depth key st hst]
    have h := mergeMapKey_keeps E rec hrec ow owe dst src depth key st hst
    split
    · rfl
    · rename_i st1 heq
      rw [heq] at h
      simp only [exceptKeeps] at h
      exact ih st1 (by rw [h]; exact hst)

theorem mergeMap_keeps (E : Store → Value → Bool)
    (rec : RValue → RValue → Nat → State → Outcome)
    (hrec : ∀ d s n st, (rec d s n st).keeps { st.config with overwriteWithEmptyValue := false })
    (ow owe : Bool) (dst src : RValue) (depth : Nat) (st : State)
    (hst : st.config.overwriteWithEmptyValue = false) :
    (mergeMap E rec ow owe dst src depth st).keeps st.config := by
  have hloop : ∀ st1 : State, st1.config = st.config →
      Outcome.keeps st.config
        (match MapKeys st1.store (src.get st1.store) with
         | none => .panic
         | some keys =>
           match mergeMapKeys E rec ow owe dst src depth keys st1 with
           | .error o => o
           | .ok st2 => .ret dst none st2) := by
    intro st1 h1
    split
    · simp [Outcome.keeps]
    · rename_i keys _
      have h := mergeMapKeys_keeps E rec hrec ow owe dst src depth keys st1 (by rw [h1]; exact hst)
      rw [h1] at h
      split
      · rename_i heq
        rw [heq] at h
        exact h
      · rename_i heq
        rw [heq] at h
        exact h
  unfold mergeMap
  simp only []
  split
  · simp [Outcome.keeps]
  · exact hloop st rfl
  · split
    · simp [Outcome.keeps]
    · exact hloop st rfl
    · split
      · split
        · split
          · simp [Outcome.keeps]
          · rename_i s1 _
            exact hloop { st with store := s1 } rfl
        · simp [Outcome.keeps]
      · simp [Outcome.keeps]

theorem mergeMap_guard (E : Store → Value → Bool)
    (other rec : RValue → RValue → Nat → State → Outcome)
    (hrec : ∀ d s n st, (rec d s n st).keeps { st.config with overwriteWithEmptyValue := false })
    (ow owe : Bool) (dst src : RValue) (depth : Nat) (st : State)
    (hst : st.config.overwriteWithEmptyValue = false) :
    mergeMap E (flagGuard other rec) ow owe dst src depth st
      = mergeMap E rec ow owe dst src depth st := by
  have hg : ∀ (keys : List Key) (st1 : State), st1.config = st.config →
      mergeMapKeys E (flagGuard other rec) ow owe dst src depth keys st1
        = mergeMapKeys E rec ow owe dst src depth keys st1 := fun keys st1 h1 =>
    mergeMapKeys_guard E other rec hrec ow owe dst src depth keys st1 (by rw [h1]; exact hst)
  unfold mergeMap
  simp only []
  split
  · rfl
  · split
    · rfl
    · rw [hg _ st rfl]
  · split
    · rfl
    · split
      · rfl
      · rw [hg _ st rfl]
    · split
      · split
        · split
          · rfl
          · split
            · rfl
            · rename_i s1 _ _ _ _
              rw [hg _ { st with store := s1 } rfl]
        · rfl
      · rfl

theorem mergeSlice_keeps (E : Store → Value → Bool) (ow owe : Bool) (dst src : RValue)
    (st : State) : (mergeSlice E ow owe dst src st).keeps st.config := by
  unfold mergeSlice
  repeat' split
  all_goals simp [Outcome.keeps]

theorem mergeDefault_keeps (E : Store → Value → Bool) (ow owe : Bool) (dst src : RValue)
    (st : State) : (mergeDefault E ow owe dst src st).keeps st.config := by
  unfold mergeDefault
  simp only []
  split
  · exact setOrReplace_keeps st dst src
  · simp [Outcome.keeps]

theorem mergePtr_keeps (E : Store → Value → Bool)
    (rec : RValue → RValue → Nat → State → Outcome)
    (hrec : ∀ d s n st, (rec d s n st).keeps { st.config with overwriteWithEmptyValue := false })
    (ow owe : Bool) (dst src : RValue) (depth : Nat) (st : State)
    (hst : st.config.overwriteWithEmptyValue = false) :
    (mergePtr E rec ow owe dst src depth st).keeps st.config := by
  have hr : ∀ d s n, (rec d s n st).keeps st.config := by
    intro d s n
    have := hrec d s n st
    rw [Config.clear_eq _ hst] at this
    exact this
  unfold mergePtr
  split
  · simp [Outcome.keeps]
  · split
    · simp [Outcome.keeps]
    · split
      · split
        · split
          · exact setOrReplace_keeps st dst src
          · simp [Outcome.keeps]
        · split
          · split
            · rename_i de se _ _
              have h := hr de se (depth + 1)
              split
              · simp [Outcome.keeps]
              · simp [Outcome.keeps]
              · rename_i heq
                rw [heq] at h
                exact h
              · rename_i heq
                rw [heq] at h
                split
                · simp [Outcome.keeps]
                · exact h
            · simp [Outcome.keeps]
          · split
            · simp [Outcome.keeps]
            · split
              · split
                · exact hr _ _ _
                · simp [Outcome.keeps]
              · simp [Outcome.keeps]
      · split
        · split
          · exact setOrReplace_keeps st dst src
          · simp [Outcome.keeps]
        · split
          · rename_i de se _ _
            have h := hr de se (depth + 1)
            split
            · simp [Outcome.keeps]
            · simp [Outcome.keeps]
            · rename_i heq
              rw [heq] at h
              exact h
          · simp [Outcome.keeps]

theorem mergePtr_guard (E : Store → Value → Bool)
    (other rec : RValue → RValue → Nat → State → Outcome)
    (ow owe : Bool) (dst src : RValue) (depth : Nat) (st : State)
    (hst : st.config.overwriteWithEmptyValue = false) :
    mergePtr E (flagGuard other rec) ow owe dst src depth st
      = mergePtr E rec ow owe dst src depth st := by
  unfold mergePtr
  simp only [flagGuard_eq other rec _ _ _ st hst]

theorem transformerHook_keeps (E : Store → Value → Bool) (dst src : RValue) (st : State)
    (o : Outcome) (h : transformerHook E dst src st = some o) : o.keeps st.config := by
  unfold transformerHook at h
  split at h
  · simp at h
  · split at h
    · split at h
      · simp only [Option.some.injEq] at h
        subst h
        simp [Outcome.keeps]
      · split at h
        · simp at h
        · simp only [Option.some.injEq] at h
          subst h
          simp [Outcome.keeps]
    · simp at h

theorem kindSwitch_keeps (E : Store → Value → Bool)
    (rec : RValue → RValue → Nat → State → Outcome)
    (hrec : ∀ d s n st, (rec d s n st).keeps { st.config with overwriteWithEmptyValue := false })
    (ow owe : Bool) (dst src : RValue) (depth : Nat) (st : State)
    (hst : st.config.overwriteWithEmptyValue = false) :
    (kindSwitch E rec ow owe dst src depth st).keeps st.config := by
  unfold kindSwitch
  split
  · exact mergeStruct_keeps E rec hrec ow owe dst src depth st hst
  · exact mergeMap_keeps E rec hrec ow owe dst src depth st hst
  · exact mergeSlice_keeps E ow owe dst src st
  · exact mergePtr_keeps E rec hrec ow owe dst src depth st hst
  · exact mergePtr_keeps E rec hrec ow owe dst src depth st hst
  · exact mergeDefault_keeps E ow owe dst src st

theorem kindSwitch_guard (E : Store → Value → Bool)
    (other rec : RValue → RValue → Nat → State → Outcome)
    (hrec : ∀ d s n st, (rec d s n st).keeps { st.config with overwriteWithEmptyValue := false })
    (ow owe : Bool) (dst src : RValue) (depth : Nat) (st : State)
    (hst : st.config.overwriteWithEmptyValue = false) :
    kindSwitch E (flagGuard other rec) ow owe dst src depth st
      = kindSwitch E rec ow owe dst src depth st := by
  unfold kindSwitch
  split
  · exact mergeStruct_guard E other rec hrec ow owe dst src depth st hst
  · exact mergeMap_guard E other rec hrec ow owe dst src depth st hst
  · rfl
  · exact mergePtr_guard E other rec ow owe dst src depth st hst
  · exact mergePtr_guard E other rec ow owe dst src depth st hst
  · rfl

theorem enterVisited_config (st : State) (dst : RValue) (b : Bool) (st1 : State)
    (h : enterVisited st dst = some (b, st1)) : st1.config = st.config := by
  unfold enterVisited at h
  split at h
  · simp only [Option.some.injEq, Prod.mk.injEq] at h
    rw [← h.2]
  · split at h
    · simp at h
    · split at h
      · simp only [Option.some.injEq, Prod.mk.injEq] at h
        rw [← h.2]
      · simp only [Option.some.injEq, Prod.mk.injEq] at h
        rw [← h.2]

theorem deepMergeStep_keeps (E : Store → Value → Bool)
    (rec : RValue → RValue → Nat → State → Outcome)
    (hrec : ∀ d s n st, (rec d s n st).keeps { st.config with overwriteWithEmptyValue := false })
    (dst src : RValue) (depth : Nat) (st0 : State) :
    (deepMergeStep E rec dst src depth st0).keeps
      { st0.config with overwriteWithEmptyValue := false } := by
  unfold deepMergeStep
  simp only []
  split
  · simp [Outcome.keeps]
  · split
    · simp [Outcome.keeps]
    · simp [Outcome.keeps]
    · rename_i st heq
      have hc := enterVisited_config _ _ _ _ heq
      simp only at hc
      split
      · rename_i o ho
        rw [← hc]
        exact transformerHook_keeps E dst src st o ho
      · rw [← hc]
        exact kindSwitch_keeps E rec hrec _ _ dst src depth st (by rw [hc])

theorem deepMergeStep_guard (E : Store → Value → Bool)
    (other rec : RValue → RValue → Nat → State → Outcome)
    (hrec : ∀ d s n st, (rec d s n st).keeps { st.config with overwriteWithEmptyValue := false })
    (dst src : RValue) (depth : Nat) (st0 : State) :
    deepMergeStep E (flagGuard other rec) dst src depth st0
      = deepMergeStep E rec dst src depth st0 := by
  unfold deepMergeStep
  simp only []
  split
  · rfl
  · split
    · rfl
    · rfl
    · rename_i st heq
      have hc := enterVisited_config _ _ _ _ heq
      simp only at hc
      split
      · rfl
      · exact kindSwitch_guard E other rec hrec _ _ dst src depth st (by rw [hc])

theorem deepMerge_succ_eq_step (E : Store → Value → Bool) (fuel : Nat) (dst src : RValue)
    (depth : Nat) (st0 : State) :
    deepMerge E (fuel + 1) dst src depth st0
      = deepMergeStep E (deepMerge E fuel) dst src depth st0 := by
  by_cases hv : (!src.IsValid st0.store) = true
  · simp only [deepMerge, deepMergeStep, hv, if_true]
  · cases he : enterVisited
        { st0 with config := { st0.config with overwriteWithEmptyValue := false } } dst with
    | none => simp only [deepMerge, deepMergeStep, hv, he, if_false]
    | some p =>
      obtain ⟨b, st⟩ := p
      cases b with
      | true => simp only [deepMerge, deepMergeStep, hv, he, if_false]
      | false =>
        cases hh : transformerHook E dst src st with
        | some o => simp only [deepMerge, deepMergeStep, hv, he, hh, if_false]
        | none =>
          simp only [deepMerge, deepMergeStep, kindSwitch, hv, he, hh, if_false]

theorem deepMerge_keeps (E : Store → Value → Bool) (fuel : Nat) :
    ∀ (dst src : RValue) (depth : Nat) (st0 : State),
      (deepMerge E fuel dst src depth st0).keeps
        { st0.config with overwriteWithEmptyValue := false } := by
  induction fuel with
  | zero => intro dst src depth st0; simp [deepMerge, Outcome.keeps]
  | succ n ih =>
    intro dst src depth st0
    rw [deepMerge_succ_eq_step]
    exact deepMergeStep_keeps E (deepMerge E n) ih dst src depth st0

/-- C18 (one-shot overwrite-empty flag): for every call of `deepMerge`,
whatever the inputs, the recursion budget and the branch that returns, the
configuration with which the call returns is the one it was entered with, with
`overwriteWithEmptyValue` false; and every recursive call made inside the call
reads the flag as false: the call is one step of `deepMerge` over the recursive
call, and replacing the recursive call by anything at all on the states in
which the flag is true does not change the result. -/
theorem one_shot_overwrite_empty_flag (E : Store → Value → Bool) (fuel : Nat) (dst src : RValue)
    (depth : Nat) (st0 : State) :
    (match deepMerge E fuel dst src depth st0 with
      | .ret _ _ st =>
        st.config = { st0.config with overwriteWithEmptyValue := false }
          ∧ st.config.overwriteWithEmptyValue = false
      | _ => True)
    ∧ deepMerge E (fuel + 1) dst src depth st0
        = deepMergeStep E (deepMerge E fuel) dst src depth st0
    ∧ ∀ other : RValue → RValue → Nat → State → Outcome,
        deepMergeStep E (flagGuard other (deepMerge E fuel)) dst src depth st0
          = deepMerge E (fuel + 1) dst src depth st0 := by
  refine ⟨?_, deepMerge_succ_eq_step E fuel dst src depth st0, ?_⟩
  · have h := deepMerge_keeps E fuel dst src depth st0
    cases hd : deepMerge E fuel dst src depth st0 with
    | ret d e st =>
      rw [hd] at h
      simp only [Outcome.keeps] at h
      exact ⟨h, by rw [h]⟩
    | panic => trivial
    | outOfFuel => trivial
  · intro other
    rw [deepMerge_succ_eq_step]
    exact deepMergeStep_guard E other (deepMerge E fuel) (deepMerge_keeps E fuel) dst src depth st0

/-- Witness of C18: the outermost call on an `int` variable 1 and the source
0 is entered with overwrite on and the flag true; it replaces 1 by the empty
source and returns with the flag false. -/
theorem one_shot_overwrite_empty_flag_witness :
    deepMerge isEmptyValue 1 (.ref ⟨0, []⟩) (.imm (.int 0)) 0
        ⟨ptrStore, [], ⟨true, false, none, true⟩⟩
      = .ret (.ref ⟨0, []⟩) none
          ⟨⟨[.int 0, .ptr .int (some ⟨0, []⟩)], []⟩, [⟨⟨0, []⟩, .int⟩],
            ⟨true, false, none, false⟩⟩
    ∧ (match deepMerge isEmptyValue 1 (.ref ⟨0, []⟩) (.imm (.int 0)) 0
          ⟨ptrStore, [], ⟨true, false, none, true⟩⟩ with
      | .ret _ _ st =>
        st.config
            = { (⟨true, false, none, true⟩ : Config) with overwriteWithEmptyValue := false }
          ∧ st.config.overwriteWithEmptyValue = false
      | _ => True) :=
  ⟨by rfl, (one_shot_overwrite_empty_flag isEmptyValue 1 (.ref ⟨0, []⟩) (.imm (.int 0)) 0
    ⟨ptrStore, [], ⟨true, false, none, true⟩⟩).1⟩

/-! ## The transformer hook -/

theorem mergeFields_agree (rec rec' : RValue → RValue → Nat → State → Outcome) (c : Config)
    (hc : c.overwriteWithEmptyValue = false)
    (hagree : ∀ d s n st, st.config = c → rec' d s n st = rec d s n st)
    (hrec : ∀ d s n st, (rec d s n st).keeps { st.config with overwriteWithEmptyValue := false })
    (dst src dstCp : RValue) (depth : Nat) (fs : List StructField) :
    ∀ (i : Nat) (st : State), st.config = c →
      mergeFields rec' dst src dstCp depth i fs st
        = mergeFields rec dst src dstCp depth i fs st := by
  induction fs with
  | nil => intro i st _; simp [mergeFields]
  | cons f rest ih =>
    intro i st hst
    have hf : st.config.overwriteWithEmptyValue = false := by rw [hst]; exact hc
    simp only [mergeFields]
    split
    · rfl
    · split
      · split
        · rfl
        · split
          · exact ih _ _ hst
          · split
            · rfl
            · exact ih _ _ hst
      · split
        · rfl
        · rw [hagree _ _ _ st hst]
          split
          · rfl
          · rfl
          · rfl
          · rename_i heq
            have hr := keeps_ret rec hrec _ _ _ _ _ _ _ heq hf
            split
            · rfl
            · split
              · rfl
              · exact ih (i + 1) _ (by simp only [hr, hst])

theorem mergeStruct_agree (E : Store → Value → Bool)
    (rec rec' : RValue → RValue → Nat → State → Outcome) (c : Config)
    (hc : c.overwriteWithEmptyValue = false)
    (hagree : ∀ d s n st, st.config = c → rec' d s n st = rec d s n st)
    (hrec : ∀ d s n st, (rec d s n st).keeps { st.config with overwriteWithEmptyValue := false })
    (ow owe : Bool) (dst src : RValue) (depth : Nat) (st : State)
    (hst : st.config = c) :
    mergeStruct E rec' ow owe dst src depth st
      = mergeStruct E rec ow owe dst src depth st := by
  unfold mergeStruct
  split
  · split
    · simp only
      rw [mergeFields_agree rec rec' c hc hagree hrec _ _ _ _ _ _
        { st with store := (st.store.New (dst.get st.store)).1 } hst]
    · rfl
  · rfl

theorem mergeMapKey_agree (E : Store → Value → Bool)
    (rec rec' : RValue → RValue → Nat → State → Outcome) (c : Config)
    (hagree : ∀ d s n st, st.config = c → rec' d s n st = rec d s n st)
    (ow owe : Bool) (dst src : RValue) (depth : Nat) (key : Key) (st : State)
    (hst : st.config = c) :
    mergeMapKey E rec' ow owe dst src depth key st
      = mergeMapKey E rec ow owe dst src depth key st := by
  unfold mergeMapKey
  simp only [hagree _ _ _ st hst]

theorem mergeMapKeys_agree (E : Store → Value → Bool)
    (rec rec' : RValue → RValue → Nat → State → Outcome) (c : Config)
    (hc : c.overwriteWithEmptyValue = false)
    (hagree : ∀ d s n st, st.config = c → rec' d s n st = rec d s n st)
    (hrec : ∀ d s n st, (rec d s n st).keeps { st.config with overwriteWithEmptyValue := false })
    (ow owe : Bool) (dst src : RValue) (depth : Nat) (keys : List Key) :
    ∀ st : State, st.config = c →
      mergeMapKeys E rec' ow owe dst src depth keys st
        = mergeMapKeys E rec ow owe dst src depth keys st := by
  induction keys with
  | nil => intro st _; simp [mergeMapKeys]
  | cons key rest ih =>
    intro st hst
    have hf : st.config.overwriteWithEmptyValue = false := by rw [hst]; exact hc
    simp only [mergeMapKeys, mergeMapKey_agree E rec rec' c hagree ow owe dst src depth key st hst]
    have h := mergeMapKey_keeps E rec hrec ow owe dst src depth key st hf
    split
    · rfl
    · rename_i st1 heq
      rw [heq] at h
      simp only [exceptKeeps] at h
      exact ih st1 (by rw [h]; exact hst)

theorem mergeMap_agree (E : Store → Value → Bool)
    (rec rec' : RValue → RValue → Nat → State → Outcome) (c : Config)
    (hc : c.overwriteWithEmptyValue = false)
    (hagree : ∀ d s n st, st.config = c → rec' d s n st = rec d s n st)
    (hrec : ∀ d s n st, (rec d s n st).keeps { st.config with overwriteWithEmptyValue := false })
    (ow owe : Bool) (dst src : RValue) (depth : Nat) (st : State)
    (hst : st.config = c) :
    mergeMap E rec' ow owe dst src depth st
      = mergeMap E rec ow owe dst src depth st := by
  have hg : ∀ (keys : List Key) (st1 : State), st1.config = st.config →
      mergeMapKeys E rec' ow owe dst src depth keys st1
        = mergeMapKeys E rec ow owe dst src depth keys st1 := fun keys st1 h1 =>
    mergeMapKeys_agree E rec rec' c hc hagree hrec ow owe dst src depth keys st1
      (by rw [h1]; exact hst)
  unfold mergeMap
  simp only []
  split
  · rfl
  · split
    · rfl
    · rw [hg _ st rfl]
  · split
    · rfl
    · split
      · rfl
      · rw [hg _ st rfl]
    · split
      · split
        · split
          · rfl
          · split
            · rfl
            · rename_i s1 _ _ _ _
              rw [hg _ { st with store := s1 } rfl]
        · rfl
      · rfl

theorem mergePtr_agree (E : Store → Value → Bool)
    (rec rec' : RValue → RValue → Nat → State → Outcome) (c : Config)
    (hagree : ∀ d s n st, st.config = c → rec' d s n st = rec d s n st)
    (ow owe : Bool) (dst src : RValue) (depth : Nat) (st : State)
    (hst : st.config = c) :
    mergePtr E rec' ow owe dst src depth st
      = mergePtr E rec ow owe dst src depth st := by
  unfold mergePtr
  simp only [hagree _ _ _ st hst]

theorem kindSwitch_agree (E : Store → Value → Bool)
    (rec rec' : RValue → RValue → Nat → State → Outcome) (c : Config)
    (hc : c.overwriteWithEmptyValue = false)
    (hagree : ∀ d s n st, st.config = c → rec' d s n st = rec d s n st)
    (hrec : ∀ d s n st, (rec d s n st).keeps { st.config with overwriteWithEmptyValue := false })
    (ow owe : Bool) (dst src : RValue) (depth : Nat) (st : State)
    (hst : st.config = c) :
    kindSwitch E rec' ow owe dst src depth st
      = kindSwitch E rec ow owe dst src depth st := by
  unfold kindSwitch
  split
  · exact mergeStruct_agree E rec rec' c hc hagree hrec ow owe dst src depth st hst
  · exact mergeMap_agree E rec rec' c hc hagree hrec ow owe dst src depth st hst
  · rfl
  · exact mergePtr_agree E rec rec' c hagree ow owe dst src depth st hst
  · exact mergePtr_agree E rec rec' c hagree ow owe dst src depth st hst
  · rfl

set_option maxHeartbeats 4000000 in
/-- Counterexample to C14 as stated: the destination `N{P: T{A: 1, B: ""}}` is
not in the visited map and the registry has no transformer for its type `N`,
yet `deepMerge` does not behave as it does with no registry: with the registry
the merge of `N{P: T{A: 2, B: "y"}}` ends with the error of the transformer of
`T`, met at the field `P`; with no registry it succeeds and fills `B`. -/
theorem transformer_hook_counterexample :
    registryT (.struct "N") = none
    ∧ Merge isEmptyValue resolveValues 3 nestedStore (.ptr (.struct "N") (some ⟨0, []⟩))
        (structN 2 "y") [WithTransformers registryT]
      = .ret (some (.Other 7)) ⟨[structN 1 "", structN 0 ""], []⟩
    ∧ Merge isEmptyValue resolveValues 3 nestedStore (.ptr (.struct "N") (some ⟨0, []⟩))
        (structN 2 "y") []
      = .ret none ⟨[structN 1 "y", structN 1 "y", structAB 1 "y"], []⟩ :=
  ⟨by simp [registryT], by rfl, by rfl⟩

/-- C14 as amended (transformer hook): for every valid source and every
destination that is not already in the visited map (`st` is the state in which
the call passes the cycle guard): if a registry is configured, the destination
is non-empty and the registry returns a function `fn` for the type of the
destination, `deepMerge` returns the destination handle it was given with the
error and the heap that `fn dst src` returns, without any recursive call (the
result is the same for every recursion budget); and if no transformer takes
over (no registry, an empty destination, or no function for the type),
`deepMerge` is the built-in kind switch of this node, entered in a state whose
configuration is that of the call with the overwrite-empty flag cleared, and
every recursive call of the switch is made in a state with that same
configuration, registry included: replacing the recursive call by any function
that agrees with `deepMerge` on the states with that configuration does not
change the result. -/
theorem transformer_hook
    (E : Store → Value → Bool) (fuel : Nat) (dst src : RValue) (depth : Nat) (st0 st : State)
    (hsrc : src.IsValid st0.store = true)
    (henter : enterVisited
        { st0 with config := { st0.config with overwriteWithEmptyValue := false } } dst
      = some (false, st)) :
    (∀ t typ fn, st0.config.Transformers = some t → E st0.store (dst.get st0.store) = false →
        dst.Type st0.store = some typ → t typ = some fn →
        deepMerge E (fuel + 1) dst src depth st0
          = .ret dst (fn dst src st0.store).2 { st with store := (fn dst src st0.store).1 })
    ∧ (transformerHook E dst src st0 = none →
        deepMerge E (fuel + 1) dst src depth st0
          = kindSwitch E (deepMerge E fuel) st0.config.Overwrite
              st0.config.overwriteWithEmptyValue dst src depth st
        ∧ st.config = { st0.config with overwriteWithEmptyValue := false }
        ∧ st.config.Transformers = st0.config.Transformers
        ∧ ∀ rec' : RValue → RValue → Nat → State → Outcome,
            (∀ d s n st', st'.config = { st0.config with overwriteWithEmptyValue := false } →
              rec' d s n st' = deepMerge E fuel d s n st') →
            kindSwitch E rec' st0.config.Overwrite st0.config.overwriteWithEmptyValue
                dst src depth st
              = deepMerge E (fuel + 1) dst src depth st0) := by
  have hst : st.store = st0.store ∧ st.config
      = { st0.config with overwriteWithEmptyValue := false } := by
    cases dst with
    | imm v =>
      simp only [enterVisited, Option.some.injEq, Prod.mk.injEq, true_and] at henter
      subst henter
      exact ⟨rfl, rfl⟩
    | ref l =>
      simp only [enterVisited] at henter
      split at henter
      · simp at henter
      · split at henter
        · simp at henter
        · simp only [Option.some.injEq, Prod.mk.injEq, true_and] at henter
          subst henter
          exact ⟨rfl, rfl⟩
  constructor
  · intro t typ fn ht hE hty hfn
    have htr : st.config.Transformers = some t := by rw [hst.2]; exact ht
    simp only [deepMerge, hsrc, henter]
    simp [transformerHook, htr, hst.1, hE, hty, hfn]
  · intro hhook
    have hh : transformerHook E dst src st = none :=
      transformerHook_none_congr E dst src st0 st hst.1 (by rw [hst.2]) hhook
    have heq : deepMerge E (fuel + 1) dst src depth st0
        = kindSwitch E (deepMerge E fuel) st0.config.Overwrite
            st0.config.overwriteWithEmptyValue dst src depth st := by
      simp only [deepMerge, hsrc, henter, hh, kindSwitch]
      cases dst.Kind st.store <;> simp
    refine ⟨heq, hst.2, by rw [hst.2], ?_⟩
    intro rec' hagree
    rw [heq]
    exact kindSwitch_agree E (deepMerge E fuel) rec'
      { st0.config with overwriteWithEmptyValue := false } rfl hagree (deepMerge_keeps E fuel)
      _ _ dst src depth st hst.2

/-- Witness of C14 (amended): the variable `T{A: 7, B: "x"}` with the registry
that knows `T`. -/
theorem transformer_hook_witness :
    deepMerge isEmptyValue (0 + 1) (.ref ⟨0, []⟩) (.imm (structAB 0 "y")) 0
        ⟨overwriteStore, [], ⟨false, false, some registryT, false⟩⟩
      = .ret (.ref ⟨0, []⟩)
          (failingTransformer (.ref ⟨0, []⟩) (.imm (structAB 0 "y")) overwriteStore).2
          { (⟨overwriteStore, [⟨⟨0, []⟩, .struct "T"⟩],
              ⟨false, false, some registryT, false⟩⟩ : State) with
            store := (failingTransformer (.ref ⟨0, []⟩) (.imm (structAB 0 "y"))
              overwriteStore).1 } :=
  (transformer_hook isEmptyValue 0 (.ref ⟨0, []⟩) (.imm (structAB 0 "y")) 0
    ⟨overwriteStore, [], ⟨false, false, some registryT, false⟩⟩
    ⟨overwriteStore, [⟨⟨0, []⟩, .struct "T"⟩], ⟨false, false, some registryT, false⟩⟩
    (by decide) (by rfl)).1 registryT (.struct "T") failingTransformer rfl (by decide)
    (by decide) (by simp [registryT])

/-! ## Idempotence outside append mode -/

mutual
theorem mergePlain_idem (E : Store → Value → Bool) (s : Store) (ow : Bool) :
    ∀ (d x : Value), plainPair d x = true →
    plainPair (mergePlain E s ow false d x) x = true
      ∧ mergePlain E s ow false (mergePlain E s ow false d x) x = mergePlain E s ow false d x
      ∧ (mergePlain E s ow false d x).depth = d.depth
  | .struct n fs vs, x, hp => by
    cases x <;> simp [plainPair] at hp
    rename_i n' fs' ws
    obtain ⟨⟨⟨rfl, rfl⟩, hne⟩, hpf⟩ := hp
    obtain ⟨h1, h2, h3⟩ := mergePlainList_idem E s ow fs vs ws hpf
    simp only [mergePlain, plainPair, Value.depth, h1, h2, h3]
    simp [hne]
  | .bool b, x, hp => by
    cases x <;> simp [plainPair, Value.kind] at hp
    simp only [mergePlain]
    split <;> simp_all [plainPair, Value.kind, mergePlain, Value.depth]
  | .int b, x, hp => by
    cases x <;> simp [plainPair, Value.kind] at hp
    simp only [mergePlain]
    split <;> simp_all [plainPair, Value.kind, mergePlain, Value.depth]
  | .str b, x, hp => by
    cases x <;> simp [plainPair, Value.kind] at hp
    simp only [mergePlain]
    split <;> simp_all [plainPair, Value.kind, mergePlain, Value.depth]
  | .slice e n xs, x, hp => by
    cases x <;> simp [plainPair, Value.type] at hp
    subst hp
    rename_i e0 n' ys
    by_cases hc : (!E s (.slice e0 n' ys) && (ow || E s (.slice e0 n xs))) = true
    · simp [mergePlain, hc, plainPair, Value.type, Value.depth]
    · simp [mergePlain, hc, plainPair, Value.type, Value.depth]
  | .invalid, _, hp => by simp [plainPair] at hp
  | .chan _ _, _, hp => by simp [plainPair] at hp
  | .func _, _, hp => by simp [plainPair] at hp
  | .iface _, _, hp => by simp [plainPair] at hp
  | .map _ _ _, _, hp => by simp [plainPair] at hp
  | .ptr _ _, _, hp => by simp [plainPair] at hp
theorem mergePlainList_idem (E : Store → Value → Bool) (s : Store) (ow : Bool) :
    ∀ (fs : List StructField) (vs ws : List Value), plainFields fs vs ws = true →
    plainFields fs (mergePlainList E s ow false vs ws) ws = true
      ∧ mergePlainList E s ow false (mergePlainList E s ow false vs ws) ws
          = mergePlainList E s ow false vs ws
      ∧ Value.depthList (mergePlainList E s ow false vs ws) = Value.depthList vs
  | [], [], [], _ => by simp [mergePlainList, plainFields]
  | [], [], _ :: _, h => by simp [plainFields] at h
  | [], _ :: _, _, h => by simp [plainFields] at h
  | _ :: _, [], _, h => by simp [plainFields] at h
  | _ :: _, _ :: _, [], h => by simp [plainFields] at h
  | f :: fs, v :: vs, w :: ws, h => by
    simp [plainFields] at h
    obtain ⟨h1, h2, h3⟩ := mergePlain_idem E s ow v w h.1.2
    obtain ⟨g1, g2, g3⟩ := mergePlainList_idem E s ow fs vs ws h.2
    simp [mergePlainList, plainFields, Value.depthList, h.1.1, h1, h2, h3, g1, g2, g3]
end

mutual
theorem mergePlain_indep (E : Store → Value → Bool)
    (hE : ∀ s1 s2 v, v.isLeaf = true → E s1 v = E s2 v) (s1 s2 : Store) (ow app : Bool) :
    ∀ (d x : Value), plainPair d x = true →
    mergePlain E s1 ow app d x = mergePlain E s2 ow app d x
  | .struct n fs vs, x, hp => by
    cases x <;> simp [plainPair] at hp
    rename_i n' fs' ws
    obtain ⟨⟨⟨rfl, rfl⟩, _⟩, hpf⟩ := hp
    simp only [mergePlain, mergePlainList_indep E hE s1 s2 ow app fs vs ws hpf]
  | .bool b, x, hp => by
    cases x <;> simp [plainPair, Value.kind] at hp
    simp only [mergePlain, hE s1 s2 (.bool b) rfl, hE s1 s2 (.bool _) rfl]
  | .int b, x, hp => by
    cases x <;> simp [plainPair, Value.kind] at hp
    simp only [mergePlain, hE s1 s2 (.int b) rfl, hE s1 s2 (.int _) rfl]
  | .str b, x, hp => by
    cases x <;> simp [plainPair, Value.kind] at hp
    simp only [mergePlain, hE s1 s2 (.str b) rfl, hE s1 s2 (.str _) rfl]
  | .slice e n xs, x, hp => by
    cases x <;> simp [plainPair, Value.type] at hp
    simp only [mergePlain, hE s1 s2 (.slice e n xs) rfl, hE s1 s2 (.slice _ _ _) rfl]
  | .invalid, _, hp => by simp [plainPair] at hp
  | .chan _ _, _, hp => by simp [plainPair] at hp
  | .func _, _, hp => by simp [plainPair] at hp
  | .iface _, _, hp => by simp [plainPair] at hp
  | .map _ _ _, _, hp => by simp [plainPair] at hp
  | .ptr _ _, _, hp => by simp [plainPair] at hp
theorem mergePlainList_indep (E : Store → Value → Bool)
    (hE : ∀ s1 s2 v, v.isLeaf = true → E s1 v = E s2 v) (s1 s2 : Store) (ow app : Bool) :
    ∀ (fs : List StructField) (vs ws : List Value), plainFields fs vs ws = true →
    mergePlainList E s1 ow app vs ws = mergePlainList E s2 ow app vs ws
  | [], [], [], _ => by simp [mergePlainList]
  | [], [], _ :: _, h => by simp [plainFields] at h
  | [], _ :: _, _, h => by simp [plainFields] at h
  | _ :: _, [], _, h => by simp [plainFields] at h
  | _ :: _, _ :: _, [], h => by simp [plainFields] at h
  | f :: fs, v :: vs, w :: ws, h => by
    simp [plainFields] at h
    simp only [mergePlainList, mergePlain_indep E hE s1 s2 ow app v w h.1.2,
      mergePlainList_indep E hE s1 s2 ow app fs vs ws h.2]
end

/-- Two merges in a row of the same plain value: the second succeeds and
leaves the destination as the first left it. -/
theorem merge_plain_twice (E : Store → Value → Bool)
    (hE : ∀ s1 s2 v, v.isLeaf = true → E s1 v = E s2 v)
    (resolve : Store → Value → Value → RValue × RValue × Option Error)
    (s : Store) (dst src d x : Value) (l : Loc) (opts : List (Config → Config))
    (hres : ∀ s1, resolve s1 dst src = (.ref l, .imm x, none))
    (hl : s.load l = some d) (hp : plainPair d x = true)
    (htr : (buildConfig opts).Transformers = none)
    (hflag : (buildConfig opts).overwriteWithEmptyValue = false)
    (happ : (buildConfig opts).AppendSlice = false) :
    ∃ s1 s2, (∀ k, Merge E resolve (d.depth + 1 + k) s dst src opts = .ret none s1)
      ∧ (∀ k, Merge E resolve (d.depth + 1 + k) s1 dst src opts = .ret none s2)
      ∧ s1.load l = some (mergePlain E s (buildConfig opts).Overwrite false d x)
      ∧ s2.load l = s1.load l
      ∧ s2.maps = s1.maps
      ∧ (∀ c, c < s1.vars.length → c ≠ l.cell → s2.vars[c]? = s1.vars[c]?) := by
  obtain ⟨s1, h1, h2, -, -⟩ := merge_plain E hE resolve s dst src d x l opts (hres s) hl hp htr hflag
  rw [happ] at h2
  obtain ⟨p1, p2, p3⟩ := mergePlain_idem E s (buildConfig opts).Overwrite d x hp
  obtain ⟨s2, g1, g2, g3, g4⟩ := merge_plain E hE resolve s1 dst src _ x l opts (hres s1) h2 p1
    htr hflag
  rw [happ, mergePlain_indep E hE s1 s (buildConfig opts).Overwrite false _ x p1, p2] at g2
  rw [p3] at g1
  exact ⟨s1, s2, h1, g1, h2, by rw [g2, h2], g3, g4⟩

theorem mapInsert_self (k : Key) (v : Value) : ∀ m : List (Key × Value),
    m.lookup k = some v → mapInsert k v m = m := by
  intro m
  induction m with
  | nil => intro h; simp [List.lookup] at h
  | cons p m ih =>
    obtain ⟨a, b⟩ := p
    intro h
    by_cases hk : a = k
    · subst hk
      simp [List.lookup] at h
      simp [mapInsert, h]
    · have : (k == a) = false := by simp [Ne.symm hk]
      simp [List.lookup, this] at h
      simp [mapInsert, hk, ih h]

theorem mem_mapInsert (k : Key) (v : Value) : ∀ (m : List (Key × Value)) (p : Key × Value),
    p ∈ mapInsert k v m → p = (k, v) ∨ p ∈ m := by
  intro m
  induction m with
  | nil => intro p h; simp [mapInsert] at h; exact Or.inl h
  | cons q m ih =>
    obtain ⟨a, b⟩ := q
    intro p h
    by_cases hk : a = k
    · simp [mapInsert, hk] at h
      rcases h with h | h
      · exact Or.inl h
      · exact Or.inr (by simp [h])
    · simp [mapInsert, hk] at h
      rcases h with h | h
      · exact Or.inr (by simp [h])
      · rcases ih p h with h' | h'
        · exact Or.inl h'
        · exact Or.inr (by simp [h'])

theorem putMap_self (s : Store) (r : Nat) (k : Key) (v : Value) (hr : r < s.maps.length)
    (h : s.mapGet (some r) k = v) (hv : v.kind ≠ .Invalid) : s.putMap r k v = s := by
  unfold Store.mapGet at h
  simp only at h
  cases hl : (s.maps[r]?.getD []).lookup k with
  | none =>
    rw [hl] at h
    simp at h
    subst h
    simp [Value.kind] at hv
  | some w =>
    rw [hl] at h
    simp at h
    subst h
    unfold Store.putMap
    rw [mapInsert_self k w _ hl]
    have : s.maps[r]? = some (s.maps[r]?.getD []) := by simp [hr]
    rw [list_set_self s.maps r _ this]

theorem mem_mapObj_putMap (s : Store) (r r2 : Nat) (a : Key) (v : Value) (k : Key) (w : Value)
    (hr : r < s.maps.length)
    (h : (k, w) ∈ (s.putMap r a v).mapObj (some r2)) :
    (k, w) ∈ s.mapObj (some r2) ∨ (k = a ∧ w = v) := by
  unfold Store.putMap Store.mapObj at h
  simp only at h
  by_cases hrr : r2 = r
  · subst hrr
    simp [hr] at h
    rcases mem_mapInsert a v _ _ h with h' | h'
    · simp at h'
      exact Or.inr h'
    · left
      simpa [Store.mapObj, hr] using h'
  · rw [List.getElem?_set_ne (Ne.symm hrr)] at h
    exact Or.inl h

theorem mergeMapKey_scalar_step (E : Store → Value → Bool)
    (ow owe : Bool) (l : Loc) (kt et : Ty) (r : Nat) (rs : Option Nat)
    (het : et.isScalar = true) (a : Key) (st : State)
    (hl : st.store.load l = some (.map kt et (some r))) (hr : r < st.store.maps.length)
    (ha : a.type = kt ∧ (st.store.mapGet rs a).type = some et)
    (hdv : ∀ k, (st.store.mapGet (some r) k).kind = .Invalid
        ∨ (st.store.mapGet (some r) k).type = some et) :
    ∃ st1, (∀ rec depth,
        mergeMapKey E rec ow owe (.ref l) (.imm (.map kt et rs)) depth a st = .ok st1)
      ∧ st1.store.load l = some (.map kt et (some r)) ∧ r < st1.store.maps.length
      ∧ (∀ k, st1.store.mapGet rs k = st.store.mapGet rs k)
      ∧ (∀ k, (st1.store.mapGet (some r) k).kind = .Invalid
          ∨ (st1.store.mapGet (some r) k).type = some et)
      ∧ (∀ r2 k w, (k, w) ∈ st1.store.mapObj (some r2) →
          (k, w) ∈ st.store.mapObj (some r2) ∨ (k = a ∧ w = st.store.mapGet rs a)) := by
  have hstep := fun rec depth =>
    mergeMapKey_scalar E rec ow owe l kt et r rs depth a st het ha.1 hl ha.2 (hdv a)
  by_cases hg : (ow || ((st.store.mapGet (some r) a).kind == .Invalid
      || E st.store (st.store.mapGet (some r) a))) = true
  · simp only [if_pos hg] at hstep
    have hget : ∀ r2 k, (st.store.putMap r a (st.store.mapGet rs a)).mapGet (some r2) k
        = if r2 = r ∧ k = a then st.store.mapGet rs a else st.store.mapGet (some r2) k :=
      fun r2 k => mapGet_set st.store r r2 a k _ hr
    refine ⟨_, hstep, ?_, ?_, ?_, ?_, ?_⟩
    · rw [← hl]; exact load_of_vars _ _ l rfl
    · simp [Store.putMap, hr]
    · intro k
      cases rs with
      | none => rfl
      | some r' =>
        show (st.store.putMap r a (st.store.mapGet (some r') a)).mapGet (some r') k = _
        rw [hget r' k]
        by_cases h : r' = r ∧ k = a
        · rw [if_pos h, h.1, h.2]
        · rw [if_neg h]
    · intro k
      show ((st.store.putMap r a (st.store.mapGet rs a)).mapGet (some r) k).kind = _ ∨ _
      rw [hget r k]
      by_cases h : r = r ∧ k = a
      · rw [if_pos h]; exact Or.inr ha.2
      · rw [if_neg h]; exact hdv k
    · intro r2 k w h
      exact mem_mapObj_putMap st.store r r2 a _ k w hr h
  · simp only [if_neg hg] at hstep
    exact ⟨st, hstep, hl, hr, fun _ => rfl, hdv, fun r2 k w h => Or.inl h⟩

theorem mergeMapKeys_scalar_mem (E : Store → Value → Bool)
    (rec : RValue → RValue → Nat → State → Outcome) (depth : Nat)
    (ow owe : Bool) (l : Loc) (kt et : Ty) (r : Nat) (rs : Option Nat)
    (het : et.isScalar = true) :
    ∀ (ks : List Key) (st st' : State),
      st.store.load l = some (.map kt et (some r)) → r < st.store.maps.length →
      (∀ k ∈ ks, k.type = kt ∧ (st.store.mapGet rs k).type = some et) →
      (∀ k, (st.store.mapGet (some r) k).kind = .Invalid
        ∨ (st.store.mapGet (some r) k).type = some et) →
      mergeMapKeys E rec ow owe (.ref l) (.imm (.map kt et rs)) depth ks st = .ok st' →
      ∀ r2 k w, (k, w) ∈ st'.store.mapObj (some r2) →
        (k, w) ∈ st.store.mapObj (some r2) ∨ (k ∈ ks ∧ w = st.store.mapGet rs k) := by
  intro ks
  induction ks with
  | nil =>
    intro st st' _ _ _ _ h r2 k w hm
    simp only [mergeMapKeys, Except.ok.injEq] at h
    subst h
    exact Or.inl hm
  | cons a ks ih =>
    intro st st' hl hr hks hdv h r2 k w hm
    obtain ⟨st1, h1, hl1, hr1, hs1, hdv1, hm1⟩ :=
      mergeMapKey_scalar_step E ow owe l kt et r rs het a st hl hr (hks a (by simp)) hdv
    rw [mergeMapKeys, h1 rec depth] at h
    have hks1 : ∀ k ∈ ks, k.type = kt ∧ (st1.store.mapGet rs k).type = some et := by
      intro k hk
      rw [hs1 k]
      exact hks k (by simp [hk])
    rcases ih st1 st' hl1 hr1 hks1 hdv1 h r2 k w hm with h' | ⟨h', h''⟩
    · rcases hm1 r2 k w h' with g | ⟨g1, g2⟩
      · exact Or.inl g
      · exact Or.inr ⟨by simp [g1], by rw [g2, g1]⟩
    · exact Or.inr ⟨by simp [h'], by rw [h'', hs1 k]⟩

theorem mergeMapKeys_fixed (E : Store → Value → Bool)
    (ow owe : Bool) (l : Loc) (kt et : Ty) (r : Nat) (rs : Option Nat)
    (het : et.isScalar = true) (st : State)
    (hl : st.store.load l = some (.map kt et (some r))) (hr : r < st.store.maps.length)
    (hdv : ∀ k, (st.store.mapGet (some r) k).kind = .Invalid
        ∨ (st.store.mapGet (some r) k).type = some et) :
    ∀ (ks : List Key),
      (∀ k ∈ ks, k.type = kt ∧ (st.store.mapGet rs k).type = some et
        ∧ (mapGate E st.store ow (st.store.mapGet (some r) k) = true →
            st.store.mapGet (some r) k = st.store.mapGet rs k)) →
      ∀ rec depth,
        mergeMapKeys E rec ow owe (.ref l) (.imm (.map kt et rs)) depth ks st = .ok st := by
  intro ks
  induction ks with
  | nil => intro _ rec depth; simp [mergeMapKeys]
  | cons a ks ih =>
    intro hks rec depth
    obtain ⟨ha1, ha2, ha3⟩ := hks a (by simp)
    have hstep := mergeMapKey_scalar E rec ow owe l kt et r rs depth a st het ha1 hl ha2 (hdv a)
    have hsame : (if ow || ((st.store.mapGet (some r) a).kind == .Invalid
                || E st.store (st.store.mapGet (some r) a)) then
              { st with store := st.store.putMap r a (st.store.mapGet rs a) }
            else st) = st := by
      split
      · rename_i hg
        have heq := ha3 hg
        have hv := (scalar_type_kind _ et het ha2).1
        rw [putMap_self st.store r a _ hr heq hv]
      · rfl
    rw [hsame] at hstep
    rw [mergeMapKeys, hstep]
    exact ih (fun k hk => hks k (by simp [hk])) rec depth

theorem mapLoop_scalar_fixed (E : Store → Value → Bool)
    (ow owe : Bool) (l : Loc) (kt et : Ty)
    (r : Nat) (rs : Option Nat) (st : State)
    (het : et.isScalar = true)
    (hE : ∀ s1 s2 v, v.type = some et → E s1 v = E s2 v)
    (hl : st.store.load l = some (.map kt et (some r))) (hr : r < st.store.maps.length)
    (hsrcT : ∀ k v, (k, v) ∈ st.store.mapObj rs → k.type = kt ∧ v.type = some et)
    (hdstT : ∀ k, (st.store.mapGet (some r) k).kind = .Invalid
        ∨ (st.store.mapGet (some r) k).type = some et) :
    ∃ st', (∀ rec depth, mergeMapKeys E rec ow owe (.ref l) (.imm (.map kt et rs)) depth
          ((st.store.mapObj rs).map Prod.fst) st = .ok st')
      ∧ st'.store.vars = st.store.vars
      ∧ r < st'.store.maps.length
      ∧ (∀ k, (st'.store.mapGet (some r) k).kind = .Invalid
          ∨ (st'.store.mapGet (some r) k).type = some et)
      ∧ (∀ k ∈ (st'.store.mapObj rs).map Prod.fst,
          k.type = kt ∧ (st'.store.mapGet rs k).type = some et
          ∧ (mapGate E st'.store ow (st'.store.mapGet (some r) k) = true →
              st'.store.mapGet (some r) k = st'.store.mapGet rs k)) := by
  have hks : ∀ k ∈ (st.store.mapObj rs).map Prod.fst,
      k.type = kt ∧ (st.store.mapGet rs k).type = some et := by
    intro k hk
    obtain ⟨v, hv⟩ := lookup_of_mem_keys _ k hk
    have := hsrcT k v (lookup_mem _ k v hv)
    rw [mapGet_eq_lookup, hv]
    exact this
  obtain ⟨st', h1, h2, -, -, h5, h6, h7⟩ :=
    mergeMapKeys_scalar E ow owe l kt et r rs het hE _ st hl hr hks hdstT
  have hmem := mergeMapKeys_scalar_mem E (fun _ _ _ _ => .panic) 0 ow owe l kt et r rs het _ st st'
    hl hr hks hdstT (h1 _ _)
  have hdv' : ∀ k, (st'.store.mapGet (some r) k).kind = .Invalid
      ∨ (st'.store.mapGet (some r) k).type = some et := by
    intro k
    rw [h6 k]
    split
    · rename_i hc
      exact Or.inr (hks k hc.1).2
    · exact hdstT k
  refine ⟨st', h1, h2, by rw [h5]; exact hr, hdv', ?_⟩
  intro k hk
  have hk0 : k ∈ (st.store.mapObj rs).map Prod.fst := by
    cases rs with
    | none => simp [Store.mapObj] at hk
    | some r2 =>
      obtain ⟨w, hw⟩ := lookup_of_mem_keys _ k hk
      rcases hmem r2 k w (lookup_mem _ k w hw) with h | ⟨h, -⟩
      · exact List.mem_map.mpr ⟨(k, w), h, rfl⟩
      · exact h
  refine ⟨(hks k hk0).1, by rw [h7 k]; exact (hks k hk0).2, ?_⟩
  intro hg
  rw [mapGate_indep E et hE st'.store st.store ow _ (hdv' k), h6 k] at hg
  rw [h6 k, h7 k]
  by_cases hc : mapGate E st.store ow (st.store.mapGet (some r) k) = true
  · simp [hk0, hc]
  · simp only [hc, Bool.false_eq_true, and_false, if_false] at hg

theorem Merge_map_fixed
    (E : Store → Value → Bool)
    (resolve : Store → Value → Value → RValue × RValue × Option Error)
    (s : Store) (dst src : Value) (opts : List (Config → Config))
    (l : Loc) (kt et : Ty) (r : Nat) (rs : Option Nat)
    (hres : resolve s dst src = (.ref l, .imm (.map kt et rs), none))
    (hdst : s.load l = some (.map kt et (some r)))
    (het : et.isScalar = true)
    (htr : (buildConfig opts).Transformers = none)
    (hr : r < s.maps.length)
    (hdv : ∀ k, (s.mapGet (some r) k).kind = .Invalid ∨ (s.mapGet (some r) k).type = some et)
    (hfix : ∀ k ∈ (s.mapObj rs).map Prod.fst,
      k.type = kt ∧ (s.mapGet rs k).type = some et
      ∧ (mapGate E s (buildConfig opts).Overwrite (s.mapGet (some r) k) = true →
          s.mapGet (some r) k = s.mapGet rs k)) :
    ∀ fuel, Merge E resolve (fuel + 1) s dst src opts = .ret none s := by
  have h1 := mergeMapKeys_fixed E (buildConfig opts).Overwrite
    (buildConfig opts).overwriteWithEmptyValue l kt et r rs het
    ⟨s, [⟨l, .map kt et⟩],
      ⟨(buildConfig opts).Overwrite, (buildConfig opts).AppendSlice, none, false⟩⟩
    hdst hr hdv _ hfix
  intro fuel
  simp [Merge, merge, hres, RValue.CanSet, RValue.CanAddr, RValue.Type, RValue.get_imm,
    RValue.get_ref, hdst, Value.type, deepMerge, RValue.IsValid, Value.kind, enterVisited,
    seenBefore, transformerHook, htr, RValue.Kind, mergeMap, Value.IsNil, MapKeys_eq, h1]

/-- Two merges in a row of the same map with scalar elements: the second
succeeds and leaves the heap as the first left it. -/
theorem Merge_map_scalar_twice
    (E : Store → Value → Bool)
    (resolve : Store → Value → Value → RValue × RValue × Option Error)
    (s : Store) (dst src : Value) (opts : List (Config → Config))
    (l : Loc) (kt et : Ty) (rd rs : Option Nat)
    (hres : ∀ s1, resolve s1 dst src = (.ref l, .imm (.map kt et rs), none))
    (hdst : s.load l = some (.map kt et rd))
    (het : et.isScalar = true)
    (hE : ∀ s1 s2 v, v.type = some et → E s1 v = E s2 v)
    (htr : (buildConfig opts).Transformers = none)
    (hrd : ∀ r, rd = some r → r < s.maps.length)
    (hrs : ∀ r, rs = some r → r < s.maps.length)
    (hsrcT : ∀ k v, (k, v) ∈ s.mapObj rs → k.type = kt ∧ v.type = some et)
    (hdstT : ∀ k v, (k, v) ∈ s.mapObj rd → v.type = some et) :
    ∃ s1, (∀ fuel, Merge E resolve (fuel + 1) s dst src opts = .ret none s1)
      ∧ (∀ fuel, Merge E resolve (fuel + 1) s1 dst src opts = .ret none s1) := by
  have hdv : ∀ k, (s.mapGet rd k).kind = .Invalid ∨ (s.mapGet rd k).type = some et := by
    intro k
    rw [mapGet_eq_lookup]
    cases h : (s.mapObj rd).lookup k with
    | none => left; rfl
    | some v => right; exact hdstT k v (lookup_mem _ k v h)
  cases rd with
  | some r =>
    have hr := hrd r rfl
    obtain ⟨st', h1, h2, h3, h4, h5⟩ := mapLoop_scalar_fixed E (buildConfig opts).Overwrite
      (buildConfig opts).overwriteWithEmptyValue l kt et r rs
      ⟨s, [⟨l, .map kt et⟩],
        ⟨(buildConfig opts).Overwrite, (buildConfig opts).AppendSlice, none, false⟩⟩
      het hE hdst hr hsrcT hdv
    dsimp only at h1 h2
    have hl' : st'.store.load l = some (.map kt et (some r)) := by
      rw [load_of_vars _ _ l h2]; exact hdst
    refine ⟨st'.store, ?_, ?_⟩
    · intro fuel
      simp [Merge, merge, hres, RValue.CanSet, RValue.CanAddr, RValue.Type, RValue.get_imm,
        RValue.get_ref, hdst, Value.type, deepMerge, RValue.IsValid, Value.kind, enterVisited,
        seenBefore, transformerHook, htr, RValue.Kind, mergeMap, Value.IsNil, MapKeys_eq, h1]
    · exact Merge_map_fixed E resolve st'.store dst src opts l kt et r rs (hres _) hl' het htr
        h3 h4 h5
  | none =>
    cases rs with
    | none =>
      have h0 : ∀ fuel, Merge E resolve (fuel + 1) s dst src opts = .ret none s := by
        intro fuel
        simp [Merge, merge, hres, RValue.CanSet, RValue.CanAddr, RValue.Type, RValue.get_imm,
          RValue.get_ref, hdst, Value.type, deepMerge, RValue.IsValid, Value.kind, enterVisited,
          seenBefore, transformerHook, htr, RValue.Kind, mergeMap, Value.IsNil, MapKeys,
          mergeMapKeys]
      exact ⟨s, h0, h0⟩
    | some r' =>
      have hr' := hrs r' rfl
      have hl1 : ({ s with maps := s.maps ++ [[]] } : Store).load l
          = some (.map kt et none) := by
        rw [← hdst]; exact load_of_vars _ _ l rfl
      obtain ⟨s2, hw, hl2, hm2, -, -⟩ :=
        Store.load_write _ l (.map kt et (some s.maps.length)) _ hl1
      have hlen : s.maps.length < s2.maps.length := by simp [hm2]
      have hobj : s2.mapObj (some r') = s.mapObj (some r') := by
        simp [Store.mapObj, hm2, List.getElem?_append_left hr']
      have hnew : ∀ k, s2.mapGet (some s.maps.length) k = .invalid := by
        intro k; simp [Store.mapGet, hm2, List.lookup]
      obtain ⟨st', h1, h2, h3, h4, h5⟩ := mapLoop_scalar_fixed E (buildConfig opts).Overwrite
        (buildConfig opts).overwriteWithEmptyValue l kt et s.maps.length (some r')
        ⟨s2, [⟨l, .map kt et⟩],
          ⟨(buildConfig opts).Overwrite, (buildConfig opts).AppendSlice, none, false⟩⟩
        het hE hl2 hlen (by rw [hobj]; exact hsrcT)
        (by intro k; left; dsimp only; rw [hnew k]; rfl)
      dsimp only at h1 h2
      rw [hobj] at h1
      have hl' : st'.store.load l = some (.map kt et (some s.maps.length)) := by
        rw [load_of_vars _ _ l h2]; exact hl2
      refine ⟨st'.store, ?_, ?_⟩
      · intro fuel
        simp [Merge, merge, hres, RValue.CanSet, RValue.CanAddr, RValue.Type, RValue.get_imm,
          RValue.get_ref, hdst, Value.type, deepMerge, RValue.IsValid, Value.kind, enterVisited,
          seenBefore, transformerHook, htr, RValue.Kind, mergeMap, Value.IsNil, Store.MakeMap,
          RValue.Set, hl1, assignTo, hw, MapKeys_eq, hobj, h1]
      · exact Merge_map_fixed E resolve st'.store dst src opts l kt et s.maps.length (some r')
          (hres _) hl' het htr h3 h4 h5


theorem scalar_type_isLeaf (et : Ty) (het : et.isScalar = true) (v : Value)
    (h : v.type = some et) : v.isLeaf = true := by
  cases v <;> simp [Value.type] at h <;> subst h <;> simp [Ty.isScalar] at het <;>
    simp [Value.isLeaf]

/-- Counterexample to C20 as stated: `dst = M{M1: p, M2: q}` with two empty
maps `p` and `q`, and `src = M{M1: q, M2: {"a": 1}}`, which shares the map `q`
with `dst`; default options.  Both merges succeed.  The first merge leaves
`dst.M1 = p` empty and puts `a: 1` into `q`; the second merge then finds
`a: 1` in `src.M1 = q` and puts it into `p`: after it `dst.M1` has the key `a`,
which it did not have after the first merge. -/
theorem idempotence_counterexample :
    Merge isEmptyValue resolveValues 2 sharedMapStore (.ptr (.struct "M") (some ⟨0, []⟩))
        (structM (some 1) (some 2)) []
      = .ret none ⟨[structM (some 0) (some 1), structM (some 0) (some 1)],
          [[], [(.str "a", .int 1)], [(.str "a", .int 1)]]⟩
    ∧ Merge isEmptyValue resolveValues 2
        ⟨[structM (some 0) (some 1), structM (some 0) (some 1)],
          [[], [(.str "a", .int 1)], [(.str "a", .int 1)]]⟩
        (.ptr (.struct "M") (some ⟨0, []⟩)) (structM (some 1) (some 2)) []
      = .ret none ⟨[structM (some 0) (some 1), structM (some 0) (some 1),
            structM (some 0) (some 1)],
          [[(.str "a", .int 1)], [(.str "a", .int 1)], [(.str "a", .int 1)]]⟩
    ∧ hasKey ⟨[structM (some 0) (some 1), structM (some 0) (some 1)],
          [[], [(.str "a", .int 1)], [(.str "a", .int 1)]]⟩
        (.map .string .int (some 0)) (.str "a") = false
    ∧ hasKey ⟨[structM (some 0) (some 1), structM (some 0) (some 1),
            structM (some 0) (some 1)],
          [[(.str "a", .int 1)], [(.str "a", .int 1)], [(.str "a", .int 1)]]⟩
        (.map .string .int (some 0)) (.str "a") = true := by
  refine ⟨?_, ?_, by rfl, by rfl⟩
  · simp [Merge, merge, resolveValues, buildConfig, sharedMapStore, structM, fieldM1, fieldM2,
      RValue.Elem, RValue.get_imm, RValue.get_ref, Store.load, Value.proj, Value.kind,
      Value.type, RValue.CanSet, RValue.CanAddr, RValue.Type, RValue.Kind, RValue.IsValid,
      deepMerge, enterVisited, seenBefore, transformerHook, mergeMap, mergeMapKeys, mergeMapKey,
      MapKeys, MapIndex, Key.type, Value.IsNil, Value.unbox, isReflectNil, mergeStruct,
      mergeFields, hasExportedField, hasExportedFieldLoop, isFieldExported, isExportedComponent,
      Store.New, RValue.Field, isEmptyValue, RValue.Set, setOrReplace, SetMapIndex, assignTo,
      Store.write, Value.update, mapInsert, RValue.get, zeroLike, zeroLikeList]
  · simp [Merge, merge, resolveValues, buildConfig, sharedMapStore, structM, fieldM1, fieldM2,
      RValue.Elem, RValue.get_imm, RValue.get_ref, Store.load, Value.proj, Value.kind,
      Value.type, RValue.CanSet, RValue.CanAddr, RValue.Type, RValue.Kind, RValue.IsValid,
      deepMerge, enterVisited, seenBefore, transformerHook, mergeMap, mergeMapKeys, mergeMapKey,
      MapKeys, MapIndex, Key.type, Value.IsNil, Value.unbox, isReflectNil, mergeStruct,
      mergeFields, hasExportedField, hasExportedFieldLoop, isFieldExported, isExportedComponent,
      Store.New, RValue.Field, isEmptyValue, RValue.Set, setOrReplace, SetMapIndex, assignTo,
      Store.write, Value.update, mapInsert, RValue.get, zeroLike, zeroLikeList]

/-! ## Append mode at every settable slice -/

/-- Counterexample to C7 as stated: `dst = Q{P1: &a, P2: &a}` with `a = [1]`
and `src = Q{P1: &[2], P2: &[3]}`, merged with `WithAppendSlice`.  Under `P1`
the settable slice `a` is merged with `[2]` and becomes `[1, 2]`.  Under `P2`
the same settable slice `a = [1, 2]` is merged with `[3]`, a slice of the same
type: it is already in the visited map and is left as `[1, 2]`, not
`[1, 2, 3]` (the last variable of the heap is the scratch copy of the struct
case). -/
theorem append_revisit_counterexample :
    Merge isEmptyValue resolveValues 3 twoPointersStore (.ptr (.struct "Q") (some ⟨0, []⟩))
        (structQ (some ⟨2, []⟩) (some ⟨3, []⟩)) [WithAppendSlice]
      = .ret none
          ⟨[structQ (some ⟨1, []⟩) (some ⟨1, []⟩), .slice .int false [.int 1, .int 2],
            .slice .int false [.int 2], .slice .int false [.int 3],
            structQ (some ⟨1, []⟩) (some ⟨1, []⟩)], []⟩ := by
  simp [Merge, merge, resolveValues, buildConfig, WithAppendSlice, twoPointersStore, structQ,
    fieldP1, fieldP2, RValue.Elem, RValue.get_imm, RValue.get_ref, Store.load, Value.proj,
    Value.kind, Value.type, RValue.CanSet, RValue.CanAddr, RValue.Type, RValue.Kind,
    RValue.IsValid, deepMerge, enterVisited, seenBefore, transformerHook, Value.IsNil,
    isReflectNil, mergePtr, mergeStruct, mergeFields, mergeSlice, appendChecked, AppendSlice,
    hasExportedField, hasExportedFieldLoop, isFieldExported, isExportedComponent, Store.New,
    RValue.Field, isEmptyValue, RValue.Set, RValue.Addr, setOrReplace, assignTo, Store.write,
    Value.update, RValue.get, zeroLike, zeroLikeList]

/-- C7 as amended (append is concatenation): for every settable slice
destination that is not already in the visited map and every source that is a
slice of the same type, `deepMerge` in append mode with no transformers (with
or without overwrite, whatever the overwrite-empty flag) returns the
destination handle with no error, and the destination then holds its former
elements followed by the elements of the source, in order and with duplicates,
so its length is the sum of the two lengths; nothing else in the heap is
changed.  Through `Merge`: when the destination is built from scalars, slices
and structs whose fields are all exported, `Merge` with append mode on
succeeds and every slice of the destination, at any nesting depth, ends as its
former elements followed by those of the source slice at the same position. -/
theorem append_is_concatenation
    (E : Store → Value → Bool) :
    (∀ (fuel : Nat) (l : Loc) (src : RValue) (depth : Nat) (st : State) (e : Ty) (n n' : Bool)
        (xs ys : List Value),
      st.store.load l = some (.slice e n xs) → src.get st.store = .slice e n' ys →
      st.config.AppendSlice = true → st.config.Transformers = none →
      seenBefore st.visited l (.slice e) = false →
      ∃ s', deepMerge E (fuel + 1) (.ref l) src depth st
          = .ret (.ref l) none
              { store := s', visited := ⟨l, .slice e⟩ :: st.visited,
                config := { st.config with overwriteWithEmptyValue := false } }
        ∧ s'.load l = some (.slice e (n && ys.isEmpty) (xs ++ ys))
        ∧ (xs ++ ys).length = xs.length + ys.length
        ∧ s'.maps = st.store.maps
        ∧ ∀ l' : Loc, l'.cell ≠ l.cell → s'.load l' = st.store.load l')
    ∧ (∀ (resolve : Store → Value → Value → RValue × RValue × Option Error)
        (s : Store) (dst src d x : Value) (l : Loc) (opts : List (Config → Config)),
      (∀ s1 s2 v, v.isLeaf = true → E s1 v = E s2 v) →
      resolve s dst src = (.ref l, .imm x, none) → s.load l = some d → plainPair d x = true →
      (buildConfig opts).AppendSlice = true → (buildConfig opts).Transformers = none →
      (buildConfig opts).overwriteWithEmptyValue = false →
      ∃ s' r, (∀ fuel, Merge E resolve (d.depth + 1 + fuel) s dst src opts = .ret none s')
        ∧ s'.load l = some r
        ∧ ∀ p e n xs, d.proj p = some (.slice e n xs) →
            ∃ n' ys, x.proj p = some (.slice e n' ys)
              ∧ r.proj p = some (.slice e (n && ys.isEmpty) (xs ++ ys))) := by
  constructor
  · intro fuel l src depth st e n n' xs ys hdst hsrc happ htr hvis
    obtain ⟨s', hw, hl, hm, -, hfr⟩ :=
      Store.load_write st.store l (.slice e (n && ys.isEmpty) (xs ++ ys)) _ hdst
    refine ⟨s', ?_, hl, by simp, hm, hfr⟩
    simp [deepMerge, RValue.IsValid, hsrc, Value.kind, enterVisited, RValue.Type, RValue.get_imm,
      RValue.get_ref, hdst, Value.type, hvis, transformerHook, htr, RValue.Kind, mergeSlice,
      RValue.CanSet, RValue.CanAddr, happ, appendChecked, AppendSlice, RValue.Set, assignTo, hw]
  · intro resolve s dst src d x l opts hE hres hl hp happ htr hflag
    obtain ⟨s', hm, hload, -, -⟩ := merge_plain E hE resolve s dst src d x l opts hres hl hp
      htr hflag
    refine ⟨s', _, hm, hload, ?_⟩
    intro p e n xs hv
    obtain ⟨w, hw, hvw, hr⟩ :=
      mergePlain_proj E s (buildConfig opts).Overwrite true p d x _ hp hv
    cases w <;> simp [plainPair, Value.type] at hvw
    rename_i e' n' ys
    subst hvw
    refine ⟨n', ys, hw, ?_⟩
    rw [happ, hr]
    simp [mergePlain]

/-- Witness of C7 (amended): the `[]int` variable `[1]` merged with `[2, 3]`,
and `W{S: [2, 3]}` merged into the variable `W{S: [1]}` with
`WithAppendSlice`. -/
theorem append_is_concatenation_witness :
    (∃ s', deepMerge isEmptyValue (0 + 1) (.ref ⟨1, []⟩)
          (.imm (.slice .int false [.int 2, .int 3])) 0
          ⟨twoPointersStore, [], ⟨false, true, none, false⟩⟩
        = .ret (.ref ⟨1, []⟩) none
            { store := s', visited := ⟨⟨1, []⟩, .slice .int⟩ :: [],
              config := { (⟨false, true, none, false⟩ : Config) with
                overwriteWithEmptyValue := false } }
      ∧ s'.load ⟨1, []⟩ = some (.slice .int (false && [Value.int 2, .int 3].isEmpty)
          ([Value.int 1] ++ [Value.int 2, .int 3]))
      ∧ ([Value.int 1] ++ [Value.int 2, Value.int 3]).length
          = [Value.int 1].length + [Value.int 2, .int 3].length
      ∧ s'.maps = twoPointersStore.maps
      ∧ ∀ l' : Loc, l'.cell ≠ (⟨1, []⟩ : Loc).cell → s'.load l' = twoPointersStore.load l')
    ∧ (∃ s' r, (∀ fuel, Merge isEmptyValue resolveValues ((structS [1]).depth + 1 + fuel)
          sliceFieldStore (.ptr (.struct "W") (some ⟨0, []⟩)) (structS [2, 3])
          [WithAppendSlice] = .ret none s')
      ∧ s'.load ⟨0, []⟩ = some r
      ∧ ∀ p e n xs, (structS [1]).proj p = some (.slice e n xs) →
          ∃ n' ys, (structS [2, 3]).proj p = some (.slice e n' ys)
            ∧ r.proj p = some (.slice e (n && ys.isEmpty) (xs ++ ys))) :=
  ⟨(append_is_concatenation isEmptyValue).1 0 ⟨1, []⟩
      (.imm (.slice .int false [.int 2, .int 3])) 0
      ⟨twoPointersStore, [], ⟨false, true, none, false⟩⟩ .int false false [.int 1]
      [.int 2, .int 3] (by rfl) (by rfl) rfl rfl (by rfl),
   (append_is_concatenation isEmptyValue).2 resolveValues sliceFieldStore
      (.ptr (.struct "W") (some ⟨0, []⟩)) (structS [2, 3]) (structS [1]) (structS [2, 3])
      ⟨0, []⟩ [WithAppendSlice] isEmptyValue_leaf_indep (by rfl) (by rfl) (by decide)
      (by rfl) (by rfl) (by rfl)⟩

/-! ## Map key union -/

theorem lookup_mapErase (k k' : Key) (m : List (Key × Value)) :
    (mapErase k m).lookup k' = if k' = k then none else m.lookup k' := by
  induction m with
  | nil => simp [mapErase, List.lookup]
  | cons p m ih =>
    obtain ⟨a, b⟩ := p
    by_cases h1 : a = k
    · subst h1
      by_cases h : k' = a
      · subst h
        simp only [mapErase, if_true]
        rw [ih]
        simp
      · have : (k' == a) = false := by simp [h]
        simp [mapErase, List.lookup, h, this, ih]
    · by_cases h : k' = k
      · subst h
        have : (k' == a) = false := by simp [Ne.symm h1]
        simp [mapErase, List.lookup, h1, this, ih]
      · simp [mapErase, List.lookup, h1, h, ih]

/-- Store with an entry of map object `r` deleted. -/
theorem mapGet_erase (s : Store) (r r2 : Nat) (k k' : Key) (hr : r < s.maps.length) :
    ({ s with maps := s.maps.set r (mapErase k (s.maps[r]?.getD [])) } : Store).mapGet
        (some r2) k'
      = if r2 = r ∧ k' = k then .invalid else s.mapGet (some r2) k' := by
  by_cases h : r2 = r
  · subst h
    by_cases hk : k' = k
    · simp [Store.mapGet, hr, lookup_mapErase, hk]
    · simp [Store.mapGet, hr, lookup_mapErase, hk]
  · simp [Store.mapGet, h, List.getElem?_set_ne (Ne.symm h)]

theorem assignTo_type (t : Ty) (x v : Value) (h : assignTo t x = some v) : v.type = some t := by
  unfold assignTo at h
  cases hx : x.type with
  | none => simp [hx] at h
  | some tx =>
    simp only [hx] at h
    split at h
    · rename_i h1
      simp only [Option.some.injEq] at h
      subst h
      rw [hx, h1]
    · split at h
      · rename_i h2
        simp only [Option.some.injEq] at h
        subst h
        simp [Value.type, h2]
      · simp at h

theorem assignTo_self (t : Ty) (x : Value) (h : x.type = some t) : assignTo t x = some x := by
  simp [assignTo, h]

theorem kind_ne_invalid_of_type (v : Value) (t : Ty) (h : v.type = some t) :
    v.kind ≠ .Invalid := by
  cases v <;> simp [Value.type] at h <;> simp [Value.kind]

theorem SetMapIndex_valid (s : Store) (kt et : Ty) (r : Nat) (key : Key) (x v : Value)
    (hkey : key.type = kt) (hx : assignTo et x = some v) :
    SetMapIndex s (.map kt et (some r)) key x = some (s.putMap r key v) := by
  have hk : x.kind ≠ .Invalid := by
    unfold assignTo at hx
    cases hxt : x.type with
    | none => simp [hxt] at hx
    | some tx => exact kind_ne_invalid_of_type x tx hxt
  simp [SetMapIndex, hkey, hk, hx, Store.putMap]

theorem SetMapIndex_invalid (s : Store) (kt et : Ty) (r : Nat) (key : Key) (hkey : key.type = kt) :
    SetMapIndex s (.map kt et (some r)) key .invalid
      = some { s with maps := s.maps.set r (mapErase key (s.maps[r]?.getD [])) } := by
  simp [SetMapIndex, hkey, Value.kind]

theorem touched_put (r : Nat) (a : Key) (st : State) (v : Value) :
    entryTouched r a st { st with store := st.store.putMap r a v } := by
  refine Or.inr ⟨mapInsert a v (st.store.maps[r]?.getD []), rfl, ?_⟩
  intro k hk
  rw [lookup_mapInsert, if_neg hk]
  rfl

theorem touched_erase (r : Nat) (a : Key) (st : State) :
    entryTouched r a st
      { st with store := { st.store with
          maps := st.store.maps.set r (mapErase a (st.store.maps[r]?.getD [])) } } := by
  refine Or.inr ⟨mapErase a (st.store.maps[r]?.getD []), rfl, ?_⟩
  intro k hk
  rw [lookup_mapErase, if_neg hk]
  rfl

theorem touched_trans (r : Nat) (a : Key) (st st1 st2 : State)
    (hr : r < st.store.maps.length)
    (h1 : entryTouched r a st st1) (h2 : entryTouched r a st1 st2) :
    entryTouched r a st st2 := by
  rcases h1 with h1 | ⟨m1, h1, hm1⟩
  · subst h1; exact h2
  · rcases h2 with h2 | ⟨m2, h2, hm2⟩
    · subst h2; exact Or.inr ⟨m1, h1, hm1⟩
    · subst h1
      refine Or.inr ⟨m2, ?_, ?_⟩
      · rw [h2]
        simp [Store.setMap]
      · intro k hk
        rw [hm2 k hk, ← hm1 k hk]
        simp [Store.mapObj, Store.setMap, hr]

theorem touched_frame (r : Nat) (a : Key) (st st2 : State) (h : entryTouched r a st st2) :
    st2.store.vars = st.store.vars ∧ st2.visited = st.visited ∧ st2.config = st.config
      ∧ st2.store.maps.length = st.store.maps.length := by
  rcases h with h | ⟨m, h, -⟩
  · subst h; exact ⟨rfl, rfl, rfl, rfl⟩
  · subst h; simp [Store.setMap]

theorem touched_mapGet (r : Nat) (a : Key) (st st2 : State) (h : entryTouched r a st st2)
    (r2 : Nat) (k : Key) (hne : r2 ≠ r ∨ k ≠ a) :
    st2.store.mapGet (some r2) k = st.store.mapGet (some r2) k := by
  rcases h with h | ⟨m, h, hm⟩
  · subst h; rfl
  · subst h
    by_cases hr2 : r2 = r
    · subst hr2
      have hk : k ≠ a := by
        rcases hne with h | h
        · exact absurd rfl h
        · exact h
      by_cases hr : r2 < st.store.maps.length
      · simp [Store.mapGet, Store.setMap, hr, hm k hk, Store.mapObj]
      · have h1 : st.store.maps[r2]? = none := by simp; omega
        have h2 : (st.store.maps.set r2 m)[r2]? = none := by simp; omega
        simp [Store.mapGet, Store.setMap, h1, h2]
    · simp [Store.mapGet, Store.setMap, List.getElem?_set_ne (Ne.symm hr2)]

theorem touched_mapGet_opt (r : Nat) (a : Key) (st st2 : State) (h : entryTouched r a st st2)
    (rs : Option Nat) (k : Key) (hk : k ≠ a) :
    st2.store.mapGet rs k = st.store.mapGet rs k := by
  cases rs with
  | none => rfl
  | some r2 => exact touched_mapGet r a st st2 h r2 k (Or.inr hk)

theorem touched_inv (P : State → Prop) (r : Nat) (a : Key) (st st2 : State)
    (hP : ∀ st m, P st → P { st with store := st.store.setMap r m })
    (h : entryTouched r a st st2) (hp : P st) : P st2 := by
  rcases h with h | ⟨m, h, -⟩
  · subst h; exact hp
  · subst h; exact hP st m hp

theorem unbox_of_assign (et : Ty) (v : Value) (h : assignTo et v.unbox = some v) :
    v.unbox.unbox = v.unbox := by
  cases v with
  | iface d =>
    cases d with
    | iface y =>
      exfalso
      simp [Value.unbox, assignTo, Value.type] at h
      split at h
      · simp at h
        have := congrArg sizeOf h
        simp at this
      · rename_i hne
        simp at h
        exact hne h.symm
    | _ => rfl
  | _ => rfl

theorem mergeMapKey_nil (E : Store → Value → Bool)
    (rec : RValue → RValue → Nat → State → Outcome) (ow owe : Bool) (l : Loc) (kt et : Ty)
    (r : Nat) (rs : Option Nat) (depth : Nat) (key : Key) (st : State)
    (hkey : key.type = kt)
    (hl : st.store.load l = some (.map kt et (some r)))
    (hskip : skippedNil (st.store.mapGet rs key) = true) :
    mergeMapKey E rec ow owe (.ref l) (.imm (.map kt et rs)) depth key st = .ok st := by
  unfold skippedNil at hskip
  simp only [mergeMapKey, RValue.get_imm, RValue.get_ref, hl, Option.getD_some,
    MapIndex_eq _ _ _ _ _ hkey]
  split
  · rfl
  · simp only [hskip, if_true]

theorem mergeMapKey_other (E : Store → Value → Bool)
    (rec : RValue → RValue → Nat → State → Outcome) (ow owe : Bool) (l : Loc) (kt et : Ty)
    (r : Nat) (rs : Option Nat) (depth : Nat) (key : Key) (st : State)
    (hkey : key.type = kt)
    (hl : st.store.load l = some (.map kt et (some r)))
    (hsv : (st.store.mapGet rs key).type = some et)
    (hskip : skippedNil (st.store.mapGet rs key) = false)
    (hrec : recursiveKind (st.store.mapGet rs key) = false)
    (hsl : ((st.store.mapGet rs key).unbox.kind == .Slice) = false) :
    mergeMapKey E rec ow owe (.ref l) (.imm (.map kt et rs)) depth key st
      = .ok (if ow || ((dstElementOf (st.store.mapGet (some r) key)).kind == .Invalid
                || E st.store (dstElementOf (st.store.mapGet (some r) key))) then
              { st with store := st.store.putMap r key (st.store.mapGet rs key) }
            else st) := by
  have hv := kind_ne_invalid_of_type _ _ hsv
  have hv' : ((st.store.mapGet rs key).kind == .Invalid) = false := by simp [hv]
  have hv'' : ((st.store.mapGet rs key).kind != .Invalid) = true := by simp [hv]
  unfold skippedNil at hskip
  unfold recursiveKind at hrec
  simp only [Bool.or_eq_false_iff] at hrec
  obtain ⟨⟨h1, h2⟩, h3⟩ := hrec
  have hdE : (if (st.store.mapGet (some r) key).kind != .Invalid
      then (st.store.mapGet (some r) key).unbox else st.store.mapGet (some r) key)
      = dstElementOf (st.store.mapGet (some r) key) := rfl
  simp only [mergeMapKey, RValue.get_imm, RValue.get_ref, hl, Option.getD_some,
    MapIndex_eq _ _ _ _ _ hkey, hskip, h1, h2, h3, hsl, hv', hv'', hdE]
  simp only [Bool.false_eq_true, if_false, Bool.or_self, Bool.and_false, Bool.or_false,
    Bool.true_and, Value.IsNil, Option.isNone_some, hl, Option.getD_some,
    SetMapIndex_valid _ _ _ _ _ _ _ hkey (assignTo_self et _ hsv)]
  split <;> rfl

theorem put_finish (r : Nat) (key : Key) (st : State) (w sv : Value) (c1 c2 : Bool)
    (hr : r < st.store.maps.length) (hw : w.kind ≠ .Invalid) (hsv : sv.kind ≠ .Invalid) :
    entryTouched r key st
        (if c1 = true then { st with store := st.store.putMap r key w }
         else if c2 = true then
           { st with store := (st.store.putMap r key w).putMap r key sv }
         else { st with store := st.store.putMap r key w })
      ∧ ((if c1 = true then ({ st with store := st.store.putMap r key w } : State)
         else if c2 = true then
           { st with store := (st.store.putMap r key w).putMap r key sv }
         else { st with store := st.store.putMap r key w }).store.mapGet (some r) key).kind
          ≠ .Invalid
      ∧ (c1 = false → c2 = true →
          (if c1 = true then ({ st with store := st.store.putMap r key w } : State)
           else if c2 = true then
             { st with store := (st.store.putMap r key w).putMap r key sv }
           else { st with store := st.store.putMap r key w }).store.mapGet (some r) key = sv) := by
  have hr1 : r < (st.store.putMap r key w).maps.length := by simp [Store.putMap, hr]
  have t1 := touched_put r key st w
  have t2 : entryTouched r key st
      { st with store := (st.store.putMap r key w).putMap r key sv } :=
    touched_trans r key st _ _ hr t1
      (touched_put r key { st with store := st.store.putMap r key w } sv)
  have g1 : (st.store.putMap r key w).mapGet (some r) key = w := by
    rw [mapGet_set _ _ _ _ _ _ hr]; simp
  have g2 : ((st.store.putMap r key w).putMap r key sv).mapGet (some r) key = sv := by
    rw [mapGet_set _ _ _ _ _ _ hr1]; simp
  cases c1 <;> cases c2 <;> simp [t1, t2, g1, g2, hw, hsv]

theorem mergeMapKey_slice (E : Store → Value → Bool)
    (rec : RValue → RValue → Nat → State → Outcome) (ow owe : Bool) (l : Loc) (kt et : Ty)
    (r : Nat) (rs : Option Nat) (depth : Nat) (key : Key) (st : State)
    (hkey : key.type = kt)
    (hl : st.store.load l = some (.map kt et (some r)))
    (hr : r < st.store.maps.length)
    (happ : st.config.AppendSlice = false)
    (hsv : (st.store.mapGet rs key).type = some et)
    (hsvb : assignTo et (st.store.mapGet rs key).unbox = some (st.store.mapGet rs key))
    (hdv : (dstElementOf (st.store.mapGet (some r) key)).kind ≠ .Invalid →
      ∃ w, assignTo et (dstElementOf (st.store.mapGet (some r) key)).unbox = some w)
    (hskip : skippedNil (st.store.mapGet rs key) = false)
    (hsl : (st.store.mapGet rs key).unbox.kind = .Slice) :
    ∃ st2, mergeMapKey E rec ow owe (.ref l) (.imm (.map kt et rs)) depth key st = .ok st2
      ∧ entryTouched r key st st2
      ∧ (st2.store.mapGet (some r) key).kind ≠ .Invalid
      ∧ ((dstElementOf (st.store.mapGet (some r) key)).kind = .Invalid →
          st2.store.mapGet (some r) key = st.store.mapGet rs key) := by
  have hv := kind_ne_invalid_of_type _ _ hsv
  have hv' : ((st.store.mapGet rs key).kind == .Invalid) = false := by simp [hv]
  have hv'' : ((st.store.mapGet rs key).kind != .Invalid) = true := by simp [hv]
  have hdE : (if (st.store.mapGet (some r) key).kind != .Invalid
      then (st.store.mapGet (some r) key).unbox else st.store.mapGet (some r) key)
      = dstElementOf (st.store.mapGet (some r) key) := rfl
  obtain ⟨e, n, ys, hsu⟩ : ∃ e n ys, (st.store.mapGet rs key).unbox = .slice e n ys := by
    cases h : (st.store.mapGet rs key).unbox <;> simp [h, Value.kind] at hsl
    exact ⟨_, _, _, rfl⟩
  -- the slice that is stored first
  obtain ⟨x, w, hx, hw⟩ : ∃ x w,
      (if (dstElementOf (st.store.mapGet (some r) key)).kind == .Invalid
            || isReflectNil (dstElementOf (st.store.mapGet (some r) key)) then
          (if (!E st.store (.map kt et rs) || owe)
                && (ow || E st.store (.map kt et (some r))) then Value.slice e n ys
           else Value.slice e false [])
        else
          (if (!E st.store (.map kt et rs) || owe)
                && (ow || E st.store (.map kt et (some r))) then Value.slice e n ys
           else (dstElementOf (st.store.mapGet (some r) key)).unbox)) = x
      ∧ assignTo et x = some w := by
    have hs1 : ∃ w, assignTo et (Value.slice e n ys) = some w := ⟨_, hsu ▸ hsvb⟩
    have hs2 : ∃ w, assignTo et (Value.slice e false []) = some w := by
      obtain ⟨w, hw⟩ := hs1
      by_cases h1 : Ty.slice e = et
      · exact ⟨Value.slice e false [], by simp [assignTo, Value.type, h1]⟩
      · by_cases h2 : et = .iface
        · exact ⟨.iface (Value.slice e false []), by simp [assignTo, Value.type, h2]⟩
        · simp [assignTo, Value.type, h1, h2] at hw
    have hs3 : ¬ ((dstElementOf (st.store.mapGet (some r) key)).kind == .Invalid) = true →
        ∃ w, assignTo et (dstElementOf (st.store.mapGet (some r) key)).unbox = some w := by
      intro h
      exact hdv (by simpa using h)
    by_cases hn : ((dstElementOf (st.store.mapGet (some r) key)).kind == .Invalid
            || isReflectNil (dstElementOf (st.store.mapGet (some r) key))) = true
    · by_cases hc : ((!E st.store (.map kt et rs) || owe)
                && (ow || E st.store (.map kt et (some r)))) = true
      · obtain ⟨w, hw⟩ := hs1
        exact ⟨_, w, rfl, by simp only [hn, hc, if_true, if_false, Bool.false_eq_true]; exact hw⟩
      · obtain ⟨w, hw⟩ := hs2
        exact ⟨_, w, rfl, by simp only [hn, hc, if_true, if_false, Bool.false_eq_true]; exact hw⟩
    · by_cases hc : ((!E st.store (.map kt et rs) || owe)
                && (ow || E st.store (.map kt et (some r)))) = true
      · obtain ⟨w, hw⟩ := hs1
        exact ⟨_, w, rfl, by simp only [hn, hc, if_true, if_false, Bool.false_eq_true]; exact hw⟩
      · have hk : ¬ ((dstElementOf (st.store.mapGet (some r) key)).kind == .Invalid) = true := by
          intro h
          apply hn
          simp [h]
        obtain ⟨w, hw⟩ := hs3 hk
        exact ⟨_, w, rfl, by simp only [hn, hc, if_true, if_false, Bool.false_eq_true]; exact hw⟩
  have hwv : w.kind ≠ .Invalid := kind_ne_invalid_of_type _ _ (assignTo_type _ _ _ hw)
  have hl1 : (st.store.putMap r key w).load l = some (.map kt et (some r)) := by
    rw [← hl]; exact load_of_vars _ _ l rfl
  unfold skippedNil at hskip
  have k1 : ((st.store.mapGet rs key).unbox.kind == .Struct) = false := by simp [hsl]
  have k2 : ((st.store.mapGet rs key).unbox.kind == .Ptr) = false := by simp [hsl]
  have k3 : ((st.store.mapGet rs key).unbox.kind == .Map) = false := by simp [hsl]
  have k4 : ((st.store.mapGet rs key).unbox.kind == .Slice) = true := by simp [hsl]
  have hfin := put_finish r key st w (st.store.mapGet rs key)
    ((dstElementOf (st.store.mapGet (some r) key)).kind != .Invalid
      && !E (st.store.putMap r key w) (dstElementOf (st.store.mapGet (some r) key)))
    (ow || ((dstElementOf (st.store.mapGet (some r) key)).kind == .Invalid
      || E (st.store.putMap r key w) (dstElementOf (st.store.mapGet (some r) key))))
    hr hwv hv
  have hcode : mergeMapKey E rec ow owe (.ref l) (.imm (.map kt et rs)) depth key st
      = .ok (if ((dstElementOf (st.store.mapGet (some r) key)).kind != .Invalid
                  && !E (st.store.putMap r key w) (dstElementOf (st.store.mapGet (some r) key)))
                  = true
               then { st with store := st.store.putMap r key w }
               else if (ow || ((dstElementOf (st.store.mapGet (some r) key)).kind == .Invalid
                  || E (st.store.putMap r key w) (dstElementOf (st.store.mapGet (some r) key))))
                  = true
               then { st with
                  store := (st.store.putMap r key w).putMap r key (st.store.mapGet rs key) }
               else { st with store := st.store.putMap r key w }) := by
    simp only [mergeMapKey, RValue.get_imm, RValue.get_ref, hl, Option.getD_some,
      MapIndex_eq _ _ _ _ _ hkey, hskip, hv', hv'', hdE, k1, k2, k3, k4, happ]
    simp only [hsu, Value.type, MakeSlice]
    by_cases hn : ((dstElementOf (st.store.mapGet (some r) key)).kind == .Invalid
            || isReflectNil (dstElementOf (st.store.mapGet (some r) key))) = true
    · by_cases hc : ((!E st.store (.map kt et rs) || owe)
                && (ow || E st.store (.map kt et (some r)))) = true
      · simp only [hn, hc, if_true, if_false, Bool.false_eq_true] at hx
        subst hx
        simp only [Bool.or_self, Bool.false_eq_true, if_false, if_true, hn, hc, Bool.not_false,
          Bool.and_true, SetMapIndex_valid _ _ _ _ _ _ _ hkey hw, Bool.or_false, Bool.or_true,
          Bool.true_and, hl1, Option.getD_some, Value.IsNil, Option.isNone_some,
          SetMapIndex_valid _ _ _ _ _ _ _ hkey (assignTo_self et _ hsv)]
        split
        · rfl
        · split <;> rfl
      · simp only [hn, hc, if_true, if_false, Bool.false_eq_true] at hx
        subst hx
        simp only [Bool.or_self, Bool.false_eq_true, if_false, if_true, hn, hc, Bool.not_false,
          Bool.and_true, SetMapIndex_valid _ _ _ _ _ _ _ hkey hw, Bool.or_false, Bool.or_true,
          Bool.true_and, hl1, Option.getD_some, Value.IsNil, Option.isNone_some,
          SetMapIndex_valid _ _ _ _ _ _ _ hkey (assignTo_self et _ hsv)]
        split
        · rfl
        · split <;> rfl
    · by_cases hc : ((!E st.store (.map kt et rs) || owe)
                && (ow || E st.store (.map kt et (some r)))) = true
      · simp only [hn, hc, if_true, if_false, Bool.false_eq_true] at hx
        subst hx
        simp only [Bool.or_self, Bool.false_eq_true, if_false, if_true, hn, hc, Bool.not_false,
          Bool.and_true, SetMapIndex_valid _ _ _ _ _ _ _ hkey hw, Bool.or_false, Bool.or_true,
          Bool.true_and, hl1, Option.getD_some, Value.IsNil, Option.isNone_some,
          SetMapIndex_valid _ _ _ _ _ _ _ hkey (assignTo_self et _ hsv)]
        split
        · rfl
        · split <;> rfl
      · simp only [hn, hc, if_true, if_false, Bool.false_eq_true] at hx
        subst hx
        simp only [Bool.or_self, Bool.false_eq_true, if_false, if_true, hn, hc, Bool.not_false,
          Bool.and_true, SetMapIndex_valid _ _ _ _ _ _ _ hkey hw, Bool.or_false, Bool.or_true,
          Bool.true_and, hl1, Option.getD_some, Value.IsNil, Option.isNone_some,
          SetMapIndex_valid _ _ _ _ _ _ _ hkey (assignTo_self et _ hsv)]
        split
        · rfl
        · split <;> rfl
  refine ⟨_, hcode, hfin.1, hfin.2.1, ?_⟩
  intro hdinv
  exact hfin.2.2 (by simp [hdinv]) (by simp [hdinv])

theorem State.cleared_flag_eq (st : State) (h : st.config.overwriteWithEmptyValue = false) :
    ({ st with config := { st.config with overwriteWithEmptyValue := false } } : State) = st := by
  obtain ⟨s, v, c⟩ := st
  obtain ⟨a, b, t, o⟩ := c
  simp at h
  subst h
  rfl

theorem eq_invalid_of_kind (v : Value) (h : v.kind = .Invalid) : v = .invalid := by
  cases v <;> simp [Value.kind] at h
  rfl

theorem assign_arg_valid (et : Ty) (x v : Value) (h : assignTo et x = some v) :
    x.kind ≠ .Invalid := by
  intro hk
  have := eq_invalid_of_kind x hk
  subst this
  simp [assignTo, Value.type] at h

theorem deepMerge_invalid_dst (E : Store → Value → Bool) (n : Nat) (v : Value) (d : Nat)
    (st : State) (hv : v.kind ≠ .Invalid) (htr : st.config.Transformers = none)
    (howe : st.config.overwriteWithEmptyValue = false) :
    deepMerge E (n + 1) (.imm .invalid) (.imm v) d st
      = if (!E st.store v) && (st.config.Overwrite || E st.store .invalid)
        then .ret (.imm v) none st else .ret (.imm .invalid) none st := by
  have hv' : (v.kind != .Invalid) = true := by simp [hv]
  have hk : Value.invalid.kind = .Invalid := rfl
  obtain ⟨s, vis, ⟨o, a, t, w⟩⟩ := st
  simp only at htr howe
  subst htr howe
  rw [deepMerge]
  simp only [RValue.IsValid, RValue.get_imm, hv', Bool.not_true,
    Bool.false_eq_true, if_false, enterVisited, transformerHook, RValue.Kind, hk,
    mergeDefault, Bool.or_false, setOrReplace, RValue.CanSet, RValue.CanAddr]

theorem mergeMapKey_rec_absent (E : Store → Value → Bool) (n : Nat)
    (ow owe : Bool) (l : Loc) (kt et : Ty)
    (r : Nat) (rs : Option Nat) (depth : Nat) (key : Key) (st : State)
    (hkey : key.type = kt)
    (hl : st.store.load l = some (.map kt et (some r)))
    (hr : r < st.store.maps.length)
    (htr : st.config.Transformers = none)
    (howe : st.config.overwriteWithEmptyValue = false)
    (how : st.config.Overwrite = ow)
    (hsv : (st.store.mapGet rs key).type = some et)
    (hsvb : assignTo et (st.store.mapGet rs key).unbox = some (st.store.mapGet rs key))
    (hdv : dstElementOf (st.store.mapGet (some r) key) = .invalid)
    (hskip : skippedNil (st.store.mapGet rs key) = false)
    (hrk : recursiveKind (st.store.mapGet rs key) = true) :
    ∃ st2, mergeMapKey E (deepMerge E (n + 1)) ow owe (.ref l) (.imm (.map kt et rs)) depth key st
        = .ok st2
      ∧ entryTouched r key st st2
      ∧ ((st2.store.mapGet (some r) key).kind ≠ .Invalid
          ↔ srcEntryTaken E st.store ow (st.store.mapGet rs key) = true)
      ∧ (srcEntryTaken E st.store ow (st.store.mapGet rs key) = true →
          st2.store.mapGet (some r) key = st.store.mapGet rs key) := by
  have hv := kind_ne_invalid_of_type _ _ hsv
  have hv' : ((st.store.mapGet rs key).kind == .Invalid) = false := by simp [hv]
  have hv'' : ((st.store.mapGet rs key).kind != .Invalid) = true := by simp [hv]
  have hsuv : (st.store.mapGet rs key).unbox.kind ≠ .Invalid := assign_arg_valid _ _ _ hsvb
  have hk : Value.invalid.kind = .Invalid := rfl
  have hdE : (if (st.store.mapGet (some r) key).kind != .Invalid
      then (st.store.mapGet (some r) key).unbox else st.store.mapGet (some r) key)
      = dstElementOf (st.store.mapGet (some r) key) := rfl
  have hrec := deepMerge_invalid_dst E n _ (depth + 1) st hsuv htr howe
  rw [how] at hrec
  have htk : srcEntryTaken E st.store ow (st.store.mapGet rs key)
      = !((st.store.mapGet rs key).unbox.kind == .Struct
          && !(!E st.store (st.store.mapGet rs key).unbox && (ow || E st.store .invalid))) := by
    simp [srcEntryTaken, hv'', hskip]
  unfold skippedNil at hskip
  unfold recursiveKind at hrk
  have hr1 : ∀ s1 : Store, s1.vars = st.store.vars → s1.load l = some (.map kt et (some r)) := by
    intro s1 h1
    rw [← hl]; exact load_of_vars _ _ l h1
  have hcode : ∀ x st1, deepMerge E (n + 1) (.imm .invalid) (.imm (st.store.mapGet rs key).unbox)
        (depth + 1) st = .ret (.imm x) none st →
      SetMapIndex st.store (.map kt et (some r)) key x = some st1.store →
      st1.visited = st.visited → st1.config = st.config → st1.store.vars = st.store.vars →
      mergeMapKey E (deepMerge E (n + 1)) ow owe (.ref l) (.imm (.map kt et rs)) depth key st
        = .ok (if (st.store.mapGet rs key).unbox.kind == .Struct then st1
               else { st1 with store := st1.store.putMap r key (st.store.mapGet rs key) }) := by
    intro x st1 h1 h2 h3 h4 h5
    obtain ⟨s1, v1, c1⟩ := st1
    simp only at h2 h3 h4 h5
    subst h3 h4
    have hnil : (Value.map kt et (some r)).IsNil = some false := rfl
    simp only [mergeMapKey, RValue.get_imm, RValue.get_ref, hl, Option.getD_some,
      MapIndex_eq _ _ _ _ _ hkey, hskip, hv', hv'', hdE, hdv, hk, hrk, h1, h2, bne_self_eq_false,
      Bool.false_eq_true, if_false, if_true, Bool.false_and, Bool.false_or,
      beq_self_eq_true, Bool.true_or, Bool.or_true, Bool.true_and, hr1 s1 h5, hnil,
      SetMapIndex_valid _ _ _ _ _ _ _ hkey (assignTo_self et _ hsv)]
    split <;> rfl
  have hr2 : r < ({ st.store with
      maps := st.store.maps.set r (mapErase key (st.store.maps[r]?.getD [])) } : Store).maps.length := by
    simp [hr]
  have hr3 : r < (st.store.putMap r key (st.store.mapGet rs key)).maps.length := by
    simp [Store.putMap, hr]
  by_cases hcnd : (!E st.store (st.store.mapGet rs key).unbox && (ow || E st.store .invalid)) = true
  · -- the recursive call hands the source element back
    rw [if_pos hcnd] at hrec
    have hc := hcode _ { st with store := st.store.putMap r key (st.store.mapGet rs key) } hrec
      (SetMapIndex_valid _ _ _ _ _ _ _ hkey hsvb) rfl rfl rfl
    have htk' : srcEntryTaken E st.store ow (st.store.mapGet rs key) = true := by
      rw [htk, hcnd]; simp
    refine ⟨_, hc, ?_, ?_, ?_⟩
    · split
      · exact touched_put r key st _
      · exact touched_trans r key st _ _ hr (touched_put r key st _)
          (touched_put r key { st with store := st.store.putMap r key (st.store.mapGet rs key) } _)
    · simp only [htk', iff_true]
      split
      · simp only [mapGet_set _ _ _ _ _ _ hr, true_and, if_true]
        exact hv
      · simp only [mapGet_set _ _ _ _ _ _ hr3, true_and, if_true]
        exact hv
    · intro _
      split
      · simp only [mapGet_set _ _ _ _ _ _ hr, true_and, if_true]
      · simp only [mapGet_set _ _ _ _ _ _ hr3, true_and, if_true]
  · -- the recursive call returns the zero Value and the key is deleted
    rw [if_neg hcnd] at hrec
    have hc := hcode _ { st with store := { st.store with
        maps := st.store.maps.set r (mapErase key (st.store.maps[r]?.getD [])) } } hrec
      (SetMapIndex_invalid _ _ _ _ _ hkey) rfl rfl rfl
    have hcnd' : (!E st.store (st.store.mapGet rs key).unbox && (ow || E st.store .invalid))
        = false := by simpa using hcnd
    refine ⟨_, hc, ?_, ?_, ?_⟩
    · split
      · exact touched_erase r key st
      · exact touched_trans r key st _ _ hr (touched_erase r key st)
          (touched_put r key { st with store := { st.store with
            maps := st.store.maps.set r (mapErase key (st.store.maps[r]?.getD [])) } } _)
    · rw [htk, hcnd']
      split
      · rename_i hs
        simp only [hs, mapGet_erase _ _ _ _ _ hr, true_and, if_true]
        simp [Value.kind]
      · rename_i hs
        simp only [hs, mapGet_set _ _ _ _ _ _ hr2, true_and, if_true]
        simp [hv]
    · rw [htk, hcnd']
      split
      · rename_i hs
        simp [hs]
      · intro _
        simp only [mapGet_set _ _ _ _ _ _ hr2, true_and, if_true]

theorem mergeMapKey_rec_present (E : Store → Value → Bool)
    (rec : RValue → RValue → Nat → State → Outcome)
    (ow owe : Bool) (l : Loc) (kt et : Ty)
    (r : Nat) (rs : Option Nat) (depth : Nat) (key : Key) (st st1 : State) (h : RValue)
    (w : Value)
    (hkey : key.type = kt)
    (hl : st.store.load l = some (.map kt et (some r)))
    (hsv : (st.store.mapGet rs key).type = some et)
    (hskip : skippedNil (st.store.mapGet rs key) = false)
    (hrk : recursiveKind (st.store.mapGet rs key) = true)
    (hrec : rec (.imm (dstElementOf (st.store.mapGet (some r) key)))
        (.imm (st.store.mapGet rs key).unbox) (depth + 1) st = .ret h none st1)
    (hl1 : st1.store.load l = some (.map kt et (some r)))
    (hr1 : r < st1.store.maps.length)
    (hw : assignTo et (h.get st1.store) = some w) :
    ∃ st2, mergeMapKey E rec ow owe (.ref l) (.imm (.map kt et rs)) depth key st = .ok st2
      ∧ entryTouched r key st1 st2
      ∧ (st2.store.mapGet (some r) key).kind ≠ .Invalid := by
  have hv := kind_ne_invalid_of_type _ _ hsv
  have hv' : ((st.store.mapGet rs key).kind == .Invalid) = false := by simp [hv]
  have hv'' : ((st.store.mapGet rs key).kind != .Invalid) = true := by simp [hv]
  have hdE : (if (st.store.mapGet (some r) key).kind != .Invalid
      then (st.store.mapGet (some r) key).unbox else st.store.mapGet (some r) key)
      = dstElementOf (st.store.mapGet (some r) key) := rfl
  have hwv : w.kind ≠ .Invalid := kind_ne_invalid_of_type _ _ (assignTo_type _ _ _ hw)
  have hl2 : (st1.store.putMap r key w).load l = some (.map kt et (some r)) := by
    rw [← hl1]; exact load_of_vars _ _ l rfl
  have hnil : (Value.map kt et (some r)).IsNil = some false := rfl
  unfold skippedNil at hskip
  unfold recursiveKind at hrk
  have hfin := put_finish r key st1 w (st.store.mapGet rs key)
    ((dstElementOf (st.store.mapGet (some r) key)).kind != .Invalid
        && !E (st1.store.putMap r key w) (dstElementOf (st.store.mapGet (some r) key))
        && ((st.store.mapGet rs key).unbox.kind == .Map
            || (st.store.mapGet rs key).unbox.kind == .Slice)
      || (st.store.mapGet rs key).unbox.kind == .Struct)
    (ow || ((dstElementOf (st.store.mapGet (some r) key)).kind == .Invalid
      || E (st1.store.putMap r key w) (dstElementOf (st.store.mapGet (some r) key))))
    hr1 hwv hv
  refine ⟨_, ?_, hfin.1, hfin.2.1⟩
  simp only [mergeMapKey, RValue.get_imm, RValue.get_ref, hl, Option.getD_some,
    MapIndex_eq _ _ _ _ _ hkey, hskip, hv', hv'', hdE, hrk, hrec, hl1, hl2,
    Bool.false_eq_true, if_false, if_true, Bool.true_and, hnil,
    SetMapIndex_valid _ _ _ _ _ _ _ hkey hw,
    SetMapIndex_valid _ _ _ _ _ _ _ hkey (assignTo_self et _ hsv)]
  split
  · rfl
  · split <;> rfl

theorem touched_post (P : State → Prop) (r : Nat) (a : Key) (st1 st2 : State) (l : Loc)
    (m : Value) (c : Config) (rs : Option Nat)
    (hP : ∀ st m, P st → P { st with store := st.store.setMap r m })
    (h : entryTouched r a st1 st2) (hp : P st1) (hc : st1.config = c)
    (hl : st1.store.load l = some m) (hr : r < st1.store.maps.length) :
    P st2 ∧ st2.config = c ∧ st2.store.load l = some m ∧ r < st2.store.maps.length
      ∧ (∀ k, k ≠ a → st2.store.mapGet (some r) k = st1.store.mapGet (some r) k)
      ∧ (∀ k, k ≠ a → st2.store.mapGet rs k = st1.store.mapGet rs k) := by
  obtain ⟨f1, -, f3, f4⟩ := touched_frame r a st1 st2 h
  refine ⟨touched_inv P r a st1 st2 hP h hp, by rw [f3, hc], ?_, by rw [f4]; exact hr, ?_, ?_⟩
  · rw [← hl]; exact load_of_vars _ _ l f1
  · intro k hk
    exact touched_mapGet r a st1 st2 h r k (Or.inr hk)
  · intro k hk
    exact touched_mapGet_opt r a st1 st2 h rs k hk

theorem dstElementOf_valid (dv : Value) (h : (dstElementOf dv).kind ≠ .Invalid) :
    dv.kind ≠ .Invalid := by
  intro h0
  apply h
  simp [dstElementOf, h0]

theorem unbox_valid_of_not_skipped (sv : Value) (hv : sv.kind ≠ .Invalid)
    (hs : skippedNil sv = false) : sv.unbox.kind ≠ .Invalid := by
  cases sv <;> simp_all [skippedNil, Value.kind, Value.unbox, Value.IsNil]

/-- One iteration of the key loop, for every kind of source element. -/
theorem mergeMapKey_union_step (E : Store → Value → Bool) (P : State → Prop) (n : Nat)
    (ow owe : Bool) (l : Loc) (kt et : Ty)
    (r : Nat) (rs : Option Nat) (depth : Nat) (key : Key) (st : State) (c : Config)
    (hP : ∀ st m, P st → P { st with store := st.store.setMap r m })
    (hkey : key.type = kt)
    (hl : st.store.load l = some (.map kt et (some r)))
    (hr : r < st.store.maps.length)
    (hcfg : st.config = c) (happ : c.AppendSlice = false) (htr : c.Transformers = none)
    (howe : c.overwriteWithEmptyValue = false) (how : c.Overwrite = ow)
    (hp : P st)
    (hsv : (st.store.mapGet rs key).type = some et)
    (hsvb : (st.store.mapGet rs key).unbox.kind ≠ .Invalid →
      assignTo et (st.store.mapGet rs key).unbox = some (st.store.mapGet rs key))
    (hdv : (dstElementOf (st.store.mapGet (some r) key)).kind ≠ .Invalid →
      ∃ w, assignTo et (dstElementOf (st.store.mapGet (some r) key)).unbox = some w)
    (hrec : (dstElementOf (st.store.mapGet (some r) key)).kind ≠ .Invalid →
      recursiveKind (st.store.mapGet rs key) = true →
      skippedNil (st.store.mapGet rs key) = false →
      ∃ h st1 w, deepMerge E (n + 1) (.imm (dstElementOf (st.store.mapGet (some r) key)))
            (.imm (st.store.mapGet rs key).unbox) (depth + 1) st = .ret h none st1
        ∧ P st1 ∧ st1.config = c ∧ st1.store.load l = some (.map kt et (some r))
        ∧ r < st1.store.maps.length
        ∧ (∀ k, st1.store.mapGet (some r) k = st.store.mapGet (some r) k)
        ∧ (∀ k, st1.store.mapGet rs k = st.store.mapGet rs k)
        ∧ assignTo et (h.get st1.store) = some w) :
    ∃ st2, mergeMapKey E (deepMerge E (n + 1)) ow owe (.ref l) (.imm (.map kt et rs)) depth key st
        = .ok st2
      ∧ P st2 ∧ st2.config = c ∧ st2.store.load l = some (.map kt et (some r))
      ∧ r < st2.store.maps.length
      ∧ (∀ k, k ≠ key → st2.store.mapGet (some r) k = st.store.mapGet (some r) k)
      ∧ (∀ k, k ≠ key → st2.store.mapGet rs k = st.store.mapGet rs k)
      ∧ (skippedNil (st.store.mapGet rs key) = true →
          st2.store.mapGet (some r) key = st.store.mapGet (some r) key)
      ∧ (skippedNil (st.store.mapGet rs key) = false →
          ((st2.store.mapGet (some r) key).kind ≠ .Invalid
            ↔ ((dstElementOf (st.store.mapGet (some r) key)).kind ≠ .Invalid
                ∨ srcEntryTaken E st.store ow (st.store.mapGet rs key) = true)))
      ∧ ((dstElementOf (st.store.mapGet (some r) key)).kind = .Invalid →
          srcEntryTaken E st.store ow (st.store.mapGet rs key) = true →
          st2.store.mapGet (some r) key = st.store.mapGet rs key) := by
  have hv := kind_ne_invalid_of_type _ _ hsv
  have hv'' : ((st.store.mapGet rs key).kind != .Invalid) = true := by simp [hv]
  by_cases hskip : skippedNil (st.store.mapGet rs key) = true
  · -- a nil element is skipped
    refine ⟨st, mergeMapKey_nil E _ ow owe l kt et r rs depth key st hkey hl hskip, hp, hcfg, hl,
      hr, fun _ _ => rfl, fun _ _ => rfl, fun _ => rfl, ?_, ?_⟩
    · intro h; rw [hskip] at h; cases h
    · intro _ h
      simp [srcEntryTaken, hskip] at h
  · have hskip' : skippedNil (st.store.mapGet rs key) = false := by simpa using hskip
    have hsuv := unbox_valid_of_not_skipped _ hv hskip'
    have hsvb' := hsvb hsuv
    by_cases hrk : recursiveKind (st.store.mapGet rs key) = true
    · by_cases hdE : (dstElementOf (st.store.mapGet (some r) key)).kind = .Invalid
      · -- recursion on an absent destination element
        obtain ⟨st2, h1, h2, h3, h4⟩ := mergeMapKey_rec_absent E n ow owe l kt et r rs depth key
          st hkey hl hr (hcfg ▸ htr) (hcfg ▸ howe) (hcfg ▸ how) hsv hsvb'
          (eq_invalid_of_kind _ hdE) hskip' hrk
        obtain ⟨p1, p2, p3, p4, p5, p6⟩ :=
          touched_post P r key st st2 l _ c rs hP h2 hp hcfg hl hr
        refine ⟨st2, h1, p1, p2, p3, p4, p5, p6, ?_, ?_, fun _ => h4⟩
        · intro h; rw [hskip'] at h; cases h
        · intro _
          rw [h3]
          simp [hdE]
      · -- recursion on two present elements
        obtain ⟨h, st1, w, g1, g2, g3, g4, g5, g6, g7, g8⟩ := hrec hdE hrk hskip'
        obtain ⟨st2, h1, h2, h3⟩ := mergeMapKey_rec_present E (deepMerge E (n + 1)) ow owe l kt
          et r rs depth key st st1 h w hkey hl hsv hskip' hrk g1 g4 g5 g8
        obtain ⟨p1, p2, p3, p4, p5, p6⟩ :=
          touched_post P r key st1 st2 l _ c rs hP h2 g2 g3 g4 g5
        refine ⟨st2, h1, p1, p2, p3, p4, ?_, ?_, ?_, ?_, ?_⟩
        · intro k hk; rw [p5 k hk, g6 k]
        · intro k hk; rw [p6 k hk, g7 k]
        · intro h; rw [hskip'] at h; cases h
        · intro _
          simp [h3, hdE]
        · intro h0; exact absurd h0 hdE
    · have hrk' : recursiveKind (st.store.mapGet rs key) = false := by simpa using hrk
      have hstruct : ((st.store.mapGet rs key).unbox.kind == .Struct) = false := by
        unfold recursiveKind at hrk'
        simp only [Bool.or_eq_false_iff] at hrk'
        exact hrk'.1.1
      have htk : srcEntryTaken E st.store ow (st.store.mapGet rs key) = true := by
        simp [srcEntryTaken, hv'', hskip', hstruct]
      by_cases hsl : (st.store.mapGet rs key).unbox.kind = .Slice
      · -- a slice element
        obtain ⟨st2, h1, h2, h3, h4⟩ := mergeMapKey_slice E (deepMerge E (n + 1)) ow owe l kt et
          r rs depth key st hkey hl hr (hcfg ▸ happ) hsv hsvb' hdv hskip' hsl
        obtain ⟨p1, p2, p3, p4, p5, p6⟩ :=
          touched_post P r key st st2 l _ c rs hP h2 hp hcfg hl hr
        refine ⟨st2, h1, p1, p2, p3, p4, p5, p6, ?_, ?_, fun h0 _ => h4 h0⟩
        · intro h; rw [hskip'] at h; cases h
        · intro _
          simp [h3, htk]
      · -- any other element
        have hsl' : ((st.store.mapGet rs key).unbox.kind == .Slice) = false := by simpa using hsl
        have h1 := mergeMapKey_other E (deepMerge E (n + 1)) ow owe l kt et r rs depth key st
          hkey hl hsv hskip' hrk' hsl'
        by_cases hg : (ow || ((dstElementOf (st.store.mapGet (some r) key)).kind == .Invalid
                || E st.store (dstElementOf (st.store.mapGet (some r) key)))) = true
        · rw [if_pos hg] at h1
          obtain ⟨p1, p2, p3, p4, p5, p6⟩ :=
            touched_post P r key st _ l _ c rs hP (touched_put r key st (st.store.mapGet rs key))
              hp hcfg hl hr
          refine ⟨_, h1, p1, p2, p3, p4, p5, p6, ?_, ?_, ?_⟩
          · intro h; rw [hskip'] at h; cases h
          · intro _
            simp only [mapGet_set _ _ _ _ _ _ hr, true_and, if_true, htk, or_true, iff_true]
            exact hv
          · intro _ _
            simp only [mapGet_set _ _ _ _ _ _ hr, true_and, if_true]
        · rw [if_neg hg] at h1
          have hdE : (dstElementOf (st.store.mapGet (some r) key)).kind ≠ .Invalid := by
            intro h0
            apply hg
            simp [h0]
          refine ⟨st, h1, hp, hcfg, hl, hr, fun _ _ => rfl, fun _ _ => rfl, fun _ => rfl, ?_, ?_⟩
          · intro _
            simp only [htk, or_true, iff_true]
            exact dstElementOf_valid _ hdE
          · intro h0 _; exact absurd h0 hdE

/-- The key loop over a list of distinct keys. -/
theorem mergeMapKeys_union (E : Store → Value → Bool) (P : State → Prop) (n : Nat)
    (ow owe : Bool) (l : Loc) (kt et : Ty)
    (r : Nat) (rs : Option Nat) (depth : Nat) (c : Config) (s : Store) (D S : Key → Value)
    (hP : ∀ st m, P st → P { st with store := st.store.setMap r m })
    (happ : c.AppendSlice = false) (htr : c.Transformers = none)
    (howe : c.overwriteWithEmptyValue = false) (how : c.Overwrite = ow) :
    ∀ (ks : List Key) (st : State), ks.Nodup →
      (∀ k ∈ ks, k.type = kt ∧ st.store.mapGet (some r) k = D k ∧ st.store.mapGet rs k = S k) →
      (∀ k ∈ ks, (S k).type = some et
        ∧ ((S k).unbox.kind ≠ .Invalid → assignTo et (S k).unbox = some (S k))
        ∧ ((dstElementOf (D k)).kind ≠ .Invalid →
            ∃ w, assignTo et (dstElementOf (D k)).unbox = some w)) →
      (∀ k ∈ ks, (dstElementOf (D k)).kind = .Invalid →
        ∀ s1, srcEntryTaken E s1 ow (S k) = srcEntryTaken E s ow (S k)) →
      (∀ k ∈ ks, (dstElementOf (D k)).kind ≠ .Invalid → recursiveKind (S k) = true →
        skippedNil (S k) = false →
        ∀ st : State, P st → st.config = c → st.store.load l = some (.map kt et (some r)) →
          r < st.store.maps.length → st.store.mapGet (some r) k = D k →
          st.store.mapGet rs k = S k →
          ∃ h st1 w, deepMerge E (n + 1) (.imm (dstElementOf (D k))) (.imm (S k).unbox)
              (depth + 1) st = .ret h none st1
            ∧ P st1 ∧ st1.config = c ∧ st1.store.load l = some (.map kt et (some r))
            ∧ r < st1.store.maps.length
            ∧ (∀ k', st1.store.mapGet (some r) k' = st.store.mapGet (some r) k')
            ∧ (∀ k', st1.store.mapGet rs k' = st.store.mapGet rs k')
            ∧ assignTo et (h.get st1.store) = some w) →
      P st → st.config = c → st.store.load l = some (.map kt et (some r)) →
      r < st.store.maps.length →
      ∃ st', mergeMapKeys E (deepMerge E (n + 1)) ow owe (.ref l) (.imm (.map kt et rs)) depth
            ks st = .ok st'
        ∧ P st' ∧ st'.config = c ∧ st'.store.load l = some (.map kt et (some r))
        ∧ r < st'.store.maps.length
        ∧ (∀ k, k ∉ ks → st'.store.mapGet (some r) k = st.store.mapGet (some r) k)
        ∧ (∀ k ∈ ks,
            (skippedNil (S k) = true → st'.store.mapGet (some r) k = D k)
            ∧ (skippedNil (S k) = false →
                ((st'.store.mapGet (some r) k).kind ≠ .Invalid
                  ↔ ((dstElementOf (D k)).kind ≠ .Invalid
                      ∨ srcEntryTaken E s ow (S k) = true)))
            ∧ ((dstElementOf (D k)).kind = .Invalid → srcEntryTaken E s ow (S k) = true →
                st'.store.mapGet (some r) k = S k)) := by
  intro ks
  induction ks with
  | nil =>
    intro st _ _ _ _ _ hp hc hl hr
    exact ⟨st, rfl, hp, hc, hl, hr, fun _ _ => rfl, fun k hk => by simp at hk⟩
  | cons a ks ih =>
    intro st hnd hks hty hE hrec hp hc hl hr
    have hnd' := List.nodup_cons.mp hnd
    obtain ⟨hat, haD, haS⟩ := hks a (by simp)
    obtain ⟨t1, t2, t3⟩ := hty a (by simp)
    obtain ⟨st2, q1, q2, q3, q4, q5, q6, q7, q8, q9, q10⟩ :=
      mergeMapKey_union_step E P n ow owe l kt et r rs depth a st c hP hat hl hr hc happ htr
        howe how hp (by rw [haS]; exact t1) (by rw [haS]; exact t2) (by rw [haD]; exact t3)
        (by
          rw [haD, haS]
          intro g1 g2 g3
          exact hrec a (by simp) g1 g2 g3 st hp hc hl hr haD haS)
    rw [haD, haS] at q8 q9 q10
    obtain ⟨st', i1, i2, i3, i4, i5, i6, i7⟩ := ih st2 hnd'.2
      (by
        intro k hk
        have hka : k ≠ a := fun h => hnd'.1 (h ▸ hk)
        obtain ⟨u1, u2, u3⟩ := hks k (by simp [hk])
        exact ⟨u1, by rw [q6 k hka, u2], by rw [q7 k hka, u3]⟩)
      (fun k hk => hty k (by simp [hk]))
      (fun k hk => hE k (by simp [hk]))
      (fun k hk => hrec k (by simp [hk]))
      q2 q3 q4 q5
    refine ⟨st', ?_, i2, i3, i4, i5, ?_, ?_⟩
    · rw [mergeMapKeys, q1]
      exact i1
    · intro k hk
      simp only [List.mem_cons, not_or] at hk
      rw [i6 k hk.2, q6 k hk.1]
    · intro k hk
      by_cases hka : k = a
      · subst hka
        rw [i6 k hnd'.1]
        refine ⟨q8, ?_, ?_⟩
        · intro hs
          rw [q9 hs]
          by_cases hd : (dstElementOf (D k)).kind = .Invalid
          · rw [hE k (by simp) hd st.store]
          · simp [hd]
        · intro hd ht
          exact q10 hd (by rw [hE k (by simp) hd st.store]; exact ht)
      · have hk' : k ∈ ks := by
          simp only [List.mem_cons] at hk
          rcases hk with h | h
          · exact absurd h hka
          · exact h
        exact i7 k hk'

theorem mapGet_typed (s : Store) (r : Option Nat) (k : Key) (Q : Value → Prop)
    (h : ∀ k v, (k, v) ∈ s.mapObj r → Q v) (hk : k ∈ (s.mapObj r).map Prod.fst) :
    Q (s.mapGet r k) := by
  obtain ⟨v, hv⟩ := lookup_of_mem_keys _ k hk
  rw [mapGet_eq_lookup, hv]
  exact h k v (lookup_mem _ k v hv)

theorem mapGet_invalid_or (s : Store) (r : Option Nat) (k : Key) :
    s.mapGet r k = .invalid ∨ ∃ v, (k, v) ∈ s.mapObj r ∧ s.mapGet r k = v := by
  rw [mapGet_eq_lookup]
  cases h : (s.mapObj r).lookup k with
  | none => left; rfl
  | some v => right; exact ⟨v, lookup_mem _ k v h, rfl⟩

theorem dst_assignable (et : Ty) (dv : Value)
    (h : dv.unbox.kind ≠ .Invalid → assignTo et dv.unbox = some dv)
    (hd : (dstElementOf dv).kind ≠ .Invalid) :
    ∃ w, assignTo et (dstElementOf dv).unbox = some w := by
  have hv := dstElementOf_valid dv hd
  have h1 : dstElementOf dv = dv.unbox := by simp [dstElementOf, hv]
  rw [h1] at hd ⊢
  rw [unbox_of_assign et dv (h hd)]
  exact ⟨dv, h hd⟩

/-- The summary of the key loop read as a statement on the key sets. -/
theorem union_of_loop (E : Store → Value → Bool) (s s' : Store) (ow : Bool) (kt et : Ty)
    (rd rs : Option Nat) (r : Nat) (ks : List Key) (D : Key → Value)
    (hks : ks = (s.mapObj rs).map Prod.fst)
    (hsrcT : ∀ k v, (k, v) ∈ s.mapObj rs → v.type = some et)
    (hD : ∀ k, D k = s.mapGet rd k)
    (h6 : ∀ k, k ∉ ks → s'.mapGet (some r) k = D k)
    (h7 : ∀ k ∈ ks,
        (skippedNil (s.mapGet rs k) = true → s'.mapGet (some r) k = D k)
        ∧ (skippedNil (s.mapGet rs k) = false →
            ((s'.mapGet (some r) k).kind ≠ .Invalid
              ↔ ((dstElementOf (D k)).kind ≠ .Invalid
                  ∨ srcEntryTaken E s ow (s.mapGet rs k) = true)))
        ∧ ((dstElementOf (D k)).kind = .Invalid → srcEntryTaken E s ow (s.mapGet rs k) = true →
            s'.mapGet (some r) k = s.mapGet rs k)) :
    ∀ k, k.type = kt →
      hasKey s' (.map kt et (some r)) k
          = ((hasKey s (.map kt et rd) k
                && !entryDropped E s ow (s.mapGet rd k) (s.mapGet rs k))
              || srcEntryTaken E s ow (s.mapGet rs k))
      ∧ (hasKey s (.map kt et rs) k = false →
          MapIndex s' (.map kt et (some r)) k = MapIndex s (.map kt et rd) k)
      ∧ (hasKey s (.map kt et rd) k = false → srcEntryTaken E s ow (s.mapGet rs k) = true →
          MapIndex s' (.map kt et (some r)) k = MapIndex s (.map kt et rs) k) := by
  intro k hk
  simp only [hasKey, MapIndex_eq _ _ _ _ _ hk]
  by_cases hmem : k ∈ ks
  · obtain ⟨a1, a2, a3⟩ := h7 k hmem
    rw [hD k] at a1 a2 a3
    have hsv : (s.mapGet rs k).kind ≠ .Invalid := by
      have := mapGet_typed s rs k (fun v => v.type = some et) hsrcT (hks ▸ hmem)
      exact kind_ne_invalid_of_type _ _ this
    by_cases hs : skippedNil (s.mapGet rs k) = true
    · have ht : srcEntryTaken E s ow (s.mapGet rs k) = false := by simp [srcEntryTaken, hs]
      refine ⟨?_, ?_, ?_⟩
      · rw [a1 hs]
        simp [ht, entryDropped, hs]
      · intro h
        simp [hsv] at h
      · intro _ h
        rw [ht] at h; cases h
    · have hs' : skippedNil (s.mapGet rs k) = false := by simpa using hs
      have a2' := a2 hs'
      refine ⟨?_, ?_, ?_⟩
      · by_cases hd : (dstElementOf (s.mapGet rd k)).kind = .Invalid
        · by_cases ht : srcEntryTaken E s ow (s.mapGet rs k) = true
          · have : (s'.mapGet (some r) k).kind ≠ .Invalid := a2'.mpr (Or.inr ht)
            simp [this, ht]
          · have : ¬ (s'.mapGet (some r) k).kind ≠ .Invalid := by
              intro h
              rcases a2'.mp h with h1 | h1
              · exact h1 hd
              · exact ht h1
            have ht' : srcEntryTaken E s ow (s.mapGet rs k) = false := by simpa using ht
            simp only [ne_eq, not_not] at this
            simp [this, ht', entryDropped, hd, hs', hsv]
        · have h1 : (s'.mapGet (some r) k).kind ≠ .Invalid := a2'.mpr (Or.inl hd)
          have h2 := dstElementOf_valid _ hd
          have b1 : ((s'.mapGet (some r) k).kind != .Invalid) = true := by simp [h1]
          have b2 : ((s.mapGet rd k).kind != .Invalid) = true := by simp [h2]
          have b3 : ((dstElementOf (s.mapGet rd k)).kind == .Invalid) = false := by simp [hd]
          simp only [b1, b2, b3, entryDropped, Bool.and_false, Bool.false_and, Bool.not_false,
            Bool.and_true, Bool.true_or]
      · intro h
        simp [hsv] at h
      · intro h ht
        have hd : (s.mapGet rd k).kind = .Invalid := by simpa using h
        have hdE : (dstElementOf (s.mapGet rd k)).kind = .Invalid := by
          simp [dstElementOf, hd]
        rw [a3 hdE ht]
  · have hsv : s.mapGet rs k = .invalid := by
      rw [mapGet_eq_lookup, lookup_none_of_not_mem _ k (hks ▸ hmem)]; rfl
    have hki : (Value.invalid.kind != .Invalid) = false := rfl
    have ht : srcEntryTaken E s ow (s.mapGet rs k) = false := by
      simp only [srcEntryTaken, hsv, hki, Bool.false_and]
    rw [h6 k hmem, hD k]
    refine ⟨?_, fun _ => rfl, ?_⟩
    · have ht' := ht
      rw [hsv] at ht'
      simp only [ht', entryDropped, hsv, hki, Bool.false_and, Bool.not_false, Bool.and_true,
        Bool.or_false]
    · intro _ h
      rw [ht] at h; cases h

theorem Merge_map_present (E : Store → Value → Bool)
    (resolve : Store → Value → Value → RValue × RValue × Option Error) (fuel : Nat)
    (s : Store) (dst src : Value) (opts : List (Config → Config))
    (l : Loc) (kt et : Ty) (r : Nat) (rs : Option Nat) (st' : State)
    (hres : resolve s dst src = (.ref l, .imm (.map kt et rs), none))
    (hdst : s.load l = some (.map kt et (some r)))
    (htr : (buildConfig opts).Transformers = none)
    (h1 : mergeMapKeys E (deepMerge E fuel) (buildConfig opts).Overwrite
        (buildConfig opts).overwriteWithEmptyValue (.ref l) (.imm (.map kt et rs)) 0
        ((s.mapObj rs).map Prod.fst)
        ⟨s, [⟨l, .map kt et⟩], { buildConfig opts with overwriteWithEmptyValue := false }⟩
          = .ok st') :
    Merge E resolve (fuel + 1) s dst src opts = .ret none st'.store := by
  have h1' : mergeMapKeys E (deepMerge E fuel) (buildConfig opts).Overwrite
        (buildConfig opts).overwriteWithEmptyValue (.ref l) (.imm (.map kt et rs)) 0
        ((s.mapObj rs).map Prod.fst)
        ⟨s, [⟨l, .map kt et⟩],
          ⟨(buildConfig opts).Overwrite, (buildConfig opts).AppendSlice, none, false⟩⟩
          = .ok st' := by
    rw [← h1, ← htr]
  simp [Merge, merge, hres, RValue.CanSet, RValue.CanAddr, RValue.Type, RValue.get_imm,
    RValue.get_ref, hdst, Value.type, deepMerge, RValue.IsValid, Value.kind, enterVisited,
    seenBefore, transformerHook, htr, RValue.Kind, mergeMap, Value.IsNil, MapKeys_eq, h1']

theorem Merge_map_created (E : Store → Value → Bool)
    (resolve : Store → Value → Value → RValue × RValue × Option Error) (fuel : Nat)
    (s s2 : Store) (dst src : Value) (opts : List (Config → Config))
    (l : Loc) (kt et : Ty) (r' : Nat) (st' : State)
    (hres : resolve s dst src = (.ref l, .imm (.map kt et (some r')), none))
    (hdst : s.load l = some (.map kt et none))
    (htr : (buildConfig opts).Transformers = none)
    (hw : ({ s with maps := s.maps ++ [[]] } : Store).write l (.map kt et (some s.maps.length))
      = some s2)
    (h1 : mergeMapKeys E (deepMerge E fuel) (buildConfig opts).Overwrite
        (buildConfig opts).overwriteWithEmptyValue (.ref l) (.imm (.map kt et (some r'))) 0
        ((s2.mapObj (some r')).map Prod.fst)
        ⟨s2, [⟨l, .map kt et⟩], { buildConfig opts with overwriteWithEmptyValue := false }⟩
          = .ok st') :
    Merge E resolve (fuel + 1) s dst src opts = .ret none st'.store := by
  have h1' : mergeMapKeys E (deepMerge E fuel) (buildConfig opts).Overwrite
        (buildConfig opts).overwriteWithEmptyValue (.ref l) (.imm (.map kt et (some r'))) 0
        ((s2.mapObj (some r')).map Prod.fst)
        ⟨s2, [⟨l, .map kt et⟩],
          ⟨(buildConfig opts).Overwrite, (buildConfig opts).AppendSlice, none, false⟩⟩
          = .ok st' := by
    rw [← h1, ← htr]
  have hl1 : ({ s with maps := s.maps ++ [[]] } : Store).load l
      = some (.map kt et none) := by
    rw [← hdst]; exact load_of_vars _ _ l rfl
  simp [Merge, merge, hres, RValue.CanSet, RValue.CanAddr, RValue.Type, RValue.get_imm,
    RValue.get_ref, hdst, Value.type, deepMerge, RValue.IsValid, Value.kind, enterVisited,
    seenBefore, transformerHook, htr, RValue.Kind, mergeMap, Value.IsNil, Store.MakeMap,
    RValue.Set, hl1, assignTo, hw, MapKeys_eq, h1']

theorem Merge_map_nil (E : Store → Value → Bool)
    (resolve : Store → Value → Value → RValue × RValue × Option Error) (fuel : Nat)
    (s : Store) (dst src : Value) (opts : List (Config → Config))
    (l : Loc) (kt et : Ty)
    (hres : resolve s dst src = (.ref l, .imm (.map kt et none), none))
    (hdst : s.load l = some (.map kt et none))
    (htr : (buildConfig opts).Transformers = none) :
    Merge E resolve (fuel + 1) s dst src opts = .ret none s := by
  simp [Merge, merge, hres, RValue.CanSet, RValue.CanAddr, RValue.Type, RValue.get_imm,
    RValue.get_ref, hdst, Value.type, deepMerge, RValue.IsValid, Value.kind, enterVisited,
    seenBefore, transformerHook, htr, RValue.Kind, mergeMap, Value.IsNil, MapKeys,
    mergeMapKeys]

theorem Merge_map_union
    (E : Store → Value → Bool)
    (resolve : Store → Value → Value → RValue × RValue × Option Error)
    (P : State → Prop) (fuel : Nat)
    (s : Store) (dst src : Value) (opts : List (Config → Config))
    (l : Loc) (kt et : Ty) (rd rs : Option Nat)
    (hres : resolve s dst src = (.ref l, .imm (.map kt et rs), none))
    (hdst : s.load l = some (.map kt et rd))
    (happ : (buildConfig opts).AppendSlice = false)
    (htr : (buildConfig opts).Transformers = none)
    (hrd : ∀ r, rd = some r → r < s.maps.length)
    (hrs : ∀ r, rs = some r → r < s.maps.length)
    (hnd : ((s.mapObj rs).map Prod.fst).Nodup)
    (hsrcT : ∀ k v, (k, v) ∈ s.mapObj rs → k.type = kt ∧ v.type = some et
      ∧ (v.unbox.kind ≠ .Invalid → assignTo et v.unbox = some v))
    (hdstT : ∀ k v, (k, v) ∈ s.mapObj rd →
      v.unbox.kind ≠ .Invalid → assignTo et v.unbox = some v)
    (hE : ∀ k, (dstElementOf (s.mapGet rd k)).kind = .Invalid →
      ∀ s1, srcEntryTaken E s1 (buildConfig opts).Overwrite (s.mapGet rs k)
        = srcEntryTaken E s (buildConfig opts).Overwrite (s.mapGet rs k))
    (hP0 : P ⟨s, [⟨l, .map kt et⟩], { buildConfig opts with overwriteWithEmptyValue := false }⟩)
    (hP : ∀ r, rd = some r → ∀ st m, P st → P { st with store := st.store.setMap r m })
    (hrec : ∀ r, rd = some r → ∀ k,
      (dstElementOf (s.mapGet rd k)).kind ≠ .Invalid → recursiveKind (s.mapGet rs k) = true →
      skippedNil (s.mapGet rs k) = false →
      ∀ st : State, P st →
        st.config = { buildConfig opts with overwriteWithEmptyValue := false } →
        st.store.load l = some (.map kt et (some r)) → r < st.store.maps.length →
        st.store.mapGet (some r) k = s.mapGet rd k → st.store.mapGet rs k = s.mapGet rs k →
        ∃ h st1 w, deepMerge E (fuel + 1) (.imm (dstElementOf (s.mapGet rd k)))
            (.imm (s.mapGet rs k).unbox) 1 st = .ret h none st1
          ∧ P st1 ∧ st1.config = { buildConfig opts with overwriteWithEmptyValue := false }
          ∧ st1.store.load l = some (.map kt et (some r))
          ∧ r < st1.store.maps.length
          ∧ (∀ k', st1.store.mapGet (some r) k' = st.store.mapGet (some r) k')
          ∧ (∀ k', st1.store.mapGet rs k' = st.store.mapGet rs k')
          ∧ assignTo et (h.get st1.store) = some w) :
    ∃ s' rd', Merge E resolve (fuel + 2) s dst src opts = .ret none s'
      ∧ s'.load l = some (.map kt et rd')
      ∧ ∀ k, k.type = kt →
          hasKey s' (.map kt et rd') k
              = ((hasKey s (.map kt et rd) k
                    && !entryDropped E s (buildConfig opts).Overwrite (s.mapGet rd k)
                        (s.mapGet rs k))
                  || srcEntryTaken E s (buildConfig opts).Overwrite (s.mapGet rs k))
          ∧ (hasKey s (.map kt et rs) k = false →
              MapIndex s' (.map kt et rd') k = MapIndex s (.map kt et rd) k)
          ∧ (hasKey s (.map kt et rd) k = false →
              srcEntryTaken E s (buildConfig opts).Overwrite (s.mapGet rs k) = true →
              MapIndex s' (.map kt et rd') k = MapIndex s (.map kt et rs) k) := by
  have hmem : ∀ k ∈ (s.mapObj rs).map Prod.fst, (k, s.mapGet rs k) ∈ s.mapObj rs := by
    intro k hk
    obtain ⟨v, hv⟩ := lookup_of_mem_keys _ k hk
    rw [mapGet_eq_lookup, hv]
    exact lookup_mem _ k v hv
  have hsT : ∀ k v, (k, v) ∈ s.mapObj rs → v.type = some et := fun k v h => (hsrcT k v h).2.1
  have hty : ∀ k ∈ (s.mapObj rs).map Prod.fst, (s.mapGet rs k).type = some et
        ∧ ((s.mapGet rs k).unbox.kind ≠ .Invalid →
            assignTo et (s.mapGet rs k).unbox = some (s.mapGet rs k))
        ∧ ((dstElementOf (s.mapGet rd k)).kind ≠ .Invalid →
            ∃ w, assignTo et (dstElementOf (s.mapGet rd k)).unbox = some w) := by
    intro k hk
    obtain ⟨-, a2, a3⟩ := hsrcT k _ (hmem k hk)
    refine ⟨a2, a3, ?_⟩
    intro hd
    rcases mapGet_invalid_or s rd k with h | ⟨v, hv, h⟩
    · rw [h] at hd
      exact absurd rfl hd
    · exact dst_assignable et _ (by rw [h]; exact hdstT k v hv) hd
  cases rd with
  | some r =>
    have hr := hrd r rfl
    obtain ⟨st', i1, -, -, i4, -, i6, i7⟩ := mergeMapKeys_union E P fuel
      (buildConfig opts).Overwrite (buildConfig opts).overwriteWithEmptyValue l kt et r rs 0
      { buildConfig opts with overwriteWithEmptyValue := false } s
      (fun k => s.mapGet (some r) k) (fun k => s.mapGet rs k)
      (hP r rfl) happ htr rfl rfl
      ((s.mapObj rs).map Prod.fst)
      ⟨s, [⟨l, .map kt et⟩], { buildConfig opts with overwriteWithEmptyValue := false }⟩
      hnd
      (fun k hk => ⟨(hsrcT k _ (hmem k hk)).1, rfl, rfl⟩)
      hty
      (fun k _ hd => hE k hd)
      (fun k _ => hrec r rfl k)
      hP0 rfl hdst hr
    refine ⟨st'.store, some r, Merge_map_present E resolve (fuel + 1) s dst src opts l kt et r rs
      st' hres hdst htr i1, i4, ?_⟩
    exact union_of_loop E s st'.store (buildConfig opts).Overwrite kt et (some r) rs r
      ((s.mapObj rs).map Prod.fst) (fun k => s.mapGet (some r) k) rfl hsT (fun _ => rfl) i6 i7
  | none =>
    cases rs with
    | none =>
      refine ⟨s, none, Merge_map_nil E resolve (fuel + 1) s dst src opts l kt et hres hdst htr,
        hdst, ?_⟩
      intro k hk
      have hki : (Value.invalid.kind != .Invalid) = false := rfl
      simp only [hasKey, MapIndex_eq _ _ _ _ _ hk, Store.mapGet, srcEntryTaken, hki,
        Bool.false_and, Bool.or_false, implies_true, and_true]
    | some r' =>
      have hr' := hrs r' rfl
      have hl1 : ({ s with maps := s.maps ++ [[]] } : Store).load l
          = some (.map kt et none) := by
        rw [← hdst]; exact load_of_vars _ _ l rfl
      obtain ⟨s2, hw, hl2, hm2, -, -⟩ :=
        Store.load_write _ l (.map kt et (some s.maps.length)) _ hl1
      have hlen : s.maps.length < s2.maps.length := by simp [hm2]
      have hobj : s2.mapObj (some r') = s.mapObj (some r') := by
        simp [Store.mapObj, hm2, List.getElem?_append_left hr']
      have hget : ∀ k, s2.mapGet (some r') k = s.mapGet (some r') k := by
        intro k; rw [mapGet_eq_lookup, mapGet_eq_lookup, hobj]
      have hnew : ∀ k, s2.mapGet (some s.maps.length) k = .invalid := by
        intro k; simp [Store.mapGet, hm2, List.lookup]
      obtain ⟨st', i1, -, -, i4, -, i6, i7⟩ := mergeMapKeys_union E (fun _ => True) fuel
        (buildConfig opts).Overwrite (buildConfig opts).overwriteWithEmptyValue l kt et
        s.maps.length (some r') 0
        { buildConfig opts with overwriteWithEmptyValue := false } s
        (fun _ => .invalid) (fun k => s.mapGet (some r') k)
        (fun _ _ _ => trivial) happ htr rfl rfl
        ((s.mapObj (some r')).map Prod.fst)
        ⟨s2, [⟨l, .map kt et⟩], { buildConfig opts with overwriteWithEmptyValue := false }⟩
        hnd
        (fun k hk => ⟨(hsrcT k _ (hmem k hk)).1, hnew k, hget k⟩)
        hty
        (fun k _ _ => hE k rfl)
        (fun k _ hd => absurd rfl hd)
        trivial rfl hl2 hlen
      rw [← hobj] at i1
      refine ⟨st'.store, some s.maps.length, Merge_map_created E resolve (fuel + 1) s s2 dst src
        opts l kt et r' st' hres hdst htr hw i1, i4, ?_⟩
      exact union_of_loop E s st'.store (buildConfig opts).Overwrite kt et none (some r')
        s.maps.length ((s.mapObj (some r')).map Prod.fst) (fun _ => .invalid) rfl hsT
        (fun _ => rfl) (fun k hk => by rw [i6 k hk]; exact hnew k) i7

theorem pointer_entry_merge (st : State)
    (hv : st.store.vars = pointerMapStore.vars)
    (hc : st.config = { buildConfig [] with overwriteWithEmptyValue := false }) :
    ∃ st1, deepMerge isEmptyValue 2 (.imm (.ptr .int (some ⟨1, []⟩)))
          (.imm (.ptr .int (some ⟨2, []⟩))) 1 st
        = .ret (.imm (.ptr .int (some ⟨1, []⟩))) none st1
      ∧ st1.store = st.store ∧ st1.config = st.config := by
  obtain ⟨⟨vars, maps⟩, vis, cfg⟩ := st
  simp only at hv hc
  subst hv hc
  by_cases hseen : seenBefore vis ⟨1, []⟩ .int = true
  · refine ⟨⟨⟨pointerMapStore.vars, maps⟩, vis, _⟩, ?_, rfl, rfl⟩
    simp [deepMerge, mergePtr, RValue.IsValid, RValue.get, Value.kind, enterVisited,
      transformerHook, buildConfig, RValue.Kind, isReflectNil, Value.IsNil, RValue.Elem,
      Store.load, pointerMapStore, Value.proj, RValue.Type, Value.type, hseen, RValue.Addr]
  · refine ⟨⟨⟨pointerMapStore.vars, maps⟩, ⟨⟨1, []⟩, .int⟩ :: vis, _⟩, ?_, rfl, rfl⟩
    simp [deepMerge, mergePtr, RValue.IsValid, RValue.get, Value.kind, enterVisited,
      transformerHook, buildConfig, RValue.Kind, isReflectNil, Value.IsNil, RValue.Elem,
      Store.load, pointerMapStore, Value.proj, RValue.Type, Value.type, hseen, RValue.Addr,
      mergeDefault, isEmptyValue]

/-- With the emptiness predicate of the spec, a struct that is empty is not
added under a key that the destination lacks: the default merge of
`{"b": A{0}}` into `{"a": A{1}}` leaves the destination as it is. -/
theorem empty_struct_entry_not_added :
    Merge isEmptyValue resolveValues 2 emptyStructEntryStore
        (.ptr (.map .string (.struct "A")) (some ⟨0, []⟩)) (.map .string (.struct "A") (some 1)) []
      = .ret none emptyStructEntryStore
    ∧ hasKey emptyStructEntryStore (.map .string (.struct "A") (some 1)) (.str "b") = true
    ∧ hasKey emptyStructEntryStore (.map .string (.struct "A") (some 0)) (.str "b") = false := by
  decide

/-- With the emptiness predicate of the spec, a nil interface of the
destination is deleted when the source holds an empty struct under its key:
the default merge of `{"k": A{0}}` into `{"k": nil}` ends with an empty
destination map. -/
theorem nil_interface_entry_deleted :
    Merge isEmptyValue resolveValues 2 nilInterfaceEntryStore
        (.ptr (.map .string .iface) (some ⟨0, []⟩)) (.map .string .iface (some 1)) []
      = .ret none ⟨[.map .string .iface (some 0)], [[], [(.str "k", .iface (structA 0))]]⟩
    ∧ hasKey nilInterfaceEntryStore (.map .string .iface (some 0)) (.str "k") = true := by
  decide

/-- Counterexample to C5 as stated.  First, the source map `{"k": nil}` of type
`map[string][]int` has the key `k`, yet after the default merge into
`{"a": [1]}` the destination is unchanged and has no key `k`: the key set is
not the union (lines 146-149 skip a nil element).  Second, the default merge
of `{"a": A{1}}` into `{"a": &x}`, both of type `map[string]interface{}`,
does not yield a map at all: the recursive call on the two elements under the
common key `a` returns `ErrDifferentArgumentsTypes` (line 244). -/
theorem map_key_union_counterexample :
    (Merge isEmptyValue resolveValues 1 nilEntryStore
        (.ptr (.map .string (.slice .int)) (some ⟨0, []⟩)) (.map .string (.slice .int) (some 1)) []
      = .ret none nilEntryStore
    ∧ hasKey nilEntryStore (.map .string (.slice .int) (some 1)) (.str "k") = true
    ∧ hasKey nilEntryStore (.map .string (.slice .int) (some 0)) (.str "k") = false)
    ∧ Merge isEmptyValue resolveValues 2 mismatchEntryStore
        (.ptr (.map .string .iface) (some ⟨0, []⟩)) (.map .string .iface (some 1)) []
      = .ret (some .ErrDifferentArgumentsTypes) mismatchEntryStore := by
  decide

/-- C5 as amended (map key union).  `dst` is a settable map `map[kt]et` (cell
`l`, map object `rd`), `src` a map of the same type (map object `rs`), the
element type `et` is arbitrary, append mode is off and there are no
transformers.  The entries are well formed (distinct source keys of type
`kt`, elements of type `et`, an interface element holding a concrete value).
For every key that both maps hold with a source element of kind struct,
pointer or map, the recursive call of line 169 on the two elements is assumed
to return without error, to keep an invariant `P` of the caller, and to leave
the cell `l` and the entries of both map objects alone; `P` holds at the start
of the key loop and does not depend on the content of the destination map
object.  The verdict `srcEntryTaken` on a source element under a key that the
destination lacks (or holds as a nil interface) is assumed not to depend on the
heap.  Then `Merge` succeeds and the key set of the result is the union of the
keys of `dst` and of the keys of `src` whose element is taken, a source
element being taken unless it is a nil channel, function, map, interface or
slice (skipped at lines 146-149) or a struct for which the recursive call on
the absent destination element hands back the zero Value (lines 259-268: the
struct is empty, or overwrite is off and the zero Value does not count as
empty); a key of `dst` is deleted only when `dst` holds a nil interface under
it and `src` a struct that is not taken.  A key present only in `dst` keeps
its value, and a key present only in `src` whose element is taken has the
value `src` holds for it. -/
theorem map_key_union
    (E : Store → Value → Bool)
    (resolve : Store → Value → Value → RValue × RValue × Option Error)
    (P : State → Prop) (fuel : Nat)
    (s : Store) (dst src : Value) (opts : List (Config → Config))
    (l : Loc) (kt et : Ty) (rd rs : Option Nat)
    (hres : resolve s dst src = (.ref l, .imm (.map kt et rs), none))
    (hdst : s.load l = some (.map kt et rd))
    (happ : (buildConfig opts).AppendSlice = false)
    (htr : (buildConfig opts).Transformers = none)
    (hrd : ∀ r, rd = some r → r < s.maps.length)
    (hrs : ∀ r, rs = some r → r < s.maps.length)
    (hnd : ((s.mapObj rs).map Prod.fst).Nodup)
    (hsrcT : ∀ k v, (k, v) ∈ s.mapObj rs → k.type = kt ∧ v.type = some et
      ∧ (v.unbox.kind ≠ .Invalid → assignTo et v.unbox = some v))
    (hdstT : ∀ k v, (k, v) ∈ s.mapObj rd →
      v.unbox.kind ≠ .Invalid → assignTo et v.unbox = some v)
    (hE : ∀ k, (dstElementOf (s.mapGet rd k)).kind = .Invalid →
      ∀ s1, srcEntryTaken E s1 (buildConfig opts).Overwrite (s.mapGet rs k)
        = srcEntryTaken E s (buildConfig opts).Overwrite (s.mapGet rs k))
    (hP0 : P ⟨s, [⟨l, .map kt et⟩], { buildConfig opts with overwriteWithEmptyValue := false }⟩)
    (hP : ∀ r, rd = some r → ∀ st m, P st → P { st with store := st.store.setMap r m })
    (hrec : ∀ r, rd = some r → ∀ k,
      (dstElementOf (s.mapGet rd k)).kind ≠ .Invalid → recursiveKind (s.mapGet rs k) = true →
      skippedNil (s.mapGet rs k) = false →
      ∀ st : State, P st →
        st.config = { buildConfig opts with overwriteWithEmptyValue := false } →
        st.store.load l = some (.map kt et (some r)) → r < st.store.maps.length →
        st.store.mapGet (some r) k = s.mapGet rd k → st.store.mapGet rs k = s.mapGet rs k →
        ∃ h st1 w, deepMerge E (fuel + 1) (.imm (dstElementOf (s.mapGet rd k)))
            (.imm (s.mapGet rs k).unbox) 1 st = .ret h none st1
          ∧ P st1 ∧ st1.config = { buildConfig opts with overwriteWithEmptyValue := false }
          ∧ st1.store.load l = some (.map kt et (some r))
          ∧ r < st1.store.maps.length
          ∧ (∀ k', st1.store.mapGet (some r) k' = st.store.mapGet (some r) k')
          ∧ (∀ k', st1.store.mapGet rs k' = st.store.mapGet rs k')
          ∧ assignTo et (h.get st1.store) = some w) :
    ∃ s' rd', Merge E resolve (fuel + 2) s dst src opts = .ret none s'
      ∧ s'.load l = some (.map kt et rd')
      ∧ ∀ k, k.type = kt →
          hasKey s' (.map kt et rd') k
              = ((hasKey s (.map kt et rd) k
                    && !entryDropped E s (buildConfig opts).Overwrite (s.mapGet rd k)
                        (s.mapGet rs k))
                  || srcEntryTaken E s (buildConfig opts).Overwrite (s.mapGet rs k))
          ∧ (hasKey s (.map kt et rs) k = false →
              MapIndex s' (.map kt et rd') k = MapIndex s (.map kt et rd) k)
          ∧ (hasKey s (.map kt et rd) k = false →
              srcEntryTaken E s (buildConfig opts).Overwrite (s.mapGet rs k) = true →
              MapIndex s' (.map kt et rd') k = MapIndex s (.map kt et rs) k) :=
  Merge_map_union E resolve P fuel s dst src opts l kt et rd rs hres hdst happ htr hrd hrs hnd
    hsrcT hdstT hE hP0 hP hrec

/-- Witness of C5 (amended) on the maps of pointers `dst = {"a": &x}` and
`src = {"a": &y, "b": &z}`: the key `a` is common and merged by a recursive
call on the two pointers, the key `b` is taken from `src`. -/
theorem map_key_union_witness :
    ∃ s' rd', Merge isEmptyValue resolveValues 3 pointerMapStore
          (.ptr (.map .string (.ptr .int)) (some ⟨0, []⟩)) (.map .string (.ptr .int) (some 1)) []
        = .ret none s'
      ∧ s'.load ⟨0, []⟩ = some (.map .string (.ptr .int) rd')
      ∧ ∀ k, k.type = .string →
          hasKey s' (.map .string (.ptr .int) rd') k
              = ((hasKey pointerMapStore (.map .string (.ptr .int) (some 0)) k
                    && !entryDropped isEmptyValue pointerMapStore (buildConfig []).Overwrite
                        (pointerMapStore.mapGet (some 0) k) (pointerMapStore.mapGet (some 1) k))
                  || srcEntryTaken isEmptyValue pointerMapStore (buildConfig []).Overwrite
                      (pointerMapStore.mapGet (some 1) k))
          ∧ (hasKey pointerMapStore (.map .string (.ptr .int) (some 1)) k = false →
              MapIndex s' (.map .string (.ptr .int) rd') k
                = MapIndex pointerMapStore (.map .string (.ptr .int) (some 0)) k)
          ∧ (hasKey pointerMapStore (.map .string (.ptr .int) (some 0)) k = false →
              srcEntryTaken isEmptyValue pointerMapStore (buildConfig []).Overwrite
                  (pointerMapStore.mapGet (some 1) k) = true →
              MapIndex s' (.map .string (.ptr .int) rd') k
                = MapIndex pointerMapStore (.map .string (.ptr .int) (some 1)) k) :=
  map_key_union isEmptyValue resolveValues
    (fun st => st.store.vars = pointerMapStore.vars) 1 pointerMapStore
    (.ptr (.map .string (.ptr .int)) (some ⟨0, []⟩)) (.map .string (.ptr .int) (some 1)) []
    ⟨0, []⟩ .string (.ptr .int) (some 0) (some 1)
    (by decide) (by decide) (by decide) (by rfl)
    (by intro r h; cases h; decide) (by intro r h; cases h; decide)
    (by decide)
    (by
      intro k v h
      simp [Store.mapObj, pointerMapStore] at h
      rcases h with ⟨rfl, rfl⟩ | ⟨rfl, rfl⟩ <;> decide)
    (by
      intro k v h
      simp [Store.mapObj, pointerMapStore] at h
      rcases h with ⟨rfl, rfl⟩
      decide)
    (by
      intro k _ s1
      by_cases h1 : k = .str "a"
      · subst h1; rfl
      · by_cases h2 : k = .str "b"
        · subst h2; rfl
        · have b1 : (k == Key.str "a") = false := by simp [h1]
          have b2 : (k == Key.str "b") = false := by simp [h2]
          have e : pointerMapStore.mapGet (some 1) k = .invalid := by
            simp [Store.mapGet, pointerMapStore, List.lookup, b1, b2]
          rw [e]; rfl)
    rfl
    (by intro r _ st m hp; exact hp)
    (by
      intro r hr k hd _ _ st hp hc hl hlen _ _
      cases hr
      have hk : k = .str "a" := by
        by_contra h1
        apply hd
        have b1 : (k == Key.str "a") = false := by simp [h1]
        have e : pointerMapStore.mapGet (some 0) k = .invalid := by
          simp [Store.mapGet, pointerMapStore, List.lookup, b1]
        rw [e]; rfl
      subst hk
      obtain ⟨st1, g1, g2, g3⟩ := pointer_entry_merge st hp hc
      refine ⟨_, st1, .ptr .int (some ⟨1, []⟩), g1, ?_, ?_, ?_, ?_, ?_, ?_, ?_⟩
      · show st1.store.vars = pointerMapStore.vars
        rw [g2]; exact hp
      · rw [g3]; exact hc
      · rw [g2]; exact hl
      · rw [g2]; exact hlen
      · intro k'; rw [g2]
      · intro k'; rw [g2]
      · rfl)

/-! ## Idempotence of the shape class -/

theorem mapObj_congr (s1 s2 : Store) (r : Option Nat)
    (h : ∀ i, r = some i → s2.maps[i]? = s1.maps[i]?) : s2.mapObj r = s1.mapObj r := by
  cases r with
  | none => rfl
  | some i => simp [Store.mapObj, h i rfl]

theorem mapGet_congr (s1 s2 : Store) (r : Option Nat) (k : Key)
    (h : ∀ i, r = some i → s2.maps[i]? = s1.maps[i]?) : s2.mapGet r k = s1.mapGet r k := by
  rw [mapGet_eq_lookup, mapGet_eq_lookup, mapObj_congr s1 s2 r h]

mutual
theorem mapsTyped_frame (s1 s2 : Store) : ∀ (d x : Value),
    (∀ r ∈ mapRefs d, s2.maps[r]? = s1.maps[r]?) → (∀ r ∈ mapRefs x, s2.maps[r]? = s1.maps[r]?) →
    mapsTyped s1 d x → mapsTyped s2 d x
  | .map kt et rd, x, h1, h2, h => by
    cases x with
    | map kt' et' rs =>
      simp only [mapsTyped] at h ⊢
      have e1 : s2.mapObj rd = s1.mapObj rd :=
        mapObj_congr s1 s2 rd (fun i hi => h1 i (by subst hi; simp [mapRefs]))
      have e2 : s2.mapObj rs = s1.mapObj rs :=
        mapObj_congr s1 s2 rs (fun i hi => h2 i (by subst hi; simp [mapRefs]))
      rw [e1, e2]
      exact h
    | _ => simp [mapsTyped]
  | .struct n fs vs, x, h1, h2, h => by
    cases x with
    | struct n' fs' ws =>
      simp only [mapsTyped] at h ⊢
      exact mapsTypedList_frame s1 s2 vs ws (by simpa [mapRefs] using h1)
        (by simpa [mapRefs] using h2) h
    | _ => simp [mapsTyped]
  | .invalid, _, _, _, _ => by simp [mapsTyped]
  | .bool _, _, _, _, _ => by simp [mapsTyped]
  | .int _, _, _, _, _ => by simp [mapsTyped]
  | .str _, _, _, _, _ => by simp [mapsTyped]
  | .chan _ _, _, _, _, _ => by simp [mapsTyped]
  | .func _, _, _, _, _ => by simp [mapsTyped]
  | .iface _, _, _, _, _ => by simp [mapsTyped]
  | .ptr _ _, _, _, _, _ => by simp [mapsTyped]
  | .slice _ _ _, _, _, _, _ => by simp [mapsTyped]
theorem mapsTypedList_frame (s1 s2 : Store) : ∀ (vs ws : List Value),
    (∀ r ∈ mapRefsList vs, s2.maps[r]? = s1.maps[r]?) →
    (∀ r ∈ mapRefsList ws, s2.maps[r]? = s1.maps[r]?) →
    mapsTypedList s1 vs ws → mapsTypedList s2 vs ws
  | [], _, _, _, _ => by simp [mapsTypedList]
  | _ :: _, [], _, _, _ => by simp [mapsTypedList]
  | v :: vs, w :: ws, h1, h2, h => by
    simp only [mapsTypedList] at h ⊢
    simp only [mapRefsList, List.mem_append] at h1 h2
    exact ⟨mapsTyped_frame s1 s2 v w (fun r hr => h1 r (Or.inl hr)) (fun r hr => h2 r (Or.inl hr))
        h.1,
      mapsTypedList_frame s1 s2 vs ws (fun r hr => h1 r (Or.inr hr))
        (fun r hr => h2 r (Or.inr hr)) h.2⟩
end

theorem shape_leaf_plain (d x : Value) (h : shapePair d x = true) (hl : d.isLeaf = true) :
    plainPair d x = true := by
  cases d <;> simp [Value.isLeaf] at hl <;> simpa [shapePair, plainPair] using h

theorem mapGet_kind_or_type (s : Store) (r : Option Nat) (et : Ty) (k : Key)
    (h : ∀ k v, (k, v) ∈ s.mapObj r → v.type = some et) :
    (s.mapGet r k).kind = .Invalid ∨ (s.mapGet r k).type = some et := by
  rcases mapGet_invalid_or s r k with h1 | ⟨v, hv, h1⟩
  · left; rw [h1]; rfl
  · right; rw [h1]; exact h k v hv

mutual
theorem mergeStable_frame (E : Store → Value → Bool)
    (hE : ∀ s1 s2 v, v.isLeaf = true → E s1 v = E s2 v) (s1 s2 : Store) (ow : Bool) :
    ∀ (d x : Value), shapePair d x = true → mapsTyped s1 d x →
    (∀ r ∈ mapRefs d, s2.maps[r]? = s1.maps[r]?) → (∀ r ∈ mapRefs x, s2.maps[r]? = s1.maps[r]?) →
    mergeStable E s1 ow d x → mergeStable E s2 ow d x
  | .map kt et rd, x, hp, ht, h1, h2, h => by
    cases x with
    | map kt' et' rs =>
      simp only [mergeStable] at h ⊢
      simp only [mapsTyped] at ht
      simp [shapePair, Value.type] at hp
      have e1 : ∀ k, s2.mapGet rd k = s1.mapGet rd k := fun k =>
        mapGet_congr s1 s2 rd k (fun i hi => h1 i (by subst hi; simp [mapRefs]))
      have e2 : ∀ k, s2.mapGet rs k = s1.mapGet rs k := fun k =>
        mapGet_congr s1 s2 rs k (fun i hi => h2 i (by subst hi; simp [mapRefs]))
      have e3 : s2.mapObj rs = s1.mapObj rs :=
        mapObj_congr s1 s2 rs (fun i hi => h2 i (by subst hi; simp [mapRefs]))
      refine ⟨h.1, ?_⟩
      intro k hk hg
      rw [e3] at hk
      rw [e1 k, e2 k]
      apply h.2 k hk
      rw [e1 k] at hg
      rw [← hg]
      exact mapGate_indep E et
        (fun a b v hv => hE a b v (scalar_type_isLeaf et hp.1 v hv)) s1 s2 ow _
        (mapGet_kind_or_type s1 rd et k ht.2)
    | _ => simp [shapePair, Value.type] at hp
  | .struct n fs vs, x, hp, ht, h1, h2, h => by
    cases x with
    | struct n' fs' ws =>
      simp only [mergeStable] at h ⊢
      simp only [mapsTyped] at ht
      simp [shapePair] at hp
      exact mergeStableList_frame E hE s1 s2 ow fs vs ws hp.2 ht (by simpa [mapRefs] using h1)
        (by simpa [mapRefs] using h2) h
    | _ => simp [shapePair] at hp
  | .bool b, x, hp, _, _, _, h => by
    simp only [mergeStable] at h ⊢
    rw [mergePlain_indep E hE s2 s1 ow false _ x (shape_leaf_plain _ x hp rfl)]; exact h
  | .int b, x, hp, _, _, _, h => by
    simp only [mergeStable] at h ⊢
    rw [mergePlain_indep E hE s2 s1 ow false _ x (shape_leaf_plain _ x hp rfl)]; exact h
  | .str b, x, hp, _, _, _, h => by
    simp only [mergeStable] at h ⊢
    rw [mergePlain_indep E hE s2 s1 ow false _ x (shape_leaf_plain _ x hp rfl)]; exact h
  | .slice e n xs, x, hp, _, _, _, h => by
    simp only [mergeStable] at h ⊢
    rw [mergePlain_indep E hE s2 s1 ow false _ x (shape_leaf_plain _ x hp rfl)]; exact h
  | .invalid, _, hp, _, _, _, _ => by simp [shapePair] at hp
  | .chan _ _, _, hp, _, _, _, _ => by simp [shapePair] at hp
  | .func _, _, hp, _, _, _, _ => by simp [shapePair] at hp
  | .iface _, _, hp, _, _, _, _ => by simp [shapePair] at hp
  | .ptr _ _, _, hp, _, _, _, _ => by simp [shapePair] at hp
theorem mergeStableList_frame (E : Store → Value → Bool)
    (hE : ∀ s1 s2 v, v.isLeaf = true → E s1 v = E s2 v) (s1 s2 : Store) (ow : Bool) :
    ∀ (fs : List StructField) (vs ws : List Value), shapeFields fs vs ws = true →
    mapsTypedList s1 vs ws →
    (∀ r ∈ mapRefsList vs, s2.maps[r]? = s1.maps[r]?) →
    (∀ r ∈ mapRefsList ws, s2.maps[r]? = s1.maps[r]?) →
    mergeStableList E s1 ow vs ws → mergeStableList E s2 ow vs ws
  | [], [], [], _, _, _, _, _ => by simp [mergeStableList]
  | [], [], _ :: _, h, _, _, _, _ => by simp [shapeFields] at h
  | [], _ :: _, _, h, _, _, _, _ => by simp [shapeFields] at h
  | _ :: _, [], _, h, _, _, _, _ => by simp [shapeFields] at h
  | _ :: _, _ :: _, [], h, _, _, _, _ => by simp [shapeFields] at h
  | f :: fs, v :: vs, w :: ws, hp, ht, h1, h2, h => by
    simp only [mergeStableList] at h ⊢
    simp only [mapsTypedList] at ht
    simp [shapeFields] at hp
    simp only [mapRefsList, List.mem_append] at h1 h2
    exact ⟨mergeStable_frame E hE s1 s2 ow v w hp.1.2 ht.1 (fun r hr => h1 r (Or.inl hr))
        (fun r hr => h2 r (Or.inl hr)) h.1,
      mergeStableList_frame E hE s1 s2 ow fs vs ws hp.2 ht.2 (fun r hr => h1 r (Or.inr hr))
        (fun r hr => h2 r (Or.inr hr)) h.2⟩
end

theorem mergeMapKeys_scalar_frame (E : Store → Value → Bool)
    (rec : RValue → RValue → Nat → State → Outcome) (depth : Nat)
    (ow owe : Bool) (l : Loc) (kt et : Ty) (r : Nat) (rs : Option Nat)
    (het : et.isScalar = true) :
    ∀ (ks : List Key) (st st' : State),
      st.store.load l = some (.map kt et (some r)) → r < st.store.maps.length →
      (∀ k ∈ ks, k.type = kt ∧ (st.store.mapGet rs k).type = some et) →
      (∀ k, (st.store.mapGet (some r) k).kind = .Invalid
        ∨ (st.store.mapGet (some r) k).type = some et) →
      mergeMapKeys E rec ow owe (.ref l) (.imm (.map kt et rs)) depth ks st = .ok st' →
      ∀ r2, r2 ≠ r → st'.store.maps[r2]? = st.store.maps[r2]? := by
  intro ks
  induction ks with
  | nil =>
    intro st st' _ _ _ _ h r2 _
    simp only [mergeMapKeys, Except.ok.injEq] at h
    subst h
    rfl
  | cons a ks ih =>
    intro st st' hl hr hks hdv h r2 hr2
    obtain ⟨st1, h1, hl1, hr1, hs1, hdv1, -⟩ :=
      mergeMapKey_scalar_step E ow owe l kt et r rs het a st hl hr (hks a (by simp)) hdv
    have hex := mergeMapKey_scalar E rec ow owe l kt et r rs depth a st het (hks a (by simp)).1 hl
      (hks a (by simp)).2 (hdv a)
    rw [h1 rec depth] at hex
    have hfr : st1.store.maps[r2]? = st.store.maps[r2]? := by
      simp only [Except.ok.injEq] at hex
      rw [hex]
      split
      · simp [Store.putMap, List.getElem?_set_ne (Ne.symm hr2)]
      · rfl
    rw [mergeMapKeys, h1 rec depth] at h
    have hks1 : ∀ k ∈ ks, k.type = kt ∧ (st1.store.mapGet rs k).type = some et := by
      intro k hk
      rw [hs1 k]
      exact hks k (by simp [hk])
    rw [ih st1 st' hl1 hr1 hks1 hdv1 h r2 hr2, hfr]

/-- The key loop on a map with scalar elements, with what it leaves. -/
theorem mapLoop_shape (E : Store → Value → Bool)
    (hE : ∀ s1 s2 v, v.isLeaf = true → E s1 v = E s2 v)
    (ow owe : Bool) (l : Loc) (kt et : Ty) (r : Nat) (rs : Option Nat) (st : State)
    (het : et.isScalar = true)
    (hl : st.store.load l = some (.map kt et (some r))) (hr : r < st.store.maps.length)
    (hsrcT : ∀ k v, (k, v) ∈ st.store.mapObj rs → k.type = kt ∧ v.type = some et)
    (hdstT : ∀ k v, (k, v) ∈ st.store.mapObj (some r) → v.type = some et) :
    ∃ st', (∀ rec depth, mergeMapKeys E rec ow owe (.ref l) (.imm (.map kt et rs)) depth
          ((st.store.mapObj rs).map Prod.fst) st = .ok st')
      ∧ st'.store.vars = st.store.vars ∧ st'.visited = st.visited ∧ st'.config = st.config
      ∧ st'.store.maps.length = st.store.maps.length
      ∧ (∀ r2, r2 ≠ r → st'.store.maps[r2]? = st.store.maps[r2]?)
      ∧ (∀ k v, (k, v) ∈ st'.store.mapObj (some r) → v.type = some et)
      ∧ (∀ k ∈ (st'.store.mapObj rs).map Prod.fst,
          mapGate E st'.store ow (st'.store.mapGet (some r) k) = true →
            st'.store.mapGet (some r) k = st'.store.mapGet rs k)
      ∧ ((∀ k ∈ (st.store.mapObj rs).map Prod.fst,
          mapGate E st.store ow (st.store.mapGet (some r) k) = true →
            st.store.mapGet (some r) k = st.store.mapGet rs k) → st' = st) := by
  have hE' : ∀ s1 s2 v, v.type = some et → E s1 v = E s2 v :=
    fun a b v hv => hE a b v (scalar_type_isLeaf et het v hv)
  have hdv : ∀ k, (st.store.mapGet (some r) k).kind = .Invalid
      ∨ (st.store.mapGet (some r) k).type = some et :=
    fun k => mapGet_kind_or_type st.store (some r) et k hdstT
  have hks : ∀ k ∈ (st.store.mapObj rs).map Prod.fst,
      k.type = kt ∧ (st.store.mapGet rs k).type = some et := by
    intro k hk
    obtain ⟨v, hv⟩ := lookup_of_mem_keys _ k hk
    have := hsrcT k v (lookup_mem _ k v hv)
    rw [mapGet_eq_lookup, hv]
    exact this
  obtain ⟨st', h1, h2, h3, h4, h5⟩ :=
    mapLoop_scalar_fixed E ow owe l kt et r rs st het hE' hl hr hsrcT hdv
  obtain ⟨st'', g1, -, g3, g4, g5, -, -⟩ :=
    mergeMapKeys_scalar E ow owe l kt et r rs het hE' _ st hl hr hks hdv
  have hst : st'' = st' := by
    have a := g1 (fun _ _ _ _ => .panic) 0
    rw [h1 (fun _ _ _ _ => .panic) 0] at a
    exact (Except.ok.inj a).symm
  subst hst
  have hfr := mergeMapKeys_scalar_frame E (fun _ _ _ _ => .panic) 0 ow owe l kt et r rs het _ st
    st'' hl hr hks hdv (h1 _ _)
  have hmem := mergeMapKeys_scalar_mem E (fun _ _ _ _ => .panic) 0 ow owe l kt et r rs het _ st
    st'' hl hr hks hdv (h1 _ _)
  refine ⟨st'', h1, h2, g3, g4, g5, hfr, ?_, ?_, ?_⟩
  · intro k v hm
    rcases hmem r k v hm with h | ⟨h, h'⟩
    · exact hdstT k v h
    · rw [h']; exact (hks k h).2
  · intro k hk
    exact (h5 k hk).2.2
  · intro hfix
    have a := mergeMapKeys_fixed E ow owe l kt et r rs het st hl hr hdv _
      (fun k hk => ⟨(hks k hk).1, (hks k hk).2, hfix k hk⟩) (fun _ _ _ _ => .panic) 0
    rw [h1 (fun _ _ _ _ => .panic) 0] at a
    exact Except.ok.inj a

/-- One step of `deepMerge` at a map: the map case is entered with the record
of the location added. -/
theorem deepMerge_map_step (E : Store → Value → Bool) (kt et : Ty) (rd rs : Option Nat)
    (l : Loc) (st : State)
    (hl : st.store.load l = some (.map kt et rd))
    (htr : st.config.Transformers = none)
    (hflag : st.config.overwriteWithEmptyValue = false)
    (hseen : seenBefore st.visited l (.map kt et) = false) (fuel depth : Nat) :
    deepMerge E (fuel + 1) (.ref l) (.imm (.map kt et rs)) depth st
      = mergeMap E (deepMerge E fuel) st.config.Overwrite false (.ref l)
          (.imm (.map kt et rs)) depth ⟨st.store, ⟨l, .map kt et⟩ :: st.visited, st.config⟩ := by
  obtain ⟨store, visited, config⟩ := st
  obtain ⟨ow, app, tr, fl⟩ := config
  simp only at hl htr hflag hseen
  subst htr hflag
  simp [deepMerge, RValue.IsValid, RValue.get_imm, enterVisited, RValue.Type,
    RValue.get_ref, hl, hseen, transformerHook, RValue.Kind, Value.kind, Value.type]

/-- The map case of `deepMerge` on a map with scalar elements. -/
theorem mergeMap_shape (E : Store → Value → Bool)
    (hE : ∀ s1 s2 v, v.isLeaf = true → E s1 v = E s2 v)
    (ow owe : Bool) (l : Loc) (kt et : Ty) (rd rs : Option Nat) (st : State)
    (het : et.isScalar = true)
    (hl : st.store.load l = some (.map kt et rd))
    (hready : shapeReady st.store (.map kt et rd) (.map kt et rs)) :
    ∃ st' rd', (∀ rec depth,
        mergeMap E rec ow owe (.ref l) (.imm (.map kt et rs)) depth st = .ret (.ref l) none st')
      ∧ st'.config = st.config ∧ st'.visited = st.visited
      ∧ st'.store.vars.length = st.store.vars.length
      ∧ (∀ c, c ≠ l.cell → st'.store.vars[c]? = st.store.vars[c]?)
      ∧ (∃ cell0 cell', st.store.vars[l.cell]? = some cell0
          ∧ st'.store.vars[l.cell]? = some cell'
          ∧ cell0.update l.path (.map kt et rd') = some cell')
      ∧ shapeOut E st.store st'.store ow (.map kt et rd) (.map kt et rs) (.map kt et rd') := by
  obtain ⟨hty, hb1, hb2, -, hdis⟩ := hready
  simp only [mapsTyped] at hty
  obtain ⟨hsrcT, hdstT⟩ := hty
  obtain ⟨cell0, hcell0, hproj0, hlt⟩ := load_lt _ _ _ hl
  cases rd with
  | some r =>
    have hr : r < st.store.maps.length := hb1 r (by simp [mapRefs])
    obtain ⟨st', h1, h2, h3, h4, h5, h6, h7, h8, h9⟩ :=
      mapLoop_shape E hE ow owe l kt et r rs st het hl hr hsrcT hdstT
    have hsrc : st'.store.mapObj rs = st.store.mapObj rs := by
      apply mapObj_congr
      intro i hi
      apply h6
      intro h
      subst hi h
      exact hdis i (by simp [mapRefs]) (by simp [mapRefs])
    refine ⟨st', some r, ?_, h4, h3, by rw [h2], fun c _ => by rw [h2],
      ⟨cell0, cell0, hcell0, by rw [h2]; exact hcell0, Value.update_self _ _ _ hproj0⟩, ?_⟩
    · intro rec depth
      simp [mergeMap, RValue.get_ref, hl, Value.IsNil, RValue.get_imm, MapKeys_eq, h1]
    · refine ⟨by simp [shapePair, het, Value.type], rfl, rfl, by rw [h5], ?_, ?_, by simp [mapRefs],
        ?_, ?_, ?_⟩
      · intro r2 _ hr2
        exact h6 r2 (by simpa [mapRefs] using hr2)
      · intro r2 hr2
        exact Or.inl hr2
      · simp only [mapsTyped]
        exact ⟨by rw [hsrc]; exact hsrcT, h7⟩
      · simp only [mergeStable]
        exact ⟨by simp, h8⟩
      · intro hst
        simp only [mergeStable] at hst
        rw [h9 hst.2]
        exact ⟨rfl, rfl⟩
  | none =>
    cases rs with
    | none =>
      refine ⟨st, none, ?_, rfl, rfl, rfl, fun _ _ => rfl,
        ⟨cell0, cell0, hcell0, hcell0, Value.update_self _ _ _ hproj0⟩, ?_⟩
      · intro rec depth
        simp [mergeMap, RValue.get_ref, hl, Value.IsNil, RValue.get_imm, MapKeys, mergeMapKeys]
      · refine ⟨by simp [shapePair, het, Value.type], rfl, rfl, Nat.le_refl _, fun _ _ _ => rfl,
          fun r2 hr2 => Or.inl hr2, by simp [mapRefs], ?_, ?_, fun _ => ⟨rfl, rfl⟩⟩
        · simp only [mapsTyped]
          exact ⟨hsrcT, hdstT⟩
        · simp [mergeStable, Store.mapObj]
    | some r' =>
      have hr' : r' < st.store.maps.length := hb2 r' (by simp [mapRefs])
      have hl1 : ({ st.store with maps := st.store.maps ++ [[]] } : Store).load l
          = some (.map kt et none) := by
        rw [← hl]; exact load_of_vars _ _ l rfl
      obtain ⟨s2, hw, hl2, hm2, hlen2, -⟩ :=
        Store.load_write _ l (.map kt et (some st.store.maps.length)) _ hl1
      obtain ⟨c0, c2, hc0, hup, hs2⟩ := Store.write_inv _ _ _ _ hw
      have hc00 : c0 = cell0 := by
        simp only at hc0
        rw [hcell0] at hc0
        exact (Option.some.inj hc0).symm
      subst hc00
      have hm2' : s2.maps = st.store.maps ++ [[]] := hm2
      have hlen : st.store.maps.length < s2.maps.length := by simp [hm2']
      have hobj : s2.mapObj (some r') = st.store.mapObj (some r') := by
        simp [Store.mapObj, hm2', List.getElem?_append_left hr']
      have hnewobj : s2.mapObj (some st.store.maps.length) = [] := by
        simp [Store.mapObj, hm2']
      obtain ⟨st', h1, h2, h3, h4, h5, h6, h7, h8, -⟩ :=
        mapLoop_shape E hE ow owe l kt et st.store.maps.length (some r')
          ⟨s2, st.visited, st.config⟩ het hl2 hlen (by rw [hobj]; exact hsrcT)
          (by intro k v h; rw [hnewobj] at h; simp at h)
      simp only at h1 h2 h3 h4 h5 h6
      rw [hobj] at h1
      have hne : r' ≠ st.store.maps.length := by omega
      have hsrc : st'.store.mapObj (some r') = st.store.mapObj (some r') := by
        rw [← hobj]
        apply mapObj_congr
        intro i hi
        cases hi
        exact h6 r' hne
      refine ⟨st', some st.store.maps.length, ?_, h4, h3, ?_, ?_, ⟨c0, c2, hcell0, ?_, hup⟩, ?_⟩
      · intro rec depth
        simp [mergeMap, RValue.get_ref, hl, Value.IsNil, RValue.get_imm, RValue.CanSet,
          RValue.CanAddr, Store.MakeMap, RValue.Set, hl1, Value.type, assignTo, hw, hl2,
          MapKeys_eq, hobj, h1]
      · rw [h2]; exact hlen2
      · intro c hc
        rw [h2, hs2]
        exact getElem?_set_other _ _ _ _ hc
      · rw [h2, hs2]
        exact getElem?_set_same _ _ _ _ hcell0
      · refine ⟨by simp [shapePair, het, Value.type], rfl, rfl, by rw [h5]; omega, ?_, ?_,
          by simp [mapRefs], ?_, ?_, ?_⟩
        · intro r2 hr2 _
          rw [h6 r2 (by omega), hm2']
          exact List.getElem?_append_left hr2
        · intro r2 hr2
          simp only [mapRefs, List.mem_singleton] at hr2
          subst hr2
          exact Or.inr ⟨Nat.le_refl _, by rw [h5]; exact hlen⟩
        · simp only [mapsTyped]
          exact ⟨by rw [hsrc]; exact hsrcT, h7⟩
        · simp only [mergeStable]
          exact ⟨by simp, h8⟩
        · intro hst
          simp [mergeStable] at hst

theorem leaf_facts (E : Store → Value → Bool) (s : Store) (ow : Bool) (d x : Value)
    (hd : d.isLeaf = true) :
    mapRefs d = [] ∧ mapsTyped s d x ∧ d.depth = 0
      ∧ (mergeStable E s ow d x ↔ mergePlain E s ow false d x = d) := by
  cases d <;> simp [Value.isLeaf] at hd <;>
    simp [mapRefs, mapsTyped, Value.depth, mergeStable]

theorem mergePlain_leaf_isLeaf (E : Store → Value → Bool) (s : Store) (ow app : Bool)
    (d x : Value) (hd : d.isLeaf = true) (hp : plainPair d x = true) :
    (mergePlain E s ow app d x).isLeaf = true := by
  cases d <;> simp [Value.isLeaf] at hd <;> cases x <;>
    simp [plainPair, Value.kind, Value.type] at hp <;>
    simp only [mergePlain] <;> (repeat' split) <;> simp [Value.isLeaf]

theorem plain_leaf_shape (d x : Value) (hd : d.isLeaf = true) (hp : plainPair d x = true) :
    shapePair d x = true := by
  cases d <;> simp [Value.isLeaf] at hd <;> simpa [shapePair, plainPair] using hp

/-- The leaf case of the merge of the shape class. -/
theorem shapeSpec_leaf (E : Store → Value → Bool)
    (hE : ∀ s1 s2 v, v.isLeaf = true → E s1 v = E s2 v) (N : Nat)
    (d x : Value) (l : Loc) (st : State)
    (hd : d.isLeaf = true) (hp : shapePair d x = true)
    (hl : st.store.load l = some d)
    (htr : st.config.Transformers = none)
    (hflag : st.config.overwriteWithEmptyValue = false)
    (happ : st.config.AppendSlice = false)
    (hvis : ∀ v ∈ st.visited, ¬ (v.ptr.cell = l.cell ∧ l.path <+: v.ptr.path)) :
    ∃ st' d2, (∀ k depth, deepMerge E (N + 1 + k) (.ref l) (.imm x) depth st
          = .ret (.ref l) none st')
      ∧ st'.config = st.config
      ∧ st.store.vars.length ≤ st'.store.vars.length
      ∧ (∀ c, c < st.store.vars.length → c ≠ l.cell → st'.store.vars[c]? = st.store.vars[c]?)
      ∧ (∃ cell0 cell', st.store.vars[l.cell]? = some cell0 ∧ st'.store.vars[l.cell]? = some cell'
          ∧ cell0.update l.path d2 = some cell')
      ∧ (∀ v ∈ st'.visited, v ∈ st.visited ∨ (v.ptr.cell = l.cell ∧ l.path <+: v.ptr.path))
      ∧ shapeOut E st.store st'.store st.config.Overwrite d x d2 := by
  have hpp := shape_leaf_plain d x hp hd
  obtain ⟨st', h1, h2, h3, h4, h5, h6, h7⟩ :=
    plainSpec_leaf E st.store hE N d x l st hd hpp hl htr hflag hvis
  rw [happ] at h6
  obtain ⟨p1, p2, -⟩ := mergePlain_idem E st.store st.config.Overwrite d x hpp
  have hml := mergePlain_leaf_isLeaf E st.store st.config.Overwrite false d x hd hpp
  obtain ⟨f1, f2, f3, f4⟩ := leaf_facts E st'.store st.config.Overwrite _ x hml
  obtain ⟨g1, -, g3, g4⟩ := leaf_facts E st.store st.config.Overwrite d x hd
  refine ⟨st', _, h1, h2, h4, h5, h6, h7, plain_leaf_shape _ x hml p1, by rw [f3, g3],
    mergePlain_type E st.store _ _ d x hpp, by rw [h3], fun r _ _ => by rw [h3], ?_, ?_, f2, ?_,
    ?_⟩
  · intro r hr; rw [f1] at hr; simp at hr
  · rw [f1]; simp
  · rw [f4, mergePlain_indep E hE st'.store st.store _ false _ x p1]
    exact p2
  · intro hst
    exact ⟨g4.mp hst, h3⟩

/-- The map case of the merge of the shape class. -/
theorem shapeSpec_map (E : Store → Value → Bool)
    (hE : ∀ s1 s2 v, v.isLeaf = true → E s1 v = E s2 v) (N : Nat)
    (kt et : Ty) (rd : Option Nat) (x : Value) (l : Loc) (st : State)
    (hp : shapePair (.map kt et rd) x = true)
    (hl : st.store.load l = some (.map kt et rd))
    (htr : st.config.Transformers = none)
    (hflag : st.config.overwriteWithEmptyValue = false)
    (hvis : ∀ v ∈ st.visited, ¬ (v.ptr.cell = l.cell ∧ l.path <+: v.ptr.path))
    (hready : shapeReady st.store (.map kt et rd) x) :
    ∃ st' d2, (∀ k depth, deepMerge E (N + 1 + k) (.ref l) (.imm x) depth st
          = .ret (.ref l) none st')
      ∧ st'.config = st.config
      ∧ st.store.vars.length ≤ st'.store.vars.length
      ∧ (∀ c, c < st.store.vars.length → c ≠ l.cell → st'.store.vars[c]? = st.store.vars[c]?)
      ∧ (∃ cell0 cell', st.store.vars[l.cell]? = some cell0 ∧ st'.store.vars[l.cell]? = some cell'
          ∧ cell0.update l.path d2 = some cell')
      ∧ (∀ v ∈ st'.visited, v ∈ st.visited ∨ (v.ptr.cell = l.cell ∧ l.path <+: v.ptr.path))
      ∧ shapeOut E st.store st'.store st.config.Overwrite (.map kt et rd) x d2 := by
  cases x <;> simp [shapePair, Value.type] at hp
  rename_i kt' et' rs
  obtain ⟨het, rfl, rfl⟩ := hp
  have hseen := seenBefore_false_of_fresh st.visited l (.map kt' et') hvis
  obtain ⟨st', rd', h1, h2, h3, h4, h5, h6, h7⟩ :=
    mergeMap_shape E hE st.config.Overwrite false l kt' et' rd rs
      ⟨st.store, ⟨l, .map kt' et'⟩ :: st.visited, st.config⟩ het hl hready
  refine ⟨st', .map kt' et' rd', ?_, h2, by rw [h4], fun c _ hc => h5 c hc, h6, ?_, h7⟩
  · intro k depth
    have hk : N + 1 + k = (N + k) + 1 := by omega
    rw [hk, deepMerge_map_step E kt' et' rd rs l st hl htr hflag hseen]
    exact h1 _ _
  · intro v hv
    rw [h3] at hv
    simp only [List.mem_cons] at hv
    rcases hv with rfl | hv
    · exact Or.inr ⟨rfl, List.prefix_refl _⟩
    · exact Or.inl hv

theorem shapeReady_head (s : Store) (d1 w1 : Value) (drest wrest : List Value)
    (h : shapeReadyList s (d1 :: drest) (w1 :: wrest)) : shapeReady s d1 w1 := by
  obtain ⟨h1, h2, h3, h4, h5⟩ := h
  simp only [mapsTypedList] at h1
  simp only [mapRefsList, List.mem_append] at h2 h3 h5
  rw [mapRefsList, List.nodup_append] at h4
  exact ⟨h1.1, fun r hr => h2 r (Or.inl hr), fun r hr => h3 r (Or.inl hr), h4.1,
    fun r hr hx => h5 r (Or.inl hr) (Or.inl hx)⟩

/-- After the merge of the first field the remaining fields are as ready as
before. -/
theorem shapeReady_tail (E : Store → Value → Bool) (s s1 s1x : Store) (ow : Bool)
    (d1 w1 m1 : Value) (drest wrest : List Value)
    (h : shapeReadyList s (d1 :: drest) (w1 :: wrest))
    (ho : shapeOut E s s1 ow d1 w1 m1) (hx : s1x.maps = s1.maps) :
    shapeReadyList s1x drest wrest := by
  obtain ⟨h1, h2, h3, h4, h5⟩ := h
  obtain ⟨-, -, -, o4, o5, -⟩ := ho
  simp only [mapsTypedList] at h1
  simp only [mapRefsList, List.mem_append] at h2 h3 h5
  rw [mapRefsList, List.nodup_append] at h4
  have hfr : ∀ r, r < s.maps.length → r ∉ mapRefs d1 → s1x.maps[r]? = s.maps[r]? := by
    intro r hr hn
    rw [hx]; exact o5 r hr hn
  refine ⟨?_, ?_, ?_, h4.2.1, fun r hr hxx => h5 r (Or.inr hr) (Or.inr hxx)⟩
  · apply mapsTypedList_frame s s1x drest wrest _ _ h1.2
    · intro r hr
      exact hfr r (h2 r (Or.inr hr)) (fun hd => h4.2.2 hd hr)
    · intro r hr
      exact hfr r (h3 r (Or.inr hr)) (fun hd => h5 r (Or.inl hd) (Or.inr hr))
  · intro r hr
    rw [hx]
    exact Nat.lt_of_lt_of_le (h2 r (Or.inr hr)) o4
  · intro r hr
    rw [hx]
    exact Nat.lt_of_lt_of_le (h3 r (Or.inr hr)) o4

/-- What the merge of the first field and of the remaining fields leave,
taken together. -/
theorem shapeOut_cons (E : Store → Value → Bool)
    (hE : ∀ s1 s2 v, v.isLeaf = true → E s1 v = E s2 v)
    (s s1 s1x s2 : Store) (ow : Bool) (f : StructField) (fs : List StructField)
    (d1 w1 m1 : Value) (drest wrest mrest : List Value)
    (hf : isFieldExported f = true)
    (hpf : shapeFields fs drest wrest = true)
    (h : shapeReadyList s (d1 :: drest) (w1 :: wrest))
    (ho : shapeOut E s s1 ow d1 w1 m1) (hx : s1x.maps = s1.maps)
    (hol : shapeOutList E s1x s2 ow fs drest wrest mrest) :
    shapeOutList E s s2 ow (f :: fs) (d1 :: drest) (w1 :: wrest) (m1 :: mrest) := by
  obtain ⟨h1, h2, h3, h4, h5⟩ := h
  obtain ⟨o1, o2, -, o4, o5, o6, o7, o8, o9, o10⟩ := ho
  obtain ⟨l1, l2, l4, l5, l6, l7, l8, l9, l10⟩ := hol
  simp only [mapsTypedList] at h1
  simp only [mapRefsList, List.mem_append] at h2 h3 h5
  rw [mapRefsList, List.nodup_append] at h4
  rw [hx] at l4 l5 l6
  -- the references of the first field after its merge are not touched later
  have hm1 : ∀ r ∈ mapRefs m1, r < s1.maps.length ∧ r ∉ mapRefsList drest := by
    intro r hr
    rcases o6 r hr with hd | ⟨ha, hb⟩
    · exact ⟨Nat.lt_of_lt_of_le (h2 r (Or.inl hd)) o4, fun hh => h4.2.2 hd hh⟩
    · refine ⟨hb, fun hh => ?_⟩
      have := h2 r (Or.inr hh)
      omega
  have hw1 : ∀ r ∈ mapRefs w1, r < s1.maps.length ∧ r ∉ mapRefsList drest := by
    intro r hr
    exact ⟨Nat.lt_of_lt_of_le (h3 r (Or.inl hr)) o4, fun hh => h5 r (Or.inr hh) (Or.inl hr)⟩
  have hfm : ∀ r ∈ mapRefs m1, s2.maps[r]? = s1.maps[r]? :=
    fun r hr => l5 r (hm1 r hr).1 (hm1 r hr).2
  have hfw : ∀ r ∈ mapRefs w1, s2.maps[r]? = s1.maps[r]? :=
    fun r hr => l5 r (hw1 r hr).1 (hw1 r hr).2
  refine ⟨?_, ?_, Nat.le_trans o4 l4, ?_, ?_, ?_, ?_, ?_, ?_⟩
  · simp [shapeFields, hf, o1, l1]
  · simp [Value.depthList, o2, l2]
  · intro r hr hn
    simp only [mapRefsList, List.mem_append, not_or] at hn
    rw [l5 r (Nat.lt_of_lt_of_le hr o4) hn.2, o5 r hr hn.1]
  · intro r hr
    simp only [mapRefsList, List.mem_append] at hr ⊢
    rcases hr with hr | hr
    · rcases o6 r hr with hd | ⟨ha, hb⟩
      · exact Or.inl (Or.inl hd)
      · exact Or.inr ⟨ha, Nat.lt_of_lt_of_le hb l4⟩
    · rcases l6 r hr with hd | ⟨ha, hb⟩
      · exact Or.inl (Or.inr hd)
      · exact Or.inr ⟨Nat.le_trans o4 ha, hb⟩
  · rw [mapRefsList, List.nodup_append]
    refine ⟨o7, l7, ?_⟩
    intro r hr1 hr2
    rcases l6 r hr2 with hd | ⟨ha, hb⟩
    · exact (hm1 r hr1).2 hd
    · have := (hm1 r hr1).1
      omega
  · simp only [mapsTypedList]
    exact ⟨mapsTyped_frame s1 s2 m1 w1 hfm hfw o8, l8⟩
  · simp only [mergeStableList]
    exact ⟨mergeStable_frame E hE s1 s2 ow m1 w1 o1 o8 hfm hfw o9, l9⟩
  · intro hst
    simp only [mergeStableList] at hst
    obtain ⟨e1, e2⟩ := o10 hst.1
    have hst2 : mergeStableList E s1x ow drest wrest :=
      mergeStableList_frame E hE s s1x ow fs drest wrest hpf h1.2
        (fun r _ => by rw [hx, e2]) (fun r _ => by rw [hx, e2]) hst.2
    obtain ⟨e3, e4⟩ := l10 hst2
    exact ⟨by rw [e1, e3], by rw [e4, hx, e2]⟩

theorem shapeOutList_nil (E : Store → Value → Bool) (s : Store) (ow : Bool) :
    shapeOutList E s s ow [] [] [] [] := by
  refine ⟨rfl, rfl, Nat.le_refl _, fun _ _ _ => rfl, ?_, ?_, ?_, ?_, fun _ => ⟨rfl, rfl⟩⟩
  · intro r hr; simp [mapRefsList] at hr
  · simp [mapRefsList]
  · simp [mapsTypedList]
  · simp [mergeStableList]

theorem shapeFields_cons_inv (f : StructField) (frest : List StructField) (drest wrest : List Value)
    (h : shapeFields (f :: frest) drest wrest = true) :
    ∃ d1 drest' w1 wrest', drest = d1 :: drest' ∧ wrest = w1 :: wrest'
      ∧ isFieldExported f = true ∧ shapePair d1 w1 = true
      ∧ shapeFields frest drest' wrest' = true := by
  cases drest with
  | nil => simp [shapeFields] at h
  | cons d1 drest' =>
    cases wrest with
    | nil => simp [shapeFields] at h
    | cons w1 wrest' =>
      simp [shapeFields] at h
      exact ⟨d1, drest', w1, wrest', rfl, rfl, h.1.1, h.1.2, h.2⟩

theorem shapeFields_nil_inv (drest wrest : List Value) (h : shapeFields [] drest wrest = true) :
    drest = [] ∧ wrest = [] := by
  cases drest <;> cases wrest <;> simp [shapeFields] at h ⊢

theorem shape_type (d x : Value) (h : shapePair d x = true) : ∃ t, d.type = some t := by
  cases d <;> simp [shapePair] at h <;> simp [Value.type]

theorem mergeFields_shape (E : Store → Value → Bool)
    (hE : ∀ s1 s2 v, v.isLeaf = true → E s1 v = E s2 v) (M : Nat)
    (ih : ShapeSpec E M)
    (n : String) (fs : List StructField) (wsFull : List Value) (l : Loc) (c : Nat)
    (hc : c ≠ l.cell) :
    ∀ (frest : List StructField) (mpre drest wpre wrest : List Value) (st : State),
      wsFull = wpre ++ wrest → wpre.length = mpre.length →
      shapeFields frest drest wrest = true → Value.depthList drest ≤ M →
      st.store.load l = some (.struct n fs (mpre ++ drest)) →
      st.store.vars[c]? = some (.struct n fs (mpre ++ zeroLikeList drest)) →
      st.config.Transformers = none → st.config.overwriteWithEmptyValue = false →
      st.config.AppendSlice = false →
      (∀ v ∈ st.visited, ¬ (v.ptr.cell = l.cell
          ∧ ∃ j, mpre.length ≤ j ∧ l.path ++ [j] <+: v.ptr.path)) →
      shapeReadyList st.store drest wrest →
      ∃ st' mrest, (∀ k depth, mergeFields (deepMerge E (M + 1 + k)) (.ref l)
                (.imm (.struct n fs wsFull)) (.ref ⟨c, []⟩) depth mpre.length frest st = .ok st')
        ∧ st'.config = st.config
        ∧ st.store.vars.length ≤ st'.store.vars.length
        ∧ (∀ c', c' < st.store.vars.length → c' ≠ l.cell → c' ≠ c →
            st'.store.vars[c']? = st.store.vars[c']?)
        ∧ st'.store.load l = some (.struct n fs (mpre ++ mrest))
        ∧ st'.store.vars[c]? = some (.struct n fs (mpre ++ mrest))
        ∧ (∃ cell0 cell', st.store.vars[l.cell]? = some cell0
            ∧ st'.store.vars[l.cell]? = some cell'
            ∧ ∀ X, cell'.update l.path X = cell0.update l.path X)
        ∧ (∀ v ∈ st'.visited, v ∈ st.visited ∨ (v.ptr.cell = l.cell ∧ l.path <+: v.ptr.path))
        ∧ shapeOutList E st.store st'.store st.config.Overwrite frest drest wrest mrest := by
  intro frest
  induction frest with
  | nil =>
    intro mpre drest wpre wrest st _ _ hpf _ hl hcp _ _ _ _ _
    obtain ⟨rfl, rfl⟩ := shapeFields_nil_inv drest wrest hpf
    have hcell : ∃ cell0, st.store.vars[l.cell]? = some cell0 := by
      unfold Store.load at hl
      cases h : st.store.vars[l.cell]? with
      | none => simp [h] at hl
      | some v => exact ⟨v, rfl⟩
    obtain ⟨cell0, hcell0⟩ := hcell
    refine ⟨st, [], ?_, rfl, Nat.le_refl _, fun _ _ _ _ => rfl, hl, ?_,
      ⟨cell0, cell0, hcell0, hcell0, fun _ => rfl⟩, fun v hv => Or.inl hv,
      shapeOutList_nil E st.store _⟩
    · intro k depth; simp [mergeFields]
    · simpa [zeroLikeList] using hcp
  | cons f frest ihl =>
    intro mpre drest wpre wrest st hws hwlen hpf hdep hl hcp htr hflag happ hvis hready
    obtain ⟨d1, drest', w1, wrest', rfl, rfl, hfexp, hp1, hpf'⟩ :=
      shapeFields_cons_inv f frest drest wrest hpf
    -- the cell of `l` and the location of field `i`
    obtain ⟨cell0, hcell0, hproj0⟩ : ∃ cell0, st.store.vars[l.cell]? = some cell0
        ∧ cell0.proj l.path = some (.struct n fs (mpre ++ d1 :: drest')) := by
      unfold Store.load at hl
      cases h : st.store.vars[l.cell]? with
      | none => simp [h] at hl
      | some v => exact ⟨v, rfl, by simpa [h] using hl⟩
    have hli0 : cell0.proj (l.path ++ [mpre.length]) = some d1 := by
      rw [Value.proj_append, hproj0]
      simp only [Option.bind, Value.proj, getElem?_append_length]
    have hli : st.store.load ⟨l.cell, l.path ++ [mpre.length]⟩ = some d1 := by
      rw [Store.load_eq _ ⟨l.cell, l.path ++ [mpre.length]⟩ cell0 hcell0]; exact hli0
    have hdep1 : d1.depth ≤ M ∧ Value.depthList drest' ≤ M := by
      simp [Value.depthList] at hdep; exact hdep
    have hvis1 : ∀ v ∈ st.visited, ¬ (v.ptr.cell = l.cell
        ∧ l.path ++ [mpre.length] <+: v.ptr.path) :=
      fun v hv h => hvis v hv ⟨h.1, mpre.length, Nat.le_refl _, h.2⟩
    obtain ⟨st1, m1, hrec, hcfg1, hlen1, hother1, ⟨c0, cell1, hc0, hc1, hupd⟩, hvis1', hout1⟩ :=
      ih d1 w1 ⟨l.cell, l.path ++ [mpre.length]⟩ st hp1 hdep1.1 hli htr hflag happ hvis1
        (shapeReady_head st.store d1 w1 drest' wrest' hready)
    have hc0' : cell0 = c0 := by
      rw [hcell0] at hc0; exact Option.some.inj hc0
    subst hc0'
    simp only at hc0 hc1 hupd hother1 hvis1'
    have hm1t : m1.type = d1.type := hout1.2.2.1
    have hli1 : st1.store.load ⟨l.cell, l.path ++ [mpre.length]⟩ = some m1 := by
      rw [Store.load_eq _ ⟨l.cell, l.path ++ [mpre.length]⟩ cell1 hc1]
      exact Value.proj_of_update _ cell0 cell1 m1 d1 hli0 hupd
    have hl1 : st1.store.load l = some (.struct n fs (mpre ++ m1 :: drest')) := by
      rw [Store.load_eq _ l cell1 hc1,
        Value.proj_update_child l.path mpre.length cell0 cell1 m1 n fs _ hproj0 hupd,
        set_append_length]
    have hclt : c < st.store.vars.length := getElem?_lt_of_some _ _ _ hcp
    have hcp1 : st1.store.vars[c]?
        = some (.struct n fs (mpre ++ zeroLike d1 :: zeroLikeList drest')) := by
      rw [hother1 c hclt hc]; simpa [zeroLikeList] using hcp
    have hupdc : (Value.struct n fs (mpre ++ zeroLike d1 :: zeroLikeList drest')).update
        [mpre.length] m1 = some (.struct n fs (mpre ++ m1 :: zeroLikeList drest')) := by
      simp only [Value.update, getElem?_append_length, set_append_length]
    have hw := Store.write_vars st1.store ⟨c, [mpre.length]⟩ m1 _ _ hcp1 hupdc
    have hclt1 : c < st1.store.vars.length := Nat.lt_of_lt_of_le hclt hlen1
    have hready1 : shapeReadyList
        ({ st1.store with vars := (st1.store.vars.set c
            (.struct n fs (mpre ++ m1 :: zeroLikeList drest'))) } : Store) drest' wrest' :=
      shapeReady_tail E st.store st1.store _ st.config.Overwrite d1 w1 m1 drest' wrest' hready
        hout1 rfl
    -- the state after the assignment to field `i` of the copy
    obtain ⟨st', mrest, hloop, hcfg', hlen', hother', hl', hcp', ⟨c1', cell', hc1', hcell', hover⟩,
        hvis', hout'⟩ :=
      ihl (mpre ++ [m1]) drest' (wpre ++ [w1]) wrest'
        { st1 with store := { st1.store with vars := (st1.store.vars.set c
            (.struct n fs (mpre ++ m1 :: zeroLikeList drest'))) } }
        (by simp [hws]) (by simp [hwlen]) hpf' hdep1.2
        (by
          have : ({ st1.store with vars := (st1.store.vars.set c
              (.struct n fs (mpre ++ m1 :: zeroLikeList drest'))) } : Store).load l
              = st1.store.load l := by
            simp [Store.load, List.getElem?_set_ne hc]
          simpa [this] using hl1)
        (by simp [hclt1])
        (by simpa [hcfg1] using htr) (by simpa [hcfg1] using hflag)
        (by simpa [hcfg1] using happ)
        (by
          intro v hv h
          obtain ⟨hcell, j, hj, hpre⟩ := h
          simp only [List.length_append, List.length_singleton] at hj
          rcases hvis1' v hv with h1 | h1
          · exact hvis v h1 ⟨hcell, j, by omega, hpre⟩
          · have := prefix_snoc_inj l.path v.ptr.path _ _ h1.2 hpre
            omega)
        hready1
    simp only at hloop hcfg' hlen' hother' hl' hcp' hc1' hvis' hout'
    have hcell1' : cell1 = c1' := by
      rw [List.getElem?_set_ne hc, hc1] at hc1'; exact Option.some.inj hc1'
    subst hcell1'
    rw [hcfg1] at hout'
    have hout := shapeOut_cons E hE st.store st1.store
      ({ st1.store with vars := (st1.store.vars.set c
          (.struct n fs (mpre ++ m1 :: zeroLikeList drest'))) } : Store)
      st'.store st.config.Overwrite f frest
      d1 w1 m1 drest' wrest' mrest hfexp hpf' hready hout1 rfl hout'
    refine ⟨st', m1 :: mrest, ?_, hcfg'.trans hcfg1, ?_, ?_, ?_, ?_,
      ⟨cell0, cell', hc0, hcell', ?_⟩, ?_, hout⟩
    · intro k depth
      have hloop' := hloop k depth
      simp only [List.length_append, List.length_singleton] at hloop'
      have hget : (RValue.ref ⟨l.cell, l.path ++ [mpre.length]⟩).get st1.store = m1 := by
        simp [RValue.get_ref, hli1]
      have hloadc : st1.store.load ⟨c, [mpre.length]⟩ = some (zeroLike d1) := by
        rw [Store.load_eq _ ⟨c, [mpre.length]⟩ _ hcp1]
        simp only [Value.proj, getElem?_append_length]
      have hloadc0 : st1.store.load ⟨c, []⟩
          = some (.struct n fs (mpre ++ zeroLike d1 :: zeroLikeList drest')) := by
        rw [Store.load_eq _ ⟨c, []⟩ _ hcp1]; rfl
      have hmt : ∃ t, m1.type = some t ∧ (zeroLike d1).type = some t := by
        rw [zeroLike_type, hm1t]
        obtain ⟨t, ht⟩ := shape_type d1 w1 hp1
        exact ⟨t, ht, ht⟩
      obtain ⟨t, ht1, ht2⟩ := hmt
      rw [mergeFields]
      simp [RValue.Field, hl, hfexp, hws, hwlen ▸ getElem?_append_length wpre wrest' w1, hrec,
        hloadc0, RValue.Set, hloadc, ht2, assignTo, hget, ht1, hw]
      rw [hws] at hloop'
      exact hloop'
    · exact Nat.le_trans hlen1 (by simpa using hlen')
    · intro c' h1 h2 h3
      rw [hother' c' (by simpa using Nat.lt_of_lt_of_le h1 hlen1) h2 h3,
        List.getElem?_set_ne (Ne.symm h3), hother1 c' h1 h2]
    · rw [hl']; simp
    · rw [hcp']; simp
    · intro X
      rw [hover X, Value.update_update_prefix l.path [mpre.length] cell0 cell1 m1 X hupd]
    · intro v hv
      rcases hvis' v hv with h1 | h1
      · rcases hvis1' v h1 with h2 | h2
        · exact Or.inl h2
        · exact Or.inr ⟨h2.1, prefix_of_snoc_prefix _ _ _ h2.2⟩
      · exact Or.inr h1

mutual
theorem hasExportedField_of_shape : ∀ (d x : Value), shapePair d x = true → d.kind = .Struct →
    hasExportedField d = true
  | .struct n fs vs, x, h, _ => by
    cases x <;> simp [shapePair] at h
    rename_i n' fs' ws
    obtain ⟨⟨⟨_, hfs⟩, hne⟩, hpf⟩ := h
    subst hfs
    simp only [hasExportedField]
    exact hasExportedFieldLoop_of_shape fs vs ws hpf hne
  | .invalid, _, _, hk => by simp [Value.kind] at hk
  | .bool _, _, _, hk => by simp [Value.kind] at hk
  | .int _, _, _, hk => by simp [Value.kind] at hk
  | .str _, _, _, hk => by simp [Value.kind] at hk
  | .chan _ _, _, _, hk => by simp [Value.kind] at hk
  | .func _, _, _, hk => by simp [Value.kind] at hk
  | .iface _, _, _, hk => by simp [Value.kind] at hk
  | .map _ _ _, _, _, hk => by simp [Value.kind] at hk
  | .ptr _ _, _, _, hk => by simp [Value.kind] at hk
  | .slice _ _ _, _, _, hk => by simp [Value.kind] at hk
theorem hasExportedFieldLoop_of_shape : ∀ (fs : List StructField) (vs ws : List Value),
    shapeFields fs vs ws = true → fs ≠ [] → hasExportedFieldLoop fs vs = true
  | f :: fs, v :: vs, w :: ws, h, _ => by
    simp [shapeFields] at h
    obtain ⟨⟨hf, hp⟩, _⟩ := h
    simp only [hasExportedFieldLoop]
    by_cases hc : (f.Anonymous && v.kind == .Struct) = true
    · have hk : v.kind = .Struct := by simp at hc; exact hc.2
      simp [hc, hasExportedField_of_shape v w hp hk]
    · simp [hc, hf]
  | [], _, _, _, hne => absurd rfl hne
  | _ :: _, [], _, h, _ => by simp [shapeFields] at h
  | _ :: _, _ :: _, [], h, _ => by simp [shapeFields] at h
end

/-- What the merge of a struct leaves, from what the merges of its fields
leave. -/
theorem shapeOut_struct (E : Store → Value → Bool)
    (hE : ∀ s1 s2 v, v.isLeaf = true → E s1 v = E s2 v)
    (s sB s2 s2x : Store) (ow : Bool) (n : String) (fs : List StructField)
    (vs ws ms : List Value) (hne : fs ≠ [])
    (hpf : shapeFields fs vs ws = true) (hty : mapsTypedList s vs ws)
    (hB : sB.maps = s.maps) (hx : s2x.maps = s2.maps)
    (h : shapeOutList E sB s2 ow fs vs ws ms) :
    shapeOut E s s2x ow (.struct n fs vs) (.struct n fs ws) (.struct n fs ms) := by
  obtain ⟨l1, l2, l4, l5, l6, l7, l8, l9, l10⟩ := h
  rw [hB] at l4 l5 l6
  have hfr : ∀ r : Nat, s2x.maps[r]? = s2.maps[r]? := fun r => by rw [hx]
  refine ⟨by simp [shapePair, l1, hne], by simp [Value.depth, l2], rfl, by rw [hx]; exact l4,
    ?_, ?_, by simpa [mapRefs] using l7, ?_, ?_, ?_⟩
  · intro r hr hn
    rw [hx]
    exact l5 r hr (by simpa [mapRefs] using hn)
  · intro r hr
    rw [hx]
    simpa [mapRefs] using l6 r (by simpa [mapRefs] using hr)
  · simp only [mapsTyped]
    exact mapsTypedList_frame s2 s2x ms ws (fun r _ => hfr r) (fun r _ => hfr r) l8
  · simp only [mergeStable]
    exact mergeStableList_frame E hE s2 s2x ow fs ms ws l1 l8 (fun r _ => hfr r)
      (fun r _ => hfr r) l9
  · intro hst
    simp only [mergeStable] at hst
    have hstB : mergeStableList E sB ow vs ws :=
      mergeStableList_frame E hE s sB ow fs vs ws hpf hty (fun r _ => by rw [hB])
        (fun r _ => by rw [hB]) hst
    obtain ⟨e1, e2⟩ := l10 hstB
    exact ⟨by rw [e1], by rw [hx, e2, hB]⟩

/-- The struct case of the merge of the shape class, from the statement one
level down. -/
theorem shapeSpec_struct (E : Store → Value → Bool)
    (hE : ∀ s1 s2 v, v.isLeaf = true → E s1 v = E s2 v) (M : Nat)
    (ih : ShapeSpec E M)
    (n : String) (fs : List StructField) (vs ws : List Value) (l : Loc) (st : State)
    (hpf : shapeFields fs vs ws = true) (hne : fs ≠ [])
    (hdep : Value.depthList vs ≤ M)
    (hl : st.store.load l = some (.struct n fs vs))
    (htr : st.config.Transformers = none)
    (hflag : st.config.overwriteWithEmptyValue = false)
    (happ : st.config.AppendSlice = false)
    (hvis : ∀ v ∈ st.visited, ¬ (v.ptr.cell = l.cell ∧ l.path <+: v.ptr.path))
    (hready : shapeReady st.store (.struct n fs vs) (.struct n fs ws)) :
    ∃ st' d2, (∀ k depth, deepMerge E (M + 1 + 1 + k) (.ref l) (.imm (.struct n fs ws)) depth st
              = .ret (.ref l) none st')
      ∧ st'.config = st.config
      ∧ st.store.vars.length ≤ st'.store.vars.length
      ∧ (∀ c, c < st.store.vars.length → c ≠ l.cell → st'.store.vars[c]? = st.store.vars[c]?)
      ∧ (∃ cell0 cell', st.store.vars[l.cell]? = some cell0 ∧ st'.store.vars[l.cell]? = some cell'
          ∧ cell0.update l.path d2 = some cell')
      ∧ (∀ v ∈ st'.visited, v ∈ st.visited ∨ (v.ptr.cell = l.cell ∧ l.path <+: v.ptr.path))
      ∧ shapeOut E st.store st'.store st.config.Overwrite (.struct n fs vs) (.struct n fs ws)
          d2 := by
  obtain ⟨cell0, hcell0, hproj0, hlt⟩ := load_lt _ _ _ hl
  have hseen := seenBefore_false_of_fresh st.visited l (.struct n) hvis
  have hc : st.store.vars.length ≠ l.cell := by omega
  -- the state at the entry of the field loop
  let stB : State := ⟨{ st.store with vars := st.store.vars ++ [zeroLike (.struct n fs vs)] },
    ⟨l, .struct n⟩ :: st.visited, st.config⟩
  have hBvars : ∀ c, c < st.store.vars.length → stB.store.vars[c]? = st.store.vars[c]? := by
    intro c hc'
    show (st.store.vars ++ [zeroLike (.struct n fs vs)])[c]? = st.store.vars[c]?
    exact List.getElem?_append_left hc'
  have hBl : stB.store.load l = some (.struct n fs ([] ++ vs)) := by
    rw [Store.load_eq stB.store l cell0 (by rw [hBvars _ hlt]; exact hcell0)]
    simpa using hproj0
  have hBc : stB.store.vars[st.store.vars.length]?
      = some (.struct n fs ([] ++ zeroLikeList vs)) := by
    show (st.store.vars ++ [zeroLike (.struct n fs vs)])[st.store.vars.length]? = _
    simp [zeroLike]
  have hBvis : ∀ v ∈ stB.visited, ¬ (v.ptr.cell = l.cell
      ∧ ∃ j, ([] : List Value).length ≤ j ∧ l.path ++ [j] <+: v.ptr.path) := by
    intro v hv
    change v ∈ (⟨l, .struct n⟩ :: st.visited : List visit) at hv
    simp only [List.mem_cons] at hv
    rintro ⟨h1, j, -, h2⟩
    rcases hv with rfl | hv
    · exact not_snoc_prefix _ _ h2
    · exact hvis v hv ⟨h1, prefix_of_snoc_prefix _ _ _ h2⟩
  have hreadyB : shapeReadyList stB.store vs ws := by
    obtain ⟨r1, r2, r3, r4, r5⟩ := hready
    simp only [mapsTyped] at r1
    simp only [mapRefs] at r2 r3 r4 r5
    exact ⟨mapsTypedList_frame st.store stB.store vs ws (fun _ _ => rfl) (fun _ _ => rfl) r1,
      r2, r3, r4, r5⟩
  obtain ⟨st2, mrest, hloop, hcfg2, hlen2, hoth2, hl2, hc2, ⟨cB, c2, hcB, hc2l, hover⟩, hvis2,
      hout2⟩ :=
    mergeFields_shape E hE M ih n fs ws l st.store.vars.length hc fs [] vs [] ws stB
      rfl rfl hpf hdep hBl hBc htr hflag happ hBvis hreadyB
  have hcB0 : cB = cell0 := by
    rw [hBvars _ hlt, hcell0] at hcB
    exact (Option.some.inj hcB).symm
  subst hcB0
  -- the final assignment
  obtain ⟨cell', hup, -⟩ := Value.update_proj l.path cB (.struct n fs mrest) _ hproj0
  have hup2 : c2.update l.path (.struct n fs mrest) = some cell' := by rw [hover]; exact hup
  have hw := Store.write_vars st2.store l _ c2 cell' hc2l hup2
  have hlenB : stB.store.vars.length = st.store.vars.length + 1 := by
    show (st.store.vars ++ [zeroLike (.struct n fs vs)]).length = _
    simp
  refine ⟨{ st2 with store := { st2.store with vars := st2.store.vars.set l.cell cell' } },
    .struct n fs mrest, ?_, hcfg2, ?_, ?_,
    ⟨cB, cell', hcell0, getElem?_set_same _ _ _ _ hc2l, hup⟩, ?_, ?_⟩
  · intro k depth
    have hk : M + 1 + 1 + k = (M + 1 + k) + 1 := by omega
    rw [hk, deepMerge_struct_step E n fs vs ws l st hl htr hflag hseen]
    have hexp : hasExportedField (.struct n fs vs) = true :=
      hasExportedField_of_shape (.struct n fs vs) (.struct n fs ws)
        (by simp [shapePair, hpf, hne]) rfl
    have hloop' := hloop k depth
    simp only [List.length_nil] at hloop'
    have hget2 : (st2.store.load ⟨st.store.vars.length, []⟩) = some (.struct n fs mrest) := by
      rw [Store.load_eq st2.store ⟨st.store.vars.length, []⟩ _ hc2]
      simp [Value.proj]
    simp only [List.nil_append] at hl2
    simp [mergeStruct, RValue.get_ref, hl, hexp, Store.New, stB] at hloop' ⊢
    rw [hloop']
    simp [setOrReplace, RValue.CanSet, RValue.CanAddr, RValue.Set, hl2, Value.type, assignTo,
      RValue.get_ref, hget2, hw]
  · show st.store.vars.length ≤ (st2.store.vars.set l.cell cell').length
    simp only [List.length_set]
    omega
  · intro c hc1 hc2'
    show (st2.store.vars.set l.cell cell')[c]? = _
    rw [getElem?_set_other _ _ _ _ hc2', hoth2 c (by omega) hc2' (by omega), hBvars c hc1]
  · intro v hv
    rcases hvis2 v hv with h | h
    · have h' : v ∈ (⟨l, .struct n⟩ :: st.visited : List visit) := h
      simp only [List.mem_cons] at h'
      rcases h' with rfl | h'
      · exact Or.inr ⟨rfl, List.prefix_refl _⟩
      · exact Or.inl h'
    · exact Or.inr h
  · exact shapeOut_struct E hE st.store stB.store st2.store _ st.config.Overwrite n fs vs ws
      mrest hne hpf (by have := hready.1; simpa [mapsTyped] using this) rfl rfl hout2

theorem shape_struct_inv (n : String) (fs : List StructField) (vs : List Value) (x : Value)
    (hp : shapePair (.struct n fs vs) x = true) :
    ∃ ws, x = .struct n fs ws ∧ fs ≠ [] ∧ shapeFields fs vs ws = true := by
  cases x <;> simp [shapePair] at hp
  rename_i n' fs' ws
  obtain ⟨⟨⟨h1, h2⟩, h3⟩, h4⟩ := hp
  subst h1 h2
  exact ⟨ws, rfl, h3, h4⟩

theorem shape_type_eq (d x : Value) (h : shapePair d x = true) : x.type = d.type := by
  cases d <;> cases x <;> simp [shapePair, Value.kind, Value.type] at h ⊢
  all_goals first
    | exact h
    | exact h.symm
    | exact h.2
    | exact ⟨h.2.1.symm, h.2.2.symm⟩
    | exact h.1.1.1.symm

/-- The merge of the shape class: on two values of the class, `deepMerge` at an
addressable destination returns, and leaves what `shapeOut` describes. -/
theorem shapeSpec_all (E : Store → Value → Bool)
    (hE : ∀ s1 s2 v, v.isLeaf = true → E s1 v = E s2 v) : ∀ N, ShapeSpec E N := by
  intro N
  induction N with
  | zero =>
    intro d x l st hp hdep hl htr hflag happ hvis hready
    cases d with
    | bool b => exact shapeSpec_leaf E hE 0 _ x l st rfl hp hl htr hflag happ hvis
    | int b => exact shapeSpec_leaf E hE 0 _ x l st rfl hp hl htr hflag happ hvis
    | str b => exact shapeSpec_leaf E hE 0 _ x l st rfl hp hl htr hflag happ hvis
    | slice e n xs => exact shapeSpec_leaf E hE 0 _ x l st rfl hp hl htr hflag happ hvis
    | map kt et rd => exact shapeSpec_map E hE 0 kt et rd x l st hp hl htr hflag hvis hready
    | struct n fs vs => simp [Value.depth] at hdep
    | invalid => simp [shapePair] at hp
    | chan _ _ => simp [shapePair] at hp
    | func _ => simp [shapePair] at hp
    | iface _ => simp [shapePair] at hp
    | ptr _ _ => simp [shapePair] at hp
  | succ M ih =>
    intro d x l st hp hdep hl htr hflag happ hvis hready
    cases d with
    | bool b => exact shapeSpec_leaf E hE (M + 1) _ x l st rfl hp hl htr hflag happ hvis
    | int b => exact shapeSpec_leaf E hE (M + 1) _ x l st rfl hp hl htr hflag happ hvis
    | str b => exact shapeSpec_leaf E hE (M + 1) _ x l st rfl hp hl htr hflag happ hvis
    | slice e n xs => exact shapeSpec_leaf E hE (M + 1) _ x l st rfl hp hl htr hflag happ hvis
    | map kt et rd =>
      exact shapeSpec_map E hE (M + 1) kt et rd x l st hp hl htr hflag hvis hready
    | struct n fs vs =>
      obtain ⟨ws, rfl, hne, hpf⟩ := shape_struct_inv n fs vs x hp
      have hdep' : Value.depthList vs ≤ M := by
        simp [Value.depth] at hdep; exact hdep
      exact shapeSpec_struct E hE M ih n fs vs ws l st hpf hne hdep' hl htr hflag happ hvis
        hready
    | invalid => simp [shapePair] at hp
    | chan _ _ => simp [shapePair] at hp
    | func _ => simp [shapePair] at hp
    | iface _ => simp [shapePair] at hp
    | ptr _ _ => simp [shapePair] at hp

/-- Two merges in a row of the same value of the shape class, no map object
being shared: the second succeeds and leaves the heap as the first left it,
but for scratch copies. -/
theorem merge_shape_twice (E : Store → Value → Bool)
    (hE : ∀ s1 s2 v, v.isLeaf = true → E s1 v = E s2 v)
    (resolve : Store → Value → Value → RValue × RValue × Option Error)
    (s : Store) (dst src d x : Value) (l : Loc) (opts : List (Config → Config))
    (hres : ∀ s1, resolve s1 dst src = (.ref l, .imm x, none))
    (hl : s.load l = some d) (hp : shapePair d x = true)
    (htr : (buildConfig opts).Transformers = none)
    (hflag : (buildConfig opts).overwriteWithEmptyValue = false)
    (happ : (buildConfig opts).AppendSlice = false)
    (hready : shapeReady s d x) :
    ∃ s1 s2, (∀ k, Merge E resolve (d.depth + 1 + k) s dst src opts = .ret none s1)
      ∧ (∀ k, Merge E resolve (d.depth + 1 + k) s1 dst src opts = .ret none s2)
      ∧ s2.load l = s1.load l
      ∧ s2.maps = s1.maps
      ∧ (∀ c, c < s1.vars.length → s2.vars[c]? = s1.vars[c]?) := by
  obtain ⟨t, ht⟩ := shape_type d x hp
  have hxt := shape_type_eq d x hp
  obtain ⟨st1, d1, hdm1, -, -, -, ⟨cell0, cell1, hc0, hc1, hup1⟩, -, hout1⟩ :=
    shapeSpec_all E hE d.depth d x l ⟨s, [], buildConfig opts⟩ hp (Nat.le_refl _) hl htr hflag
      happ (by intro v hv; simp at hv) hready
  obtain ⟨o1, o2, o3, o4, -, o6, o7, o8, o9, -⟩ := hout1
  simp only at hc0 hc1 o4 o6
  obtain ⟨cell0', hc0', hproj0, _⟩ := load_lt _ _ _ hl
  have hc00 : cell0' = cell0 := by
    rw [hc0] at hc0'; exact (Option.some.inj hc0').symm
  subst hc00
  have hproj1 : cell1.proj l.path = some d1 :=
    Value.proj_of_update l.path cell0' cell1 _ d hproj0 hup1
  have hl1 : st1.store.load l = some d1 := by
    rw [Store.load_eq st1.store l cell1 hc1]; exact hproj1
  obtain ⟨r1, r2, r3, r4, r5⟩ := hready
  have hready1 : shapeReady st1.store d1 x := by
    refine ⟨o8, ?_, ?_, o7, ?_⟩
    · intro r hr
      rcases o6 r hr with h | ⟨-, h⟩
      · exact Nat.lt_of_lt_of_le (r2 r h) o4
      · exact h
    · intro r hr
      exact Nat.lt_of_lt_of_le (r3 r hr) o4
    · intro r hr hx
      rcases o6 r hr with h | ⟨h, -⟩
      · exact r5 r h hx
      · have := r3 r hx
        omega
  obtain ⟨st2, d2, hdm2, -, -, hoth2, ⟨c1', cell2, hc1', hc2, hup2⟩, -, hout2⟩ :=
    shapeSpec_all E hE d.depth d1 x l ⟨st1.store, [], buildConfig opts⟩ o1 (by rw [o2]) hl1 htr
      hflag happ (by intro v hv; simp at hv) hready1
  obtain ⟨e1, e2⟩ := hout2.2.2.2.2.2.2.2.2.2 o9
  simp only at hc1' hc2 hoth2 e2
  have hc11 : c1' = cell1 := by
    rw [hc1] at hc1'; exact (Option.some.inj hc1').symm
  subst hc11
  have hcell2 : cell2 = c1' := by
    rw [e1, Value.update_self l.path c1' d1 hproj1] at hup2
    exact (Option.some.inj hup2).symm
  subst hcell2
  refine ⟨st1.store, st2.store, ?_, ?_, ?_, e2, ?_⟩
  · intro k
    simp [Merge, merge, hres, RValue.CanSet, RValue.CanAddr, RValue.Type, RValue.get_ref,
      RValue.get_imm, hl, hxt, ht, hdm1 k 0]
  · intro k
    have ht1 : d1.type = some t := by rw [o3, ht]
    have hxt1 : x.type = d1.type := by rw [hxt, o3]
    simp [Merge, merge, hres, RValue.CanSet, RValue.CanAddr, RValue.Type, RValue.get_ref,
      RValue.get_imm, hl1, hxt1, ht1, hdm2 k 0]
  · rw [Store.load_eq st2.store l cell2 hc2, Store.load_eq st1.store l cell2 hc1]
  · intro c hc
    by_cases hcl : c = l.cell
    · rw [hcl, hc2, hc1]
    · exact hoth2 c hc hcl

/-- C20 as amended (idempotence outside append mode): with append mode off, no
transformers and the overwrite-empty flag not set (overwrite on or off), for
every settable destination and same-typed source that are (1) built from
scalars, slices and structs that have at least one field and whose fields are
all accessible, at any nesting depth, or (2) two maps whose values are of a
scalar type, or (3) built as in (1) with maps of scalar values as further
leaves, provided that no map object is shared (the maps of the destination are
distinct objects, none of them is a map of the source) and the entries of the
maps have the types of the maps: merging the source a second time succeeds, as
the first merge does, and leaves the destination as the first merge left it.
In cases (1) and (3) the value of the destination, every map and every
variable that the heap held after the first merge are unchanged by the second
merge (it allocates scratch copies only); in case (2) the second merge leaves
the whole heap unchanged.  (With a map object that the source shares with the
destination the first merge changes the source, and the second merge then
changes the destination.) -/
theorem idempotent_outside_append
    (E : Store → Value → Bool)
    (resolve : Store → Value → Value → RValue × RValue × Option Error)
    (s : Store) (dst src : Value) (l : Loc) (opts : List (Config → Config))
    (hE : ∀ s1 s2 v, v.isLeaf = true → E s1 v = E s2 v)
    (htr : (buildConfig opts).Transformers = none)
    (hflag : (buildConfig opts).overwriteWithEmptyValue = false)
    (happ : (buildConfig opts).AppendSlice = false) :
    (∀ d x, (∀ s1, resolve s1 dst src = (.ref l, .imm x, none)) → s.load l = some d →
      plainPair d x = true →
      ∃ s1 s2, (∀ k, Merge E resolve (d.depth + 1 + k) s dst src opts = .ret none s1)
        ∧ (∀ k, Merge E resolve (d.depth + 1 + k) s1 dst src opts = .ret none s2)
        ∧ s2.load l = s1.load l
        ∧ s2.maps = s1.maps
        ∧ (∀ c, c < s1.vars.length → c ≠ l.cell → s2.vars[c]? = s1.vars[c]?))
    ∧ (∀ kt et rd rs, (∀ s1, resolve s1 dst src = (.ref l, .imm (.map kt et rs), none)) →
      s.load l = some (.map kt et rd) → et.isScalar = true →
      (∀ r, rd = some r → r < s.maps.length) → (∀ r, rs = some r → r < s.maps.length) →
      (∀ k v, (k, v) ∈ s.mapObj rs → k.type = kt ∧ v.type = some et) →
      (∀ k v, (k, v) ∈ s.mapObj rd → v.type = some et) →
      ∃ s1, (∀ fuel, Merge E resolve (fuel + 1) s dst src opts = .ret none s1)
        ∧ (∀ fuel, Merge E resolve (fuel + 1) s1 dst src opts = .ret none s1))
    ∧ (∀ d x, (∀ s1, resolve s1 dst src = (.ref l, .imm x, none)) → s.load l = some d →
      shapePair d x = true → shapeReady s d x →
      ∃ s1 s2, (∀ k, Merge E resolve (d.depth + 1 + k) s dst src opts = .ret none s1)
        ∧ (∀ k, Merge E resolve (d.depth + 1 + k) s1 dst src opts = .ret none s2)
        ∧ s2.load l = s1.load l
        ∧ s2.maps = s1.maps
        ∧ (∀ c, c < s1.vars.length → s2.vars[c]? = s1.vars[c]?)) := by
  refine ⟨?_, ?_, ?_⟩
  · intro d x hres hl hp
    obtain ⟨s1, s2, h1, h2, -, h4, h5, h6⟩ :=
      merge_plain_twice E hE resolve s dst src d x l opts hres hl hp htr hflag happ
    exact ⟨s1, s2, h1, h2, h4, h5, h6⟩
  · intro kt et rd rs hres hl het hrd hrs hsrcT hdstT
    exact Merge_map_scalar_twice E resolve s dst src opts l kt et rd rs hres hl het
      (fun s1 s2 v hv => hE s1 s2 v (scalar_type_isLeaf et het v hv)) htr hrd hrs hsrcT hdstT
  · intro d x hres hl hp hready
    exact merge_shape_twice E hE resolve s dst src d x l opts hres hl hp htr hflag happ hready

/-- Witness of C20 (amended): `T{A: 5, B: "y"}` merged twice into the variable
`T{A: 0, B: "x"}`; scenario 3 of the spec, `{"a": 2, "b": 3}` merged twice
into `{"a": 1}`; and `M{M1: {"a": 2, "b": 3}, M2: {"c": 4}}` merged twice into
`M{M1: {"a": 1}, M2: nil}`, no map object being shared; all with the default
options. -/
theorem idempotent_outside_append_witness :
    (∃ s1 s2, (∀ k, Merge isEmptyValue resolveValues ((structAB 0 "x").depth + 1 + k) scenario1
          (.ptr (.struct "T") (some ⟨0, []⟩)) (structAB 5 "y") [] = .ret none s1)
        ∧ (∀ k, Merge isEmptyValue resolveValues ((structAB 0 "x").depth + 1 + k) s1
          (.ptr (.struct "T") (some ⟨0, []⟩)) (structAB 5 "y") [] = .ret none s2)
        ∧ s2.load ⟨0, []⟩ = s1.load ⟨0, []⟩
        ∧ s2.maps = s1.maps
        ∧ (∀ c, c < s1.vars.length → c ≠ (⟨0, []⟩ : Loc).cell → s2.vars[c]? = s1.vars[c]?))
    ∧ (∃ s1, (∀ fuel, Merge isEmptyValue resolveValues (fuel + 1) scenario3
          (.ptr (.map .string .int) (some ⟨0, []⟩)) (.map .string .int (some 1)) []
            = .ret none s1)
        ∧ (∀ fuel, Merge isEmptyValue resolveValues (fuel + 1) s1
          (.ptr (.map .string .int) (some ⟨0, []⟩)) (.map .string .int (some 1)) []
            = .ret none s1))
    ∧ (∃ s1 s2, (∀ k, Merge isEmptyValue resolveValues ((structM (some 0) none).depth + 1 + k)
          unsharedMapStore (.ptr (.struct "M") (some ⟨0, []⟩)) (structM (some 1) (some 2)) []
            = .ret none s1)
        ∧ (∀ k, Merge isEmptyValue resolveValues ((structM (some 0) none).depth + 1 + k) s1
          (.ptr (.struct "M") (some ⟨0, []⟩)) (structM (some 1) (some 2)) [] = .ret none s2)
        ∧ s2.load ⟨0, []⟩ = s1.load ⟨0, []⟩
        ∧ s2.maps = s1.maps
        ∧ (∀ c, c < s1.vars.length → s2.vars[c]? = s1.vars[c]?)) :=
  ⟨(idempotent_outside_append isEmptyValue resolveValues scenario1
      (.ptr (.struct "T") (some ⟨0, []⟩)) (structAB 5 "y") ⟨0, []⟩ []
      isEmptyValue_leaf_indep rfl rfl rfl).1 (structAB 0 "x") (structAB 5 "y")
      (fun _ => rfl) (by rfl) (by decide),
   (idempotent_outside_append isEmptyValue resolveValues scenario3
      (.ptr (.map .string .int) (some ⟨0, []⟩)) (.map .string .int (some 1)) ⟨0, []⟩ []
      isEmptyValue_leaf_indep rfl rfl rfl).2.1 .string .int (some 0) (some 1)
      (fun _ => rfl) (by rfl) (by decide)
      (by intro r h; cases h; decide) (by intro r h; cases h; decide)
      (by
        intro k v h
        simp [Store.mapObj, scenario3] at h
        rcases h with ⟨rfl, rfl⟩ | ⟨rfl, rfl⟩ <;> decide)
      (by
        intro k v h
        simp [Store.mapObj, scenario3] at h
        rcases h with ⟨rfl, rfl⟩
        decide),
   (idempotent_outside_append isEmptyValue resolveValues unsharedMapStore
      (.ptr (.struct "M") (some ⟨0, []⟩)) (structM (some 1) (some 2)) ⟨0, []⟩ []
      isEmptyValue_leaf_indep rfl rfl rfl).2.2 (structM (some 0) none) (structM (some 1) (some 2))
      (fun _ => rfl) (by rfl) (by decide)
      (by
        refine ⟨?_, by decide, by decide, by decide, by decide⟩
        simp [mapsTyped, mapsTypedList, structM, Store.mapObj, unsharedMapStore]
        refine ⟨⟨?_, rfl⟩, rfl, rfl⟩
        intro k v h
        rcases h with ⟨rfl, rfl⟩ | ⟨rfl, rfl⟩ <;> exact ⟨rfl, rfl⟩)⟩

end Mergo
